import Mathlib

/-!
# fdupes: grouping engine, match-set builder and deletion driver

A shallow embedding of `fdupes.c`.  Records (`file_t`) live in a heap indexed
by addresses, a NULL pointer is `none`, and every C loop over a linked chain
takes a fuel argument; `none` as a result means that the fuel ran out or that
a NULL pointer was dereferenced.  Functions of other translation units
(stat, fopen, confirmmatch, the hash database, the digest readers,
removeifnotchanged) are fields of an environment: the file system is an
input that the scan only reads, the hash database an abstract state.  Runs
are modelled without an interrupt (`got_sigint` stays 0) and without
allocation failure.
-/

namespace Fdupes

/-! ## Data model -/

/-- Address of a `file_t` record; the NULL pointer is `none : Option Ptr`. -/
abbrev Ptr := Nat

/-- A digest buffer `md5_byte_t[MD5_DIGEST_LENGTH]`, read by index. -/
abbrev md5 := List Nat

/-- Number of bytes of a digest. -/
def MD5_DIGEST_LENGTH : Nat := 16

/-- The record `file_t` (declared in fdupes.h; the fields are those that
fdupes.c reads and writes).  `d_name` holds the bytes of the path without
the terminating NUL. -/
structure file_t where
  d_name : List Nat
  size : Int
  crcpartial : Option md5
  crcsignature : Option md5
  device : Nat
  inode : Nat
  mtime : Int
  ctime : Int
  mtime_nsec : Int
  ctime_nsec : Int
  hasdupes : Int
  duplicates : Option Ptr
  next : Option Ptr

/-- The memory holding the records. -/
abbrev Heap := Ptr → file_t

/-- The assignment `p->hasdupes = v`. -/
def set_hasdupes (h : Heap) (p : Ptr) (v : Int) : Heap :=
  fun q => if q = p then { h q with hasdupes := v } else h q

/-- The assignment `p->duplicates = v`. -/
def set_duplicates (h : Heap) (p : Ptr) (v : Option Ptr) : Heap :=
  fun q => if q = p then { h q with duplicates := v } else h q

/-- The assignment `p->crcpartial = v`. -/
def crcpartial_assign (h : Heap) (p : Ptr) (v : Option md5) : Heap :=
  fun q => if q = p then { h q with crcpartial := v } else h q

/-- The assignment `p->crcsignature = v`. -/
def set_crcsignature (h : Heap) (p : Ptr) (v : Option md5) : Heap :=
  fun q => if q = p then { h q with crcsignature := v } else h q

/-- The option bits tested with `ISFLAG(flags, F_...)` (flags.h), one Boolean
per bit. -/
structure Flags where
  F_CONSIDERHARDLINKS : Bool
  F_PERMISSIONS : Bool
  F_CACHESIGNATURES : Bool
  F_READONLYCACHE : Bool
  F_DELETEFILES : Bool
  F_IMMEDIATE : Bool
  F_NOPROMPT : Bool
  F_DEFERCONFIRMATION : Bool
  F_NOCONFIRMATION : Bool
  F_QUICKSUMMARY : Bool
  F_SUMMARIZEMATCHES : Bool
  F_REVERSE : Bool
  F_HEURISTIC : Bool
  F_RECURSE : Bool
  F_RECURSEAFTER : Bool
  F_CLEARCACHE : Bool
  F_PRUNECACHE : Bool
  F_VACUUMCACHE : Bool
  F_EXCLUDEHIDDEN : Bool
  F_EXCLUDEEMPTY : Bool
  F_FOLLOWLINKS : Bool

/-- The type `ordertype_t`. -/
inductive ordertype_t where
  | ORDER_MTIME
  | ORDER_CTIME
  | ORDER_NAME
  deriving DecidableEq

/-! ## md5cmp -/

/-- The loop of `md5cmp` from index `x` with `n` indices left. -/
def md5cmp_from (a b : md5) : Nat → Nat → Int
  | 0, _ => 0
  | n + 1, x =>
    if a.getD x 0 < b.getD x 0 then -1
    else if a.getD x 0 > b.getD x 0 then 1
    else md5cmp_from a b n (x + 1)

/-- The function `md5cmp`. -/
def md5cmp (a b : md5) : Int := md5cmp_from a b MD5_DIGEST_LENGTH 0

/-! ## Comparators of the match-set builder -/

/-- The libc `strcmp` on the bytes of two NUL-terminated strings: the
difference of the first pair of bytes that differ, where the end of a string
reads as the byte 0 and the comparison stops at a NUL. -/
def strcmp : List Nat → List Nat → Int
  | [], [] => 0
  | [], b :: _ => 0 - (b : Int)
  | a :: _, [] => (a : Int)
  | a :: as, b :: bs =>
    if a = b then (if a = 0 then 0 else strcmp as bs) else (a : Int) - (b : Int)

/-- The function `sort_pairs_by_ctime`. -/
def sort_pairs_by_ctime (flags : Flags) (f1 f2 : file_t) : Int :=
  if f1.ctime < f2.ctime then (if !flags.F_REVERSE then -1 else 1)
  else if f1.ctime > f2.ctime then (if !flags.F_REVERSE then 1 else -1)
  else if f1.ctime_nsec < f2.ctime_nsec then (if !flags.F_REVERSE then -1 else 1)
  else if f1.ctime_nsec > f2.ctime_nsec then (if !flags.F_REVERSE then 1 else -1)
  else 0

/-- The function `sort_pairs_by_mtime`. -/
def sort_pairs_by_mtime (flags : Flags) (f1 f2 : file_t) : Int :=
  if f1.mtime < f2.mtime then (if !flags.F_REVERSE then -1 else 1)
  else if f1.mtime > f2.mtime then (if !flags.F_REVERSE then 1 else -1)
  else if f1.mtime_nsec < f2.mtime_nsec then (if !flags.F_REVERSE then -1 else 1)
  else if f1.mtime_nsec > f2.mtime_nsec then (if !flags.F_REVERSE then 1 else -1)
  else sort_pairs_by_ctime flags f1 f2

/-- The function `sort_pairs_by_filename`. -/
def sort_pairs_by_filename (flags : Flags) (f1 f2 : file_t) : Int :=
  let strvalue := strcmp f1.d_name f2.d_name
  if !flags.F_REVERSE then strvalue else -strvalue

/-- The comparator that `main` passes to `registerpair` and `deletesuccessor`
for the chosen `ordertype`. -/
def comparef_of (flags : Flags) (ordertype : ordertype_t) : file_t → file_t → Int :=
  if ordertype = ordertype_t.ORDER_MTIME then sort_pairs_by_mtime flags
  else if ordertype = ordertype_t.ORDER_CTIME then sort_pairs_by_ctime flags
  else sort_pairs_by_filename flags

/-! ## registerpair -/

/-- The `while (traverse)` loop of `registerpair`.  The arguments are the
heap, the current value of `*matchlist`, `back` and `traverse`; the result is
the heap and the value of `*matchlist` when the loop is left. -/
def registerpair_loop (comparef : file_t → file_t → Int) (newmatch : Ptr) :
    Nat → Heap → Ptr → Option Ptr → Option Ptr → Option (Heap × Ptr)
  | _, h, matchlist, _, none => some (h, matchlist)
  | 0, _, _, _, some _ => none
  | fuel + 1, h, matchlist, back, some traverse =>
    if comparef (h newmatch) (h traverse) ≤ 0 then
      let h1 := set_duplicates h newmatch (some traverse)
      match back with
      | none =>
        let h2 := set_hasdupes h1 newmatch 1
        let h3 := set_hasdupes h2 traverse 0
        some (h3, newmatch)
      | some b => some (set_duplicates h1 b (some newmatch), matchlist)
    else
      if (h traverse).duplicates = none then
        let h1 := set_duplicates h traverse (some newmatch)
        match back with
        | none => some (set_hasdupes h1 traverse 1, matchlist)
        | some _ => some (h1, matchlist)
      else
        registerpair_loop comparef newmatch fuel h matchlist (some traverse)
          (h traverse).duplicates

/-- The function `registerpair`: `matchlist` is the value of `*matchlist` on
entry, the second component of the result its value on return. -/
def registerpair (comparef : file_t → file_t → Int) (fuel : Nat) (h : Heap)
    (matchlist newmatch : Ptr) : Option (Heap × Ptr) :=
  let h0 := set_hasdupes h matchlist 1
  registerpair_loop comparef newmatch fuel h0 matchlist none (some matchlist)

/-- The members of a group chain: `Chain h o L` says that following the
`duplicates` links from the pointer `o` visits exactly the records `L`, in
this order, and then reaches NULL. -/
def Chain (h : Heap) : Option Ptr → List Ptr → Prop
  | o, [] => o = none
  | o, p :: L => o = some p ∧ Chain h (h p).duplicates L

/-- The position the specification describes for a new member `m` in a chain:
immediately before the first member `p` with `comparef(m, p) <= 0`, and
after the last member when there is none. -/
def insert_before_first_ge (comparef : file_t → file_t → Int) (h : Heap) (m : Ptr) :
    List Ptr → List Ptr
  | [] => [m]
  | p :: L =>
    if comparef (h m) (h p) ≤ 0 then m :: p :: L
    else p :: insert_before_first_ge comparef h m L

/-- The record with its two group fields (`hasdupes`, `duplicates`) cleared:
what a record is apart from its place in a group. -/
def file_t.unlinked (f : file_t) : file_t :=
  { f with hasdupes := 0, duplicates := none }

/-- The order `sort_pairs_by_ctime` decides without the reverse flag:
`(ctime, ctime_nsec)` compared lexicographically. -/
def ctime_le (a b : file_t) : Prop :=
  a.ctime < b.ctime ∨ (a.ctime = b.ctime ∧ a.ctime_nsec ≤ b.ctime_nsec)

/-- The order `sort_pairs_by_mtime` decides without the reverse flag:
`(mtime, mtime_nsec, ctime, ctime_nsec)` compared lexicographically. -/
def mtime_le (a b : file_t) : Prop :=
  a.mtime < b.mtime ∨ (a.mtime = b.mtime ∧
    (a.mtime_nsec < b.mtime_nsec ∨ (a.mtime_nsec = b.mtime_nsec ∧ ctime_le a b)))

/-- A chain is non-decreasing under a comparator: every member compares
`<= 0` against every later member. -/
def chain_sorted (comparef : file_t → file_t → Int) (h : Heap) (L : List Ptr) : Prop :=
  List.Pairwise (fun a b => comparef (h a) (h b) ≤ 0) L

/-- All option bits cleared. -/
def flags_none : Flags :=
  { F_CONSIDERHARDLINKS := false, F_PERMISSIONS := false, F_CACHESIGNATURES := false,
    F_READONLYCACHE := false, F_DELETEFILES := false, F_IMMEDIATE := false,
    F_NOPROMPT := false, F_DEFERCONFIRMATION := false, F_NOCONFIRMATION := false,
    F_QUICKSUMMARY := false, F_SUMMARIZEMATCHES := false, F_REVERSE := false,
    F_HEURISTIC := false, F_RECURSE := false, F_RECURSEAFTER := false,
    F_CLEARCACHE := false, F_PRUNECACHE := false, F_VACUUMCACHE := false,
    F_EXCLUDEHIDDEN := false, F_EXCLUDEEMPTY := false, F_FOLLOWLINKS := false }

/-- A record as `grokdir` creates it (no digests, no group links), with the
given path, size, identity and modification time. -/
def fresh_file (name : List Nat) (size : Int) (device inode : Nat) (mtime : Int) : file_t :=
  { d_name := name, size := size, crcpartial := none, crcsignature := none,
    device := device, inode := inode, mtime := mtime, ctime := mtime,
    mtime_nsec := 0, ctime_nsec := 0, hasdupes := 0, duplicates := none, next := none }

/-- Example heap: a group chain `0 -> 1` (paths "a" and "c", modification
times 10 and 30) headed by record 0, and a new record 2 (path "b",
modification time 20). -/
def heap_abc : Heap := fun p =>
  match p with
  | 0 => { fresh_file [97] 5 1 100 10 with hasdupes := 1, duplicates := some 1 }
  | 1 => fresh_file [99] 5 1 101 30
  | _ => fresh_file [98] 5 1 102 20

/-! ## Environment -/

/-- The fields of `struct stat` that fdupes.c reads.  The two `nsec` fields
are `st_mtim.tv_nsec` and `st_ctim.tv_nsec`; a build without
`HAVE_NSEC_TIMES` reads them as 0. -/
structure stat_t where
  st_mode : Nat
  st_uid : Nat
  st_gid : Nat
  st_dev : Nat
  st_ino : Nat
  st_size : Int
  st_mtime : Int
  st_ctime : Int
  st_mtim_nsec : Int
  st_ctim_nsec : Int
  deriving DecidableEq

/-- The functions of other translation units and of libc that the modelled
code calls.  The file system is read through `stat`, `fopen`, `confirmmatch`
and the two digest readers; `DB` is the state of the hash database. -/
structure Env (DB : Type) where
  /-- The call `stat(name, &s)`: `none` when it fails. -/
  stat : List Nat → Option stat_t
  /-- Whether `fopen(name, "rb")` returns a stream. -/
  fopen : List Nat → Bool
  /-- The function `confirmmatch` on the streams opened for two paths. -/
  confirmmatch : List Nat → List Nat → Bool
  /-- The digest reader `getcrcpartialsignature(name, size)`; `none` is NULL. -/
  getcrcpartialsignature : List Nat → Int → Option md5
  /-- The digest reader `getcrcsignature(name, size)`; `none` is NULL. -/
  getcrcsignature : List Nat → Int → Option md5
  /-- The call `hashdb_loadhash(db, file, &file->crcpartial,
  &file->crcsignature)`: the values of the two fields after the call. -/
  hashdb_loadhash : DB → file_t → Option md5 × Option md5
  /-- The call `hashdb_savehash`. -/
  hashdb_savehash : DB → file_t → DB
  /-- The call `hashdb_deletehashforpath`. -/
  hashdb_deletehashforpath : DB → List Nat → DB
  /-- The call `getrealpath(name, GETREALPATH_IGNORE_MISSING_BASENAME)`. -/
  getrealpath : List Nat → Option (List Nat)
  /-- The call `removeifnotchanged(file, &errorstring)`; 0 is success. -/
  removeifnotchanged : file_t → Int
  /-- The libc function `basename`. -/
  basename : List Nat → List Nat
  /-- The libc function `dirname`. -/
  dirname : List Nat → List Nat
  /-- The call `sscanf(token, "%d", &number)`: the value it stores, `none`
  when it stores nothing. -/
  sscanf_d : List Nat → Option Int
  /-- The call `lstat(name, &s)`: `none` when it fails. -/
  lstat : List Nat → Option stat_t
  /-- The names that `readdir` delivers for `opendir(dir)`, in order; `none`
  when `opendir` fails. -/
  readdir : List Nat → Option (List (List Nat))
  /-- The call `getrealpath(dir, 0)`. -/
  getrealpath_dir : List Nat → Option (List Nat)
  /-- The call `hashdb_getdirectoryid(db, path, &pathid)`: the id it stores,
  `none` when it returns 0. -/
  hashdb_getdirectoryid : DB → List Nat → Option Int
  /-- The call `hashdb_foreachdirectory(db, &pathid,
  delist_directory_if_missing)`. -/
  hashdb_foreachdirectory : DB → Int → DB
  /-- The call `hashdb_foreachhash(db, &pathid, delist_hash_if_orphaned)`. -/
  hashdb_foreachhash : DB → Int → DB
  /-- The call `hashdb_savedirectory(db, fullpath)`. -/
  hashdb_savedirectory : DB → Option (List Nat) → DB

/-- What the modelled code does to the outside, in order. -/
inductive Event where
  | hashdb_loadhash (p : Ptr)
  | hashdb_savehash (p : Ptr)
  | getcrcpartialsignature (p : Ptr)
  | getcrcsignature (p : Ptr)
  | registerfile (p : Ptr)
  /-- Start of a set (`log_begin_set` when a log is kept). -/
  | begin_set
  /-- The line `[+] name` (and `log_file_remaining`). -/
  | kept (p : Ptr)
  /-- The call `removeifnotchanged(p, &errorstring)` and its result. -/
  | removeifnotchanged (p : Ptr) (result : Int)
  /-- The line `[-] name` (and `log_file_deleted`). -/
  | deleted (p : Ptr)
  | hashdb_deletehashforpath (p : Ptr)
  /-- The line `[!] name` (and `log_file_remaining`). -/
  | undeleted (p : Ptr)
  /-- End of a set (`log_end_set` when a log is kept). -/
  | end_set
  /-- The two `hashdb_foreach...` calls of `grokdir` that delist what is
  missing below the directory with this id. -/
  | hashdb_delist (pathid : Int)
  | hashdb_savedirectory (fullpath : Option (List Nat))
  /-- The call `hashdb_cleardirectories(db)` at the start of `main`. -/
  | hashdb_cleardirectories
  /-- The two whole-cache calls `hashdb_foreachdirectory(db, 0, ...)` and
  `hashdb_foreachhash(db, 0, ...)` at the start of `main`. -/
  | hashdb_prune
  /-- The call `hashdb_vacuum(db)` of `close_db_on_exit`. -/
  | hashdb_vacuum
  deriving DecidableEq, Repr

/-- The mutable state: the records, the hash database and the events so
far (latest last). -/
structure State (DB : Type) where
  heap : Heap
  db : DB
  trace : List Event

/-! ## Identity oracle -/

/-- The function `same_permissions`. -/
def same_permissions {DB : Type} (E : Env DB) (name1 name2 : List Nat) : Int :=
  match E.stat name1 with
  | none => -1
  | some s1 =>
    match E.stat name2 with
    | none => -1
    | some s2 =>
      if s1.st_mode = s2.st_mode ∧ s1.st_uid = s2.st_uid ∧ s1.st_gid = s2.st_gid then 1 else 0

/-- The `do ... while (dupe != NULL)` loop of `is_hardlink`, entered with
`dupe`. -/
def is_hardlink_loop (h : Heap) (file : Ptr) : Nat → Option Ptr → Option Int
  | 0, _ => none
  | _ + 1, none => none
  | fuel + 1, some dupe =>
    if (h file).inode = (h dupe).inode ∧ (h file).device = (h dupe).device then some 1
    else
      match (h dupe).duplicates with
      | none => some 0
      | some d => is_hardlink_loop h file fuel (some d)

/-- The function `is_hardlink`; `checktree` is the record of the visited
node. -/
def is_hardlink (fuel : Nat) (h : Heap) (checktree file : Ptr) : Option Int :=
  if (h file).inode = (h checktree).inode ∧ (h file).device = (h checktree).device then some 1
  else if (h checktree).hasdupes ≠ 0 then is_hardlink_loop h file fuel (h checktree).duplicates
  else some 0

/-- The function `is_same_file` (the two `strdup` calls succeed). -/
def is_same_file {DB : Type} (E : Env DB) (file_a file_b : file_t) : Int :=
  if file_a.device ≠ file_b.device ∨ file_a.inode ≠ file_b.inode then 0
  else if strcmp (E.basename file_a.d_name) (E.basename file_b.d_name) ≠ 0 then 0
  else
    match E.stat (E.dirname file_a.d_name) with
    | none => -1
    | some dirstat_a =>
      match E.stat (E.dirname file_b.d_name) with
      | none => -1
      | some dirstat_b =>
        if dirstat_a.st_dev ≠ dirstat_b.st_dev ∨ dirstat_a.st_ino ≠ dirstat_b.st_ino then 0
        else 1

/-- The `do ... while (dupe != NULL)` loop of `has_same_file`. -/
def has_same_file_loop {DB : Type} (E : Env DB) (h : Heap) (file : Ptr) :
    Nat → Option Ptr → Option Int
  | 0, _ => none
  | _ + 1, none => none
  | fuel + 1, some dupe =>
    if is_same_file E (h dupe) (h file) ≠ 0 then some 1
    else
      match (h dupe).duplicates with
      | none => some 0
      | some d => has_same_file_loop E h file fuel (some d)

/-- The function `has_same_file`. -/
def has_same_file {DB : Type} (E : Env DB) (fuel : Nat) (h : Heap) (checktree file : Ptr) :
    Option Int :=
  if is_same_file E (h checktree) (h file) ≠ 0 then some 1
  else if (h checktree).hasdupes ≠ 0 then
    has_same_file_loop E h file fuel (h checktree).duplicates
  else some 0

/-! ## The search tree and checkmatch -/

/-- The tree `filetree_t`; a NULL subtree is `null`. -/
inductive filetree_t where
  | null
  | node (file : Ptr) (left right : filetree_t)

/-- The records of the nodes of a tree. -/
def filetree_t.files : filetree_t → List Ptr
  | null => []
  | node file left right => file :: (left.files ++ right.files)

/-- The value `*m` for a pointer `m` to the `file` field of a node; the node
is given by the way to it from the root (`false` left, `true` right). -/
def filetree_t.file_at : filetree_t → List Bool → Option Ptr
  | null, _ => none
  | node file _ _, [] => some file
  | node _ left _, false :: path => left.file_at path
  | node _ _ right, true :: path => right.file_at path

/-- The assignment `*m = v` for such a pointer. -/
def filetree_t.set_file_at : filetree_t → List Bool → Ptr → filetree_t
  | null, _, _ => null
  | node _ left right, [], v => node v left right
  | node file left right, false :: path, v => node file (left.set_file_at path v) right
  | node file left right, true :: path, v => node file left (right.set_file_at path v)

/-- The block of `checkmatch` that fills `p->crcpartial` when it is NULL (it
occurs twice, for `checktree->file` and for `file`).  The Boolean is false
when the block leaves `checkmatch` with `return NULL`. -/
def checkmatch_partial_fill {DB : Type} (E : Env DB) (flags : Flags) (p : Ptr)
    (s : State DB) : State DB × Bool :=
  if file_t.crcpartial (s.heap p) = none then
    let s1 : State DB :=
      if flags.F_CACHESIGNATURES then
        let r := E.hashdb_loadhash s.db (s.heap p)
        { s with heap := set_crcsignature (crcpartial_assign s.heap p r.1) p r.2,
                 trace := s.trace ++ [Event.hashdb_loadhash p] }
      else s
    if file_t.crcpartial (s1.heap p) = none then
      let d := E.getcrcpartialsignature (s1.heap p).d_name (s1.heap p).size
      let s2 : State DB :=
        { s1 with heap := crcpartial_assign s1.heap p d,
                  trace := s1.trace ++ [Event.getcrcpartialsignature p] }
      if d = none then (s2, false)
      else if flags.F_CACHESIGNATURES && !flags.F_READONLYCACHE then
        ({ s2 with db := E.hashdb_savehash s2.db (s2.heap p),
                   trace := s2.trace ++ [Event.hashdb_savehash p] }, true)
      else (s2, true)
    else (s1, true)
  else (s, true)

/-- The block of `checkmatch` that fills `p->crcsignature` when it is NULL. -/
def checkmatch_signature_fill {DB : Type} (E : Env DB) (flags : Flags) (p : Ptr)
    (s : State DB) : State DB × Bool :=
  if (s.heap p).crcsignature = none then
    let d := E.getcrcsignature (s.heap p).d_name (s.heap p).size
    let s1 : State DB :=
      { s with heap := set_crcsignature s.heap p d,
               trace := s.trace ++ [Event.getcrcsignature p] }
    if d = none then (s1, false)
    else if flags.F_CACHESIGNATURES && !flags.F_READONLYCACHE then
      ({ s1 with db := E.hashdb_savehash s1.db (s1.heap p),
                 trace := s1.trace ++ [Event.hashdb_savehash p] }, true)
    else (s1, true)
  else (s, true)

/-- How the comparison stage of `checkmatch` ends at one node. -/
inductive Compared (DB : Type) where
  /-- A NULL digest pointer would be passed to `md5cmp`. -/
  | fault
  /-- The stage left `checkmatch` with `return NULL`. -/
  | null (s : State DB)
  /-- The stage set `cmpresult`. -/
  | result (s : State DB) (cmpresult : Int)

/-- The comparison of the two full digests, the last stage of
`checkmatch`. -/
def checkmatch_full {DB : Type} (E : Env DB) (flags : Flags) (s : State DB)
    (checktree file : Ptr) : Compared DB :=
  let r1 := checkmatch_signature_fill E flags checktree s
  if !r1.2 then Compared.null r1.1
  else
    let r2 := checkmatch_signature_fill E flags file r1.1
    if !r2.2 then Compared.null r2.1
    else
      match (r2.1.heap file).crcsignature, (r2.1.heap checktree).crcsignature with
      | some a, some b => Compared.result r2.1 (md5cmp a b)
      | _, _ => Compared.fault

/-- The comparison stage of `checkmatch` (from the size test to the last
assignment of `cmpresult`); `checktree` is the record of the visited node. -/
def checkmatch_compare {DB : Type} (E : Env DB) (flags : Flags) (s : State DB)
    (checktree file : Ptr) : Compared DB :=
  if (s.heap file).size < (s.heap checktree).size then Compared.result s (-1)
  else if (s.heap file).size > (s.heap checktree).size then Compared.result s 1
  else if flags.F_PERMISSIONS &&
      same_permissions E (s.heap file).d_name (s.heap checktree).d_name == 0 then
    Compared.result s (-1)
  else
    let r1 := checkmatch_partial_fill E flags checktree s
    if !r1.2 then Compared.null r1.1
    else
      let r2 := checkmatch_partial_fill E flags file r1.1
      if !r2.2 then Compared.null r2.1
      else
        match file_t.crcpartial (r2.1.heap file), file_t.crcpartial (r2.1.heap checktree) with
        | some a, some b =>
          if md5cmp a b = 0 then checkmatch_full E flags r2.1 checktree file
          else Compared.result r2.1 (md5cmp a b)
        | _, _ => Compared.fault

/-- The identity pre-check at the head of `checkmatch`. -/
def checkmatch_precheck {DB : Type} (E : Env DB) (flags : Flags) (fuel : Nat) (h : Heap)
    (checktree file : Ptr) : Option Int :=
  if flags.F_CONSIDERHARDLINKS then has_same_file E fuel h checktree file
  else is_hardlink fuel h checktree file

/-- The effect of `registerfile(&branch, file)` on the state; the new node
is `node file null null`. -/
def registerfile {DB : Type} (s : State DB) (file : Ptr) : State DB :=
  { s with trace := s.trace ++ [Event.registerfile file] }

/-- The function `checkmatch(root, checktree, file)`.  The result is the
state, the tree after the call, and the returned `file_t **` (`none` for
NULL), given as the way from `checktree` to the matching node. -/
def checkmatch {DB : Type} (E : Env DB) (flags : Flags) (fuel : Nat) :
    filetree_t → Ptr → State DB → Option (State DB × filetree_t × Option (List Bool))
  | filetree_t.null, _, _ => none
  | filetree_t.node ct left right, file, s =>
    match checkmatch_precheck E flags fuel s.heap ct file with
    | none => none
    | some v =>
      if v ≠ 0 then some (s, filetree_t.node ct left right, none)
      else
        match checkmatch_compare E flags s ct file with
        | Compared.fault => none
        | Compared.null s1 => some (s1, filetree_t.node ct left right, none)
        | Compared.result s1 cmpresult =>
          if cmpresult < 0 then
            match left with
            | filetree_t.null =>
              some (registerfile s1 file,
                filetree_t.node ct (filetree_t.node file filetree_t.null filetree_t.null) right,
                none)
            | filetree_t.node a b c =>
              match checkmatch E flags fuel (filetree_t.node a b c) file s1 with
              | none => none
              | some (s2, left2, m) =>
                some (s2, filetree_t.node ct left2 right, m.map (fun path => false :: path))
          else if cmpresult > 0 then
            match right with
            | filetree_t.null =>
              some (registerfile s1 file,
                filetree_t.node ct left (filetree_t.node file filetree_t.null filetree_t.null),
                none)
            | filetree_t.node a b c =>
              match checkmatch E flags fuel (filetree_t.node a b c) file s1 with
              | none => none
              | some (s2, right2, m) =>
                some (s2, filetree_t.node ct left right2, m.map (fun path => true :: path))
          else some (s1, filetree_t.node ct left right, some [])

/-! ## deletesuccessor and the scan loop of main -/

/-- The removal of one record, as `deletefiles` and `deletesuccessor` both
do it once the match counts as confirmed: `removeifnotchanged`, then on
success the line `[-]` and the removal of the cached hash (when a database is
open, `getrealpath` succeeds and the cache is not read-only), on failure the
line `[!]`. -/
def remove_file {DB : Type} (E : Env DB) (flags : Flags) (s : State DB) (p : Ptr) :
    State DB :=
  let r := E.removeifnotchanged (s.heap p)
  let s1 : State DB := { s with trace := s.trace ++ [Event.removeifnotchanged p r] }
  if r = 0 then
    let s2 : State DB := { s1 with trace := s1.trace ++ [Event.deleted p] }
    if flags.F_CACHESIGNATURES then
      match E.getrealpath (s2.heap p).d_name with
      | none => s2
      | some deletepath =>
        if !flags.F_READONLYCACHE then
          { s2 with db := E.hashdb_deletehashforpath s2.db deletepath,
                    trace := s2.trace ++ [Event.hashdb_deletehashforpath p] }
        else s2
    else s2
  else { s1 with trace := s1.trace ++ [Event.undeleted p] }

/-- The function `deletesuccessor`: `existing` is the value of `*existing`
on entry, the second component of the result its value on return. -/
def deletesuccessor {DB : Type} (E : Env DB) (flags : Flags)
    (comparef : file_t → file_t → Int) (s : State DB) (existing duplicate : Ptr)
    (matchconfirmed : Bool) : State DB × Ptr :=
  let keep_existing : Bool := decide (comparef (s.heap duplicate) (s.heap existing) ≥ 0)
  let to_keep := if keep_existing then existing else duplicate
  let to_delete := if keep_existing then duplicate else existing
  let s1 : State DB := { s with trace := s.trace ++ [Event.begin_set, Event.kept to_keep] }
  let s2 : State DB :=
    if matchconfirmed then remove_file E flags s1 to_delete
    else { s1 with trace := s1.trace ++ [Event.undeleted to_delete] }
  ({ s2 with trace := s2.trace ++ [Event.end_set] }, to_keep)

/-- The variables of `main` that the scan loop changes. -/
structure Scan (DB : Type) where
  st : State DB
  checktree : filetree_t
  /-- The variable `match` (the way to the node it points into). -/
  matched : Option (List Bool)

/-- The first statement of the body of the scan loop:
`if (!checktree) registerfile(&checktree, curfile); else match =
checkmatch(&checktree, checktree, curfile);`. -/
def main_scan_lookup {DB : Type} (E : Env DB) (flags : Flags) (cfuel : Nat) (ms : Scan DB)
    (curfile : Ptr) : Option (Scan DB) :=
  match ms.checktree with
  | filetree_t.null =>
    some { ms with st := registerfile ms.st curfile,
                   checktree := filetree_t.node curfile filetree_t.null filetree_t.null }
  | filetree_t.node a b c =>
    match checkmatch E flags cfuel (filetree_t.node a b c) curfile ms.st with
    | none => none
    | some (s1, t1, m) => some { st := s1, checktree := t1, matched := m }

/-- The block `if (match != NULL) { ... }` of the body of the scan loop. -/
def main_scan_pair {DB : Type} (E : Env DB) (flags : Flags) (ordertype : ordertype_t)
    (cfuel : Nat) (ms1 : Scan DB) (curfile : Ptr) : Option (Scan DB) :=
  match ms1.matched with
  | none => some ms1
  | some path =>
    match ms1.checktree.file_at path with
    | none => none
    | some peer =>
      if !E.fopen (ms1.st.heap curfile).d_name then some ms1
      else if !E.fopen (ms1.st.heap peer).d_name then some ms1
      else if flags.F_DELETEFILES && flags.F_IMMEDIATE then
        let r := deletesuccessor E flags (comparef_of flags ordertype) ms1.st peer curfile
          (E.confirmmatch (ms1.st.heap curfile).d_name (ms1.st.heap peer).d_name)
        some { ms1 with st := r.1, checktree := ms1.checktree.set_file_at path r.2 }
      else if flags.F_DEFERCONFIRMATION || flags.F_QUICKSUMMARY ||
          E.confirmmatch (ms1.st.heap curfile).d_name (ms1.st.heap peer).d_name then
        match registerpair (comparef_of flags ordertype) cfuel ms1.st.heap peer curfile with
        | none => none
        | some (h2, ml) =>
          some { ms1 with st := { ms1.st with heap := h2 },
                          checktree := ms1.checktree.set_file_at path ml }
      else some ms1

/-- One pass through the body of the scan loop of `main` for `curfile`. -/
def main_scan_step {DB : Type} (E : Env DB) (flags : Flags) (ordertype : ordertype_t)
    (cfuel : Nat) (ms : Scan DB) (curfile : Ptr) : Option (Scan DB) :=
  match main_scan_lookup E flags cfuel ms curfile with
  | none => none
  | some ms1 => main_scan_pair E flags ordertype cfuel ms1 curfile

/-- The scan loop of `main`, `while (curfile) { ...; curfile = curfile->next; }`,
entered with `curfile`.  `fuel` bounds the passes, `cfuel` the loops over a
group chain inside one pass. -/
def main_scan {DB : Type} (E : Env DB) (flags : Flags) (ordertype : ordertype_t)
    (cfuel : Nat) : Nat → Scan DB → Option Ptr → Option (Scan DB)
  | _, ms, none => some ms
  | 0, _, some _ => none
  | fuel + 1, ms, some curfile =>
    match main_scan_step E flags ordertype cfuel ms curfile with
    | none => none
    | some ms1 => main_scan E flags ordertype cfuel fuel ms1 (ms1.st.heap curfile).next

/-- The state in which `main` enters the scan loop: no tree, `match` NULL. -/
def scan_init {DB : Type} (h : Heap) (db : DB) : Scan DB :=
  { st := { heap := h, db := db, trace := [] }, checktree := filetree_t.null, matched := none }

/-- The file list: `Listed h o L` says that following the `next` links from
`o` visits exactly the records `L` and then reaches NULL. -/
def Listed (h : Heap) : Option Ptr → List Ptr → Prop
  | o, [] => o = none
  | o, p :: L => o = some p ∧ Listed h (h p).next L

/-! ## Notions used to state the group invariants -/

/-- The record with its digest fields cleared. -/
def file_t.undigested (f : file_t) : file_t :=
  { f with crcpartial := none, crcsignature := none }

/-- The fields of a record that the scan never writes (everything but the
digests and the group links). -/
def file_t.core (f : file_t) : file_t :=
  { f with crcpartial := none, crcsignature := none, hasdupes := 0, duplicates := none }

/-- Two digests are equal byte for byte. -/
def md5_eq (a b : md5) : Prop :=
  ∀ x, x < MD5_DIGEST_LENGTH → a.getD x 0 = b.getD x 0

/-- Two digest fields are both populated and hold equal digests. -/
def digests_equal (o1 o2 : Option md5) : Prop :=
  ∃ a b, o1 = some a ∧ o2 = some b ∧ md5_eq a b

/-- Equal size, and partial and full digests populated and equal. -/
def Matched (f g : file_t) : Prop :=
  f.size = g.size ∧ digests_equal (file_t.crcpartial f) (file_t.crcpartial g) ∧
    digests_equal f.crcsignature g.crcsignature

/-- What the identity pre-check of `checkmatch` tests between the incoming
record `f` and a record `g` of the visited node: `is_same_file` non-zero under
the hard-links flag, equal `(device, inode)` otherwise. -/
def Ident {DB : Type} (E : Env DB) (flags : Flags) (f g : file_t) : Prop :=
  if flags.F_CONSIDERHARDLINKS then is_same_file E g f ≠ 0
  else f.inode = g.inode ∧ f.device = g.device

/-- The digests only grow: nothing but digest fields changes between the two
heaps, and a record with a partial digest is unchanged. -/
def DigestStep (h h' : Heap) : Prop :=
  (∀ x, (h' x).undigested = (h x).undigested) ∧
  (∀ x, file_t.crcpartial (h x) ≠ none → (h x).crcsignature ≠ none → h' x = h x)

/-- The pre-check loops can run at every node of a tree: a resident record
with `hasdupes` set heads a chain of at least two records, short enough for
the fuel. -/
def PrecheckOK (h : Heap) (fuel : Nat) (T : List Ptr) : Prop :=
  ∀ q ∈ T, (h q).hasdupes ≠ 0 →
    ∃ d S, Chain h (some q) (q :: d :: S) ∧ S.length < fuel

/-- What a full-digest stage may change: only digest fields, no partial
digest, and no record that has a full digest. -/
def SigFrame (h h' : Heap) : Prop :=
  (∀ x, (h' x).undigested = (h x).undigested) ∧
  (∀ x, (h x).crcsignature ≠ none → h' x = h x) ∧
  (∀ x, file_t.crcpartial (h' x) = file_t.crcpartial (h x))

/-- What a partial-digest stage may change: only digest fields, and no
record that has a partial digest. -/
def PartFrame (h h' : Heap) : Prop :=
  (∀ x, (h' x).undigested = (h x).undigested) ∧
  (∀ x, file_t.crcpartial (h x) ≠ none → h' x = h x)

/-- What `checkmatch` has established between the incoming record `file` and
the resident `peer` of the node it returns: equal size and digests, the
permission test passed when it is on, and the identity pre-check passed
against every member of the resident's chain. -/
def MatchFacts {DB : Type} (E : Env DB) (flags : Flags) (h : Heap) (file peer : Ptr) : Prop :=
  Matched (h file) (h peer) ∧
  (flags.F_PERMISSIONS = true →
    same_permissions E (h file).d_name (h peer).d_name ≠ 0) ∧
  (∀ L, Chain h (some peer) L → ((h peer).hasdupes = 0 → L = [peer]) →
    ∀ x ∈ L, ¬ Ident E flags (h file) (h x))

/-- What holds between any two members of a group: equal size and digests,
the relation `Q` between their paths, and no common identity in the sense of
the pre-check. -/
def GroupRel {DB : Type} (E : Env DB) (flags : Flags) (Q : List Nat → List Nat → Prop)
    (f g : file_t) : Prop :=
  Matched f g ∧ Q f.d_name g.d_name ∧ ¬ Ident E flags f g

/-- The group headed by `q` is the chain `L`: the invariant of one group. -/
structure GroupInv {DB : Type} (E : Env DB) (flags : Flags) (o : ordertype_t)
    (Q : List Nat → List Nat → Prop) (h : Heap) (P : List Ptr) (q : Ptr) (L : List Ptr) :
    Prop where
  chain : Chain h (some q) L
  sub : ∀ x ∈ L, x ∈ P
  tail0 : ∀ x ∈ L, x ≠ q → (h x).hasdupes = 0
  lone : (h q).hasdupes = 0 → L = [q]
  many : (h q).hasdupes ≠ 0 → ∃ d S, L = q :: d :: S
  rel : ∀ x ∈ L, ∀ y ∈ L, x ≠ y → GroupRel E flags Q (h x) (h y)
  sorted : chain_sorted (comparef_of flags o) h L

/-- The invariant of the scan loop: `h0` is the heap on entry, `h` the current
heap, `T` the records of the tree nodes, `P` the records processed so far and
`A` all records of the file list. -/
structure ScanInv {DB : Type} (E : Env DB) (flags : Flags) (o : ordertype_t)
    (Q : List Nat → List Nat → Prop) (A : List Ptr) (h0 h : Heap) (T P : List Ptr) :
    Prop where
  core : ∀ x, (h x).core = (h0 x).core
  nodup : T.Nodup
  groups : ∀ q ∈ T, ∃ L, GroupInv E flags o Q h P q L
  disj : ∀ q1 ∈ T, ∀ q2 ∈ T, q1 ≠ q2 → ∀ L1 L2, Chain h (some q1) L1 →
    Chain h (some q2) L2 → ∀ x ∈ L1, x ∉ L2
  outside : ∀ x ∈ A, (∀ q ∈ T, ∀ L, Chain h (some q) L → x ∉ L) →
    (h x).hasdupes = 0 ∧ (h x).duplicates = none
  imm : (flags.F_DELETEFILES && flags.F_IMMEDIATE) = true →
    ∀ q ∈ T, (h q).hasdupes = 0 ∧ (h q).duplicates = none

/-! ## An example run -/

/-- Example file contents by path: "c" holds WORLD, every other path
HELLO. -/
def content_abc (name : List Nat) : List Nat :=
  if name = [99] then [87, 79, 82, 76, 68] else [72, 69, 76, 76, 79]

/-- Example environment: every file can be statted (same owner and mode)
and opened, a digest is the content itself, `confirmmatch` compares the
contents, and there is no hash database. -/
def env_abc : Env Unit :=
  { stat := fun name => some { st_mode := 33188, st_uid := 1000, st_gid := 1000,
                               st_dev := 1, st_ino := name.length, st_size := 5,
                               st_mtime := 0, st_ctime := 0, st_mtim_nsec := 0,
                               st_ctim_nsec := 0 },
    fopen := fun _ => true,
    confirmmatch := fun a b => decide (content_abc a = content_abc b),
    getcrcpartialsignature := fun name _ => some (content_abc name),
    getcrcsignature := fun name _ => some (content_abc name),
    hashdb_loadhash := fun _ f => (file_t.crcpartial f, f.crcsignature),
    hashdb_savehash := fun db _ => db,
    hashdb_deletehashforpath := fun db _ => db,
    getrealpath := fun name => some name,
    removeifnotchanged := fun _ => 0,
    basename := fun name => name,
    dirname := fun _ => [46],
    sscanf_d := fun token =>
      if token = [49] then some 1 else if token = [50] then some 2 else none,
    lstat := fun name => some { st_mode := 33188, st_uid := 1000, st_gid := 1000,
                                st_dev := 1, st_ino := name.length, st_size := 5,
                                st_mtime := 0, st_ctime := 0, st_mtim_nsec := 0,
                                st_ctim_nsec := 0 },
    readdir := fun _ => none,
    getrealpath_dir := fun name => some name,
    hashdb_getdirectoryid := fun _ _ => none,
    hashdb_foreachdirectory := fun db _ => db,
    hashdb_foreachhash := fun db _ => db,
    hashdb_savedirectory := fun db _ => db }

/-- Example file list `1 -> 2 -> 3`: the files "a", "b" and "c" of five
bytes each, with modification times 10, 20 and 30. -/
def heap_scan : Heap := fun p =>
  match p with
  | 1 => { fresh_file [97] 5 1 101 10 with next := some 2 }
  | 2 => { fresh_file [98] 5 1 102 20 with next := some 3 }
  | _ => fresh_file [99] 5 1 103 30

/-- An array of `max` slots obtained from `malloc`; `val` is its content
(arbitrary until written).  An access outside `0 .. max - 1` is a fault. -/
structure Slots (α : Type) where
  max : Nat
  val : Nat → α

/-- The assignment `a[i] = v`. -/
def Slots.write {α : Type} (a : Slots α) (i : Nat) (v : α) : Option (Slots α) :=
  if i < a.max then some { a with val := fun j => if j = i then v else a.val j } else none

/-- The value `a[i]`. -/
def Slots.read {α : Type} (a : Slots α) (i : Nat) : Option α :=
  if i < a.max then some (a.val i) else none

/-- The loop `while (tmpfile) { dupelist[++counter] = tmpfile; tmpfile =
tmpfile->duplicates; }` of the second pass of `deletefiles`. -/
def deletefiles_collect_loop (h : Heap) :
    Nat → Nat → Slots Ptr → Option Ptr → Option (Nat × Slots Ptr)
  | _, counter, dupelist, none => some (counter, dupelist)
  | 0, _, _, some _ => none
  | fuel + 1, counter, dupelist, some tmpfile =>
    match dupelist.write (counter + 1) tmpfile with
    | none => none
    | some dupelist1 =>
      deletefiles_collect_loop h fuel (counter + 1) dupelist1 (h tmpfile).duplicates

/-- The start of the body for a group of `deletefiles`: `counter = 1;
dupelist[counter] = files;` and the loop over the duplicates.  The result is
`counter` and the array. -/
def deletefiles_collect (h : Heap) (fuel : Nat) (dupelist : Slots Ptr) (files : Ptr) :
    Option (Nat × Slots Ptr) :=
  match dupelist.write 1 files with
  | none => none
  | some dupelist1 => deletefiles_collect_loop h fuel 1 dupelist1 (h files).duplicates

/-- The loop `for (x = lo; x <= hi; x++) preserve[x] = v`, with `n` passes
left and `x` the current index. -/
def preserve_fill (v : Int) : Nat → Nat → Slots Int → Option (Slots Int)
  | 0, _, preserve => some preserve
  | n + 1, x, preserve =>
    match preserve.write x v with
    | none => none
    | some preserve1 => preserve_fill v n (x + 1) preserve1

/-- The loop `for (sum = 0, x = 1; x <= counter; x++) sum += preserve[x]`
from index `x` with `n` passes left, started with `sum`. -/
def preserve_sum (preserve : Slots Int) : Nat → Nat → Int → Option Int
  | 0, _, sum => some sum
  | n + 1, x, sum =>
    match preserve.read x with
    | none => none
    | some v => preserve_sum preserve n (x + 1) (sum + v)

/-- The delimiters `" ,\n"` of the `strtok` calls. -/
def is_delimiter (c : Nat) : Bool := c = 32 || c = 44 || c = 10

/-- The tokens that the calls `strtok(preservestr, " ,\n")`, `strtok(NULL,
" ,\n")`, ... return in turn; `cur` is the token being read. -/
def strtok_tokens : List Nat → List Nat → List (List Nat)
  | [], cur => if cur = [] then [] else [cur]
  | c :: cs, cur =>
    if is_delimiter c then
      (if cur = [] then strtok_tokens cs [] else cur :: strtok_tokens cs [])
    else strtok_tokens cs (cur ++ [c])

/-- The libc `tolower` on a byte (C locale). -/
def tolower (c : Nat) : Nat := if 65 ≤ c ∧ c ≤ 90 then c + 32 else c

/-- The libc `strcasecmp`. -/
def strcasecmp (a b : List Nat) : Int := strcmp (a.map tolower) (b.map tolower)

/-- The body of `while (token != NULL)` in the prompt loop for one token. -/
def preserve_token {DB : Type} (E : Env DB) (counter : Nat) (token : List Nat)
    (preserve : Slots Int) : Option (Slots Int) :=
  let filled :=
    if strcasecmp token [97, 108, 108] = 0 ∨ strcasecmp token [97] = 0 then
      preserve_fill 1 (counter + 1) 0 preserve
    else some preserve
  match filled with
  | none => none
  | some preserve1 =>
    let number : Int := (E.sscanf_d token).getD 0
    if number > 0 ∧ number ≤ counter then preserve1.write number.toNat 1
    else some preserve1

/-- The loop `while (token != NULL)` over the tokens of a line. -/
def preserve_tokens {DB : Type} (E : Env DB) (counter : Nat) :
    List (List Nat) → Slots Int → Option (Slots Int)
  | [], preserve => some preserve
  | token :: rest, preserve =>
    match preserve_token E counter token preserve with
    | none => none
    | some preserve1 => preserve_tokens E counter rest preserve1

/-- How the choice of the files to preserve ends. -/
inductive Selected where
  /-- The user typed `q` or `quit`: `exit(0)`. -/
  | quit
  /-- The deletion loop starts with this `preserve` array; `tty` is the
  input that is left. -/
  | chosen (preserve : Slots Int) (tty : List (List Nat))

/-- The prompt loop `do { ... } while (sum < 1)` of `deletefiles`.  The
input `tty` is the list of the lines that `fgets` (with the `realloc` loop)
delivers, each ending in a newline; when it is exhausted `fgets` fails and
the line counts as `"\n"`. -/
def deletefiles_prompt {DB : Type} (E : Env DB) (counter : Nat) :
    Nat → Slots Int → List (List Nat) → Option Selected
  | 0, _, _ => none
  | fuel + 1, preserve, tty =>
    let preservestr := tty.headD [10]
    if strcmp preservestr [113, 10] = 0 ∨ strcmp preservestr [113, 117, 105, 116, 10] = 0 then
      some Selected.quit
    else
      match preserve_fill 0 counter 1 preserve with
      | none => none
      | some preserve1 =>
        match preserve_tokens E counter (strtok_tokens preservestr []) preserve1 with
        | none => none
        | some preserve2 =>
          match preserve_sum preserve2 counter 1 0 with
          | none => none
          | some sum =>
            if sum < 1 then deletefiles_prompt E counter fuel preserve2 tty.tail
            else some (Selected.chosen preserve2 tty.tail)

/-- The choice of the files to preserve in `deletefiles`: `preserve[1] = 1`
and the rest 0 without prompt, the prompt loop otherwise. -/
def deletefiles_select {DB : Type} (E : Env DB) (prompt : Bool) (counter pfuel : Nat)
    (preserve : Slots Int) (tty : List (List Nat)) : Option Selected :=
  if !prompt then
    match preserve.write 1 1 with
    | none => none
    | some preserve1 =>
      match preserve_fill 0 (counter - 1) 2 preserve1 with
      | none => none
      | some preserve2 => some (Selected.chosen preserve2 tty)
  else deletefiles_prompt E counter pfuel preserve tty

/-- The loop that sets `firstpreserved`: `for (i = 1; i <= counter; ++i) if
(preserve[i]) { firstpreserved = i; break; }`, from index `i` with `n` passes
left; 0 when no index is preserved. -/
def deletefiles_firstpreserved (preserve : Slots Int) : Nat → Nat → Option Nat
  | 0, _ => some 0
  | n + 1, i =>
    match preserve.read i with
    | none => none
    | some v => if v ≠ 0 then some i else deletefiles_firstpreserved preserve n (i + 1)

/-- The value of `ismatch` for the member at index `x`.  Reading
`dupelist[0]`, which is never written, is a fault. -/
def deletefiles_ismatch {DB : Type} (E : Env DB) (flags : Flags) (h : Heap) (counter : Nat)
    (dupelist : Slots Ptr) (preserve : Slots Int) (x : Nat) : Option Bool :=
  if flags.F_DEFERCONFIRMATION && !flags.F_NOCONFIRMATION then
    match deletefiles_firstpreserved preserve counter 1 with
    | none => none
    | some firstpreserved =>
      if firstpreserved = 0 then none
      else
        match dupelist.read x, dupelist.read firstpreserved with
        | some a, some b =>
          some (E.fopen (h a).d_name && E.fopen (h b).d_name &&
            E.confirmmatch (h a).d_name (h b).d_name)
        | _, _ => none
  else some true

/-- The deletion loop `for (x = 1; x <= counter; x++) { ... }` of
`deletefiles`, from index `x` with `n` passes left. -/
def deletefiles_remove_loop {DB : Type} (E : Env DB) (flags : Flags) (counter : Nat)
    (dupelist : Slots Ptr) (preserve : Slots Int) : Nat → Nat → State DB → Option (State DB)
  | 0, _, s => some s
  | n + 1, x, s =>
    match preserve.read x, dupelist.read x with
    | some v, some p =>
      if v ≠ 0 then
        deletefiles_remove_loop E flags counter dupelist preserve n (x + 1)
          { s with trace := s.trace ++ [Event.kept p] }
      else
        match deletefiles_ismatch E flags s.heap counter dupelist preserve x with
        | none => none
        | some ismatch =>
          if ismatch then
            deletefiles_remove_loop E flags counter dupelist preserve n (x + 1)
              (remove_file E flags s p)
          else
            deletefiles_remove_loop E flags counter dupelist preserve n (x + 1)
              { s with trace := s.trace ++ [Event.undeleted p] }
    | _, _ => none

/-- How the body of `deletefiles` for one group ends. -/
inductive SetResult (DB : Type) where
  /-- The program left with `exit(0)` at the prompt. -/
  | exit
  /-- The group is done; the arrays and the rest of the input go on to the
  next group. -/
  | done (s : State DB) (dupelist : Slots Ptr) (preserve : Slots Int) (tty : List (List Nat))

/-- The body of the second loop of `deletefiles` for a record `files` with
`hasdupes` set. -/
def deletefiles_set {DB : Type} (E : Env DB) (flags : Flags) (cfuel pfuel : Nat)
    (prompt : Bool) (s : State DB) (files : Ptr) (dupelist : Slots Ptr)
    (preserve : Slots Int) (tty : List (List Nat)) : Option (SetResult DB) :=
  match deletefiles_collect s.heap cfuel dupelist files with
  | none => none
  | some (counter, dupelist1) =>
    match deletefiles_select E prompt counter pfuel preserve tty with
    | none => none
    | some Selected.quit => some SetResult.exit
    | some (Selected.chosen preserve1 tty1) =>
      match deletefiles_remove_loop E flags counter dupelist1 preserve1 counter 1
          { s with trace := s.trace ++ [Event.begin_set] } with
      | none => none
      | some s1 =>
        some (SetResult.done { s1 with trace := s1.trace ++ [Event.end_set] }
          dupelist1 preserve1 tty1)

/-- The second loop of `deletefiles`, `while (files) { ...; files =
files->next; }`. -/
def deletefiles_loop {DB : Type} (E : Env DB) (flags : Flags) (cfuel pfuel : Nat)
    (prompt : Bool) :
    Nat → State DB → Option Ptr → Slots Ptr → Slots Int → List (List Nat) →
      Option (SetResult DB)
  | _, s, none, dupelist, preserve, tty => some (SetResult.done s dupelist preserve tty)
  | 0, _, some _, _, _, _ => none
  | fuel + 1, s, some files, dupelist, preserve, tty =>
    if (s.heap files).hasdupes ≠ 0 then
      match deletefiles_set E flags cfuel pfuel prompt s files dupelist preserve tty with
      | none => none
      | some SetResult.exit => some SetResult.exit
      | some (SetResult.done s1 dupelist1 preserve1 tty1) =>
        deletefiles_loop E flags cfuel pfuel prompt fuel s1 (s1.heap files).next
          dupelist1 preserve1 tty1
    else
      deletefiles_loop E flags cfuel pfuel prompt fuel s (s.heap files).next
        dupelist preserve tty

/-- The loop `while (tmpfile) { counter++; tmpfile = tmpfile->duplicates; }`
of the first pass of `deletefiles`. -/
def deletefiles_count (h : Heap) : Nat → Nat → Option Ptr → Option Nat
  | _, counter, none => some counter
  | 0, _, some _ => none
  | fuel + 1, counter, some tmpfile =>
    deletefiles_count h fuel (counter + 1) (h tmpfile).duplicates

/-- The first loop of `deletefiles`, which finds the size `max` of the
largest group. -/
def deletefiles_max (h : Heap) (cfuel : Nat) : Nat → Nat → Option Ptr → Option Nat
  | _, max, none => some max
  | 0, _, some _ => none
  | fuel + 1, max, some curfile =>
    if (h curfile).hasdupes ≠ 0 then
      match deletefiles_count h cfuel 1 (h curfile).duplicates with
      | none => none
      | some counter =>
        deletefiles_max h cfuel fuel (if counter > max then counter else max)
          (h curfile).next
    else deletefiles_max h cfuel fuel max (h curfile).next

/-- The function `deletefiles(files, prompt, tty, logfile)`.  `dupelist0`
and `preserve0` are the contents of the two arrays as `malloc` returns
them. -/
def deletefiles {DB : Type} (E : Env DB) (flags : Flags) (fuel cfuel pfuel : Nat)
    (s : State DB) (files : Option Ptr) (prompt : Bool) (tty : List (List Nat))
    (dupelist0 : Nat → Ptr) (preserve0 : Nat → Int) : Option (SetResult DB) :=
  match deletefiles_max s.heap cfuel fuel 0 files with
  | none => none
  | some max =>
    deletefiles_loop E flags cfuel pfuel prompt fuel s files
      { max := max + 1, val := dupelist0 } { max := max + 1, val := preserve0 } tty

/-- The option checks of `main` that end the program with `exit(1)` before
any directory is read (the checks that follow the `getopt` loop, in a build
with the hash database). -/
def main_rejects_options (flags : Flags) : Bool :=
  (!flags.F_CACHESIGNATURES &&
    (flags.F_CLEARCACHE || flags.F_PRUNECACHE || flags.F_READONLYCACHE ||
      flags.F_VACUUMCACHE)) ||
  (flags.F_RECURSE && flags.F_RECURSEAFTER) ||
  (flags.F_SUMMARIZEMATCHES && flags.F_DELETEFILES) ||
  (flags.F_DEFERCONFIRMATION && (!flags.F_DELETEFILES || flags.F_NOPROMPT))

/-- The removal attempts recorded in a trace, in order: the records that
`removeifnotchanged` was called on. -/
def removal_attempts : List Event → List Ptr
  | [] => []
  | Event.removeifnotchanged p _ :: rest => p :: removal_attempts rest
  | _ :: rest => removal_attempts rest

/-- The records marked as preserved in a trace, in order (the lines `[+]`). -/
def kept_files : List Event → List Ptr
  | [] => []
  | Event.kept p :: rest => p :: kept_files rest
  | _ :: rest => kept_files rest

/-- Example state for the deletion driver: the group `0 -> 1` of
`heap_abc`, no events yet. -/
def state_abc : State Unit := { heap := heap_abc, db := (), trace := [] }

/-- Example arrays of three slots as `malloc` may return them. -/
def dupelist_abc : Slots Ptr := { max := 3, val := fun _ => 77 }

/-- Example `preserve` array of three slots with arbitrary content. -/
def preserve_abc : Slots Int := { max := 3, val := fun _ => 55 }

/-- The deletion targets recorded in a trace, in order: the records of the
lines `[-]` (deleted) and `[!]` (left in place). -/
def deletion_targets : List Event → List Ptr
  | [] => []
  | Event.deleted p :: rest => p :: deletion_targets rest
  | Event.undeleted p :: rest => p :: deletion_targets rest
  | _ :: rest => deletion_targets rest

/-- Example state for the scan: the file list of `heap_scan`, no events. -/
def state_scan : State Unit := { heap := heap_scan, db := (), trace := [] }

/-- Example heap for the name order: record 1 is the file "z", every other
record the file "a"; both hold one byte. -/
def heap_za : Heap := fun p =>
  match p with
  | 1 => fresh_file [122] 1 1 201 10
  | _ => fresh_file [97] 1 1 202 20

/-- Example state over `heap_za`. -/
def state_za : State Unit := { heap := heap_za, db := (), trace := [] }

/-! ## The enumerator: grokdir -/

/-- The macro `S_ISDIR` of `sys/stat.h` (the encoding of Linux: the file type
is the bits `0170000` of `st_mode`, a directory is `0040000`). -/
def S_ISDIR (st_mode : Nat) : Bool := st_mode / 4096 % 16 == 4

/-- The macro `S_ISREG` of `sys/stat.h` (a regular file is `0100000`). -/
def S_ISREG (st_mode : Nat) : Bool := st_mode / 4096 % 16 == 8

/-- The macro `S_ISLNK` of `sys/stat.h` (a symbolic link is `0120000`). -/
def S_ISLNK (st_mode : Nat) : Bool := st_mode / 4096 % 16 == 10

/-- The size test of `grokdir` on the `stat` result of an entry: true when
the entry is dropped (`continue`).  `minsize` and `maxsize` are the globals
set by `-G` and `-L`, -1 by default. -/
def grokdir_size_skip (flags : Flags) (minsize maxsize : Int) (info : stat_t) : Bool :=
  !S_ISDIR info.st_mode &&
    ((info.st_size == 0 && flags.F_EXCLUDEEMPTY) || decide (info.st_size < minsize) ||
      (decide (info.st_size > maxsize) && maxsize != -1))

/-- The path that `grokdir` builds for an entry: `dir`, a `/` unless `dir`
is empty or ends in one, and the name of the entry. -/
def grokdir_path (dir name : List Nat) : List Nat :=
  dir ++ (if dir ≠ [] ∧ dir.getLast? ≠ some 47 then [47] else []) ++ name

/-- The test of `grokdir` under `F_EXCLUDEHIDDEN` on the base name of an
entry: it starts with a dot and is neither `.` nor `..`. -/
def grokdir_hidden (name : List Nat) : Bool :=
  name.head? == some 46 && strcmp name [46] != 0 && strcmp name [46, 46] != 0

/-- The function `getfilestats`. -/
def getfilestats (file : file_t) (info : stat_t) : file_t :=
  { file with size := info.st_size, inode := info.st_ino, device := info.st_dev,
              ctime := info.st_ctime, mtime := info.st_mtime,
              ctime_nsec := info.st_ctim_nsec, mtime_nsec := info.st_mtim_nsec }

/-- What `grokdir` works on: the state, the file list `*filelistp`, and the
address that the next `malloc(sizeof(file_t))` returns (addresses are handed
out in increasing order and not used again). -/
structure Grok (DB : Type) where
  st : State DB
  filelist : Option Ptr
  brk : Ptr

/-- The body of the `readdir` loop of `grokdir` for the entry `name` of the
directory `dir`.  `recurse` is the call `grokdir(newfile->d_name, filelistp,
logfile_status)`, `fullpath` and `pathid` the values of the two locals, and
the number is `filecount`. -/
def grokdir_entry {DB : Type} (E : Env DB) (flags : Flags) (minsize maxsize : Int)
    (logfile_status : Option stat_t)
    (recurse : List Nat → Grok DB → Option (Grok DB × Int))
    (dir : List Nat) (fullpath : Option (List Nat)) (pathid : Int) (name : List Nat)
    (g : Grok DB) (filecount : Int) : Option (Grok DB × Int) :=
  if strcmp name [46] ≠ 0 ∧ strcmp name [46, 46] ≠ 0 then
    let newfile := g.brk
    let d_name := grokdir_path dir name
    let h1 : Heap := fun q =>
      if q = newfile then
        { g.st.heap q with next := g.filelist, device := 0, inode := 0, crcsignature := none,
                           crcpartial := none, duplicates := none, hasdupes := 0,
                           d_name := d_name }
      else g.st.heap q
    let g1 : Grok DB := { g with st := { g.st with heap := h1 }, brk := g.brk + 1 }
    if flags.F_EXCLUDEHIDDEN && grokdir_hidden (E.basename d_name) then some (g1, filecount)
    else
      match E.stat d_name with
      | none => some (g1, filecount)
      | some info =>
        if grokdir_size_skip flags minsize maxsize info then some (g1, filecount)
        else if (match logfile_status with
            | none => false
            | some ls => info.st_dev == ls.st_dev && info.st_ino == ls.st_ino) then
          some (g1, filecount)
        else
          match E.lstat d_name with
          | none => some (g1, filecount)
          | some linfo =>
            if S_ISDIR info.st_mode then
              if flags.F_RECURSE && (flags.F_FOLLOWLINKS || !S_ISLNK linfo.st_mode) then
                match recurse d_name g1 with
                | none => none
                | some (g2, filesadded) =>
                  if flags.F_CACHESIGNATURES && pathid == 0 && !flags.F_READONLYCACHE &&
                      decide (filesadded > 0) then
                    some ({ g2 with st :=
                      { g2.st with db := E.hashdb_savedirectory g2.st.db fullpath,
                                   trace := g2.st.trace ++
                                     [Event.hashdb_savedirectory fullpath] } },
                      filecount + filesadded)
                  else some (g2, filecount + filesadded)
              else some (g1, filecount)
            else if S_ISREG linfo.st_mode || (S_ISLNK linfo.st_mode && flags.F_FOLLOWLINKS) then
              let h2 : Heap := fun q => if q = newfile then getfilestats (h1 q) info else h1 q
              some ({ g1 with st := { g1.st with heap := h2 }, filelist := some newfile },
                filecount + 1)
            else some (g1, filecount)
  else some (g, filecount)

/-- The loop `while ((dirinfo = readdir(cd)) != NULL)` over the entries that
are left. -/
def grokdir_loop {DB : Type} (body : List Nat → Grok DB → Int → Option (Grok DB × Int)) :
    List (List Nat) → Grok DB → Int → Option (Grok DB × Int)
  | [], g, filecount => some (g, filecount)
  | name :: rest, g, filecount =>
    match body name g filecount with
    | none => none
    | some (g1, filecount1) => grokdir_loop body rest g1 filecount1

/-- The block of `grokdir` that consults the hash database before the
directory is read: the state after it and the values of `fullpath` and
`pathid`. -/
def grokdir_cache {DB : Type} (E : Env DB) (flags : Flags) (dir : List Nat) (s : State DB) :
    State DB × Option (List Nat) × Int :=
  if flags.F_CACHESIGNATURES then
    match E.getrealpath_dir dir with
    | none => (s, none, 0)
    | some fullpath =>
      if !flags.F_READONLYCACHE then
        match E.hashdb_getdirectoryid s.db fullpath with
        | none => (s, some fullpath, 0)
        | some pathid =>
          ({ s with db := E.hashdb_foreachhash (E.hashdb_foreachdirectory s.db pathid) pathid,
                    trace := s.trace ++ [Event.hashdb_delist pathid] },
            some fullpath, pathid)
      else (s, some fullpath, 0)
  else (s, none, 0)

/-- The function `grokdir(dir, filelistp, logfile_status)`; the number is
its return value.  The fuel bounds the depth of the recursion into
directories. -/
def grokdir {DB : Type} (E : Env DB) (flags : Flags) (minsize maxsize : Int)
    (logfile_status : Option stat_t) :
    Nat → List Nat → Grok DB → Option (Grok DB × Int)
  | 0, _, _ => none
  | fuel + 1, dir, g =>
    match E.readdir dir with
    | none => some (g, 0)
    | some entries =>
      let c := grokdir_cache E flags dir g.st
      grokdir_loop
        (grokdir_entry E flags minsize maxsize logfile_status
          (grokdir E flags minsize maxsize logfile_status fuel) dir c.2.1 c.2.2)
        entries { g with st := c.1 } 0

/-- The loop of `main` that calls `grokdir` for each directory named on
the command line (without `-R`), and the file list `files` it leaves. -/
def main_grokdirs {DB : Type} (E : Env DB) (flags : Flags) (minsize maxsize : Int)
    (logfile_status : Option stat_t) (fuel : Nat) :
    List (List Nat) → Grok DB → Int → Option (Grok DB × Int)
  | [], g, filecount => some (g, filecount)
  | dir :: rest, g, filecount =>
    match grokdir E flags minsize maxsize logfile_status fuel dir g with
    | none => none
    | some (g1, n) =>
      main_grokdirs E flags minsize maxsize logfile_status fuel rest g1 (filecount + n)

/-- Example environment in which no directory can be statted: `basename`
gives "f", `dirname` the first byte of the path. -/
def env_nodir : Env Unit :=
  { env_abc with stat := fun _ => none, basename := fun _ => [102],
                 dirname := fun name => name.take 1 }

/-- Example `stat` result: a regular file of five bytes. -/
def info_five : stat_t :=
  { st_mode := 33188, st_uid := 1000, st_gid := 1000, st_dev := 1, st_ino := 7,
    st_size := 5, st_mtime := 0, st_ctime := 0, st_mtim_nsec := 0, st_ctim_nsec := 0 }

/-- Digests are kept: a record that has a partial digest keeps it, and keeps
its full digest when it has one. -/
def DigestKept (h h' : Heap) : Prop :=
  ∀ x, file_t.crcpartial (h x) ≠ none →
    file_t.crcpartial (h' x) = file_t.crcpartial (h x) ∧
    ((h x).crcsignature ≠ none → (h' x).crcsignature = (h x).crcsignature)

/-- What a stretch of `checkmatch` does to the state: it adds the events
`evs`, keeps the digests that are there, and changes nothing but digests. -/
def DigestRun {DB : Type} (s s1 : State DB) (evs : List Event) : Prop :=
  s1.trace = s.trace ++ evs ∧ DigestKept s.heap s1.heap ∧
    ∀ x, (s1.heap x).undigested = (s.heap x).undigested

/-- What the comparison stage of `checkmatch` at the node of `ct` has done
when it ends in the state `s1`: a digest reader was called only for `file`
or `ct`; the full-digest reader only when the sizes are equal and the two
partial digests are populated and equal; and, when the stage has set
`cmpresult` (`ok`), every digest that a reader was called for is
populated. -/
def CompareFacts {DB : Type} (s s1 : State DB) (ct file : Ptr) (ok : Bool) : Prop :=
  ∃ evs, DigestRun s s1 evs ∧
    (∀ p, Event.getcrcpartialsignature p ∈ evs → p = file ∨ p = ct) ∧
    (∀ p, Event.getcrcsignature p ∈ evs → (p = file ∨ p = ct) ∧
      (s.heap file).size = (s.heap ct).size ∧
      digests_equal (file_t.crcpartial (s1.heap file)) (file_t.crcpartial (s1.heap ct))) ∧
    (ok = true →
      (∀ p, Event.getcrcpartialsignature p ∈ evs → file_t.crcpartial (s1.heap p) ≠ none) ∧
      (∀ p, Event.getcrcsignature p ∈ evs →
        (s1.heap p).crcsignature ≠ none ∧ file_t.crcpartial (s1.heap p) ≠ none))

/-- What the scan loop keeps true about the calls of the full-digest reader:
the file list `A` is closed under `next`, the tree holds records of `A`, and
every record that `getcrcsignature` was called for is a record of `A` that
has the size and the partial digest of another record of `A`. -/
def FullDigestInv {DB : Type} (A : List Ptr) (ms : Scan DB) : Prop :=
  (∀ x ∈ A, ∀ y, (ms.st.heap x).next = some y → y ∈ A) ∧
  (∀ x ∈ ms.checktree.files, x ∈ A) ∧
  (∀ p, Event.getcrcsignature p ∈ ms.st.trace → p ∈ A ∧ ∃ q ∈ A, q ≠ p ∧
    (ms.st.heap p).size = (ms.st.heap q).size ∧
    digests_equal (file_t.crcpartial (ms.st.heap p)) (file_t.crcpartial (ms.st.heap q)))

/-- Example file contents by path: "a" holds ALPHA, every other path
ALPHZ. -/
def content_alpha (name : List Nat) : List Nat :=
  if name = [97] then [65, 76, 80, 72, 65] else [65, 76, 80, 72, 90]

/-- Example environment for the staged comparison: as `env_abc`, with the
contents of `content_alpha` (a digest is the content itself). -/
def env_alpha : Env Unit :=
  { env_abc with
    confirmmatch := fun a b => decide (content_alpha a = content_alpha b),
    getcrcpartialsignature := fun name _ => some (content_alpha name),
    getcrcsignature := fun name _ => some (content_alpha name) }

/-- Example file list `1 -> 2`: the files "a" and "b" of five bytes each. -/
def heap_alpha : Heap := fun p =>
  match p with
  | 1 => { fresh_file [97] 5 1 101 10 with next := some 2 }
  | _ => fresh_file [98] 5 1 102 20

/-- Example environment in which no digest reader can read a file. -/
def env_unreadable : Env Unit :=
  { env_abc with getcrcpartialsignature := fun _ _ => none,
                 getcrcsignature := fun _ _ => none }

/-! ## The digest readers -/

/-- Modelled from the spec: the macro `PARTIAL_MD5_SIZE` of fdupes.h, which
is not among the sources; the spec gives the partial digest as the digest of
the first 4096 bytes. -/
def PARTIAL_MD5_SIZE : Int := 4096

/-- The constant `ONE_MB`. -/
def ONE_MB : Int := 1048576

/-- The constant `HEURISTIC_BLOCK`. -/
def HEURISTIC_BLOCK : Int := ONE_MB

/-- The constant `HEURISTIC_LIMIT`. -/
def HEURISTIC_LIMIT : Int := 3 * ONE_MB

/-- The constant `HEURISTIC_INTERVAL`. -/
def HEURISTIC_INTERVAL : Int := 50 * ONE_MB

/-- A stream as `fopen(filename, "rb")` returns it: the length of the file
in bytes and the read position. -/
structure FILE where
  length : Nat
  pos : Nat

/-- A piece of a file handed to `md5_append`: the offset of its first byte
and its length. -/
abbrev Chunk := Nat × Nat

/-- The state `md5_state_t`, given by what has been appended to it: the
pieces of the file, in order. -/
abbrev md5_state_t := List Chunk

/-- The call `fread(chunk, toread, 1, file)`: the piece read and the stream
after it, `none` when the result is not 1 (`toread` is 0 or reaches beyond the
end of the file). -/
def fread (file : FILE) (toread : Int) : Option (Chunk × FILE) :=
  if 0 < toread ∧ file.pos + toread.toNat ≤ file.length then
    some ((file.pos, toread.toNat), { file with pos := file.pos + toread.toNat })
  else none

/-- The call `fseeko(file, offset, SEEK_SET)`: `none` when it fails. -/
def fseeko (file : FILE) (offset : Int) : Option FILE :=
  if 0 ≤ offset then some { file with pos := offset.toNat } else none

/-- The read loop `while (fsize > 0) { ... }` that `getcrcsignatureuntil`
and, three times, `getheuristicsignature` contain; `CHUNK_SIZE` is the macro
of fdupes.h.  The outer `none` is lack of fuel, the inner one the `return
NULL` after a failed read. -/
def read_loop (CHUNK_SIZE : Int) :
    Nat → Int → FILE → md5_state_t → Option (Option (FILE × md5_state_t))
  | fuel, fsize, file, state =>
    if fsize > 0 then
      match fuel with
      | 0 => none
      | fuel + 1 =>
        let toread := if fsize ≥ CHUNK_SIZE then CHUNK_SIZE else fsize
        match fread file toread with
        | none => some none
        | some (chunk, file1) =>
          read_loop CHUNK_SIZE fuel (fsize - toread) file1 (state ++ [chunk])
    else some (some (file, state))

/-- The function `getcrcsignatureuntil(filename, fsize, max_read)`;
`stream` is what `fopen(filename, "rb")` returns.  The result is the state
that `md5_finish` turns into the digest; the inner `none` is NULL. -/
def getcrcsignatureuntil (CHUNK_SIZE : Int) (fuel : Nat) (stream : Option FILE)
    (fsize max_read : Int) : Option (Option md5_state_t) :=
  let fsize1 := if max_read ≠ 0 ∧ fsize > max_read then max_read else fsize
  match stream with
  | none => some none
  | some file =>
    match read_loop CHUNK_SIZE fuel fsize1 file [] with
    | none => none
    | some none => some none
    | some (some r) => some (some r.2)

/-- The loop `for (offset = HEURISTIC_INTERVAL; offset + HEURISTIC_BLOCK <
fsize; offset += HEURISTIC_INTERVAL)` of `getheuristicsignature`, entered
with `offset`. -/
def getheuristicsignature_loop (CHUNK_SIZE : Int) (rfuel : Nat) (fsize : Int) :
    Nat → Int → FILE → md5_state_t → Option (Option (FILE × md5_state_t))
  | fuel, offset, file, state =>
    if offset + HEURISTIC_BLOCK < fsize then
      match fuel with
      | 0 => none
      | fuel + 1 =>
        match fseeko file offset with
        | none => some none
        | some file1 =>
          match read_loop CHUNK_SIZE rfuel HEURISTIC_BLOCK file1 state with
          | none => none
          | some none => some none
          | some (some r) =>
            getheuristicsignature_loop CHUNK_SIZE rfuel fsize fuel
              (offset + HEURISTIC_INTERVAL) r.1 r.2
    else some (some (file, state))

/-- The function `getheuristicsignature(filename, fsize)`. -/
def getheuristicsignature (CHUNK_SIZE : Int) (fuel : Nat) (stream : Option FILE)
    (fsize : Int) : Option (Option md5_state_t) :=
  match stream with
  | none => some none
  | some file =>
    -- first block
    let remaining := if HEURISTIC_BLOCK > fsize then fsize else HEURISTIC_BLOCK
    match fseeko file 0 with
    | none => some none
    | some file1 =>
      match read_loop CHUNK_SIZE fuel remaining file1 [] with
      | none => none
      | some none => some none
      | some (some r1) =>
        -- blocks every HEURISTIC_INTERVAL
        match getheuristicsignature_loop CHUNK_SIZE fuel fsize fuel HEURISTIC_INTERVAL
            r1.1 r1.2 with
        | none => none
        | some none => some none
        | some (some r2) =>
          -- last block
          if fsize > HEURISTIC_BLOCK then
            match fseeko r2.1 (fsize - HEURISTIC_BLOCK) with
            | none => some none
            | some file3 =>
              match read_loop CHUNK_SIZE fuel HEURISTIC_BLOCK file3 r2.2 with
              | none => none
              | some none => some none
              | some (some r3) => some (some r3.2)
          else some (some r2.2)

/-- The function `getcrcsignature(filename, fsize)`. -/
def getcrcsignature (flags : Flags) (CHUNK_SIZE : Int) (fuel : Nat) (stream : Option FILE)
    (fsize : Int) : Option (Option md5_state_t) :=
  if flags.F_HEURISTIC && decide (fsize > HEURISTIC_LIMIT) then
    getheuristicsignature CHUNK_SIZE fuel stream fsize
  else getcrcsignatureuntil CHUNK_SIZE fuel stream fsize 0

/-- The function `getcrcpartialsignature(filename, fsize)`. -/
def getcrcpartialsignature (CHUNK_SIZE : Int) (fuel : Nat) (stream : Option FILE)
    (fsize : Int) : Option (Option md5_state_t) :=
  getcrcsignatureuntil CHUNK_SIZE fuel stream fsize PARTIAL_MD5_SIZE

/-- The bytes of a piece of a file with the content `content`. -/
def chunk_bytes (content : List Nat) (c : Chunk) : List Nat := (content.drop c.1).take c.2

/-- The bytes that were appended to an md5 state, in order. -/
def fed_bytes (content : List Nat) (state : md5_state_t) : List Nat :=
  state.flatMap (chunk_bytes content)

/-- The offsets of the sampled blocks between the first and the last one:
the positive multiples `o` of `HEURISTIC_INTERVAL`, in increasing order, at
which a block fits before `s`; strictly before (`o + HEURISTIC_BLOCK < s`)
when `strict` is set, and with `o + HEURISTIC_BLOCK <= s` otherwise. -/
def sampled_offsets (strict : Bool) (s : Nat) : List Nat :=
  (List.range (if strict then (s - HEURISTIC_BLOCK.toNat - 1) / HEURISTIC_INTERVAL.toNat
      else (s - HEURISTIC_BLOCK.toNat) / HEURISTIC_INTERVAL.toNat)).map
    (fun i => (i + 1) * HEURISTIC_INTERVAL.toNat)

/-- The sampled blocks for a file of `s` bytes: the block at offset 0, the
blocks at the offsets of `sampled_offsets`, and the block that ends at `s`. -/
def sampled_blocks (strict : Bool) (s : Nat) : List Chunk :=
  (0, HEURISTIC_BLOCK.toNat) ::
    ((sampled_offsets strict s).map (fun o => (o, HEURISTIC_BLOCK.toNat)) ++
      [(s - HEURISTIC_BLOCK.toNat, HEURISTIC_BLOCK.toNat)])

/-- The pieces follow one another without a gap, the first one at the
offset `o`. -/
def chunks_follow : Nat → List Chunk → Prop
  | _, [] => True
  | o, c :: cs => c.1 = o ∧ chunks_follow (o + c.2) cs

/-! ## The order of group members that compare equal -/

/-- How a member `x` of a chain stands to a later member `y`: it compares
strictly less, or it stands before `y` in `P`.  `P` lists the records in the
order the scan loop took them, the latest first. -/
def tie_order (comparef : file_t → file_t → Int) (h : Heap) (P : List Ptr) (x y : Ptr) :
    Prop :=
  comparef (h x) (h y) < 0 ∨ List.Sublist [x, y] P

/-- Every chain headed by a record of the tree `T` is in `tie_order`: a
member stands before the members it compares equal to only when the scan took
it later. -/
def StableInv (comparef : file_t → file_t → Int) (h : Heap) (T P : List Ptr) : Prop :=
  ∀ q ∈ T, ∀ L, Chain h (some q) L → L.Pairwise (tie_order comparef h P)

/-- The file list as `grokdir` keeps it, for the heap, the list head and the
next free address: the list is `L`, each record of it stands before the
records allocated earlier (a record is put at the head of the list when it is
emitted), its records lie below the next free address, and none has group
links. -/
def GrokInv (h : Heap) (filelist : Option Ptr) (brk : Ptr) (L : List Ptr) : Prop :=
  Listed h filelist L ∧ L.Pairwise (fun x y => y < x) ∧ (∀ x ∈ L, x < brk) ∧
    ∀ x ∈ L, (h x).hasdupes = 0 ∧ (h x).duplicates = none

/-- Example file contents by path: a path that ends in "c" holds WORLD,
every other path HELLO. -/
def content_tree (name : List Nat) : List Nat :=
  if name.getLast? = some 99 then [87, 79, 82, 76, 68] else [72, 69, 76, 76, 79]

/-- Example `stat` result for the files of the directory "d": regular files
of five bytes with different inodes; "d/a" has the modification time
`mtime_a`, every other file 10. -/
def stat_tree (mtime_a : Int) (name : List Nat) : Option stat_t :=
  some { st_mode := 33188, st_uid := 1000, st_gid := 1000, st_dev := 1, st_ino := name.sum,
         st_size := 5, st_mtime := if name = [100, 47, 97] then mtime_a else 10,
         st_ctime := 0, st_mtim_nsec := 0, st_ctim_nsec := 0 }

/-- Example environment: the directory "d" holds the files "a", "b" and "c",
which `readdir` delivers in this order; "a" and "b" hold HELLO and "c" holds
WORLD. -/
def env_tree (mtime_a : Int) : Env Unit :=
  { env_abc with
    stat := stat_tree mtime_a,
    lstat := stat_tree mtime_a,
    readdir := fun dir => if dir = [100] then some [[97], [98], [99]] else none,
    confirmmatch := fun a b => decide (content_tree a = content_tree b),
    getcrcpartialsignature := fun name _ => some (content_tree name),
    getcrcsignature := fun name _ => some (content_tree name) }

/-- The options `-d -N`. -/
def flags_delete_noprompt : Flags :=
  { flags_none with F_DELETEFILES := true, F_NOPROMPT := true }

/-- Example start of the enumeration: no record allocated yet, the file list
empty, no events. -/
def grok_empty : Grok Unit :=
  { st := { heap := fun _ => fresh_file [] 0 0 0 0, db := (), trace := [] },
    filelist := none, brk := 0 }

/-! ## findarg and nonoptafter -/

/-- The loop `for (x = start; x < argc; x++) if (strcmp(argv[x], arg) == 0)
return x;` of `findarg` from index `x`, with at most `n` passes left; the
result is the value returned (`x` when the loop runs out). -/
def findarg_loop (arg : List Nat) (argc : Nat) (argv : List (List Nat)) : Nat → Nat → Nat
  | 0, x => x
  | n + 1, x =>
    if x < argc then
      if strcmp (argv.getD x []) arg = 0 then x
      else findarg_loop arg argc argv n (x + 1)
    else x

/-- The function `findarg(arg, start, argc, argv)`. -/
def findarg (arg : List Nat) (start argc : Nat) (argv : List (List Nat)) : Nat :=
  findarg_loop arg argc argv (argc - start) start

/-- The loop of `nonoptafter` from index `x` with the local `startat`, with at
most `n` passes left. -/
def nonoptafter_loop (argc : Nat) (oldargv newargv : List (List Nat)) (targetind : Nat) :
    Nat → Nat → Nat → Nat
  | 0, x, _ => x
  | n + 1, x, startat =>
    if x < argc then
      let testind := findarg (newargv.getD x []) startat argc oldargv
      if testind > targetind then x
      else nonoptafter_loop argc oldargv newargv targetind n (x + 1) testind
    else x

/-- The function `nonoptafter(option, argc, oldargv, newargv, optind,
&foundoption)`: the value returned and the value stored in `*foundoption`. -/
def nonoptafter (option : List Nat) (argc : Nat) (oldargv newargv : List (List Nat))
    (optind : Nat) : Nat × Bool :=
  let targetind := findarg option 1 argc oldargv
  (nonoptafter_loop argc oldargv newargv targetind (argc - optind) optind 1,
    decide (targetind < argc))

/-- Example `stat` results for a symbolic link to a FIFO: `stat` follows the
link and reports the FIFO (`S_IFIFO`, `0010644`), `lstat` reports the link
(`S_IFLNK`, `0120777`). -/
def env_fifo_link : Env Unit :=
  { env_abc with
    stat := fun name => some { st_mode := 4516, st_uid := 1000, st_gid := 1000, st_dev := 1,
                               st_ino := name.length, st_size := 5, st_mtime := 0,
                               st_ctime := 0, st_mtim_nsec := 0, st_ctim_nsec := 0 },
    lstat := fun name => some { st_mode := 41471, st_uid := 1000, st_gid := 1000, st_dev := 1,
                                st_ino := name.length + 100, st_size := 5, st_mtime := 0,
                                st_ctime := 0, st_mtim_nsec := 0, st_ctim_nsec := 0 } }

/-- The tokens in the wording "separated by whitespace (spaces, tabs,
newline) or commas": the non-empty maximal pieces of the line between
separators, with the tab among the separators. Used only to compare the
wording with `strtok_tokens`. -/
def whitespace_comma_tokens (line : List Nat) : List (List Nat) :=
  (line.splitOnP (fun c => c = 32 || c = 9 || c = 10 || c = 44)).filter
    (fun t => decide (t ≠ []))

/-- Example `%d` conversion, the digits: the value of the longest run of
decimal digits at the start, `acc` when there is none. -/
def scan_digits : List Nat → Option Nat → Option Nat
  | [], acc => acc
  | c :: cs, acc =>
    if 48 ≤ c ∧ c ≤ 57 then scan_digits cs (some (acc.getD 0 * 10 + (c - 48))) else acc

/-- Example `%d` conversion: leading white space is skipped, then an
optional sign and a run of decimal digits are read; the conversion fails
when no digit is found. -/
def scan_decimal (token : List Nat) : Option Int :=
  match token.dropWhile (fun c => c = 32 || (9 ≤ c && c ≤ 13)) with
  | 45 :: cs => (scan_digits cs none).map (fun n => -(n : Int))
  | 43 :: cs => (scan_digits cs none).map (fun n => (n : Int))
  | cs => (scan_digits cs none).map (fun n => (n : Int))

/-- Example environment for the prompt: `env_abc` with `scan_decimal` as
the `%d` conversion. -/
def env_prompt : Env Unit := { env_abc with sscanf_d := scan_decimal }

/-- Whether an event is a call that changes the hash database (every
`hashdb_...` call of the program other than `hashdb_loadhash`, the lookup
`hashdb_getdirectoryid` and the transaction calls). -/
def is_cache_write : Event → Bool
  | Event.hashdb_savehash _ => true
  | Event.hashdb_deletehashforpath _ => true
  | Event.hashdb_delist _ => true
  | Event.hashdb_savedirectory _ => true
  | Event.hashdb_cleardirectories => true
  | Event.hashdb_prune => true
  | Event.hashdb_vacuum => true
  | _ => false

/-- The database-changing calls of a trace, in order. -/
def cache_writes (trace : List Event) : List Event := trace.filter is_cache_write

/-- The step from `s` to `s'` left the hash database as it was and made no
database-changing call. -/
def CacheKept {DB : Type} (s s' : State DB) : Prop :=
  s'.db = s.db ∧ cache_writes s'.trace = cache_writes s.trace

/-- The block `if (db != 0) { hashdb_begintransaction(db); if
(ISFLAG(flags, F_CLEARCACHE)) hashdb_cleardirectories(db); else if
(ISFLAG(flags, F_PRUNECACHE)) { hashdb_foreachdirectory(db, 0, ...);
hashdb_foreachhash(db, 0, ...); } }` of `main`. The database is open
(`db != 0`) exactly when `F_CACHESIGNATURES` is set; the library calls
`hashdb_cleardirectories(db)` and the pair of whole-cache `foreach` calls
are parameters. -/
def main_cache_startup {DB : Type} (flags : Flags)
    (hashdb_cleardirectories hashdb_prune : DB → DB) (s : State DB) : State DB :=
  if flags.F_CACHESIGNATURES then
    if flags.F_CLEARCACHE then
      { s with db := hashdb_cleardirectories s.db,
               trace := s.trace ++ [Event.hashdb_cleardirectories] }
    else if flags.F_PRUNECACHE then
      { s with db := hashdb_prune s.db, trace := s.trace ++ [Event.hashdb_prune] }
    else s
  else s

/-- The function `close_db_on_exit`, as far as the content of the database
goes: `if (db != 0) { ...; if (ISFLAG(flags, F_VACUUMCACHE) && !got_sigint)
hashdb_vacuum(db); ... }`. The library call `hashdb_vacuum(db)` is a
parameter. -/
def close_db_on_exit {DB : Type} (flags : Flags) (got_sigint : Bool)
    (hashdb_vacuum : DB → DB) (s : State DB) : State DB :=
  if flags.F_CACHESIGNATURES then
    if flags.F_VACUUMCACHE && !got_sigint then
      { s with db := hashdb_vacuum s.db, trace := s.trace ++ [Event.hashdb_vacuum] }
    else s
  else s

/-- Example environment with a hash database: the files of `env_abc`, and
a database that is the list of the paths whose digests were saved. -/
def env_cache : Env (List (List Nat)) :=
  { stat := env_abc.stat,
    fopen := env_abc.fopen,
    confirmmatch := env_abc.confirmmatch,
    getcrcpartialsignature := env_abc.getcrcpartialsignature,
    getcrcsignature := env_abc.getcrcsignature,
    hashdb_loadhash := fun _ f => (file_t.crcpartial f, f.crcsignature),
    hashdb_savehash := fun db f => f.d_name :: db,
    hashdb_deletehashforpath := fun db name => db.filter (fun n => decide (n ≠ name)),
    getrealpath := env_abc.getrealpath,
    removeifnotchanged := env_abc.removeifnotchanged,
    basename := env_abc.basename,
    dirname := env_abc.dirname,
    sscanf_d := env_abc.sscanf_d,
    lstat := env_abc.lstat,
    readdir := env_abc.readdir,
    getrealpath_dir := env_abc.getrealpath_dir,
    hashdb_getdirectoryid := fun _ _ => none,
    hashdb_foreachdirectory := fun db _ => db,
    hashdb_foreachhash := fun db _ => db,
    hashdb_savedirectory := fun db _ => db }

/-- Example options: the cache is enabled and read-only. -/
def flags_readonly : Flags :=
  { flags_none with F_CACHESIGNATURES := true, F_READONLYCACHE := true }

/-- Example options: the cache is enabled and read-only, and is to be
cleared. -/
def flags_readonly_clear : Flags :=
  { flags_none with F_CACHESIGNATURES := true, F_READONLYCACHE := true,
                    F_CLEARCACHE := true }

/-- The order that the comparisons of `checkmatch` establish between two
records, read off the digests stored in them: smaller size; or equal sizes,
both partial digests stored, and the partial digest smaller by `md5cmp`; or
equal sizes, partial digests equal by `md5cmp`, both full digests stored and
the full digest smaller by `md5cmp`. -/
def staged_lt (f g : file_t) : Prop :=
  f.size < g.size ∨
  (f.size = g.size ∧ ∃ a b, file_t.crcpartial f = some a ∧ file_t.crcpartial g = some b ∧
    (md5cmp a b < 0 ∨
      (md5cmp a b = 0 ∧ ∃ c d, f.crcsignature = some c ∧ g.crcsignature = some d ∧
        md5cmp c d < 0)))

/-- The search-tree order: at every node, each record of the left subtree
is below the node's record and each record of the right subtree is above
it. -/
def TreeOrdered (h : Heap) : filetree_t → Prop
  | filetree_t.null => True
  | filetree_t.node file left right =>
    (∀ x ∈ left.files, staged_lt (h x) (h file)) ∧
    (∀ x ∈ right.files, staged_lt (h file) (h x)) ∧
    TreeOrdered h left ∧ TreeOrdered h right

/-- The digests stored in a record are those of its file: each stored
digest is the one the reader delivers for the record's path and size. -/
def digests_true {DB : Type} (E : Env DB) (f : file_t) : Prop :=
  (file_t.crcpartial f = none ∨
    file_t.crcpartial f = E.getcrcpartialsignature f.d_name f.size) ∧
  (f.crcsignature = none ∨ f.crcsignature = E.getcrcsignature f.d_name f.size)

/-- The hash database is faithful: for a record whose stored digests are
those of its file, so are the digests that `hashdb_loadhash` leaves in the
two fields. -/
def cache_true {DB : Type} (E : Env DB) : Prop :=
  ∀ (db : DB) (f : file_t), digests_true E f →
    ((E.hashdb_loadhash db f).1 = none ∨
      (E.hashdb_loadhash db f).1 = E.getcrcpartialsignature f.d_name f.size) ∧
    ((E.hashdb_loadhash db f).2 = none ∨
      (E.hashdb_loadhash db f).2 = E.getcrcsignature f.d_name f.size)

/-- Both digests of the record's file can be computed. -/
def digests_computable {DB : Type} (E : Env DB) (f : file_t) : Prop :=
  E.getcrcpartialsignature f.d_name f.size ≠ none ∧ E.getcrcsignature f.d_name f.size ≠ none

/-- Two records have the same size, the same partial digest and the same
full digest (the digests of their files). -/
def same_content_key {DB : Type} (E : Env DB) (f g : file_t) : Prop :=
  f.size = g.size ∧
  E.getcrcpartialsignature f.d_name f.size = E.getcrcpartialsignature g.d_name g.size ∧
  E.getcrcsignature f.d_name f.size = E.getcrcsignature g.d_name g.size

/-- The staged order on the digests of the files themselves: as
`staged_lt`, with the digests the readers deliver in place of the stored
ones. -/
def true_lt {DB : Type} (E : Env DB) (f g : file_t) : Prop :=
  f.size < g.size ∨
  (f.size = g.size ∧ ∃ a b, E.getcrcpartialsignature f.d_name f.size = some a ∧
    E.getcrcpartialsignature g.d_name g.size = some b ∧
    (md5cmp a b < 0 ∨
      (md5cmp a b = 0 ∧ ∃ c d, E.getcrcsignature f.d_name f.size = some c ∧
        E.getcrcsignature g.d_name g.size = some d ∧ md5cmp c d < 0)))

/-- The records of the nodes on the way from the root to the node that
`path` leads to (that node included). -/
def filetree_t.path_files : filetree_t → List Bool → List Ptr
  | filetree_t.null, _ => []
  | filetree_t.node file _ _, [] => [file]
  | filetree_t.node file left _, false :: path => file :: left.path_files path
  | filetree_t.node file _ right, true :: path => file :: right.path_files path

/-- Example heap: the list `1 -> 2` of the files "a" and "c", and a third
record 3, outside the list, for another link-free copy of "c". -/
def heap_search : Heap := fun p =>
  match p with
  | 1 => { fresh_file [97] 5 1 101 10 with next := some 2 }
  | 2 => fresh_file [99] 5 1 102 20
  | _ => fresh_file [99] 5 1 103 30

@[simp] theorem set_hasdupes_duplicates (h : Heap) (p : Ptr) (v : Int) (q : Ptr) :
    (set_hasdupes h p v q).duplicates = (h q).duplicates := by
  unfold set_hasdupes; split <;> rfl

@[simp] theorem set_hasdupes_unlinked (h : Heap) (p : Ptr) (v : Int) (q : Ptr) :
    (set_hasdupes h p v q).unlinked = (h q).unlinked := by
  unfold set_hasdupes; split <;> rfl

@[simp] theorem set_duplicates_unlinked (h : Heap) (p : Ptr) (v : Option Ptr) (q : Ptr) :
    (set_duplicates h p v q).unlinked = (h q).unlinked := by
  unfold set_duplicates; split <;> rfl

@[simp] theorem set_duplicates_hasdupes (h : Heap) (p : Ptr) (v : Option Ptr) (q : Ptr) :
    (set_duplicates h p v q).hasdupes = (h q).hasdupes := by
  unfold set_duplicates; split <;> rfl

@[simp] theorem set_duplicates_self (h : Heap) (p : Ptr) (v : Option Ptr) :
    (set_duplicates h p v p).duplicates = v := by
  simp [set_duplicates]

@[simp] theorem set_hasdupes_self (h : Heap) (p : Ptr) (v : Int) :
    (set_hasdupes h p v p).hasdupes = v := by
  simp [set_hasdupes]

theorem set_duplicates_ne (h : Heap) (p : Ptr) (v : Option Ptr) (q : Ptr) (hq : q ≠ p) :
    set_duplicates h p v q = h q := by
  simp [set_duplicates, hq]

theorem set_hasdupes_ne (h : Heap) (p : Ptr) (v : Int) (q : Ptr) (hq : q ≠ p) :
    set_hasdupes h p v q = h q := by
  simp [set_hasdupes, hq]

theorem Chain_congr {h h' : Heap} :
    ∀ (L : List Ptr) (o : Option Ptr),
      (∀ x ∈ L, (h' x).duplicates = (h x).duplicates) → Chain h o L → Chain h' o L
  | [], _, _, hc => hc
  | p :: L, o, hx, hc => by
    refine ⟨hc.1, ?_⟩
    rw [hx p (List.mem_cons_self _ _)]
    exact Chain_congr L _ (fun x hxL => hx x (List.mem_cons_of_mem _ hxL)) hc.2

theorem Chain_unique {h : Heap} :
    ∀ (L1 L2 : List Ptr) (o : Option Ptr), Chain h o L1 → Chain h o L2 → L1 = L2
  | [], [], _, _, _ => rfl
  | [], q :: L2, o, h1, h2 => by
    have e1 : o = none := h1
    have e2 : o = some q := h2.1
    rw [e1] at e2; cases e2
  | p :: L1, [], o, h1, h2 => by
    have e1 : o = none := h2
    have e2 : o = some p := h1.1
    rw [e1] at e2; cases e2
  | p :: L1, q :: L2, o, h1, h2 => by
    have e1 : o = some p := h1.1
    have e2 : o = some q := h2.1
    rw [e1] at e2
    cases e2
    rw [Chain_unique L1 L2 _ h1.2 h2.2]

theorem Chain_append {h : Heap} :
    ∀ (A : List Ptr) (p : Ptr) (B : List Ptr) (o : Option Ptr),
      Chain h o (A ++ p :: B) → Chain h (some p) (p :: B)
  | [], _, _, _, hc => ⟨rfl, hc.2⟩
  | _ :: A, p, B, _, hc => Chain_append A p B _ hc.2

theorem Chain_nodup {h : Heap} :
    ∀ (L : List Ptr) (o : Option Ptr), Chain h o L → L.Nodup
  | [], _, _ => List.nodup_nil
  | p :: L, o, hc => by
    refine List.nodup_cons.mpr ⟨?_, Chain_nodup L _ hc.2⟩
    intro hp
    obtain ⟨A, B, hAB⟩ := List.append_of_mem hp
    have h1 : Chain h (some p) (p :: B) := by
      have h2 := hc.2
      rw [hAB] at h2
      exact Chain_append A p B _ h2
    have h3 : Chain h (some p) (p :: L) := ⟨rfl, hc.2⟩
    have h4 := Chain_unique _ _ _ h1 h3
    have h5 := congrArg List.length h4
    rw [hAB] at h5
    simp at h5
    omega

theorem insert_before_first_ge_perm (cmp : file_t → file_t → Int) (h : Heap) (m : Ptr) :
    ∀ L : List Ptr, List.Perm (insert_before_first_ge cmp h m L) (m :: L)
  | [] => List.Perm.refl _
  | p :: L => by
    unfold insert_before_first_ge
    split
    · exact List.Perm.refl _
    · exact ((insert_before_first_ge_perm cmp h m L).cons p).trans (List.Perm.swap m p L)

theorem registerpair_loop_back (cmp : file_t → file_t → Int) (m : Ptr) :
    ∀ (S : List Ptr) (b t : Ptr) (fuel : Nat) (h : Heap) (ml : Ptr),
      Chain h (some b) (b :: t :: S) → m ∉ b :: t :: S →
      (h m).duplicates = none → S.length < fuel →
      ∃ h', registerpair_loop cmp m fuel h ml (some b) (some t) = some (h', ml) ∧
        Chain h' (some b) (b :: insert_before_first_ge cmp h m (t :: S)) ∧
        (∀ x, x ≠ m → x ∉ b :: t :: S → h' x = h x) ∧
        (∀ x, (h' x).hasdupes = (h x).hasdupes) ∧
        (∀ x, (h' x).unlinked = (h x).unlinked) := by
  intro S
  induction S with
  | nil =>
    intro b t fuel h ml hc hm hmd hf
    have hnd := Chain_nodup _ _ hc
    have hbt : b ≠ t := by
      intro e; subst e; simp at hnd
    have hmb : m ≠ b := by
      intro e; subst e; simp at hm
    have hmt : m ≠ t := by
      intro e; subst e; simp at hm
    obtain ⟨-, hb, htn⟩ := hc
    have htn' : (h t).duplicates = none := htn
    obtain ⟨fuel, rfl⟩ : ∃ k, fuel = k + 1 := ⟨fuel - 1, by omega⟩
    by_cases hcmp : cmp (h m) (h t) ≤ 0
    · refine ⟨set_duplicates (set_duplicates h m (some t)) b (some m), ?_, ?_, ?_, ?_, ?_⟩
      · simp [registerpair_loop, hcmp]
      · simp only [insert_before_first_ge, hcmp, if_true]
        refine ⟨rfl, ?_, ?_, ?_⟩
        · simp
        · rw [set_duplicates_ne _ _ _ _ hmb]; simp
        · rw [set_duplicates_ne _ _ _ _ hbt.symm, set_duplicates_ne _ _ _ _ hmt.symm]
          exact htn'
      · intro x hx1 hx2
        simp at hx2
        rw [set_duplicates_ne _ _ _ _ hx2.1, set_duplicates_ne _ _ _ _ hx1]
      · intro x; simp
      · intro x; simp
    · refine ⟨set_duplicates h t (some m), ?_, ?_, ?_, ?_, ?_⟩
      · simp [registerpair_loop, hcmp, htn']
      · simp only [insert_before_first_ge, hcmp, if_false]
        refine ⟨rfl, ?_, ?_, ?_⟩
        · rw [set_duplicates_ne _ _ _ _ hbt]; exact hb
        · simp
        · rw [set_duplicates_ne _ _ _ _ hmt]; exact hmd
      · intro x _ hx2
        simp at hx2
        rw [set_duplicates_ne _ _ _ _ hx2.2]
      · intro x; simp
      · intro x; simp
  | cons s S ih =>
    intro b t fuel h ml hc hm hmd hf
    have hnd := Chain_nodup _ _ hc
    have hbt : b ≠ t := by
      intro e; subst e; simp at hnd
    have hmb : m ≠ b := by
      intro e; subst e; simp at hm
    have hmt : m ≠ t := by
      intro e; subst e; simp at hm
    have hts : (h t).duplicates = some s := hc.2.2.1
    have hbd : (h b).duplicates = some t := hc.2.1
    obtain ⟨fuel, rfl⟩ : ∃ k, fuel = k + 1 := ⟨fuel - 1, by simp at hf; omega⟩
    by_cases hcmp : cmp (h m) (h t) ≤ 0
    · refine ⟨set_duplicates (set_duplicates h m (some t)) b (some m), ?_, ?_, ?_, ?_, ?_⟩
      · simp [registerpair_loop, hcmp]
      · simp only [insert_before_first_ge, hcmp, if_true]
        refine ⟨rfl, ?_, ?_, ?_⟩
        · simp
        · rw [set_duplicates_ne _ _ _ _ hmb]; simp
        · refine (Chain_congr (t :: s :: S) (some t) ?_ ⟨rfl, hc.2.2⟩).2
          intro x hx
          have hxb : x ≠ b := by
            intro e; subst e
            exact (List.nodup_cons.mp hnd).1 hx
          have hxm : x ≠ m := by
            intro e; subst e
            exact hm (List.mem_cons_of_mem _ hx)
          rw [set_duplicates_ne _ _ _ _ hxb, set_duplicates_ne _ _ _ _ hxm]
      · intro x hx1 hx2
        simp at hx2
        rw [set_duplicates_ne _ _ _ _ hx2.1, set_duplicates_ne _ _ _ _ hx1]
      · intro x; simp
      · intro x; simp
    · have hmS : m ∉ t :: s :: S := fun hx => hm (List.mem_cons_of_mem _ hx)
      obtain ⟨h', hrun, hch, hfr, hhd, hun⟩ :=
        ih t s fuel h ml ⟨rfl, hc.2.2⟩ hmS hmd (by simp at hf; omega)
      refine ⟨h', ?_, ?_, ?_, hhd, hun⟩
      · simp [registerpair_loop, hcmp, hts, hrun]
      · have hins : insert_before_first_ge cmp h m (t :: s :: S)
            = t :: insert_before_first_ge cmp h m (s :: S) := by
          simp [insert_before_first_ge, hcmp]
        rw [hins]
        refine ⟨rfl, ?_, hch.2⟩
        rw [hfr b hmb.symm (List.nodup_cons.mp hnd).1]
        exact hbd
      · intro x hx1 hx2
        exact hfr x hx1 (fun hx => hx2 (List.mem_cons_of_mem _ hx))

theorem registerpair_spec (cmp : file_t → file_t → Int) (m q : Ptr) (S : List Ptr)
    (fuel : Nat) (h : Heap) (hc : Chain h (some q) (q :: S)) (hm : m ∉ q :: S)
    (hmd : (h m).duplicates = none) (hf : S.length < fuel) :
    ∃ h' ml' R, registerpair cmp fuel h q m = some (h', ml') ∧
      insert_before_first_ge cmp (set_hasdupes h q 1) m (q :: S) = ml' :: R ∧
      Chain h' (some ml') (ml' :: R) ∧
      (h' ml').hasdupes = 1 ∧
      (ml' ≠ q → (h' q).hasdupes = 0) ∧
      (∀ x, x ≠ ml' → x ≠ q → (h' x).hasdupes = (h x).hasdupes) ∧
      (∀ x, x ≠ m → x ∉ q :: S → h' x = h x) ∧
      (∀ x, (h' x).unlinked = (h x).unlinked) := by
  have hmq : m ≠ q := by
    intro e; subst e; simp at hm
  have hc0 : Chain (set_hasdupes h q 1) (some q) (q :: S) :=
    Chain_congr _ _ (fun x _ => set_hasdupes_duplicates h q 1 x) hc
  have hmd0 : (set_hasdupes h q 1 m).duplicates = none := by
    rw [set_hasdupes_duplicates]; exact hmd
  obtain ⟨fuel, rfl⟩ : ∃ k, fuel = k + 1 := ⟨fuel - 1, by omega⟩
  by_cases hcmp : cmp (set_hasdupes h q 1 m) (set_hasdupes h q 1 q) ≤ 0
  · refine ⟨set_hasdupes (set_hasdupes (set_duplicates (set_hasdupes h q 1) m (some q)) m 1) q 0,
      m, q :: S, ?_, ?_, ?_, ?_, ?_, ?_, ?_, ?_⟩
    · simp [registerpair, registerpair_loop, hcmp]
    · simp [insert_before_first_ge, hcmp]
    · refine ⟨rfl, ?_, ?_⟩
      · simp
      · refine (Chain_congr (q :: S) (some q) ?_ hc).2
        intro x hx
        have hxm : x ≠ m := by
          intro e; subst e; exact hm hx
        simp [set_duplicates_ne _ _ _ _ hxm]
    · rw [set_hasdupes_ne _ _ _ _ hmq]; simp
    · intro _; simp
    · intro x hx1 hx2
      rw [set_hasdupes_ne _ _ _ _ hx2, set_hasdupes_ne _ _ _ _ hx1]
      simp [set_hasdupes_ne _ _ _ _ hx2]
    · intro x hx1 hx2
      have hxq : x ≠ q := fun e => hx2 (e ▸ List.mem_cons_self _ _)
      rw [set_hasdupes_ne _ _ _ _ hxq, set_hasdupes_ne _ _ _ _ hx1,
        set_duplicates_ne _ _ _ _ hx1, set_hasdupes_ne _ _ _ _ hxq]
    · intro x; simp
  · cases S with
    | nil =>
      have hqn : (h q).duplicates = none := hc.2
      refine ⟨set_hasdupes (set_duplicates (set_hasdupes h q 1) q (some m)) q 1,
        q, [m], ?_, ?_, ?_, ?_, ?_, ?_, ?_, ?_⟩
      · simp [registerpair, registerpair_loop, hcmp, hqn]
      · simp [insert_before_first_ge, hcmp]
      · refine ⟨rfl, ?_, ?_⟩
        · simp
        · have e1 : (set_hasdupes (set_duplicates (set_hasdupes h q 1) q (some m)) q 1 m).duplicates
              = none := by
            simp [set_duplicates_ne _ _ _ _ hmq, hmd]
          exact e1
      · simp
      · intro hx; exact absurd rfl hx
      · intro x hx1 _
        simp [set_hasdupes_ne _ _ _ _ hx1]
      · intro x _ hx2
        have hxq : x ≠ q := fun e => hx2 (e ▸ List.mem_cons_self _ _)
        rw [set_hasdupes_ne _ _ _ _ hxq, set_duplicates_ne _ _ _ _ hxq,
          set_hasdupes_ne _ _ _ _ hxq]
      · intro x; simp
    | cons s S =>
      obtain ⟨h', hrun, hch, hfr, hhd, hun⟩ :=
        registerpair_loop_back cmp m S q s fuel (set_hasdupes h q 1) q hc0 hm hmd0
          (by simp at hf; omega)
      have hqs : (h q).duplicates = some s := hc.2.1
      refine ⟨h', q, insert_before_first_ge cmp (set_hasdupes h q 1) m (s :: S),
        ?_, ?_, hch, ?_, ?_, ?_, ?_, ?_⟩
      · simp [registerpair, registerpair_loop, hcmp, hqs, hrun]
      · simp [insert_before_first_ge, hcmp]
      · rw [hhd]; simp
      · intro hx; exact absurd rfl hx
      · intro x _ hx2
        rw [hhd, set_hasdupes_ne _ _ _ _ hx2]
      · intro x hx1 hx2
        have hxq : x ≠ q := fun e => hx2 (e ▸ List.mem_cons_self _ _)
        rw [hfr x hx1 hx2, set_hasdupes_ne _ _ _ _ hxq]
      · intro x
        rw [hun]; simp

/-! ## Order properties of the comparators -/

theorem sort_pairs_by_ctime_le (flags : Flags) (a b : file_t) :
    sort_pairs_by_ctime flags a b ≤ 0 ↔
      (if flags.F_REVERSE then ctime_le b a else ctime_le a b) := by
  unfold sort_pairs_by_ctime ctime_le
  cases flags.F_REVERSE <;> simp <;> split_ifs <;> omega

theorem sort_pairs_by_mtime_le (flags : Flags) (a b : file_t) :
    sort_pairs_by_mtime flags a b ≤ 0 ↔
      (if flags.F_REVERSE then mtime_le b a else mtime_le a b) := by
  unfold sort_pairs_by_mtime mtime_le
  have hc := sort_pairs_by_ctime_le flags a b
  revert hc
  unfold ctime_le
  cases flags.F_REVERSE <;> simp <;> split_ifs <;> intro hc <;> omega

theorem strcmp_antisymm : ∀ a b : List Nat, strcmp a b = - strcmp b a
  | [], [] => by simp [strcmp]
  | [], b :: _ => by simp [strcmp]
  | a :: _, [] => by simp [strcmp]
  | a :: as, b :: bs => by
    have ih := strcmp_antisymm as bs
    by_cases hab : a = b
    · subst hab
      by_cases h0 : a = 0
      · simp [strcmp, h0]
      · simp [strcmp, h0, ih]
    · have hba : ¬ b = a := fun e => hab e.symm
      simp [strcmp, hab, hba]

theorem strcmp_trans : ∀ a b c : List Nat,
    strcmp a b ≤ 0 → strcmp b c ≤ 0 → strcmp a c ≤ 0
  | [], [], c, _, h2 => h2
  | [], _ :: _, [], _, _ => by simp [strcmp]
  | [], _ :: _, _ :: _, _, _ => by simp [strcmp]
  | a :: as, [], [], h1, _ => h1
  | a :: as, [], c :: cs, h1, h2 => by
    simp [strcmp] at h1 h2 ⊢
    subst h1
    by_cases hc : c = 0
    · simp [hc]
    · have : ¬ (0 = c) := fun e => hc e.symm
      simp [this]
  | a :: as, b :: bs, [], h1, h2 => by
    simp [strcmp] at h1 h2 ⊢
    subst h2
    by_cases ha : a = 0
    · exact ha
    · simp [ha] at h1
  | a :: as, b :: bs, c :: cs, h1, h2 => by
    have ih := strcmp_trans as bs cs
    simp only [strcmp] at h1 h2 ⊢
    by_cases hab : a = b
    · subst hab
      by_cases hac : a = c
      · subst hac
        by_cases h0 : a = 0
        · simp [h0]
        · simp only [h0, if_true, if_false] at h1 h2 ⊢
          exact ih h1 h2
      · simp only [hac, if_false] at h2 ⊢
        exact h2
    · simp only [hab, if_false] at h1
      by_cases hbc : b = c
      · subst hbc
        simp only [hab, if_false]
        exact h1
      · simp only [hbc, if_false] at h2
        have hac : ¬ a = c := by omega
        simp only [hac, if_false]
        omega

/-- The comparators that `main` can pass depend on the two records only
through fields that `registerpair` never writes. -/
theorem comparef_of_unlinked (flags : Flags) (o : ordertype_t) (a b : file_t) :
    comparef_of flags o a b = comparef_of flags o a.unlinked b.unlinked := by
  unfold comparef_of
  split_ifs <;> rfl

theorem comparef_of_total (flags : Flags) (o : ordertype_t) (a b : file_t)
    (hab : ¬ comparef_of flags o a b ≤ 0) : comparef_of flags o b a ≤ 0 := by
  unfold comparef_of at hab ⊢
  split_ifs at hab ⊢
  · rw [sort_pairs_by_mtime_le] at hab ⊢
    revert hab
    unfold mtime_le ctime_le
    cases flags.F_REVERSE <;> simp <;> omega
  · rw [sort_pairs_by_ctime_le] at hab ⊢
    revert hab
    unfold ctime_le
    cases flags.F_REVERSE <;> simp <;> omega
  · revert hab
    unfold sort_pairs_by_filename
    have := strcmp_antisymm a.d_name b.d_name
    cases flags.F_REVERSE <;> simp <;> omega

theorem comparef_of_trans (flags : Flags) (o : ordertype_t) (a b c : file_t)
    (hab : comparef_of flags o a b ≤ 0) (hbc : comparef_of flags o b c ≤ 0) :
    comparef_of flags o a c ≤ 0 := by
  unfold comparef_of at hab hbc ⊢
  split_ifs at hab hbc ⊢
  · rw [sort_pairs_by_mtime_le] at hab hbc ⊢
    revert hab hbc
    unfold mtime_le ctime_le
    cases flags.F_REVERSE <;> simp <;> omega
  · rw [sort_pairs_by_ctime_le] at hab hbc ⊢
    revert hab hbc
    unfold ctime_le
    cases flags.F_REVERSE <;> simp <;> omega
  · revert hab hbc
    unfold sort_pairs_by_filename
    have h1 := strcmp_trans a.d_name b.d_name c.d_name
    have h2 := strcmp_trans c.d_name b.d_name a.d_name
    have h3 := strcmp_antisymm a.d_name b.d_name
    have h4 := strcmp_antisymm b.d_name c.d_name
    have h5 := strcmp_antisymm a.d_name c.d_name
    cases flags.F_REVERSE <;> simp <;> omega

/-! ## Insertion into a sorted chain -/

theorem insert_before_first_ge_split (cmp : file_t → file_t → Int) (h : Heap) (m : Ptr) :
    ∀ L : List Ptr, ∃ A B, L = A ++ B ∧ insert_before_first_ge cmp h m L = A ++ m :: B ∧
      (∀ p ∈ A, ¬ cmp (h m) (h p) ≤ 0) ∧ (∀ p, B.head? = some p → cmp (h m) (h p) ≤ 0)
  | [] => ⟨[], [], rfl, rfl, by simp, by simp⟩
  | p :: L => by
    by_cases hcmp : cmp (h m) (h p) ≤ 0
    · refine ⟨[], p :: L, rfl, ?_, by simp, ?_⟩
      · simp [insert_before_first_ge, hcmp]
      · intro x hx
        simp at hx
        subst hx
        exact hcmp
    · obtain ⟨A, B, hL, hins, hA, hB⟩ := insert_before_first_ge_split cmp h m L
      refine ⟨p :: A, B, by simp [hL], ?_, ?_, hB⟩
      · simp [insert_before_first_ge, hcmp, hins]
      · intro x hx
        rcases List.mem_cons.mp hx with e | hxA
        · subst e; exact hcmp
        · exact hA x hxA

theorem insert_before_first_ge_sorted (cmp : file_t → file_t → Int) (h : Heap) (m : Ptr)
    (htot : ∀ p, ¬ cmp (h m) (h p) ≤ 0 → cmp (h p) (h m) ≤ 0)
    (htr : ∀ p x, cmp (h m) (h p) ≤ 0 → cmp (h p) (h x) ≤ 0 → cmp (h m) (h x) ≤ 0) :
    ∀ L : List Ptr, chain_sorted cmp h L →
      chain_sorted cmp h (insert_before_first_ge cmp h m L)
  | [], _ => by simp [chain_sorted, insert_before_first_ge]
  | p :: L, hs => by
    unfold chain_sorted at hs ⊢
    have hs' := List.pairwise_cons.mp hs
    by_cases hcmp : cmp (h m) (h p) ≤ 0
    · simp only [insert_before_first_ge, hcmp, if_true]
      refine List.pairwise_cons.mpr ⟨?_, hs⟩
      intro x hx
      rcases List.mem_cons.mp hx with e | hxL
      · subst e; exact hcmp
      · exact htr p x hcmp (hs'.1 x hxL)
    · simp only [insert_before_first_ge, hcmp, if_false]
      refine List.pairwise_cons.mpr ⟨?_, insert_before_first_ge_sorted cmp h m htot htr L hs'.2⟩
      intro x hx
      have hx' := (insert_before_first_ge_perm cmp h m L).mem_iff.mp hx
      rcases List.mem_cons.mp hx' with e | hxL
      · subst e; exact htot p hcmp
      · exact hs'.1 x hxL

theorem comparef_of_congr (flags : Flags) (o : ordertype_t) {h h' : Heap}
    (hun : ∀ x, (h' x).unlinked = (h x).unlinked) (a b : Ptr) :
    comparef_of flags o (h' a) (h' b) = comparef_of flags o (h a) (h b) := by
  rw [comparef_of_unlinked flags o (h' a), comparef_of_unlinked flags o (h a), hun a, hun b]

theorem chain_sorted_congr (flags : Flags) (o : ordertype_t) {h h' : Heap}
    (hun : ∀ x, (h' x).unlinked = (h x).unlinked) (L : List Ptr)
    (hs : chain_sorted (comparef_of flags o) h L) :
    chain_sorted (comparef_of flags o) h' L := by
  unfold chain_sorted at hs ⊢
  refine hs.imp ?_
  intro a b hab
  rw [comparef_of_congr flags o hun]
  exact hab

theorem registerpair_sorted (flags : Flags) (o : ordertype_t) (h : Heap)
    (q m : Ptr) (S : List Ptr) (fuel : Nat)
    (hc : Chain h (some q) (q :: S))
    (hmd : (h m).duplicates = none) (hm : m ∉ q :: S) (hf : S.length < fuel)
    (hs : chain_sorted (comparef_of flags o) h (q :: S)) :
    ∃ h' ml' R, registerpair (comparef_of flags o) fuel h q m = some (h', ml') ∧
      Chain h' (some ml') (ml' :: R) ∧
      chain_sorted (comparef_of flags o) h' (ml' :: R) := by
  obtain ⟨h', ml', R, hrun, hins, hch, -, -, -, -, hun⟩ :=
    registerpair_spec (comparef_of flags o) m q S fuel h hc hm hmd hf
  refine ⟨h', ml', R, hrun, hch, ?_⟩
  have hun0 : ∀ x, (set_hasdupes h q 1 x).unlinked = (h x).unlinked :=
    fun x => set_hasdupes_unlinked h q 1 x
  have hs0 := chain_sorted_congr flags o hun0 _ hs
  have hs1 := insert_before_first_ge_sorted (comparef_of flags o) (set_hasdupes h q 1) m
    (fun p hp => comparef_of_total flags o _ _ hp)
    (fun p x h1 h2 => comparef_of_trans flags o _ _ _ h1 h2) _ hs0
  rw [hins] at hs1
  refine chain_sorted_congr flags o ?_ _ hs1
  intro x
  rw [hun x, hun0 x]

/-! ## md5cmp and the digest stages of checkmatch -/

theorem md5cmp_from_eq_zero (a b : md5) :
    ∀ n x, md5cmp_from a b n x = 0 → ∀ i, x ≤ i → i < x + n → a.getD i 0 = b.getD i 0
  | 0, x, _, i, h1, h2 => by omega
  | n + 1, x, h0, i, h1, h2 => by
    unfold md5cmp_from at h0
    by_cases hlt : a.getD x 0 < b.getD x 0
    · rw [if_pos hlt] at h0; omega
    · by_cases hgt : a.getD x 0 > b.getD x 0
      · rw [if_neg hlt, if_pos hgt] at h0; omega
      · rw [if_neg hlt, if_neg hgt] at h0
        have hx : a.getD x 0 = b.getD x 0 := by omega
        rcases Nat.eq_or_lt_of_le h1 with e | hlt'
        · subst e; exact hx
        · exact md5cmp_from_eq_zero a b n (x + 1) h0 i hlt' (by omega)

theorem md5cmp_eq_zero (a b : md5) (h0 : md5cmp a b = 0) : md5_eq a b := by
  intro i hi
  exact md5cmp_from_eq_zero a b MD5_DIGEST_LENGTH 0 h0 i (Nat.zero_le _) (by omega)

theorem md5_eq_symm {a b : md5} (h : md5_eq a b) : md5_eq b a :=
  fun x hx => (h x hx).symm

theorem md5_eq_trans {a b c : md5} (h1 : md5_eq a b) (h2 : md5_eq b c) : md5_eq a c :=
  fun x hx => (h1 x hx).trans (h2 x hx)

theorem digests_equal_symm {o1 o2 : Option md5} (h : digests_equal o1 o2) :
    digests_equal o2 o1 := by
  obtain ⟨a, b, h1, h2, h3⟩ := h
  exact ⟨b, a, h2, h1, md5_eq_symm h3⟩

theorem digests_equal_trans {o1 o2 o3 : Option md5} (h : digests_equal o1 o2)
    (h' : digests_equal o2 o3) : digests_equal o1 o3 := by
  obtain ⟨a, b, h1, h2, h3⟩ := h
  obtain ⟨b', c, h4, h5, h6⟩ := h'
  rw [h2] at h4
  cases h4
  exact ⟨a, c, h1, h5, md5_eq_trans h3 h6⟩

theorem Matched_symm {f g : file_t} (h : Matched f g) : Matched g f :=
  ⟨h.1.symm, digests_equal_symm h.2.1, digests_equal_symm h.2.2⟩

theorem Matched_trans {f g k : file_t} (h : Matched f g) (h' : Matched g k) : Matched f k :=
  ⟨h.1.trans h'.1, digests_equal_trans h.2.1 h'.2.1, digests_equal_trans h.2.2 h'.2.2⟩

theorem Matched_populated {f g : file_t} (h : Matched f g) :
    file_t.crcpartial f ≠ none ∧ f.crcsignature ≠ none := by
  obtain ⟨-, ⟨a, b, h1, -, -⟩, ⟨c, d, h2, -, -⟩⟩ := h
  rw [h1, h2]
  exact ⟨by simp, by simp⟩

theorem DigestStep_refl (h : Heap) : DigestStep h h :=
  ⟨fun _ => rfl, fun _ _ _ => rfl⟩

theorem DigestStep_trans {h1 h2 h3 : Heap} (a : DigestStep h1 h2) (b : DigestStep h2 h3) :
    DigestStep h1 h3 := by
  refine ⟨fun x => (b.1 x).trans (a.1 x), ?_⟩
  intro x hp hs
  have e := a.2 x hp hs
  rw [← e]
  refine b.2 x ?_ ?_
  · rw [e]; exact hp
  · rw [e]; exact hs

@[simp] theorem crcpartial_assign_undigested (h : Heap) (p : Ptr) (v : Option md5) (q : Ptr) :
    (crcpartial_assign h p v q).undigested = (h q).undigested := by
  unfold crcpartial_assign; split <;> rfl

@[simp] theorem set_crcsignature_undigested (h : Heap) (p : Ptr) (v : Option md5) (q : Ptr) :
    (set_crcsignature h p v q).undigested = (h q).undigested := by
  unfold set_crcsignature; split <;> rfl

theorem crcpartial_assign_ne (h : Heap) (p : Ptr) (v : Option md5) (q : Ptr) (hq : q ≠ p) :
    crcpartial_assign h p v q = h q := by
  simp [crcpartial_assign, hq]

theorem set_crcsignature_ne (h : Heap) (p : Ptr) (v : Option md5) (q : Ptr) (hq : q ≠ p) :
    set_crcsignature h p v q = h q := by
  simp [set_crcsignature, hq]

@[simp] theorem crcpartial_assign_self (h : Heap) (p : Ptr) (v : Option md5) :
    file_t.crcpartial (crcpartial_assign h p v p) = v := by
  simp [crcpartial_assign]

@[simp] theorem set_crcsignature_self (h : Heap) (p : Ptr) (v : Option md5) :
    (set_crcsignature h p v p).crcsignature = v := by
  simp [set_crcsignature]

@[simp] theorem crcpartial_after_set_crcsignature (h : Heap) (p : Ptr) (v : Option md5) (q : Ptr) :
    file_t.crcpartial (set_crcsignature h p v q) = file_t.crcpartial (h q) := by
  unfold set_crcsignature; split <;> rfl

theorem checkmatch_partial_fill_spec {DB : Type} (E : Env DB) (flags : Flags) (p : Ptr)
    (s : State DB) :
    (∀ x, ((checkmatch_partial_fill E flags p s).1.heap x).undigested = (s.heap x).undigested) ∧
    (∀ x, file_t.crcpartial (s.heap x) ≠ none →
      (checkmatch_partial_fill E flags p s).1.heap x = s.heap x) ∧
    ((checkmatch_partial_fill E flags p s).2 = true →
      file_t.crcpartial ((checkmatch_partial_fill E flags p s).1.heap p) ≠ none) := by
  by_cases hp : file_t.crcpartial (s.heap p) = none
  · have hne : ∀ x, x ≠ p → (checkmatch_partial_fill E flags p s).1.heap x = s.heap x := by
      intro x hx
      unfold checkmatch_partial_fill
      simp only [hp, if_true]
      split_ifs <;> simp [crcpartial_assign_ne _ _ _ _ hx, set_crcsignature_ne _ _ _ _ hx]
    refine ⟨?_, ?_, ?_⟩
    · intro x
      unfold checkmatch_partial_fill
      simp only [hp, if_true]
      split_ifs <;> simp
    · intro x hx
      have hxp : x ≠ p := by
        intro e; subst e; exact hx hp
      exact hne x hxp
    · unfold checkmatch_partial_fill
      simp only [hp, if_true]
      split_ifs <;> simp_all
  · refine ⟨?_, ?_, ?_⟩
    · intro x; simp [checkmatch_partial_fill, hp]
    · intro x _; simp [checkmatch_partial_fill, hp]
    · intro _; simp [checkmatch_partial_fill, hp]

theorem checkmatch_signature_fill_spec {DB : Type} (E : Env DB) (flags : Flags) (p : Ptr)
    (s : State DB) :
    (∀ x, ((checkmatch_signature_fill E flags p s).1.heap x).undigested
      = (s.heap x).undigested) ∧
    (∀ x, (s.heap x).crcsignature ≠ none →
      (checkmatch_signature_fill E flags p s).1.heap x = s.heap x) ∧
    (∀ x, file_t.crcpartial ((checkmatch_signature_fill E flags p s).1.heap x)
      = file_t.crcpartial (s.heap x)) ∧
    ((checkmatch_signature_fill E flags p s).2 = true →
      ((checkmatch_signature_fill E flags p s).1.heap p).crcsignature ≠ none) := by
  by_cases hp : (s.heap p).crcsignature = none
  · have hne : ∀ x, x ≠ p → (checkmatch_signature_fill E flags p s).1.heap x = s.heap x := by
      intro x hx
      unfold checkmatch_signature_fill
      simp only [hp, if_true]
      split_ifs <;> simp [set_crcsignature_ne _ _ _ _ hx]
    refine ⟨?_, ?_, ?_, ?_⟩
    · intro x
      unfold checkmatch_signature_fill
      simp only [hp, if_true]
      split_ifs <;> simp
    · intro x hx
      have hxp : x ≠ p := by
        intro e; subst e; exact hx hp
      exact hne x hxp
    · intro x
      unfold checkmatch_signature_fill
      simp only [hp, if_true]
      split_ifs <;> simp
    · unfold checkmatch_signature_fill
      simp only [hp, if_true]
      split_ifs <;> simp_all
  · refine ⟨?_, ?_, ?_, ?_⟩
    · intro x; simp [checkmatch_signature_fill, hp]
    · intro x _; simp [checkmatch_signature_fill, hp]
    · intro x; simp [checkmatch_signature_fill, hp]
    · intro _; simp [checkmatch_signature_fill, hp]

theorem SigFrame_trans {h1 h2 h3 : Heap} (a : SigFrame h1 h2) (b : SigFrame h2 h3) :
    SigFrame h1 h3 := by
  refine ⟨fun x => (b.1 x).trans (a.1 x), ?_, fun x => (b.2.2 x).trans (a.2.2 x)⟩
  intro x hs
  have e := a.2.1 x hs
  rw [← e]
  refine b.2.1 x ?_
  rw [e]; exact hs

theorem PartFrame_trans {h1 h2 h3 : Heap} (a : PartFrame h1 h2) (b : PartFrame h2 h3) :
    PartFrame h1 h3 := by
  refine ⟨fun x => (b.1 x).trans (a.1 x), ?_⟩
  intro x hs
  have e := a.2 x hs
  rw [← e]
  refine b.2 x ?_
  rw [e]; exact hs

theorem SigFrame_DigestStep {h h' : Heap} (a : SigFrame h h') : DigestStep h h' :=
  ⟨a.1, fun x _ hs => a.2.1 x hs⟩

theorem PartFrame_DigestStep {h h' : Heap} (a : PartFrame h h') : DigestStep h h' :=
  ⟨a.1, fun x hp _ => a.2 x hp⟩

theorem checkmatch_full_spec {DB : Type} (E : Env DB) (flags : Flags) (s : State DB)
    (ct file : Ptr) :
    checkmatch_full E flags s ct file ≠ Compared.fault ∧
    (∀ s', checkmatch_full E flags s ct file = Compared.null s' → SigFrame s.heap s'.heap) ∧
    (∀ s' c, checkmatch_full E flags s ct file = Compared.result s' c →
      SigFrame s.heap s'.heap ∧
      (c = 0 → digests_equal (s'.heap file).crcsignature (s'.heap ct).crcsignature)) := by
  have h1 := checkmatch_signature_fill_spec E flags ct s
  have h2 := checkmatch_signature_fill_spec E flags file (checkmatch_signature_fill E flags ct s).1
  have f1 : SigFrame s.heap (checkmatch_signature_fill E flags ct s).1.heap :=
    ⟨h1.1, h1.2.1, h1.2.2.1⟩
  have f2 : SigFrame (checkmatch_signature_fill E flags ct s).1.heap
      (checkmatch_signature_fill E flags file (checkmatch_signature_fill E flags ct s).1).1.heap :=
    ⟨h2.1, h2.2.1, h2.2.2.1⟩
  have f12 := SigFrame_trans f1 f2
  unfold checkmatch_full
  simp only []
  cases hr1 : (checkmatch_signature_fill E flags ct s).2
  · simp only [Bool.not_false, if_true]
    refine ⟨by simp, ?_, by simp⟩
    intro s' hs'
    cases hs'
    exact f1
  · cases hr2 : (checkmatch_signature_fill E flags file (checkmatch_signature_fill E flags ct s).1).2
    · simp only [Bool.not_false, Bool.not_true, if_true]
      refine ⟨by simp, ?_, by simp⟩
      intro s' hs'
      simp at hs'
      cases hs'
      exact f12
    · have ha := h2.2.2.2 hr2
      have hb0 := h1.2.2.2 hr1
      have hb : ((checkmatch_signature_fill E flags file
          (checkmatch_signature_fill E flags ct s).1).1.heap ct).crcsignature ≠ none := by
        rw [h2.2.1 ct hb0]; exact hb0
      obtain ⟨a, ha'⟩ := Option.ne_none_iff_exists'.mp ha
      obtain ⟨b, hb'⟩ := Option.ne_none_iff_exists'.mp hb
      simp only [Bool.not_true, ha', hb']
      refine ⟨by simp, by simp, ?_⟩
      intro s' c hs'
      simp at hs'
      obtain ⟨e1, e2⟩ := hs'
      subst e1
      refine ⟨f12, ?_⟩
      intro hc
      refine ⟨a, b, ha', hb', md5cmp_eq_zero a b ?_⟩
      rw [e2]; exact hc

theorem core_of_undigested {a b : file_t} (h : a.undigested = b.undigested) :
    a.core = b.core := by
  have := congrArg file_t.unlinked h
  exact this

theorem core_of_unlinked {a b : file_t} (h : a.unlinked = b.unlinked) :
    a.core = b.core := by
  have := congrArg file_t.undigested h
  exact this

theorem core_size {a b : file_t} (h : a.core = b.core) : a.size = b.size := by
  have := congrArg file_t.size h
  exact this

theorem core_d_name {a b : file_t} (h : a.core = b.core) : a.d_name = b.d_name := by
  have := congrArg file_t.d_name h
  exact this

theorem core_inode {a b : file_t} (h : a.core = b.core) : a.inode = b.inode := by
  have := congrArg file_t.inode h
  exact this

theorem core_device {a b : file_t} (h : a.core = b.core) : a.device = b.device := by
  have := congrArg file_t.device h
  exact this

theorem core_next {a b : file_t} (h : a.core = b.core) : a.next = b.next := by
  have := congrArg file_t.next h
  exact this

theorem undigested_hasdupes {a b : file_t} (h : a.undigested = b.undigested) :
    a.hasdupes = b.hasdupes := by
  have := congrArg file_t.hasdupes h
  exact this

theorem undigested_duplicates {a b : file_t} (h : a.undigested = b.undigested) :
    a.duplicates = b.duplicates := by
  have := congrArg file_t.duplicates h
  exact this

theorem crcpartial_of_unlinked {a b : file_t} (h : a.unlinked = b.unlinked) :
    file_t.crcpartial a = file_t.crcpartial b := by
  have := congrArg file_t.crcpartial h
  exact this

theorem crcsignature_of_unlinked {a b : file_t} (h : a.unlinked = b.unlinked) :
    a.crcsignature = b.crcsignature := by
  have := congrArg file_t.crcsignature h
  exact this

theorem checkmatch_compare_spec {DB : Type} (E : Env DB) (flags : Flags) (s : State DB)
    (ct file : Ptr) :
    checkmatch_compare E flags s ct file ≠ Compared.fault ∧
    (∀ s', checkmatch_compare E flags s ct file = Compared.null s' →
      DigestStep s.heap s'.heap) ∧
    (∀ s' c, checkmatch_compare E flags s ct file = Compared.result s' c →
      DigestStep s.heap s'.heap ∧
      (c = 0 → Matched (s'.heap file) (s'.heap ct) ∧
        (flags.F_PERMISSIONS = true →
          same_permissions E (s'.heap file).d_name (s'.heap ct).d_name ≠ 0))) := by
  unfold checkmatch_compare
  by_cases hlt : (s.heap file).size < (s.heap ct).size
  · simp only [hlt, if_true]
    refine ⟨by simp, by simp, ?_⟩
    intro s' c hs'
    simp at hs'
    obtain ⟨e1, e2⟩ := hs'
    subst e1
    exact ⟨DigestStep_refl _, fun hc => by omega⟩
  · by_cases hgt : (s.heap file).size > (s.heap ct).size
    · simp only [hlt, hgt, if_true, if_false]
      refine ⟨by simp, by simp, ?_⟩
      intro s' c hs'
      simp at hs'
      obtain ⟨e1, e2⟩ := hs'
      subst e1
      exact ⟨DigestStep_refl _, fun hc => by omega⟩
    · have hsz : (s.heap file).size = (s.heap ct).size := by omega
      by_cases hperm : (flags.F_PERMISSIONS &&
          same_permissions E (s.heap file).d_name (s.heap ct).d_name == 0) = true
      · simp only [hlt, hgt, hperm, if_true, if_false]
        refine ⟨by simp, by simp, ?_⟩
        intro s' c hs'
        simp at hs'
        obtain ⟨e1, e2⟩ := hs'
        subst e1
        exact ⟨DigestStep_refl _, fun hc => by omega⟩
      · simp only [hlt, hgt, hperm, if_false]
        have hperm' : flags.F_PERMISSIONS = true →
            same_permissions E (s.heap file).d_name (s.heap ct).d_name ≠ 0 := by
          intro hf hz
          apply hperm
          simp [hf, hz]
        have h1 := checkmatch_partial_fill_spec E flags ct s
        have h2 := checkmatch_partial_fill_spec E flags file (checkmatch_partial_fill E flags ct s).1
        have f1 : PartFrame s.heap (checkmatch_partial_fill E flags ct s).1.heap := ⟨h1.1, h1.2.1⟩
        have f2 : PartFrame (checkmatch_partial_fill E flags ct s).1.heap
            (checkmatch_partial_fill E flags file (checkmatch_partial_fill E flags ct s).1).1.heap :=
          ⟨h2.1, h2.2.1⟩
        have f12 := PartFrame_trans f1 f2
        cases hr1 : (checkmatch_partial_fill E flags ct s).2
        · simp only [Bool.not_false, if_true]
          refine ⟨by simp, ?_, by simp⟩
          intro s' hs'
          cases hs'
          exact PartFrame_DigestStep f1
        · cases hr2 : (checkmatch_partial_fill E flags file (checkmatch_partial_fill E flags ct s).1).2
          · simp only [Bool.not_false, Bool.not_true, if_true]
            refine ⟨by simp, ?_, by simp⟩
            intro s' hs'
            simp at hs'
            cases hs'
            exact PartFrame_DigestStep f12
          · have ha := h2.2.2 hr2
            have hb0 := h1.2.2 hr1
            have hb : file_t.crcpartial ((checkmatch_partial_fill E flags file
                (checkmatch_partial_fill E flags ct s).1).1.heap ct) ≠ none := by
              rw [h2.2.1 ct hb0]; exact hb0
            obtain ⟨a, ha'⟩ := Option.ne_none_iff_exists'.mp ha
            obtain ⟨b, hb'⟩ := Option.ne_none_iff_exists'.mp hb
            simp only [Bool.not_true, ha', hb']
            by_cases hcmp : md5cmp a b = 0
            · simp only [hcmp, if_true]
              have h3 := checkmatch_full_spec E flags
                (checkmatch_partial_fill E flags file (checkmatch_partial_fill E flags ct s).1).1
                ct file
              refine ⟨by simpa using h3.1, ?_, ?_⟩
              · intro s' hs'
                simp at hs'
                exact DigestStep_trans (PartFrame_DigestStep f12)
                  (SigFrame_DigestStep (h3.2.1 s' hs'))
              · intro s' c hs'
                simp at hs'
                obtain ⟨hfr, hdig⟩ := h3.2.2 s' c hs'
                have hstep := DigestStep_trans (PartFrame_DigestStep f12)
                  (SigFrame_DigestStep hfr)
                refine ⟨hstep, ?_⟩
                intro hc
                have e1 : (s'.heap file).size = (s.heap file).size :=
                  core_size (core_of_undigested (hstep.1 file))
                have e2 : (s'.heap ct).size = (s.heap ct).size :=
                  core_size (core_of_undigested (hstep.1 ct))
                have e3 : (s'.heap file).d_name = (s.heap file).d_name :=
                  core_d_name (core_of_undigested (hstep.1 file))
                have e4 : (s'.heap ct).d_name = (s.heap ct).d_name :=
                  core_d_name (core_of_undigested (hstep.1 ct))
                refine ⟨⟨?_, ⟨a, b, ?_, ?_, md5cmp_eq_zero a b hcmp⟩, hdig hc⟩, ?_⟩
                · rw [e1, e2]; exact hsz
                · rw [hfr.2.2 file]; exact ha'
                · rw [hfr.2.2 ct]; exact hb'
                · rw [e3, e4]; exact hperm'
            · simp only [hcmp, if_false]
              refine ⟨by simp, by simp, ?_⟩
              intro s' c hs'
              simp at hs'
              obtain ⟨e1, e2⟩ := hs'
              subst e1
              refine ⟨PartFrame_DigestStep f12, ?_⟩
              intro hc
              rw [hc] at e2
              exact absurd e2 hcmp

/-! ## The identity pre-check -/

theorem is_same_file_symm {DB : Type} (E : Env DB) (a b : file_t) :
    is_same_file E a b = is_same_file E b a := by
  unfold is_same_file
  have hs := strcmp_antisymm (E.basename a.d_name) (E.basename b.d_name)
  by_cases h1 : a.device ≠ b.device ∨ a.inode ≠ b.inode
  · have h1' : b.device ≠ a.device ∨ b.inode ≠ a.inode := by
      rcases h1 with h | h
      · exact Or.inl (fun e => h e.symm)
      · exact Or.inr (fun e => h e.symm)
    rw [if_pos h1, if_pos h1']
  · have h1' : ¬ (b.device ≠ a.device ∨ b.inode ≠ a.inode) := by
      intro h
      apply h1
      rcases h with h | h
      · exact Or.inl (fun e => h e.symm)
      · exact Or.inr (fun e => h e.symm)
    rw [if_neg h1, if_neg h1']
    by_cases h2 : strcmp (E.basename a.d_name) (E.basename b.d_name) ≠ 0
    · have h2' : strcmp (E.basename b.d_name) (E.basename a.d_name) ≠ 0 := by omega
      rw [if_pos h2, if_pos h2']
    · have h2' : ¬ strcmp (E.basename b.d_name) (E.basename a.d_name) ≠ 0 := by omega
      rw [if_neg h2, if_neg h2']
      cases hA : E.stat (E.dirname a.d_name) with
      | none => cases hB : E.stat (E.dirname b.d_name) <;> rfl
      | some da =>
        cases hB : E.stat (E.dirname b.d_name) with
        | none => rfl
        | some db =>
          simp only []
          by_cases h3 : da.st_dev ≠ db.st_dev ∨ da.st_ino ≠ db.st_ino
          · have h3' : db.st_dev ≠ da.st_dev ∨ db.st_ino ≠ da.st_ino := by
              rcases h3 with h | h
              · exact Or.inl (fun e => h e.symm)
              · exact Or.inr (fun e => h e.symm)
            rw [if_pos h3, if_pos h3']
          · have h3' : ¬ (db.st_dev ≠ da.st_dev ∨ db.st_ino ≠ da.st_ino) := by
              intro h
              apply h3
              rcases h with h | h
              · exact Or.inl (fun e => h e.symm)
              · exact Or.inr (fun e => h e.symm)
            rw [if_neg h3, if_neg h3']

theorem Ident_symm {DB : Type} (E : Env DB) (flags : Flags) (f g : file_t)
    (h : Ident E flags f g) : Ident E flags g f := by
  unfold Ident at h ⊢
  split_ifs at h ⊢
  · rw [is_same_file_symm]; exact h
  · exact ⟨h.1.symm, h.2.symm⟩

theorem Ident_core {DB : Type} (E : Env DB) (flags : Flags) {a a' b b' : file_t}
    (ha : a'.core = a.core) (hb : b'.core = b.core) (h : Ident E flags a' b') :
    Ident E flags a b := by
  unfold Ident is_same_file at h ⊢
  rw [core_d_name ha, core_d_name hb, core_inode ha, core_inode hb,
    core_device ha, core_device hb] at h
  exact h

theorem is_hardlink_loop_total (h : Heap) (file : Ptr) :
    ∀ (S : List Ptr) (d : Ptr) (fuel : Nat), Chain h (some d) (d :: S) → S.length < fuel →
      ∃ v, is_hardlink_loop h file fuel (some d) = some v
  | [], d, fuel, hc, hf => by
    obtain ⟨fuel, rfl⟩ : ∃ k, fuel = k + 1 := ⟨fuel - 1, by omega⟩
    have hd : (h d).duplicates = none := hc.2
    unfold is_hardlink_loop
    split_ifs
    · exact ⟨1, rfl⟩
    · rw [hd]; exact ⟨0, rfl⟩
  | e :: S, d, fuel, hc, hf => by
    obtain ⟨fuel, rfl⟩ : ∃ k, fuel = k + 1 := ⟨fuel - 1, by omega⟩
    have hd : (h d).duplicates = some e := hc.2.1
    unfold is_hardlink_loop
    split_ifs
    · exact ⟨1, rfl⟩
    · rw [hd]
      exact is_hardlink_loop_total h file S e fuel ⟨rfl, hc.2.2⟩ (by simp at hf; omega)

theorem has_same_file_loop_total {DB : Type} (E : Env DB) (h : Heap) (file : Ptr) :
    ∀ (S : List Ptr) (d : Ptr) (fuel : Nat), Chain h (some d) (d :: S) → S.length < fuel →
      ∃ v, has_same_file_loop E h file fuel (some d) = some v
  | [], d, fuel, hc, hf => by
    obtain ⟨fuel, rfl⟩ : ∃ k, fuel = k + 1 := ⟨fuel - 1, by omega⟩
    have hd : (h d).duplicates = none := hc.2
    unfold has_same_file_loop
    split_ifs
    · exact ⟨1, rfl⟩
    · rw [hd]; exact ⟨0, rfl⟩
  | e :: S, d, fuel, hc, hf => by
    obtain ⟨fuel, rfl⟩ : ∃ k, fuel = k + 1 := ⟨fuel - 1, by omega⟩
    have hd : (h d).duplicates = some e := hc.2.1
    unfold has_same_file_loop
    split_ifs
    · exact ⟨1, rfl⟩
    · rw [hd]
      exact has_same_file_loop_total E h file S e fuel ⟨rfl, hc.2.2⟩ (by simp at hf; omega)

theorem is_hardlink_loop_zero (h : Heap) (file : Ptr) :
    ∀ (fuel : Nat) (d : Ptr) (L : List Ptr), is_hardlink_loop h file fuel (some d) = some 0 →
      Chain h (some d) L →
      ∀ x ∈ L, ¬ ((h file).inode = (h x).inode ∧ (h file).device = (h x).device)
  | 0, _, _, h0, _ => by simp [is_hardlink_loop] at h0
  | fuel + 1, d, [], _, hc => by
    have : some d = none := hc
    cases this
  | fuel + 1, d, p :: L, h0, hc => by
    have hpd : d = p := by
      have := hc.1
      cases this; rfl
    subst hpd
    unfold is_hardlink_loop at h0
    by_cases hid : (h file).inode = (h d).inode ∧ (h file).device = (h d).device
    · rw [if_pos hid] at h0
      cases h0
    · rw [if_neg hid] at h0
      intro x hx
      rcases List.mem_cons.mp hx with e | hxL
      · subst e; exact hid
      · cases hdd : (h d).duplicates with
        | none =>
          have hc2 := hc.2
          rw [hdd] at hc2
          cases L with
          | nil => simp at hxL
          | cons y L => exact absurd hc2.1 (by simp)
        | some e =>
          rw [hdd] at h0
          have hc2 := hc.2
          rw [hdd] at hc2
          exact is_hardlink_loop_zero h file fuel e L h0 hc2 x hxL

theorem has_same_file_loop_zero {DB : Type} (E : Env DB) (h : Heap) (file : Ptr) :
    ∀ (fuel : Nat) (d : Ptr) (L : List Ptr),
      has_same_file_loop E h file fuel (some d) = some 0 →
      Chain h (some d) L → ∀ x ∈ L, ¬ is_same_file E (h x) (h file) ≠ 0
  | 0, _, _, h0, _ => by simp [has_same_file_loop] at h0
  | fuel + 1, d, [], _, hc => by
    have : some d = none := hc
    cases this
  | fuel + 1, d, p :: L, h0, hc => by
    have hpd : d = p := by
      have := hc.1
      cases this; rfl
    subst hpd
    unfold has_same_file_loop at h0
    by_cases hid : is_same_file E (h d) (h file) ≠ 0
    · rw [if_pos hid] at h0
      cases h0
    · rw [if_neg hid] at h0
      intro x hx
      rcases List.mem_cons.mp hx with e | hxL
      · subst e; exact hid
      · cases hdd : (h d).duplicates with
        | none =>
          have hc2 := hc.2
          rw [hdd] at hc2
          cases L with
          | nil => simp at hxL
          | cons y L => exact absurd hc2.1 (by simp)
        | some e =>
          rw [hdd] at h0
          have hc2 := hc.2
          rw [hdd] at hc2
          exact has_same_file_loop_zero E h file fuel e L h0 hc2 x hxL

theorem checkmatch_precheck_total {DB : Type} (E : Env DB) (flags : Flags) (fuel : Nat)
    (h : Heap) (ct file : Ptr)
    (hok : (h ct).hasdupes ≠ 0 → ∃ d S, Chain h (some ct) (ct :: d :: S) ∧ S.length < fuel) :
    ∃ v, checkmatch_precheck E flags fuel h ct file = some v := by
  unfold checkmatch_precheck
  split_ifs
  · unfold has_same_file
    split_ifs with h1 h2
    · exact ⟨1, rfl⟩
    · obtain ⟨d, S, hc, hf⟩ := hok h2
      have hd : (h ct).duplicates = some d := hc.2.1
      rw [hd]
      exact has_same_file_loop_total E h file S d fuel ⟨rfl, hc.2.2⟩ hf
    · exact ⟨0, rfl⟩
  · unfold is_hardlink
    split_ifs with h1 h2
    · exact ⟨1, rfl⟩
    · obtain ⟨d, S, hc, hf⟩ := hok h2
      have hd : (h ct).duplicates = some d := hc.2.1
      rw [hd]
      exact is_hardlink_loop_total h file S d fuel ⟨rfl, hc.2.2⟩ hf
    · exact ⟨0, rfl⟩

theorem checkmatch_precheck_zero {DB : Type} (E : Env DB) (flags : Flags) (fuel : Nat)
    (h : Heap) (ct file : Ptr) (h0 : checkmatch_precheck E flags fuel h ct file = some 0)
    (L : List Ptr) (hc : Chain h (some ct) L) (hlone : (h ct).hasdupes = 0 → L = [ct]) :
    ∀ x ∈ L, ¬ Ident E flags (h file) (h x) := by
  cases L with
  | nil =>
    have : some ct = none := hc
    cases this
  | cons p S =>
    have hpd : ct = p := by
      have := hc.1
      cases this; rfl
    subst hpd
    unfold checkmatch_precheck at h0
    unfold Ident
    by_cases hH : flags.F_CONSIDERHARDLINKS = true
    · simp only [hH, if_true] at h0 ⊢
      unfold has_same_file at h0
      by_cases h1 : is_same_file E (h ct) (h file) ≠ 0
      · rw [if_pos h1] at h0; cases h0
      · rw [if_neg h1] at h0
        intro x hx
        rcases List.mem_cons.mp hx with e | hxS
        · subst e; exact h1
        · by_cases h2 : (h ct).hasdupes ≠ 0
          · rw [if_pos h2] at h0
            cases S with
            | nil => simp at hxS
            | cons d S =>
              have hd : (h ct).duplicates = some d := hc.2.1
              rw [hd] at h0
              exact has_same_file_loop_zero E h file fuel d (d :: S) h0 ⟨rfl, hc.2.2⟩ x hxS
          · have := hlone (by omega)
            simp at this
            subst this
            simp at hxS
    · simp only [hH] at h0 ⊢
      simp only [Bool.false_eq_true, if_false] at h0 ⊢
      unfold is_hardlink at h0
      by_cases h1 : (h file).inode = (h ct).inode ∧ (h file).device = (h ct).device
      · rw [if_pos h1] at h0; cases h0
      · rw [if_neg h1] at h0
        intro x hx
        rcases List.mem_cons.mp hx with e | hxS
        · subst e; exact h1
        · by_cases h2 : (h ct).hasdupes ≠ 0
          · rw [if_pos h2] at h0
            cases S with
            | nil => simp at hxS
            | cons d S =>
              have hd : (h ct).duplicates = some d := hc.2.1
              rw [hd] at h0
              exact is_hardlink_loop_zero h file fuel d (d :: S) h0 ⟨rfl, hc.2.2⟩ x hxS
          · have := hlone (by omega)
            simp at this
            subst this
            simp at hxS

/-! ## The search tree -/

theorem file_at_mem : ∀ (t : filetree_t) (path : List Bool) (peer : Ptr),
    t.file_at path = some peer → peer ∈ t.files
  | filetree_t.null, _, _, h => by simp [filetree_t.file_at] at h
  | filetree_t.node f l r, [], peer, h => by
    simp [filetree_t.file_at] at h
    simp [filetree_t.files, h]
  | filetree_t.node f l r, false :: path, peer, h => by
    have := file_at_mem l path peer h
    simp [filetree_t.files, this]
  | filetree_t.node f l r, true :: path, peer, h => by
    have := file_at_mem r path peer h
    simp [filetree_t.files, this]

theorem set_file_at_files : ∀ (t : filetree_t) (path : List Bool) (peer v : Ptr),
    t.file_at path = some peer →
    ∃ X, List.Perm t.files (peer :: X) ∧ List.Perm (t.set_file_at path v).files (v :: X)
  | filetree_t.null, _, _, _, h => by simp [filetree_t.file_at] at h
  | filetree_t.node f l r, [], peer, v, h => by
    simp [filetree_t.file_at] at h
    subst h
    exact ⟨l.files ++ r.files, List.Perm.refl _, List.Perm.refl _⟩
  | filetree_t.node f l r, false :: path, peer, v, h => by
    obtain ⟨X, h1, h2⟩ := set_file_at_files l path peer v h
    refine ⟨f :: (X ++ r.files), ?_, ?_⟩
    · simp only [filetree_t.files]
      exact ((h1.append_right r.files).cons f).trans (List.Perm.swap peer f _)
    · simp only [filetree_t.files, filetree_t.set_file_at]
      exact ((h2.append_right r.files).cons f).trans (List.Perm.swap v f _)
  | filetree_t.node f l r, true :: path, peer, v, h => by
    obtain ⟨X, h1, h2⟩ := set_file_at_files r path peer v h
    refine ⟨f :: (l.files ++ X), ?_, ?_⟩
    · simp only [filetree_t.files]
      refine (List.Perm.cons f ?_).trans (List.Perm.swap peer f _)
      exact (List.Perm.append_left l.files h1).trans List.perm_middle
    · simp only [filetree_t.files, filetree_t.set_file_at]
      refine (List.Perm.cons f ?_).trans (List.Perm.swap v f _)
      exact (List.Perm.append_left l.files h2).trans List.perm_middle

theorem PrecheckOK_step {h h' : Heap} (hu : ∀ x, (h' x).undigested = (h x).undigested)
    (fuel : Nat) (T : List Ptr) (hok : PrecheckOK h fuel T) : PrecheckOK h' fuel T := by
  intro q hq hd
  rw [undigested_hasdupes (hu q)] at hd
  obtain ⟨d, S, hc, hf⟩ := hok q hq hd
  exact ⟨d, S, Chain_congr _ _ (fun x _ => undigested_duplicates (hu x)) hc, hf⟩

theorem PrecheckOK_sub {h : Heap} {fuel : Nat} {T T' : List Ptr} (hsub : ∀ x ∈ T', x ∈ T)
    (hok : PrecheckOK h fuel T) : PrecheckOK h fuel T' :=
  fun q hq hd => hok q (hsub q hq) hd

/-! ## checkmatch -/

theorem MatchFacts_shift {DB : Type} (E : Env DB) (flags : Flags) {h h' : Heap}
    (hstep : DigestStep h h') (file peer : Ptr)
    (hm : Matched (h' file) (h' peer))
    (hp : flags.F_PERMISSIONS = true →
      same_permissions E (h' file).d_name (h' peer).d_name ≠ 0)
    (hz : ∀ L, Chain h (some peer) L → ((h peer).hasdupes = 0 → L = [peer]) →
      ∀ x ∈ L, ¬ Ident E flags (h file) (h x)) :
    MatchFacts E flags h' file peer := by
  refine ⟨hm, hp, ?_⟩
  intro L hc hlone x hx hid
  have hc' : Chain h (some peer) L :=
    Chain_congr _ _ (fun y _ => (undigested_duplicates (hstep.1 y)).symm) hc
  have hlone' : (h peer).hasdupes = 0 → L = [peer] := by
    intro e
    apply hlone
    rw [undigested_hasdupes (hstep.1 peer)]; exact e
  exact hz L hc' hlone' x hx
    (Ident_core E flags (core_of_undigested (hstep.1 file)) (core_of_undigested (hstep.1 x)) hid)

theorem MatchFacts_step {DB : Type} (E : Env DB) (flags : Flags) {h h' : Heap}
    (hstep : DigestStep h h') (file peer : Ptr) (hm : MatchFacts E flags h file peer) :
    MatchFacts E flags h' file peer := by
  have e1 : h' file = h file :=
    hstep.2 file (Matched_populated hm.1).1 (Matched_populated hm.1).2
  have e2 : h' peer = h peer :=
    hstep.2 peer (Matched_populated (Matched_symm hm.1)).1
      (Matched_populated (Matched_symm hm.1)).2
  refine MatchFacts_shift E flags hstep file peer ?_ ?_ hm.2.2
  · rw [e1, e2]; exact hm.1
  · rw [e1, e2]; exact hm.2.1

theorem checkmatch_spec {DB : Type} (E : Env DB) (flags : Flags) (fuel : Nat) (file : Ptr) :
    ∀ (t : filetree_t) (s : State DB), t ≠ filetree_t.null → PrecheckOK s.heap fuel t.files →
      ∃ s' t' m, checkmatch E flags fuel t file s = some (s', t', m) ∧
        DigestStep s.heap s'.heap ∧
        ((m = none ∧ (t' = t ∨ List.Perm t'.files (file :: t.files))) ∨
         (∃ path peer, m = some path ∧ t' = t ∧ t.file_at path = some peer ∧
            MatchFacts E flags s'.heap file peer)) := by
  intro t
  induction t with
  | null => intro s h; exact absurd rfl h
  | node ct l r ihl ihr =>
    intro s _ hok
    have hct : ct ∈ (filetree_t.node ct l r).files := by simp [filetree_t.files]
    obtain ⟨v, hv⟩ := checkmatch_precheck_total E flags fuel s.heap ct file (hok ct hct)
    by_cases hv0 : v ≠ 0
    · refine ⟨s, filetree_t.node ct l r, none, ?_, DigestStep_refl _, Or.inl ⟨rfl, Or.inl rfl⟩⟩
      simp [checkmatch, hv, hv0]
    · have hvz : v = 0 := by omega
      subst hvz
      have hcs := checkmatch_compare_spec E flags s ct file
      cases hcmp : checkmatch_compare E flags s ct file with
      | fault => exact absurd hcmp hcs.1
      | null s1 =>
        refine ⟨s1, filetree_t.node ct l r, none, ?_, hcs.2.1 s1 hcmp, Or.inl ⟨rfl, Or.inl rfl⟩⟩
        simp [checkmatch, hv, hcmp]
      | result s1 c =>
        obtain ⟨hstep, hzero⟩ := hcs.2.2 s1 c hcmp
        have hok1 : PrecheckOK s1.heap fuel (filetree_t.node ct l r).files :=
          PrecheckOK_step hstep.1 fuel _ hok
        by_cases hlt : c < 0
        · cases l with
          | null =>
            refine ⟨registerfile s1 file,
              filetree_t.node ct (filetree_t.node file filetree_t.null filetree_t.null) r,
              none, ?_, hstep, Or.inl ⟨rfl, Or.inr ?_⟩⟩
            · simp [checkmatch, hv, hcmp, hlt]
            · simp only [filetree_t.files, List.nil_append, List.cons_append]
              exact List.Perm.swap file ct _
          | node a b c' =>
            have hsub : PrecheckOK s1.heap fuel (filetree_t.node a b c').files := by
              refine PrecheckOK_sub ?_ hok1
              intro x hx
              simp only [filetree_t.files] at hx ⊢
              exact List.mem_cons_of_mem _ (List.mem_append_left _ hx)
            obtain ⟨s2, l2, m, hrun, hstep2, hres⟩ := ihl s1 (by simp) hsub
            refine ⟨s2, filetree_t.node ct l2 r, m.map (fun path => false :: path), ?_,
              DigestStep_trans hstep hstep2, ?_⟩
            · simp [checkmatch, hv, hcmp, hlt, hrun]
            · rcases hres with ⟨hm, ht⟩ | ⟨path, peer, hm, ht, hat, hfacts⟩
              · subst hm
                refine Or.inl ⟨rfl, ?_⟩
                rcases ht with ht | ht
                · subst ht; exact Or.inl rfl
                · refine Or.inr ?_
                  simp only [filetree_t.files]
                  exact ((ht.append_right r.files).cons ct).trans (List.Perm.swap file ct _)
              · subst hm ht
                exact Or.inr ⟨false :: path, peer, rfl, rfl, hat, hfacts⟩
        · by_cases hgt : c > 0
          · cases r with
            | null =>
              refine ⟨registerfile s1 file,
                filetree_t.node ct l (filetree_t.node file filetree_t.null filetree_t.null),
                none, ?_, hstep, Or.inl ⟨rfl, Or.inr ?_⟩⟩
              · simp [checkmatch, hv, hcmp, hlt, hgt]
              · simp only [filetree_t.files, List.append_nil]
                refine (List.Perm.cons ct ?_).trans (List.Perm.swap file ct _)
                exact List.perm_append_singleton file l.files
            | node a b c' =>
              have hsub : PrecheckOK s1.heap fuel (filetree_t.node a b c').files := by
                refine PrecheckOK_sub ?_ hok1
                intro x hx
                simp only [filetree_t.files] at hx ⊢
                exact List.mem_cons_of_mem _ (List.mem_append_right _ hx)
              obtain ⟨s2, r2, m, hrun, hstep2, hres⟩ := ihr s1 (by simp) hsub
              refine ⟨s2, filetree_t.node ct l r2, m.map (fun path => true :: path), ?_,
                DigestStep_trans hstep hstep2, ?_⟩
              · simp [checkmatch, hv, hcmp, hlt, hgt, hrun]
              · rcases hres with ⟨hm, ht⟩ | ⟨path, peer, hm, ht, hat, hfacts⟩
                · subst hm
                  refine Or.inl ⟨rfl, ?_⟩
                  rcases ht with ht | ht
                  · subst ht; exact Or.inl rfl
                  · refine Or.inr ?_
                    simp only [filetree_t.files]
                    refine (List.Perm.cons ct ?_).trans (List.Perm.swap file ct _)
                    exact (List.Perm.append_left l.files ht).trans List.perm_middle
                · subst hm ht
                  exact Or.inr ⟨true :: path, peer, rfl, rfl, hat, hfacts⟩
          · have hc0 : c = 0 := by omega
            subst hc0
            refine ⟨s1, filetree_t.node ct l r, some [], ?_, hstep,
              Or.inr ⟨[], ct, rfl, rfl, rfl, ?_⟩⟩
            · simp [checkmatch, hv, hcmp]
            · obtain ⟨hm, hp⟩ := hzero rfl
              exact MatchFacts_shift E flags hstep file ct hm hp
                (checkmatch_precheck_zero E flags fuel s.heap ct file hv)

/-! ## The invariant of the scan loop -/

theorem comparef_of_core (flags : Flags) (o : ordertype_t) (a b : file_t) :
    comparef_of flags o a b = comparef_of flags o a.core b.core := by
  unfold comparef_of
  split_ifs <;> rfl

theorem chain_sorted_core (flags : Flags) (o : ordertype_t) {h h' : Heap}
    (hc : ∀ x, (h' x).core = (h x).core) (L : List Ptr)
    (hs : chain_sorted (comparef_of flags o) h L) :
    chain_sorted (comparef_of flags o) h' L := by
  unfold chain_sorted at hs ⊢
  refine hs.imp ?_
  intro a b hab
  rw [comparef_of_core flags o (h' a), hc a, hc b, ← comparef_of_core]
  exact hab

theorem GroupRel_unlinked {DB : Type} (E : Env DB) (flags : Flags)
    (Q : List Nat → List Nat → Prop) {a a' b b' : file_t}
    (ha : a'.unlinked = a.unlinked) (hb : b'.unlinked = b.unlinked)
    (h : GroupRel E flags Q a b) : GroupRel E flags Q a' b' := by
  obtain ⟨⟨h1, h2, h3⟩, h4, h5⟩ := h
  refine ⟨⟨?_, ?_, ?_⟩, ?_, ?_⟩
  · rw [core_size (core_of_unlinked ha), core_size (core_of_unlinked hb)]; exact h1
  · rw [crcpartial_of_unlinked ha, crcpartial_of_unlinked hb]; exact h2
  · rw [crcsignature_of_unlinked ha, crcsignature_of_unlinked hb]; exact h3
  · rw [core_d_name (core_of_unlinked ha), core_d_name (core_of_unlinked hb)]; exact h4
  · intro hid
    exact h5 (Ident_core E flags (core_of_unlinked ha) (core_of_unlinked hb) hid)

theorem GroupInv_congr {DB : Type} (E : Env DB) (flags : Flags) (o : ordertype_t)
    (Q : List Nat → List Nat → Prop) {h h' : Heap} {P P' : List Ptr} {q : Ptr}
    {L : List Ptr} (heq : ∀ x ∈ L, h' x = h x) (hP : ∀ x ∈ P, x ∈ P')
    (g : GroupInv E flags o Q h P q L) : GroupInv E flags o Q h' P' q L := by
  have hq : q ∈ L := by
    cases L with
    | nil =>
      have : some q = none := g.chain
      cases this
    | cons p S =>
      have := g.chain.1
      cases this
      exact List.mem_cons_self _ _
  refine ⟨?_, ?_, ?_, ?_, ?_, ?_, ?_⟩
  · exact Chain_congr _ _ (fun x hx => by rw [heq x hx]) g.chain
  · exact fun x hx => hP x (g.sub x hx)
  · intro x hx hxq
    rw [heq x hx]; exact g.tail0 x hx hxq
  · intro e
    rw [heq q hq] at e; exact g.lone e
  · intro e
    rw [heq q hq] at e; exact g.many e
  · intro x hx y hy hxy
    rw [heq x hx, heq y hy]; exact g.rel x hx y hy hxy
  · have hs := g.sorted
    unfold chain_sorted at hs ⊢
    refine List.Pairwise.imp_of_mem ?_ hs
    intro a b ha hb hab
    rw [heq a ha, heq b hb]; exact hab

theorem GroupInv_digest {DB : Type} (E : Env DB) (flags : Flags) (o : ordertype_t)
    (Q : List Nat → List Nat → Prop) {h h' : Heap} {P : List Ptr} {q : Ptr}
    {L : List Ptr} (hstep : DigestStep h h')
    (g : GroupInv E flags o Q h P q L) : GroupInv E flags o Q h' P q L := by
  refine ⟨?_, g.sub, ?_, ?_, ?_, ?_, ?_⟩
  · exact Chain_congr _ _ (fun x _ => undigested_duplicates (hstep.1 x)) g.chain
  · intro x hx hxq
    rw [undigested_hasdupes (hstep.1 x)]; exact g.tail0 x hx hxq
  · intro e
    rw [undigested_hasdupes (hstep.1 q)] at e; exact g.lone e
  · intro e
    rw [undigested_hasdupes (hstep.1 q)] at e; exact g.many e
  · intro x hx y hy hxy
    have hr := g.rel x hx y hy hxy
    have e1 : h' x = h x :=
      hstep.2 x (Matched_populated hr.1).1 (Matched_populated hr.1).2
    have e2 : h' y = h y :=
      hstep.2 y (Matched_populated (Matched_symm hr.1)).1
        (Matched_populated (Matched_symm hr.1)).2
    rw [e1, e2]; exact hr
  · exact chain_sorted_core flags o (fun x => core_of_undigested (hstep.1 x)) L g.sorted

theorem Chain_digest {h h' : Heap} (hstep : DigestStep h h') (o : Option Ptr) (L : List Ptr) :
    Chain h' o L ↔ Chain h o L :=
  ⟨Chain_congr _ _ (fun x _ => (undigested_duplicates (hstep.1 x)).symm),
   Chain_congr _ _ (fun x _ => undigested_duplicates (hstep.1 x))⟩

theorem ScanInv_digest {DB : Type} (E : Env DB) (flags : Flags) (o : ordertype_t)
    (Q : List Nat → List Nat → Prop) {A : List Ptr} {h0 h h' : Heap} {T P : List Ptr}
    (hstep : DigestStep h h')
    (inv : ScanInv E flags o Q A h0 h T P) : ScanInv E flags o Q A h0 h' T P := by
  refine ⟨?_, inv.nodup, ?_, ?_, ?_, ?_⟩
  · intro x
    rw [core_of_undigested (hstep.1 x)]; exact inv.core x
  · intro q hq
    obtain ⟨L, g⟩ := inv.groups q hq
    exact ⟨L, GroupInv_digest E flags o Q hstep g⟩
  · intro q1 hq1 q2 hq2 hne L1 L2 hc1 hc2
    exact inv.disj q1 hq1 q2 hq2 hne L1 L2 ((Chain_digest hstep _ _).mp hc1)
      ((Chain_digest hstep _ _).mp hc2)
  · intro x hxA hx
    have := inv.outside x hxA
      (fun q hq L hc => hx q hq L ((Chain_digest hstep _ _).mpr hc))
    rw [undigested_hasdupes (hstep.1 x), undigested_duplicates (hstep.1 x)]
    exact this
  · intro hi q hq
    rw [undigested_hasdupes (hstep.1 q), undigested_duplicates (hstep.1 q)]
    exact inv.imm hi q hq

theorem ScanInv_perm {DB : Type} (E : Env DB) (flags : Flags) (o : ordertype_t)
    (Q : List Nat → List Nat → Prop) {A : List Ptr} {h0 h : Heap} {T T' P P' : List Ptr}
    (hT : List.Perm T' T) (hP : ∀ x ∈ P, x ∈ P')
    (inv : ScanInv E flags o Q A h0 h T P) : ScanInv E flags o Q A h0 h T' P' := by
  refine ⟨inv.core, hT.nodup_iff.mpr inv.nodup, ?_, ?_, ?_, ?_⟩
  · intro q hq
    obtain ⟨L, g⟩ := inv.groups q (hT.mem_iff.mp hq)
    exact ⟨L, GroupInv_congr E flags o Q (fun _ _ => rfl) hP g⟩
  · intro q1 hq1 q2 hq2
    exact inv.disj q1 (hT.mem_iff.mp hq1) q2 (hT.mem_iff.mp hq2)
  · intro x hxA hx
    exact inv.outside x hxA (fun q hq => hx q (hT.mem_iff.mpr hq))
  · intro hi q hq
    exact inv.imm hi q (hT.mem_iff.mp hq)

theorem Chain_head {h : Heap} {q : Ptr} {L : List Ptr} (hc : Chain h (some q) L) :
    ∃ S, L = q :: S := by
  cases L with
  | nil =>
    have : some q = none := hc
    cases this
  | cons p S =>
    have := hc.1
    cases this
    exact ⟨S, rfl⟩

theorem ScanInv_chain_sub {DB : Type} {E : Env DB} {flags : Flags} {o : ordertype_t}
    {Q : List Nat → List Nat → Prop} {A : List Ptr} {h0 h : Heap} {T P : List Ptr}
    (inv : ScanInv E flags o Q A h0 h T P) {q : Ptr} (hq : q ∈ T) {L : List Ptr}
    (hc : Chain h (some q) L) : ∀ x ∈ L, x ∈ P := by
  obtain ⟨L', g⟩ := inv.groups q hq
  rw [Chain_unique _ _ _ hc g.chain]
  exact g.sub

theorem ScanInv_head_mem {DB : Type} {E : Env DB} {flags : Flags} {o : ordertype_t}
    {Q : List Nat → List Nat → Prop} {A : List Ptr} {h0 h : Heap} {T P : List Ptr}
    (inv : ScanInv E flags o Q A h0 h T P) {q : Ptr} (hq : q ∈ T) : q ∈ P := by
  obtain ⟨L, g⟩ := inv.groups q hq
  obtain ⟨S, hS⟩ := Chain_head g.chain
  exact g.sub q (by rw [hS]; exact List.mem_cons_self _ _)

theorem ScanInv_fresh {DB : Type} {E : Env DB} {flags : Flags} {o : ordertype_t}
    {Q : List Nat → List Nat → Prop} {A : List Ptr} {h0 h : Heap} {T P : List Ptr}
    (inv : ScanInv E flags o Q A h0 h T P) {p : Ptr} (hp : p ∉ P) (hpA : p ∈ A) :
    (h p).hasdupes = 0 ∧ (h p).duplicates = none :=
  inv.outside p hpA (fun _ hq _ hc hx => hp (ScanInv_chain_sub inv hq hc p hx))

theorem ScanInv_add {DB : Type} (E : Env DB) (flags : Flags) (o : ordertype_t)
    (Q : List Nat → List Nat → Prop) {A : List Ptr} {h0 h : Heap} {T P : List Ptr}
    (inv : ScanInv E flags o Q A h0 h T P) (p : Ptr) (hp : p ∉ P) (hpA : p ∈ A) :
    ScanInv E flags o Q A h0 h (p :: T) (p :: P) := by
  obtain ⟨hp0, hpd⟩ := ScanInv_fresh inv hp hpA
  have hpT : p ∉ T := fun hpT => hp (ScanInv_head_mem inv hpT)
  have hcp : Chain h (some p) [p] := ⟨rfl, hpd⟩
  refine ⟨inv.core, List.nodup_cons.mpr ⟨hpT, inv.nodup⟩, ?_, ?_, ?_, ?_⟩
  · intro q hq
    rcases List.mem_cons.mp hq with e | hqT
    · subst e
      refine ⟨[q], hcp, ?_, ?_, fun _ => rfl, ?_, ?_, ?_⟩
      · intro x hx
        simp at hx; subst hx
        exact List.mem_cons_self _ _
      · intro x hx hxq
        simp at hx
        exact absurd hx hxq
      · intro e; exact absurd hp0 e
      · intro x hx y hy hxy
        simp at hx hy
        subst hx hy
        exact absurd rfl hxy
      · simp [chain_sorted]
    · obtain ⟨L, g⟩ := inv.groups q hqT
      exact ⟨L, GroupInv_congr E flags o Q (fun _ _ => rfl)
        (fun x hx => List.mem_cons_of_mem _ hx) g⟩
  · intro q1 hq1 q2 hq2 hne L1 L2 hc1 hc2 x hx1 hx2
    rcases List.mem_cons.mp hq1 with e1 | hq1T
    · subst e1
      rcases List.mem_cons.mp hq2 with e2 | hq2T
      · exact hne e2.symm
      · rw [Chain_unique _ _ _ hc1 hcp] at hx1
        simp at hx1; subst hx1
        exact hp (ScanInv_chain_sub inv hq2T hc2 x hx2)
    · rcases List.mem_cons.mp hq2 with e2 | hq2T
      · subst e2
        rw [Chain_unique _ _ _ hc2 hcp] at hx2
        simp at hx2; subst hx2
        exact hp (ScanInv_chain_sub inv hq1T hc1 x hx1)
      · exact inv.disj q1 hq1T q2 hq2T hne L1 L2 hc1 hc2 x hx1 hx2
  · intro x hxA hx
    exact inv.outside x hxA (fun q hq => hx q (List.mem_cons_of_mem _ hq))
  · intro hi q hq
    rcases List.mem_cons.mp hq with e | hqT
    · subst e; exact ⟨hp0, hpd⟩
    · exact inv.imm hi q hqT

theorem ScanInv_remove {DB : Type} (E : Env DB) (flags : Flags) (o : ordertype_t)
    (Q : List Nat → List Nat → Prop) {A : List Ptr} {h0 h : Heap} {X P : List Ptr}
    {peer : Ptr} (inv : ScanInv E flags o Q A h0 h (peer :: X) P)
    (hun : (h peer).hasdupes = 0 ∧ (h peer).duplicates = none) :
    ScanInv E flags o Q A h0 h X P := by
  have hcp : Chain h (some peer) [peer] := ⟨rfl, hun.2⟩
  refine ⟨inv.core, (List.nodup_cons.mp inv.nodup).2, ?_, ?_, ?_, ?_⟩
  · intro q hq
    exact inv.groups q (List.mem_cons_of_mem _ hq)
  · intro q1 hq1 q2 hq2
    exact inv.disj q1 (List.mem_cons_of_mem _ hq1) q2 (List.mem_cons_of_mem _ hq2)
  · intro x hxA hx
    by_cases hxp : x = peer
    · subst hxp; exact hun
    · refine inv.outside x hxA ?_
      intro q hq L hc
      rcases List.mem_cons.mp hq with e | hqX
      · subst e
        rw [Chain_unique _ _ _ hc hcp]
        simp [hxp]
      · exact hx q hqX L hc
  · intro hi q hq
    exact inv.imm hi q (List.mem_cons_of_mem _ hq)

theorem ScanInv_registerpair {DB : Type} (E : Env DB) (flags : Flags) (o : ordertype_t)
    (Q : List Nat → List Nat → Prop) (hQs : ∀ a b, Q a b → Q b a)
    (hQt : ∀ a b c, Q a b → Q b c → Q a c)
    {A : List Ptr} {h0 h : Heap} {X P : List Ptr} {peer : Ptr}
    (inv : ScanInv E flags o Q A h0 h (peer :: X) P)
    (hni : (flags.F_DELETEFILES && flags.F_IMMEDIATE) = false)
    (p : Ptr) (hp : p ∉ P) (hpA : p ∈ A)
    (hfacts : MatchFacts E flags h p peer) (hQ : Q (h p).d_name (h peer).d_name)
    (cfuel : Nat) (hfuel : P.length ≤ cfuel) :
    ∃ h2 ml, registerpair (comparef_of flags o) cfuel h peer p = some (h2, ml) ∧
      ScanInv E flags o Q A h0 h2 (ml :: X) (p :: P) := by
  have hpeerT : peer ∈ peer :: X := List.mem_cons_self _ _
  obtain ⟨L, g⟩ := inv.groups peer hpeerT
  obtain ⟨S, hLS⟩ := Chain_head g.chain
  subst hLS
  have hpL : p ∉ peer :: S := fun hx => hp (g.sub p hx)
  obtain ⟨hp0, hpd⟩ := ScanInv_fresh inv hp hpA
  have hlen : S.length < cfuel := by
    have h1 : (peer :: S).length ≤ P.length :=
      ((Chain_nodup _ _ g.chain).subperm (fun x hx => g.sub x hx)).length_le
    simp at h1
    omega
  obtain ⟨h2, ml, R, hrun, hins, hch, hhead, hq, hhd, hfr, hun⟩ :=
    registerpair_spec (comparef_of flags o) p peer S cfuel h g.chain hpL hpd hlen
  have hperm : List.Perm (ml :: R) (p :: peer :: S) := by
    rw [← hins]; exact insert_before_first_ge_perm _ _ _ _
  have hml : ml = p ∨ ml = peer := by
    unfold insert_before_first_ge at hins
    split at hins
    · injection hins with e1 e2; exact Or.inl e1.symm
    · injection hins with e1 e2; exact Or.inr e1.symm
  have hXP : ∀ q ∈ X, q ∈ P := fun q hq => ScanInv_head_mem inv (List.mem_cons_of_mem _ hq)
  have hpeerX : peer ∉ X := (List.nodup_cons.mp inv.nodup).1
  -- the other groups are untouched
  have hother : ∀ q ∈ X, ∀ Lq, Chain h (some q) Lq → ∀ x ∈ Lq, h2 x = h x := by
    intro q hq Lq hc x hx
    have hxP : x ∈ P := ScanInv_chain_sub inv (List.mem_cons_of_mem _ hq) hc x hx
    have hxp : x ≠ p := fun e => hp (e ▸ hxP)
    have hqp : peer ≠ q := fun e => hpeerX (e ▸ hq)
    have hxL : x ∉ peer :: S := fun hxL =>
      inv.disj peer hpeerT q (List.mem_cons_of_mem _ hq) hqp _ _ g.chain hc x hxL hx
    exact hfr x hxp hxL
  have hchain2 : ∀ q ∈ X, ∀ L', Chain h2 (some q) L' → Chain h (some q) L' := by
    intro q hq L' hc'
    obtain ⟨Lq, gq⟩ := inv.groups q (List.mem_cons_of_mem _ hq)
    have hc2 : Chain h2 (some q) Lq :=
      Chain_congr _ _ (fun x hx => by rw [hother q hq Lq gq.chain x hx]) gq.chain
    rw [Chain_unique _ _ _ hc' hc2]
    exact gq.chain
  have hmem : ∀ x, x ∈ ml :: R ↔ x = p ∨ x ∈ peer :: S := by
    intro x
    rw [hperm.mem_iff]
    exact List.mem_cons
  have hrelH : ∀ x ∈ p :: peer :: S, ∀ y ∈ p :: peer :: S, x ≠ y →
      GroupRel E flags Q (h x) (h y) := by
    have hA1 : ∀ y ∈ peer :: S, GroupRel E flags Q (h p) (h y) := by
      intro y hy
      refine ⟨?_, ?_, hfacts.2.2 _ g.chain g.lone y hy⟩
      · by_cases hyp : y = peer
        · subst hyp; exact hfacts.1
        · exact Matched_trans hfacts.1
            (g.rel peer (List.mem_cons_self _ _) y hy (fun e => hyp e.symm)).1
      · by_cases hyp : y = peer
        · subst hyp; exact hQ
        · exact hQt _ _ _ hQ
            (g.rel peer (List.mem_cons_self _ _) y hy (fun e => hyp e.symm)).2.1
    intro x hx y hy hxy
    rcases List.mem_cons.mp hx with ex | hxL
    · subst ex
      rcases List.mem_cons.mp hy with ey | hyL
      · exact absurd ey.symm hxy
      · exact hA1 y hyL
    · rcases List.mem_cons.mp hy with ey | hyL
      · subst ey
        obtain ⟨r1, r2, r3⟩ := hA1 x hxL
        exact ⟨Matched_symm r1, hQs _ _ r2, fun hid => r3 (Ident_symm E flags _ _ hid)⟩
      · exact g.rel x hxL y hyL hxy
  refine ⟨h2, ml, hrun, ?_, ?_, ?_, ?_, ?_, ?_⟩
  · intro x
    rw [core_of_unlinked (hun x)]; exact inv.core x
  · refine List.nodup_cons.mpr ⟨?_, (List.nodup_cons.mp inv.nodup).2⟩
    rcases hml with e | e
    · subst e; exact fun hx => hp (hXP _ hx)
    · subst e; exact hpeerX
  · intro q hq
    rcases List.mem_cons.mp hq with e | hqX
    · subst e
      refine ⟨q :: R, hch, ?_, ?_, ?_, ?_, ?_, ?_⟩
      · intro x hx
        rcases (hmem x).mp hx with e | hxL
        · subst e; exact List.mem_cons_self _ _
        · exact List.mem_cons_of_mem _ (g.sub x hxL)
      · intro x hx hxq
        by_cases hxpeer : x = peer
        · subst hxpeer; exact hq (fun e => hxq e.symm)
        · rw [hhd x hxq hxpeer]
          rcases (hmem x).mp hx with e | hxL
          · subst e; exact hp0
          · exact g.tail0 x hxL hxpeer
      · intro e
        rw [hhead] at e
        exact absurd e (by decide)
      · intro _
        have hl := hperm.length_eq
        cases R with
        | nil => simp at hl
        | cons d S' => exact ⟨d, S', rfl⟩
      · intro x hx y hy hxy
        exact GroupRel_unlinked E flags Q (hun x) (hun y)
          (hrelH x ((hperm.mem_iff).mp hx) y ((hperm.mem_iff).mp hy) hxy)
      · have hun0 : ∀ x, (set_hasdupes h peer 1 x).unlinked = (h x).unlinked :=
          fun x => set_hasdupes_unlinked h peer 1 x
        have hs0 := chain_sorted_congr flags o hun0 _ g.sorted
        have hs1 := insert_before_first_ge_sorted (comparef_of flags o)
          (set_hasdupes h peer 1) p
          (fun x hx => comparef_of_total flags o _ _ hx)
          (fun a b h1 h2 => comparef_of_trans flags o _ _ _ h1 h2) _ hs0
        rw [hins] at hs1
        refine chain_sorted_congr flags o ?_ _ hs1
        intro x
        rw [hun x, hun0 x]
    · obtain ⟨Lq, gq⟩ := inv.groups q (List.mem_cons_of_mem _ hqX)
      exact ⟨Lq, GroupInv_congr E flags o Q (hother q hqX Lq gq.chain)
        (fun x hx => List.mem_cons_of_mem _ hx) gq⟩
  · intro q1 hq1 q2 hq2 hne L1 L2 hc1 hc2 x hx1 hx2
    have hsep : ∀ q ∈ X, ∀ Lq, Chain h2 (some q) Lq → ∀ y ∈ Lq, y ∉ ml :: R := by
      intro q hq Lq hc y hy hy'
      have hcq := hchain2 q hq Lq hc
      have hyP : y ∈ P := ScanInv_chain_sub inv (List.mem_cons_of_mem _ hq) hcq y hy
      have hqp : peer ≠ q := fun e => hpeerX (e ▸ hq)
      rcases (hmem y).mp hy' with e | hyL
      · exact hp (e ▸ hyP)
      · exact inv.disj peer hpeerT q (List.mem_cons_of_mem _ hq) hqp _ _ g.chain hcq y hyL hy
    rcases List.mem_cons.mp hq1 with e1 | hq1X
    · subst e1
      rcases List.mem_cons.mp hq2 with e2 | hq2X
      · exact hne e2.symm
      · rw [Chain_unique _ _ _ hc1 hch] at hx1
        exact hsep q2 hq2X L2 hc2 x hx2 hx1
    · rcases List.mem_cons.mp hq2 with e2 | hq2X
      · subst e2
        rw [Chain_unique _ _ _ hc2 hch] at hx2
        exact hsep q1 hq1X L1 hc1 x hx1 hx2
      · exact inv.disj q1 (List.mem_cons_of_mem _ hq1X) q2 (List.mem_cons_of_mem _ hq2X) hne
          L1 L2 (hchain2 q1 hq1X L1 hc1) (hchain2 q2 hq2X L2 hc2) x hx1 hx2
  · intro x hxA hx
    have hxR : x ∉ ml :: R := hx ml (List.mem_cons_self _ _) _ hch
    have hxp : x ≠ p := fun e => hxR ((hmem x).mpr (Or.inl e))
    have hxL : x ∉ peer :: S := fun e => hxR ((hmem x).mpr (Or.inr e))
    rw [hfr x hxp hxL]
    refine inv.outside x hxA ?_
    intro q hq Lq hc
    rcases List.mem_cons.mp hq with e | hqX
    · subst e
      rw [Chain_unique _ _ _ hc g.chain]; exact hxL
    · obtain ⟨Lq', gq⟩ := inv.groups q (List.mem_cons_of_mem _ hqX)
      have hc2 : Chain h2 (some q) Lq :=
        Chain_congr _ _ (fun y hy => by rw [hother q hqX Lq hc y hy]) hc
      exact hx q (List.mem_cons_of_mem _ hqX) Lq hc2
  · intro hi
    rw [hni] at hi
    cases hi

/-! ## One pass of the scan loop -/

theorem remove_file_heap {DB : Type} (E : Env DB) (flags : Flags) (s : State DB) (p : Ptr) :
    (remove_file E flags s p).heap = s.heap := by
  unfold remove_file
  simp only []
  split_ifs <;> first | rfl | (split <;> rfl)

theorem deletesuccessor_heap {DB : Type} (E : Env DB) (flags : Flags)
    (cmp : file_t → file_t → Int) (s : State DB) (e d : Ptr) (mc : Bool) :
    (deletesuccessor E flags cmp s e d mc).1.heap = s.heap := by
  unfold deletesuccessor
  simp only []
  cases mc
  · rfl
  · simp only [if_true]
    exact remove_file_heap E flags _ _

theorem deletesuccessor_keep {DB : Type} (E : Env DB) (flags : Flags)
    (cmp : file_t → file_t → Int) (s : State DB) (e d : Ptr) (mc : Bool) :
    (deletesuccessor E flags cmp s e d mc).2 = e ∨
    (deletesuccessor E flags cmp s e d mc).2 = d := by
  unfold deletesuccessor
  simp only []
  split_ifs
  · exact Or.inl rfl
  · exact Or.inr rfl

theorem files_ne_nil_of_perm {t : filetree_t} {v : Ptr} {X : List Ptr}
    (h : List.Perm t.files (v :: X)) : t.files ≠ [] := by
  intro e
  rw [e] at h
  exact absurd h.length_eq (by simp)

theorem main_scan_pair_spec {DB : Type} (E : Env DB) (flags : Flags) (o : ordertype_t)
    (Q : List Nat → List Nat → Prop) (hQs : ∀ a b, Q a b → Q b a)
    (hQt : ∀ a b c, Q a b → Q b c → Q a c) {A : List Ptr} {h0 : Heap}
    (hQ : ∀ x ∈ A, ∀ y ∈ A,
      (flags.F_PERMISSIONS = true →
        same_permissions E (h0 x).d_name (h0 y).d_name ≠ 0) →
      (flags.F_DEFERCONFIRMATION || flags.F_QUICKSUMMARY ||
        E.confirmmatch (h0 x).d_name (h0 y).d_name) = true →
      Q (h0 x).d_name (h0 y).d_name)
    (ms1 : Scan DB) (P : List Ptr) (p : Ptr) (path : List Bool) (peer : Ptr)
    (inv : ScanInv E flags o Q A h0 ms1.st.heap ms1.checktree.files P)
    (hmatched : ms1.matched = some path)
    (hat : ms1.checktree.file_at path = some peer)
    (hfacts : MatchFacts E flags ms1.st.heap p peer)
    (hp : p ∉ P) (hpA : p ∈ A) (hPA : ∀ x ∈ P, x ∈ A)
    (cfuel : Nat) (hfuel : P.length ≤ cfuel) :
    ∃ ms', main_scan_pair E flags o cfuel ms1 p = some ms' ∧
      ScanInv E flags o Q A h0 ms'.st.heap ms'.checktree.files (p :: P) ∧
      ms'.checktree.files ≠ [] := by
  have hmono : ∀ x ∈ P, x ∈ p :: P := fun x hx => List.mem_cons_of_mem _ hx
  have hpeerT : peer ∈ ms1.checktree.files := file_at_mem _ _ _ hat
  have hne : ms1.checktree.files ≠ [] := List.ne_nil_of_mem hpeerT
  have hsame : ScanInv E flags o Q A h0 ms1.st.heap ms1.checktree.files (p :: P) :=
    ScanInv_perm E flags o Q (List.Perm.refl _) hmono inv
  have hnp : (ms1.st.heap p).d_name = (h0 p).d_name := core_d_name (inv.core p)
  have hnpeer : (ms1.st.heap peer).d_name = (h0 peer).d_name := core_d_name (inv.core peer)
  have hpeerA : peer ∈ A := hPA peer (ScanInv_head_mem inv hpeerT)
  unfold main_scan_pair
  simp only [hmatched, hat]
  by_cases hf1 : E.fopen (ms1.st.heap p).d_name = true
  swap
  · exact ⟨ms1, by simp [hf1], hsame, hne⟩
  by_cases hf2 : E.fopen (ms1.st.heap peer).d_name = true
  swap
  · exact ⟨ms1, by simp [hf1, hf2], hsame, hne⟩
  simp only [hf1, hf2, Bool.not_true, Bool.false_eq_true, if_false]
  by_cases himm : (flags.F_DELETEFILES && flags.F_IMMEDIATE) = true
  · simp only [himm, if_true]
    refine ⟨_, rfl, ?_, ?_⟩
    · simp only [deletesuccessor_heap]
      obtain ⟨X, hX1, hX2⟩ := set_file_at_files ms1.checktree path peer
        (deletesuccessor E flags (comparef_of flags o) ms1.st peer p
          (E.confirmmatch (ms1.st.heap p).d_name (ms1.st.heap peer).d_name)).2 hat
      rcases deletesuccessor_keep E flags (comparef_of flags o) ms1.st peer p
          (E.confirmmatch (ms1.st.heap p).d_name (ms1.st.heap peer).d_name) with e | e
      · rw [e] at hX2 ⊢
        exact ScanInv_perm E flags o Q (hX2.trans hX1.symm) hmono inv
      · rw [e] at hX2 ⊢
        have inv1 := ScanInv_perm E flags o Q hX1.symm (fun x hx => hx) inv
        have inv2 := ScanInv_remove E flags o Q inv1 (inv.imm himm peer hpeerT)
        have inv3 := ScanInv_add E flags o Q inv2 p hp hpA
        exact ScanInv_perm E flags o Q hX2 (fun x hx => hx) inv3
    · obtain ⟨X, _, hX2⟩ := set_file_at_files ms1.checktree path peer
        (deletesuccessor E flags (comparef_of flags o) ms1.st peer p
          (E.confirmmatch (ms1.st.heap p).d_name (ms1.st.heap peer).d_name)).2 hat
      exact files_ne_nil_of_perm hX2
  · have himm' : (flags.F_DELETEFILES && flags.F_IMMEDIATE) = false := by
      cases hb : (flags.F_DELETEFILES && flags.F_IMMEDIATE)
      · rfl
      · exact absurd hb himm
    simp only [himm', Bool.false_eq_true, if_false]
    by_cases hconf : (flags.F_DEFERCONFIRMATION || flags.F_QUICKSUMMARY ||
        E.confirmmatch (ms1.st.heap p).d_name (ms1.st.heap peer).d_name) = true
    · simp only [hconf, if_true]
      obtain ⟨X, hX1, _⟩ := set_file_at_files ms1.checktree path peer peer hat
      have inv1 := ScanInv_perm E flags o Q hX1.symm (fun x hx => hx) inv
      have hQpq : Q (ms1.st.heap p).d_name (ms1.st.heap peer).d_name := by
        rw [hnp, hnpeer]
        refine hQ p hpA peer hpeerA ?_ ?_
        · rw [← hnp, ← hnpeer]; exact hfacts.2.1
        · rw [← hnp, ← hnpeer]; exact hconf
      obtain ⟨h2, ml, hrun, inv2⟩ := ScanInv_registerpair E flags o Q hQs hQt inv1 himm'
        p hp hpA hfacts hQpq cfuel hfuel
      obtain ⟨X', hX1', hX2'⟩ := set_file_at_files ms1.checktree path peer ml hat
      have hXX : List.Perm X' X := (List.perm_cons peer).mp (hX1'.symm.trans hX1)
      rw [hrun]
      refine ⟨_, rfl, ?_, files_ne_nil_of_perm hX2'⟩
      exact ScanInv_perm E flags o Q (hX2'.trans (hXX.cons ml)) (fun x hx => hx) inv2
    · exact ⟨ms1, by simp [hconf], hsame, hne⟩

theorem ScanInv_precheck {DB : Type} {E : Env DB} {flags : Flags} {o : ordertype_t}
    {Q : List Nat → List Nat → Prop} {A : List Ptr} {h0 h : Heap} {T P : List Ptr}
    (inv : ScanInv E flags o Q A h0 h T P) (cfuel : Nat) (hfuel : P.length ≤ cfuel) :
    PrecheckOK h cfuel T := by
  intro q hq hd
  obtain ⟨L, g⟩ := inv.groups q hq
  obtain ⟨d, S, hL⟩ := g.many hd
  subst hL
  refine ⟨d, S, g.chain, ?_⟩
  have h1 : (q :: d :: S).length ≤ P.length :=
    ((Chain_nodup _ _ g.chain).subperm (fun x hx => g.sub x hx)).length_le
  simp at h1
  omega

theorem main_scan_lookup_spec {DB : Type} (E : Env DB) (flags : Flags) (o : ordertype_t)
    (Q : List Nat → List Nat → Prop) {A : List Ptr} {h0 : Heap}
    (ms : Scan DB) (P : List Ptr) (p : Ptr)
    (inv : ScanInv E flags o Q A h0 ms.st.heap ms.checktree.files P)
    (hm : ms.checktree = filetree_t.null → ms.matched = none)
    (hp : p ∉ P) (hpA : p ∈ A) (cfuel : Nat) (hfuel : P.length ≤ cfuel) :
    ∃ ms1, main_scan_lookup E flags cfuel ms p = some ms1 ∧
      ((ms1.matched = none ∧
          ScanInv E flags o Q A h0 ms1.st.heap ms1.checktree.files (p :: P) ∧
          ms1.checktree.files ≠ []) ∨
       (∃ path peer, ms1.matched = some path ∧ ms1.checktree.file_at path = some peer ∧
          MatchFacts E flags ms1.st.heap p peer ∧
          ScanInv E flags o Q A h0 ms1.st.heap ms1.checktree.files P)) := by
  have hmono : ∀ x ∈ P, x ∈ p :: P := fun x hx => List.mem_cons_of_mem _ hx
  unfold main_scan_lookup
  cases htree : ms.checktree with
  | null =>
    simp only []
    refine ⟨_, rfl, Or.inl ⟨hm htree, ?_, by simp [filetree_t.files]⟩⟩
    rw [htree] at inv
    have := ScanInv_add E flags o Q inv p hp hpA
    simpa [filetree_t.files, registerfile] using this
  | node a b c =>
    rw [htree] at inv
    obtain ⟨s1, t1, m, hrun, hstep, hres⟩ :=
      checkmatch_spec E flags cfuel p (filetree_t.node a b c) ms.st (by simp)
        (ScanInv_precheck inv cfuel hfuel)
    simp only [hrun]
    have inv1 := ScanInv_digest E flags o Q hstep inv
    refine ⟨_, rfl, ?_⟩
    rcases hres with ⟨hmn, ht⟩ | ⟨path, peer, hmp, ht, hat, hfacts⟩
    · subst hmn
      refine Or.inl ⟨rfl, ?_, ?_⟩
      · rcases ht with ht | ht
        · subst ht
          exact ScanInv_perm E flags o Q (List.Perm.refl _) hmono inv1
        · exact ScanInv_perm E flags o Q ht (fun x hx => hx)
            (ScanInv_add E flags o Q inv1 p hp hpA)
      · rcases ht with ht | ht
        · subst ht; simp [filetree_t.files]
        · exact files_ne_nil_of_perm ht
    · subst hmp ht
      exact Or.inr ⟨path, peer, rfl, hat, hfacts, inv1⟩

theorem main_scan_step_spec {DB : Type} (E : Env DB) (flags : Flags) (o : ordertype_t)
    (Q : List Nat → List Nat → Prop) (hQs : ∀ a b, Q a b → Q b a)
    (hQt : ∀ a b c, Q a b → Q b c → Q a c) {A : List Ptr} {h0 : Heap}
    (hQ : ∀ x ∈ A, ∀ y ∈ A,
      (flags.F_PERMISSIONS = true →
        same_permissions E (h0 x).d_name (h0 y).d_name ≠ 0) →
      (flags.F_DEFERCONFIRMATION || flags.F_QUICKSUMMARY ||
        E.confirmmatch (h0 x).d_name (h0 y).d_name) = true →
      Q (h0 x).d_name (h0 y).d_name)
    (ms : Scan DB) (P : List Ptr) (p : Ptr)
    (inv : ScanInv E flags o Q A h0 ms.st.heap ms.checktree.files P)
    (hm : ms.checktree = filetree_t.null → ms.matched = none)
    (hp : p ∉ P) (hpA : p ∈ A) (hPA : ∀ x ∈ P, x ∈ A)
    (cfuel : Nat) (hfuel : P.length ≤ cfuel) :
    ∃ ms', main_scan_step E flags o cfuel ms p = some ms' ∧
      ScanInv E flags o Q A h0 ms'.st.heap ms'.checktree.files (p :: P) ∧
      ms'.checktree.files ≠ [] := by
  obtain ⟨ms1, hrun, hres⟩ := main_scan_lookup_spec E flags o Q ms P p inv hm hp hpA cfuel hfuel
  unfold main_scan_step
  rw [hrun]
  rcases hres with ⟨hmn, inv1, hne⟩ | ⟨path, peer, hmp, hat, hfacts, inv1⟩
  · refine ⟨ms1, ?_, inv1, hne⟩
    simp [main_scan_pair, hmn]
  · exact main_scan_pair_spec E flags o Q hQs hQt hQ ms1 P p path peer inv1 hmp hat hfacts
      hp hpA hPA cfuel hfuel

/-! ## The scan loop -/

theorem Listed_Chain (h : Heap) :
    ∀ (L : List Ptr) (o : Option Ptr), Listed h o L →
      Chain (fun p => { h p with duplicates := (h p).next }) o L
  | [], _, hl => hl
  | _ :: L, _, hl => ⟨hl.1, Listed_Chain h L _ hl.2⟩

theorem Listed_nodup {h : Heap} {o : Option Ptr} {L : List Ptr} (hl : Listed h o L) :
    L.Nodup :=
  Chain_nodup _ _ (Listed_Chain h L o hl)

theorem main_scan_spec {DB : Type} (E : Env DB) (flags : Flags) (o : ordertype_t)
    (Q : List Nat → List Nat → Prop) (hQs : ∀ a b, Q a b → Q b a)
    (hQt : ∀ a b c, Q a b → Q b c → Q a c) {A : List Ptr} {h0 : Heap}
    (hQ : ∀ x ∈ A, ∀ y ∈ A,
      (flags.F_PERMISSIONS = true →
        same_permissions E (h0 x).d_name (h0 y).d_name ≠ 0) →
      (flags.F_DEFERCONFIRMATION || flags.F_QUICKSUMMARY ||
        E.confirmmatch (h0 x).d_name (h0 y).d_name) = true →
      Q (h0 x).d_name (h0 y).d_name)
    (cfuel : Nat) :
    ∀ (R P : List Ptr) (ms : Scan DB) (cur : Option Ptr) (fuel : Nat),
      Listed h0 cur R → (∀ x ∈ R, x ∈ A) → (∀ x ∈ P, x ∈ A) → (∀ x ∈ R, x ∉ P) → R.Nodup →
      P.length + R.length ≤ cfuel → R.length ≤ fuel →
      ScanInv E flags o Q A h0 ms.st.heap ms.checktree.files P →
      (ms.checktree = filetree_t.null → ms.matched = none) →
      ∃ ms', main_scan E flags o cfuel fuel ms cur = some ms' ∧
        ScanInv E flags o Q A h0 ms'.st.heap ms'.checktree.files (R.reverse ++ P) := by
  intro R
  induction R with
  | nil =>
    intro P ms cur fuel hl _ _ _ _ _ _ inv _
    have hcur : cur = none := hl
    subst hcur
    refine ⟨ms, ?_, by simpa using inv⟩
    cases fuel <;> rfl
  | cons p R ih =>
    intro P ms cur fuel hl hRA hPA hRP hnd hc hf inv hm
    have hcur : cur = some p := hl.1
    subst hcur
    obtain ⟨fuel, rfl⟩ : ∃ k, fuel = k + 1 := ⟨fuel - 1, by simp at hf; omega⟩
    have hpP : p ∉ P := hRP p (List.mem_cons_self _ _)
    have hpA : p ∈ A := hRA p (List.mem_cons_self _ _)
    obtain ⟨ms1, hrun, inv1, hne⟩ := main_scan_step_spec E flags o Q hQs hQt hQ ms P p inv hm
      hpP hpA hPA cfuel (by simp at hc; omega)
    have hnext : (ms1.st.heap p).next = (h0 p).next := core_next (inv1.core p)
    obtain ⟨ms', hrun', inv'⟩ := ih (p :: P) ms1 (h0 p).next fuel hl.2
      (fun x hx => hRA x (List.mem_cons_of_mem _ hx))
      (by
        intro x hx
        rcases List.mem_cons.mp hx with e | hxP
        · subst e; exact hpA
        · exact hPA x hxP)
      (by
        intro x hx hx'
        rcases List.mem_cons.mp hx' with e | hxP
        · subst e; exact (List.nodup_cons.mp hnd).1 hx
        · exact hRP x (List.mem_cons_of_mem _ hx) hxP)
      (List.nodup_cons.mp hnd).2
      (by simp at hc ⊢; omega)
      (by simp at hf; omega)
      inv1
      (by
        intro e
        rw [e] at hne
        exact absurd rfl hne)
    refine ⟨ms', ?_, by simpa using inv'⟩
    simp only [main_scan, hrun, hnext]
    exact hrun'

/-- The scan loop run on a file list `A` of records as `grokdir` leaves
them (no group links): it returns, it changes no field but the digests and the
group links, and every record that ends with `hasdupes` set heads a group
that satisfies the group invariant. -/
theorem main_scan_groups {DB : Type} (E : Env DB) (flags : Flags) (o : ordertype_t)
    (Q : List Nat → List Nat → Prop) (hQs : ∀ a b, Q a b → Q b a)
    (hQt : ∀ a b c, Q a b → Q b c → Q a c) (A : List Ptr) (h0 : Heap) (db : DB)
    (first : Option Ptr) (fuel cfuel : Nat)
    (hQ : ∀ x ∈ A, ∀ y ∈ A,
      (flags.F_PERMISSIONS = true →
        same_permissions E (h0 x).d_name (h0 y).d_name ≠ 0) →
      (flags.F_DEFERCONFIRMATION || flags.F_QUICKSUMMARY ||
        E.confirmmatch (h0 x).d_name (h0 y).d_name) = true →
      Q (h0 x).d_name (h0 y).d_name)
    (hl : Listed h0 first A)
    (hfresh : ∀ x ∈ A, (h0 x).hasdupes = 0 ∧ (h0 x).duplicates = none)
    (hf : A.length ≤ fuel) (hcf : A.length ≤ cfuel) :
    ∃ ms, main_scan E flags o cfuel fuel (scan_init h0 db) first = some ms ∧
      (∀ x, (ms.st.heap x).core = (h0 x).core) ∧
      ∀ q ∈ A, (ms.st.heap q).hasdupes ≠ 0 → ∃ L, GroupInv E flags o Q ms.st.heap A q L := by
  have inv0 : ScanInv E flags o Q A h0 (scan_init h0 db).st.heap
      (scan_init h0 db).checktree.files [] := by
    refine ⟨fun _ => rfl, List.nodup_nil, ?_, ?_, ?_, ?_⟩
    · intro q hq; simp [scan_init, filetree_t.files] at hq
    · intro q hq; simp [scan_init, filetree_t.files] at hq
    · intro x hx _; exact hfresh x hx
    · intro _ q hq; simp [scan_init, filetree_t.files] at hq
  obtain ⟨ms, hrun, inv⟩ := main_scan_spec E flags o Q hQs hQt hQ cfuel A [] (scan_init h0 db)
    first fuel hl (fun x hx => hx) (by simp) (by simp) (Listed_nodup hl) (by simpa using hcf)
    hf inv0 (fun _ => rfl)
  refine ⟨ms, hrun, inv.core, ?_⟩
  intro q hqA hd
  by_contra hno
  have hout : ∀ q' ∈ ms.checktree.files, ∀ L, Chain ms.st.heap (some q') L → q ∉ L := by
    intro q' hq' L hc hqL
    obtain ⟨L', g⟩ := inv.groups q' hq'
    have hLL := Chain_unique _ _ _ hc g.chain
    subst hLL
    by_cases hqq : q = q'
    · subst hqq
      apply hno
      exact ⟨L, GroupInv_congr E flags o Q (fun _ _ => rfl) (by simp) g⟩
    · exact hd (g.tail0 q hqL hqq)
  exact hd (inv.outside q hqA hout).1

/-- In immediate mode (delete while scanning) the scan loop returns and leaves
no group behind: every record of the file list still has `hasdupes = 0` and
`duplicates = NULL`, so the `deletefiles` call that follows finds no set. -/
theorem main_scan_immediate {DB : Type} (E : Env DB) (flags : Flags) (o : ordertype_t)
    (A : List Ptr) (h0 : Heap) (db : DB) (first : Option Ptr) (fuel cfuel : Nat)
    (hI : (flags.F_DELETEFILES && flags.F_IMMEDIATE) = true)
    (hl : Listed h0 first A)
    (hfresh : ∀ x ∈ A, (h0 x).hasdupes = 0 ∧ (h0 x).duplicates = none)
    (hf : A.length ≤ fuel) (hcf : A.length ≤ cfuel) :
    ∃ ms, main_scan E flags o cfuel fuel (scan_init h0 db) first = some ms ∧
      ∀ q ∈ A, (ms.st.heap q).hasdupes = 0 ∧ (ms.st.heap q).duplicates = none := by
  have inv0 : ScanInv E flags o (fun _ _ => True) A h0 (scan_init h0 db).st.heap
      (scan_init h0 db).checktree.files [] := by
    refine ⟨fun _ => rfl, List.nodup_nil, ?_, ?_, ?_, ?_⟩
    · intro q hq; simp [scan_init, filetree_t.files] at hq
    · intro q hq; simp [scan_init, filetree_t.files] at hq
    · intro x hx _; exact hfresh x hx
    · intro _ q hq; simp [scan_init, filetree_t.files] at hq
  obtain ⟨ms, hrun, inv⟩ := main_scan_spec E flags o (fun _ _ => True) (fun _ _ _ => trivial)
    (fun _ _ _ _ _ => trivial) (fun _ _ _ _ _ _ => trivial) cfuel A [] (scan_init h0 db)
    first fuel hl (fun x hx => hx) (by simp) (by simp) (Listed_nodup hl) (by simpa using hcf)
    hf inv0 (fun _ => rfl)
  refine ⟨ms, hrun, ?_⟩
  intro q hqA
  by_cases hT : q ∈ ms.checktree.files
  · exact inv.imm hI q hT
  · apply inv.outside q hqA
    intro q' hq' L hc hqL
    obtain ⟨_, hd'⟩ := inv.imm hI q' hq'
    have hone : Chain ms.st.heap (some q') [q'] := ⟨rfl, hd'⟩
    have hLL := Chain_unique _ _ _ hc hone
    subst hLL
    simp at hqL
    subst hqL
    exact hT hq'

/-! ## What a single call of checkmatch guarantees -/

theorem checkmatch_sound {DB : Type} (E : Env DB) (flags : Flags) (fuel : Nat) (file : Ptr) :
    ∀ (t : filetree_t) (s s' : State DB) (t' : filetree_t) (path : List Bool),
      checkmatch E flags fuel t file s = some (s', t', some path) →
      t' = t ∧ ∃ peer, t.file_at path = some peer ∧ Matched (s'.heap file) (s'.heap peer) := by
  intro t
  induction t with
  | null =>
    intro s s' t' path h
    simp [checkmatch] at h
  | node ct l r ihl ihr =>
    intro s s' t' path h
    unfold checkmatch at h
    cases hv : checkmatch_precheck E flags fuel s.heap ct file with
    | none => simp [hv] at h
    | some v =>
      simp only [hv] at h
      by_cases hv0 : v ≠ 0
      · simp [hv0] at h
      · simp only [hv0, if_false] at h
        have hcs := checkmatch_compare_spec E flags s ct file
        cases hcmp : checkmatch_compare E flags s ct file with
        | fault => simp [hcmp] at h
        | null s1 => simp [hcmp] at h
        | result s1 c =>
          simp only [hcmp] at h
          obtain ⟨-, hzero⟩ := hcs.2.2 s1 c hcmp
          by_cases hlt : c < 0
          · simp only [hlt, if_true] at h
            cases l with
            | null => simp at h
            | node a b c' =>
              simp only [] at h
              cases hrec : checkmatch E flags fuel (filetree_t.node a b c') file s1 with
              | none => simp [hrec] at h
              | some res =>
                obtain ⟨s2, l2, m⟩ := res
                simp only [hrec] at h
                cases m with
                | none => simp at h
                | some path0 =>
                  simp at h
                  obtain ⟨e1, e2, e3⟩ := h
                  subst e1 e2 e3
                  obtain ⟨et, peer, hat, hm⟩ := ihl s1 s2 l2 path0 hrec
                  subst et
                  exact ⟨rfl, peer, hat, hm⟩
          · simp only [hlt, if_false] at h
            by_cases hgt : c > 0
            · simp only [hgt, if_true] at h
              cases r with
              | null => simp at h
              | node a b c' =>
                simp only [] at h
                cases hrec : checkmatch E flags fuel (filetree_t.node a b c') file s1 with
                | none => simp [hrec] at h
                | some res =>
                  obtain ⟨s2, r2, m⟩ := res
                  simp only [hrec] at h
                  cases m with
                  | none => simp at h
                  | some path0 =>
                    simp at h
                    obtain ⟨e1, e2, e3⟩ := h
                    subst e1 e2 e3
                    obtain ⟨et, peer, hat, hm⟩ := ihr s1 s2 r2 path0 hrec
                    subst et
                    exact ⟨rfl, peer, hat, hm⟩
            · simp only [hgt, if_false] at h
              simp at h
              obtain ⟨e1, e2, e3⟩ := h
              subst e1 e2 e3
              have hc0 : c = 0 := by omega
              exact ⟨rfl, ct, rfl, (hzero hc0).1⟩

theorem is_hardlink_loop_hit (h : Heap) (file x : Ptr)
    (hid : (h file).inode = (h x).inode ∧ (h file).device = (h x).device) :
    ∀ (S : List Ptr) (d : Ptr) (fuel : Nat), Chain h (some d) (d :: S) → S.length < fuel →
      x ∈ d :: S → is_hardlink_loop h file fuel (some d) = some 1
  | [], d, fuel, _, hf, hx => by
    obtain ⟨fuel, rfl⟩ : ∃ k, fuel = k + 1 := ⟨fuel - 1, by omega⟩
    simp at hx
    subst hx
    simp [is_hardlink_loop, hid]
  | e :: S, d, fuel, hc, hf, hx => by
    obtain ⟨fuel, rfl⟩ : ∃ k, fuel = k + 1 := ⟨fuel - 1, by omega⟩
    have hd : (h d).duplicates = some e := hc.2.1
    unfold is_hardlink_loop
    by_cases hd0 : (h file).inode = (h d).inode ∧ (h file).device = (h d).device
    · rw [if_pos hd0]
    · rw [if_neg hd0, hd]
      have hx' : x ∈ e :: S := by
        rcases List.mem_cons.mp hx with e1 | hxS
        · subst e1; exact absurd hid hd0
        · exact hxS
      exact is_hardlink_loop_hit h file x hid S e fuel ⟨rfl, hc.2.2⟩ (by simp at hf; omega) hx'

theorem has_same_file_loop_hit {DB : Type} (E : Env DB) (h : Heap) (file x : Ptr)
    (hid : is_same_file E (h x) (h file) ≠ 0) :
    ∀ (S : List Ptr) (d : Ptr) (fuel : Nat), Chain h (some d) (d :: S) → S.length < fuel →
      x ∈ d :: S → has_same_file_loop E h file fuel (some d) = some 1
  | [], d, fuel, _, hf, hx => by
    obtain ⟨fuel, rfl⟩ : ∃ k, fuel = k + 1 := ⟨fuel - 1, by omega⟩
    simp at hx
    subst hx
    simp [has_same_file_loop, hid]
  | e :: S, d, fuel, hc, hf, hx => by
    obtain ⟨fuel, rfl⟩ : ∃ k, fuel = k + 1 := ⟨fuel - 1, by omega⟩
    have hd : (h d).duplicates = some e := hc.2.1
    unfold has_same_file_loop
    by_cases hd0 : is_same_file E (h d) (h file) ≠ 0
    · rw [if_pos hd0]
    · rw [if_neg hd0, hd]
      have hx' : x ∈ e :: S := by
        rcases List.mem_cons.mp hx with e1 | hxS
        · subst e1; exact absurd hid hd0
        · exact hxS
      exact has_same_file_loop_hit E h file x hid S e fuel ⟨rfl, hc.2.2⟩
        (by simp at hf; omega) hx'

theorem checkmatch_precheck_hit {DB : Type} (E : Env DB) (flags : Flags) (fuel : Nat)
    (h : Heap) (ct file x : Ptr) (S : List Ptr)
    (hc : Chain h (some ct) (ct :: S)) (hf : S.length ≤ fuel)
    (hx : x = ct ∨ ((h ct).hasdupes ≠ 0 ∧ x ∈ S))
    (hid : Ident E flags (h file) (h x)) :
    checkmatch_precheck E flags fuel h ct file = some 1 := by
  unfold checkmatch_precheck
  unfold Ident at hid
  by_cases hH : flags.F_CONSIDERHARDLINKS = true
  · simp only [hH, if_true] at hid ⊢
    unfold has_same_file
    by_cases h1 : is_same_file E (h ct) (h file) ≠ 0
    · rw [if_pos h1]
    · rw [if_neg h1]
      rcases hx with e | ⟨hd, hxS⟩
      · subst e; exact absurd hid h1
      · rw [if_pos hd]
        cases S with
        | nil => simp at hxS
        | cons d S =>
          have hdd : (h ct).duplicates = some d := hc.2.1
          rw [hdd]
          exact has_same_file_loop_hit E h file x hid S d fuel ⟨rfl, hc.2.2⟩
            (by simp at hf; omega) hxS
  · simp only [hH] at hid ⊢
    simp only [Bool.false_eq_true, if_false] at hid ⊢
    unfold is_hardlink
    by_cases h1 : (h file).inode = (h ct).inode ∧ (h file).device = (h ct).device
    · rw [if_pos h1]
    · rw [if_neg h1]
      rcases hx with e | ⟨hd, hxS⟩
      · subst e; exact absurd hid h1
      · rw [if_pos hd]
        cases S with
        | nil => simp at hxS
        | cons d S =>
          have hdd : (h ct).duplicates = some d := hc.2.1
          rw [hdd]
          exact is_hardlink_loop_hit h file x hid S d fuel ⟨rfl, hc.2.2⟩
            (by simp at hf; omega) hxS

theorem checkmatch_identity_hit {DB : Type} (E : Env DB) (flags : Flags) (fuel : Nat)
    (s : State DB) (ct file x : Ptr) (l r : filetree_t) (S : List Ptr)
    (hc : Chain s.heap (some ct) (ct :: S)) (hf : S.length ≤ fuel)
    (hx : x = ct ∨ ((s.heap ct).hasdupes ≠ 0 ∧ x ∈ S))
    (hid : Ident E flags (s.heap file) (s.heap x)) :
    checkmatch E flags fuel (filetree_t.node ct l r) file s
      = some (s, filetree_t.node ct l r, none) := by
  have hp := checkmatch_precheck_hit E flags fuel s.heap ct file x S hc hf hx hid
  simp [checkmatch, hp]

theorem removal_attempts_append : ∀ a b : List Event,
    removal_attempts (a ++ b) = removal_attempts a ++ removal_attempts b
  | [], _ => rfl
  | e :: a, b => by
    cases e <;> simp [removal_attempts, removal_attempts_append a b]

theorem kept_files_append : ∀ a b : List Event,
    kept_files (a ++ b) = kept_files a ++ kept_files b
  | [], _ => rfl
  | e :: a, b => by
    cases e <;> simp [kept_files, kept_files_append a b]

theorem remove_file_trace {DB : Type} (E : Env DB) (flags : Flags) (s : State DB) (p : Ptr) :
    ∃ evs, (remove_file E flags s p).trace = s.trace ++ evs ∧
      removal_attempts evs = [p] ∧ kept_files evs = [] := by
  unfold remove_file
  simp only []
  by_cases hr : E.removeifnotchanged (s.heap p) = 0
  · simp only [hr, if_true]
    by_cases hc : flags.F_CACHESIGNATURES = true
    · simp only [hc, if_true]
      cases E.getrealpath (s.heap p).d_name with
      | none =>
        exact ⟨[Event.removeifnotchanged p 0, Event.deleted p], by simp, rfl, rfl⟩
      | some dp =>
        by_cases hro : (!flags.F_READONLYCACHE) = true
        · simp only [hro, if_true]
          exact ⟨[Event.removeifnotchanged p 0, Event.deleted p,
            Event.hashdb_deletehashforpath p], by simp, rfl, rfl⟩
        · simp only [hro, if_false]
          exact ⟨[Event.removeifnotchanged p 0, Event.deleted p], by simp, rfl, rfl⟩
    · simp only [hc, if_false]
      exact ⟨[Event.removeifnotchanged p 0, Event.deleted p], by simp, rfl, rfl⟩
  · simp only [hr, if_false]
    exact ⟨[Event.removeifnotchanged p (E.removeifnotchanged (s.heap p)), Event.undeleted p],
      by simp, rfl, rfl⟩

theorem Slots_write_some {α : Type} (a : Slots α) (i : Nat) (v : α) (hi : i < a.max) :
    a.write i v = some { a with val := fun j => if j = i then v else a.val j } := by
  simp [Slots.write, hi]

theorem Slots_write_sound {α : Type} (a a' : Slots α) (i : Nat) (v : α)
    (h : a.write i v = some a') :
    i < a.max ∧ a'.max = a.max ∧ a'.val i = v ∧ ∀ j, j ≠ i → a'.val j = a.val j := by
  unfold Slots.write at h
  by_cases hi : i < a.max
  · rw [if_pos hi] at h
    injection h with h
    subst h
    exact ⟨hi, rfl, by simp, fun j hj => by simp [hj]⟩
  · rw [if_neg hi] at h
    cases h

theorem Slots_read_sound {α : Type} (a : Slots α) (i : Nat) (v : α)
    (h : a.read i = some v) : i < a.max ∧ a.val i = v := by
  unfold Slots.read at h
  by_cases hi : i < a.max
  · rw [if_pos hi] at h
    injection h with h
    exact ⟨hi, h⟩
  · rw [if_neg hi] at h
    cases h

theorem Slots_read_some {α : Type} (a : Slots α) (i : Nat) (hi : i < a.max) :
    a.read i = some (a.val i) := by
  simp [Slots.read, hi]

theorem deletefiles_collect_loop_sound (h : Heap) :
    ∀ (S : List Ptr) (o : Option Ptr) (fuel counter : Nat) (dl : Slots Ptr)
      (r : Nat × Slots Ptr),
      Chain h o S → deletefiles_collect_loop h fuel counter dl o = some r →
      r.1 = counter + S.length ∧ r.2.max = dl.max ∧
      (S ≠ [] → counter + S.length < dl.max) ∧
      (∀ j, j ≤ counter → r.2.val j = dl.val j) ∧
      (∀ i p, S[i]? = some p → r.2.val (counter + 1 + i) = p)
  | [], o, fuel, counter, dl, r, hc, hrun => by
    have ho : o = none := hc
    subst ho
    have hr : r = (counter, dl) := by
      cases fuel <;> simp [deletefiles_collect_loop] at hrun <;> exact hrun.symm
    subst hr
    exact ⟨by simp, rfl, by simp, fun _ _ => rfl, by simp⟩
  | d :: S, o, fuel, counter, dl, r, hc, hrun => by
    have ho : o = some d := hc.1
    subst ho
    cases fuel with
    | zero => simp [deletefiles_collect_loop] at hrun
    | succ fuel =>
      simp only [deletefiles_collect_loop] at hrun
      cases hw : dl.write (counter + 1) d with
      | none => simp [hw] at hrun
      | some dl1 =>
        simp only [hw] at hrun
        obtain ⟨hb, hmax, hv, hne⟩ := Slots_write_sound dl dl1 _ _ hw
        obtain ⟨h1, h2, h3, h4, h5⟩ :=
          deletefiles_collect_loop_sound h S _ fuel (counter + 1) dl1 r hc.2 hrun
        refine ⟨by simp [h1]; omega, by rw [h2, hmax], ?_, ?_, ?_⟩
        · intro _
          simp only [List.length_cons]
          rw [hmax] at h3
          cases S with
          | nil => simp; omega
          | cons e S =>
            have := h3 (by simp)
            simp at this ⊢
            omega
        · intro j hj
          rw [h4 j (by omega), hne j (by omega)]
        · intro i p hi
          cases i with
          | zero =>
            simp at hi
            subst hi
            rw [h4 (counter + 1) (Nat.le_refl _)]
            exact hv
          | succ i =>
            simp at hi
            have := h5 i p hi
            rw [← this]
            congr 1
            omega

theorem deletefiles_collect_loop_total (h : Heap) :
    ∀ (S : List Ptr) (o : Option Ptr) (fuel counter : Nat) (dl : Slots Ptr),
      Chain h o S → S.length ≤ fuel → counter + S.length < dl.max →
      ∃ r, deletefiles_collect_loop h fuel counter dl o = some r
  | [], o, fuel, counter, dl, hc, _, _ => by
    have ho : o = none := hc
    subst ho
    exact ⟨(counter, dl), by cases fuel <;> rfl⟩
  | d :: S, o, fuel, counter, dl, hc, hf, hb => by
    have ho : o = some d := hc.1
    subst ho
    obtain ⟨fuel, rfl⟩ : ∃ k, fuel = k + 1 := ⟨fuel - 1, by simp at hf; omega⟩
    simp only [List.length_cons] at hb hf
    simp only [deletefiles_collect_loop, Slots_write_some dl (counter + 1) d (by omega)]
    exact deletefiles_collect_loop_total h S _ fuel (counter + 1) _ hc.2 (by omega)
      (by simp; omega)

theorem deletefiles_collect_sound (h : Heap) (q : Ptr) (S : List Ptr) (fuel : Nat)
    (dl : Slots Ptr) (r : Nat × Slots Ptr) (hc : Chain h (some q) (q :: S))
    (hrun : deletefiles_collect h fuel dl q = some r) :
    r.1 = S.length + 1 ∧ r.2.max = dl.max ∧ S.length + 1 < dl.max ∧
    (∀ i p, (q :: S)[i]? = some p → r.2.val (i + 1) = p) := by
  unfold deletefiles_collect at hrun
  cases hw : dl.write 1 q with
  | none => simp [hw] at hrun
  | some dl1 =>
    simp only [hw] at hrun
    obtain ⟨hb, hmax, hv, _⟩ := Slots_write_sound dl dl1 _ _ hw
    obtain ⟨h1, h2, h3, h4, h5⟩ :=
      deletefiles_collect_loop_sound h S _ fuel 1 dl1 r hc.2 hrun
    refine ⟨by omega, by rw [h2, hmax], ?_, ?_⟩
    · cases S with
      | nil => simpa using hb
      | cons e S =>
        have := h3 (by simp)
        rw [hmax] at this
        simp at this ⊢
        omega
    · intro i p hi
      cases i with
      | zero =>
        simp at hi
        subst hi
        rw [h4 1 (Nat.le_refl _)]
        exact hv
      | succ i =>
        simp at hi
        have := h5 i p hi
        rw [← this]
        congr 1
        omega

theorem deletefiles_collect_total (h : Heap) (q : Ptr) (S : List Ptr) (fuel : Nat)
    (dl : Slots Ptr) (hc : Chain h (some q) (q :: S)) (hf : S.length ≤ fuel)
    (hb : S.length + 1 < dl.max) :
    ∃ r, deletefiles_collect h fuel dl q = some r := by
  unfold deletefiles_collect
  simp only [Slots_write_some dl 1 q (by omega)]
  exact deletefiles_collect_loop_total h S _ fuel 1 _ hc.2 hf (by simp; omega)

theorem preserve_fill_sound (v : Int) :
    ∀ (n x : Nat) (pr pr' : Slots Int), preserve_fill v n x pr = some pr' →
      pr'.max = pr.max ∧ (∀ j, x ≤ j → j < x + n → pr'.val j = v) ∧
      (∀ j, (j < x ∨ x + n ≤ j) → pr'.val j = pr.val j)
  | 0, x, pr, pr', h => by
    simp [preserve_fill] at h
    subst h
    exact ⟨rfl, fun j h1 h2 => by omega, fun _ _ => rfl⟩
  | n + 1, x, pr, pr', h => by
    simp only [preserve_fill] at h
    cases hw : pr.write x v with
    | none => simp [hw] at h
    | some pr1 =>
      simp only [hw] at h
      obtain ⟨_, hmax, hv, hne⟩ := Slots_write_sound pr pr1 _ _ hw
      obtain ⟨h1, h2, h3⟩ := preserve_fill_sound v n (x + 1) pr1 pr' h
      refine ⟨by rw [h1, hmax], ?_, ?_⟩
      · intro j hj1 hj2
        by_cases hjx : j = x
        · subst hjx
          rw [h3 j (Or.inl (by omega))]
          exact hv
        · exact h2 j (by omega) (by omega)
      · intro j hj
        rw [h3 j (by omega), hne j (by omega)]

theorem preserve_fill_total (v : Int) :
    ∀ (n x : Nat) (pr : Slots Int), x + n ≤ pr.max →
      ∃ pr', preserve_fill v n x pr = some pr'
  | 0, _, pr, _ => ⟨pr, rfl⟩
  | n + 1, x, pr, hb => by
    simp only [preserve_fill, Slots_write_some pr x v (by omega)]
    exact preserve_fill_total v n (x + 1) _ (by simp; omega)

theorem preserve_sum_zero (pr : Slots Int) :
    ∀ (n x : Nat) (acc t : Int), preserve_sum pr n x acc = some t →
      (∀ j, x ≤ j → j < x + n → pr.val j = 0) → t = acc
  | 0, _, acc, t, h, _ => by
    simp [preserve_sum] at h
    exact h.symm
  | n + 1, x, acc, t, h, hz => by
    simp only [preserve_sum] at h
    cases hr : pr.read x with
    | none => simp [hr] at h
    | some v =>
      simp only [hr] at h
      have hv := (Slots_read_sound pr x v hr).2
      have hx0 := hz x (Nat.le_refl _) (by omega)
      have := preserve_sum_zero pr n (x + 1) (acc + v) t h
        (fun j h1 h2 => hz j (by omega) (by omega))
      rw [this, ← hv, hx0]
      simp

theorem deletefiles_prompt_sound {DB : Type} (E : Env DB) (counter : Nat) :
    ∀ (fuel : Nat) (pr : Slots Int) (tty : List (List Nat)) (pr' : Slots Int)
      (tty' : List (List Nat)),
      deletefiles_prompt E counter fuel pr tty = some (Selected.chosen pr' tty') →
      ∃ x, 1 ≤ x ∧ x ≤ counter ∧ pr'.val x ≠ 0
  | 0, _, _, _, _, h => by simp [deletefiles_prompt] at h
  | fuel + 1, pr, tty, pr', tty', h => by
    unfold deletefiles_prompt at h
    generalize tty.headD [10] = line at h
    by_cases hq : strcmp line [113, 10] = 0 ∨ strcmp line [113, 117, 105, 116, 10] = 0
    · simp only [hq, if_true] at h
      injection h with h
      cases h
    simp only [hq, if_false] at h
    cases h1 : preserve_fill 0 counter 1 pr with
    | none => rw [h1] at h; cases h
    | some pr1 =>
      rw [h1] at h
      simp only [] at h
      cases h2 : preserve_tokens E counter (strtok_tokens line []) pr1 with
      | none => rw [h2] at h; cases h
      | some pr2 =>
        rw [h2] at h
        simp only [] at h
        cases h3 : preserve_sum pr2 counter 1 0 with
        | none => rw [h3] at h; cases h
        | some sum =>
          rw [h3] at h
          simp only [] at h
          by_cases hs : sum < 1
          · rw [if_pos hs] at h
            exact deletefiles_prompt_sound E counter fuel pr2 tty.tail pr' tty' h
          · rw [if_neg hs] at h
            injection h with h
            injection h with e1 e2
            subst e1
            by_contra hno
            have hz : ∀ j, 1 ≤ j → j < 1 + counter → pr2.val j = 0 := by
              intro j hj1 hj2
              by_contra hj
              exact hno ⟨j, hj1, by omega, hj⟩
            have := preserve_sum_zero pr2 counter 1 0 sum h3 hz
            omega

theorem deletefiles_select_sound {DB : Type} (E : Env DB) (prompt : Bool)
    (counter pfuel : Nat) (pr : Slots Int) (tty : List (List Nat)) (pr' : Slots Int)
    (tty' : List (List Nat)) (hcounter : 1 ≤ counter)
    (h : deletefiles_select E prompt counter pfuel pr tty = some (Selected.chosen pr' tty')) :
    ∃ x, 1 ≤ x ∧ x ≤ counter ∧ pr'.val x ≠ 0 := by
  unfold deletefiles_select at h
  cases prompt with
  | true =>
    simp only [Bool.not_true, Bool.false_eq_true, if_false] at h
    exact deletefiles_prompt_sound E counter pfuel pr tty pr' tty' h
  | false =>
    simp only [Bool.not_false, if_true] at h
    cases h1 : pr.write 1 1 with
    | none => simp [h1] at h
    | some pr1 =>
      simp only [h1] at h
      cases h2 : preserve_fill 0 (counter - 1) 2 pr1 with
      | none => simp [h2] at h
      | some pr2 =>
        simp only [h2] at h
        injection h with h
        injection h with e1 e2
        subst e1
        obtain ⟨_, _, hv, _⟩ := Slots_write_sound pr pr1 _ _ h1
        obtain ⟨_, _, hout⟩ := preserve_fill_sound 0 _ _ pr1 pr2 h2
        refine ⟨1, Nat.le_refl _, hcounter, ?_⟩
        rw [hout 1 (Or.inl (by omega)), hv]
        decide

theorem deletefiles_remove_loop_sound {DB : Type} (E : Env DB) (flags : Flags)
    (counter : Nat) (dl : Slots Ptr) (pr : Slots Int) :
    ∀ (n x : Nat) (s s' : State DB),
      deletefiles_remove_loop E flags counter dl pr n x s = some s' →
      s'.heap = s.heap ∧ ∃ evs, s'.trace = s.trace ++ evs ∧
        ∀ p ∈ removal_attempts evs, ∃ j, x ≤ j ∧ j < x + n ∧ pr.val j = 0 ∧ dl.val j = p
  | 0, x, s, s', h => by
    simp [deletefiles_remove_loop] at h
    subst h
    exact ⟨rfl, [], by simp, by simp [removal_attempts]⟩
  | n + 1, x, s, s', h => by
    unfold deletefiles_remove_loop at h
    cases hr : pr.read x with
    | none => rw [hr] at h; cases h
    | some v =>
      cases hd : dl.read x with
      | none => rw [hr, hd] at h; cases h
      | some p =>
        rw [hr, hd] at h
        simp only [] at h
        have hv := (Slots_read_sound pr x v hr).2
        have hp := (Slots_read_sound dl x p hd).2
        by_cases hv0 : v ≠ 0
        · rw [if_pos hv0] at h
          obtain ⟨hh, evs, htr, hat⟩ :=
            deletefiles_remove_loop_sound E flags counter dl pr n (x + 1) _ s' h
          refine ⟨hh, Event.kept p :: evs, by simp [htr], ?_⟩
          intro m hm
          simp only [removal_attempts] at hm
          obtain ⟨j, h1, h2, h3, h4⟩ := hat m hm
          exact ⟨j, by omega, by omega, h3, h4⟩
        · rw [if_neg hv0] at h
          have hvz : v = 0 := by omega
          cases hi : deletefiles_ismatch E flags s.heap counter dl pr x with
          | none => rw [hi] at h; cases h
          | some ismatch =>
            rw [hi] at h
            simp only [] at h
            cases ismatch with
            | true =>
              simp only [if_true] at h
              obtain ⟨hh, evs, htr, hat⟩ :=
                deletefiles_remove_loop_sound E flags counter dl pr n (x + 1) _ s' h
              obtain ⟨e1, he1, ha1, _⟩ := remove_file_trace E flags s p
              refine ⟨by rw [hh, remove_file_heap], e1 ++ evs, by rw [htr, he1]; simp, ?_⟩
              intro m hm
              rw [removal_attempts_append, ha1] at hm
              rcases List.mem_append.mp hm with hm1 | hm2
              · simp at hm1
                subst hm1
                exact ⟨x, Nat.le_refl _, by omega, by rw [hv, hvz], hp⟩
              · obtain ⟨j, h1, h2, h3, h4⟩ := hat m hm2
                exact ⟨j, by omega, by omega, h3, h4⟩
            | false =>
              simp only [Bool.false_eq_true, if_false] at h
              obtain ⟨hh, evs, htr, hat⟩ :=
                deletefiles_remove_loop_sound E flags counter dl pr n (x + 1) _ s' h
              refine ⟨hh, Event.undeleted p :: evs, by simp [htr], ?_⟩
              intro m hm
              simp only [removal_attempts] at hm
              obtain ⟨j, h1, h2, h3, h4⟩ := hat m hm
              exact ⟨j, by omega, by omega, h3, h4⟩

theorem deletefiles_remove_loop_all {DB : Type} (E : Env DB) (flags : Flags)
    (counter : Nat) (dl : Slots Ptr) (pr : Slots Int)
    (hconf : (flags.F_DEFERCONFIRMATION && !flags.F_NOCONFIRMATION) = false) :
    ∀ (M : List Ptr) (x : Nat) (s : State DB),
      (∀ i p, M[i]? = some p →
        x + i < pr.max ∧ x + i < dl.max ∧ pr.val (x + i) = 0 ∧ dl.val (x + i) = p) →
      ∃ s', deletefiles_remove_loop E flags counter dl pr M.length x s = some s' ∧
        s'.heap = s.heap ∧ s'.db = (M.foldl (remove_file E flags) s).db ∧
        removal_attempts s'.trace = removal_attempts s.trace ++ M ∧
        kept_files s'.trace = kept_files s.trace
  | [], x, s, _ => ⟨s, rfl, rfl, rfl, by simp, rfl⟩
  | m :: M, x, s, hM => by
    obtain ⟨h1, h2, h3, h4⟩ := hM 0 m (by simp)
    simp only [Nat.add_zero] at h1 h2 h3 h4
    have hi : deletefiles_ismatch E flags s.heap counter dl pr x = some true := by
      simp [deletefiles_ismatch, hconf]
    obtain ⟨s', hrun, hh, hdb, hat, hk⟩ :=
      deletefiles_remove_loop_all E flags counter dl pr hconf M (x + 1) (remove_file E flags s m)
        (by
          intro i p hp
          have := hM (i + 1) p (by simpa using hp)
          have e : x + (i + 1) = x + 1 + i := by omega
          rw [e] at this
          exact this)
    refine ⟨s', ?_, by rw [hh, remove_file_heap], by rw [hdb]; rfl, ?_, ?_⟩
    · simp only [List.length_cons, deletefiles_remove_loop, Slots_read_some pr x h1,
        Slots_read_some dl x h2, h3, h4, hi]
      simpa using hrun
    · obtain ⟨e1, he1, ha1, _⟩ := remove_file_trace E flags s m
      rw [hat, he1, removal_attempts_append, ha1]
      simp
    · obtain ⟨e1, he1, _, hk1⟩ := remove_file_trace E flags s m
      rw [hk, he1, kept_files_append, hk1]
      simp

theorem deletefiles_firstpreserved_spec (pr : Slots Int) :
    ∀ (n i : Nat), 1 ≤ i → i + n ≤ pr.max →
      ∃ fp, deletefiles_firstpreserved pr n i = some fp ∧
        ((fp = 0 ∧ ∀ j, i ≤ j → j < i + n → pr.val j = 0) ∨
         (i ≤ fp ∧ fp < i + n ∧ pr.val fp ≠ 0))
  | 0, i, _, _ => ⟨0, rfl, Or.inl ⟨rfl, fun j h1 h2 => by omega⟩⟩
  | n + 1, i, hi, hb => by
    simp only [deletefiles_firstpreserved, Slots_read_some pr i (by omega)]
    by_cases hv : pr.val i ≠ 0
    · rw [if_pos hv]
      exact ⟨i, rfl, Or.inr ⟨Nat.le_refl _, by omega, hv⟩⟩
    · rw [if_neg hv]
      obtain ⟨fp, hrun, hres⟩ := deletefiles_firstpreserved_spec pr n (i + 1) (by omega) (by omega)
      refine ⟨fp, hrun, ?_⟩
      rcases hres with ⟨h0, hz⟩ | ⟨h1, h2, h3⟩
      · refine Or.inl ⟨h0, ?_⟩
        intro j hj1 hj2
        by_cases hji : j = i
        · subst hji; omega
        · exact hz j (by omega) (by omega)
      · exact Or.inr ⟨by omega, by omega, h3⟩

theorem deletefiles_ismatch_total {DB : Type} (E : Env DB) (flags : Flags) (h : Heap)
    (counter : Nat) (dl : Slots Ptr) (pr : Slots Int) (x : Nat)
    (hpr : counter < pr.max) (hdl : counter < dl.max) (hx : x ≤ counter)
    (hex : ∃ x0, 1 ≤ x0 ∧ x0 ≤ counter ∧ pr.val x0 ≠ 0) :
    ∃ b, deletefiles_ismatch E flags h counter dl pr x = some b := by
  unfold deletefiles_ismatch
  by_cases hconf : (flags.F_DEFERCONFIRMATION && !flags.F_NOCONFIRMATION) = true
  · simp only [hconf, if_true]
    obtain ⟨fp, hrun, hres⟩ := deletefiles_firstpreserved_spec pr counter 1 (Nat.le_refl _)
      (by omega)
    rw [hrun]
    rcases hres with ⟨_, hz⟩ | ⟨h1, h2, _⟩
    · obtain ⟨x0, hx1, hx2, hx3⟩ := hex
      exact absurd (hz x0 hx1 (by omega)) hx3
    · have hfp : fp ≠ 0 := by omega
      simp only [hfp, if_false, Slots_read_some dl x (by omega),
        Slots_read_some dl fp (by omega)]
      exact ⟨_, rfl⟩
  · simp only [hconf]
    exact ⟨true, rfl⟩

theorem deletefiles_remove_loop_total {DB : Type} (E : Env DB) (flags : Flags)
    (counter : Nat) (dl : Slots Ptr) (pr : Slots Int)
    (hpr : counter < pr.max) (hdl : counter < dl.max)
    (hex : ∃ x0, 1 ≤ x0 ∧ x0 ≤ counter ∧ pr.val x0 ≠ 0) :
    ∀ (n x : Nat) (s : State DB), x + n ≤ counter + 1 →
      ∃ s', deletefiles_remove_loop E flags counter dl pr n x s = some s'
  | 0, _, s, _ => ⟨s, rfl⟩
  | n + 1, x, s, hb => by
    simp only [deletefiles_remove_loop, Slots_read_some pr x (by omega),
      Slots_read_some dl x (by omega)]
    by_cases hv : pr.val x ≠ 0
    · rw [if_pos hv]
      exact deletefiles_remove_loop_total E flags counter dl pr hpr hdl hex n (x + 1) _
        (by omega)
    · rw [if_neg hv]
      obtain ⟨b, hb'⟩ := deletefiles_ismatch_total E flags s.heap counter dl pr x hpr hdl
        (by omega) hex
      rw [hb']
      cases b
      · exact deletefiles_remove_loop_total E flags counter dl pr hpr hdl hex n (x + 1) _
          (by omega)
      · exact deletefiles_remove_loop_total E flags counter dl pr hpr hdl hex n (x + 1) _
          (by omega)

theorem deletefiles_select_noprompt {DB : Type} (E : Env DB) (counter pfuel : Nat)
    (pr : Slots Int) (tty : List (List Nat)) (hcounter : 1 ≤ counter)
    (hpr : counter < pr.max) :
    ∃ pr', deletefiles_select E false counter pfuel pr tty = some (Selected.chosen pr' tty) ∧
      pr'.max = pr.max ∧ pr'.val 1 = 1 ∧ ∀ x, 2 ≤ x → x ≤ counter → pr'.val x = 0 := by
  unfold deletefiles_select
  simp only [Bool.not_false, if_true, Slots_write_some pr 1 1 (by omega)]
  obtain ⟨pr2, h2⟩ := preserve_fill_total 0 (counter - 1) 2
    { pr with val := fun j => if j = 1 then 1 else pr.val j } (by simp; omega)
  obtain ⟨hmax, hin, hout⟩ := preserve_fill_sound 0 _ _ _ pr2 h2
  rw [h2]
  refine ⟨pr2, rfl, hmax, ?_, ?_⟩
  · rw [hout 1 (Or.inl (by omega))]
    simp
  · intro x hx1 hx2
    exact hin x hx1 (by omega)

theorem main_noprompt_confirms (flags : Flags) (hopt : main_rejects_options flags = false)
    (hN : flags.F_NOPROMPT = true) :
    (flags.F_DEFERCONFIRMATION && !flags.F_NOCONFIRMATION) = false := by
  unfold main_rejects_options at hopt
  rw [hN] at hopt
  cases hD : flags.F_DEFERCONFIRMATION
  · rfl
  · rw [hD] at hopt
    simp at hopt

/-! ## deletesuccessor -/

theorem deletion_targets_append : ∀ a b : List Event,
    deletion_targets (a ++ b) = deletion_targets a ++ deletion_targets b
  | [], _ => rfl
  | e :: a, b => by
    cases e <;> simp [deletion_targets, deletion_targets_append a b]

theorem remove_file_targets {DB : Type} (E : Env DB) (flags : Flags) (s : State DB) (p : Ptr) :
    ∃ evs, (remove_file E flags s p).trace = s.trace ++ evs ∧
      removal_attempts evs = [p] ∧ kept_files evs = [] ∧ deletion_targets evs = [p] := by
  unfold remove_file
  by_cases hr : E.removeifnotchanged (s.heap p) = 0
  · simp only [hr, if_true]
    by_cases hc : flags.F_CACHESIGNATURES = true
    · simp only [hc, if_true]
      cases hg : E.getrealpath (s.heap p).d_name with
      | none =>
        exact ⟨[Event.removeifnotchanged p 0, Event.deleted p], by simp, rfl, rfl, rfl⟩
      | some dp =>
        by_cases hro : flags.F_READONLYCACHE = true
        · exact ⟨[Event.removeifnotchanged p 0, Event.deleted p], by simp [hro], rfl, rfl, rfl⟩
        · exact ⟨[Event.removeifnotchanged p 0, Event.deleted p,
            Event.hashdb_deletehashforpath p], by simp [hro], rfl, rfl, rfl⟩
    · simp only [hc]
      exact ⟨[Event.removeifnotchanged p 0, Event.deleted p], by simp, rfl, rfl, rfl⟩
  · simp only [hr, if_false]
    exact ⟨[Event.removeifnotchanged p (E.removeifnotchanged (s.heap p)), Event.undeleted p],
      by simp, rfl, rfl, rfl⟩

/-- What one call of `deletesuccessor` does: the record kept is the value of
`*existing` on return, it is the resident when `comparef(duplicate,
*existing) >= 0` and the new record otherwise; the other record is the
deletion target, and `removeifnotchanged` is called on it exactly when the
match was confirmed. -/
theorem deletesuccessor_spec {DB : Type} (E : Env DB) (flags : Flags)
    (cmp : file_t → file_t → Int) (s : State DB) (e d : Ptr) (mc : Bool) :
    ∃ to_delete evs,
      (deletesuccessor E flags cmp s e d mc).1.trace = s.trace ++ evs ∧
      kept_files evs = [(deletesuccessor E flags cmp s e d mc).2] ∧
      deletion_targets evs = [to_delete] ∧
      removal_attempts evs = (if mc then [to_delete] else []) ∧
      (cmp (s.heap d) (s.heap e) ≥ 0 →
        (deletesuccessor E flags cmp s e d mc).2 = e ∧ to_delete = d) ∧
      (cmp (s.heap d) (s.heap e) < 0 →
        (deletesuccessor E flags cmp s e d mc).2 = d ∧ to_delete = e) := by
  by_cases hk : cmp (s.heap d) (s.heap e) ≥ 0
  · refine ⟨d, ?_⟩
    cases mc with
    | true =>
      obtain ⟨evs, h1, h2, h3, h4⟩ := remove_file_targets E flags
        ({ s with trace := s.trace ++ [Event.begin_set, Event.kept e] } : State DB) d
      refine ⟨[Event.begin_set, Event.kept e] ++ evs ++ [Event.end_set], ?_, ?_, ?_, ?_, ?_, ?_⟩
      · simp [deletesuccessor, hk, h1]
      · simp [deletesuccessor, hk, kept_files_append, h3, kept_files]
      · simp [deletion_targets_append, h4, deletion_targets]
      · simp [removal_attempts_append, h2, removal_attempts]
      · intro _; simp [deletesuccessor, hk]
      · intro h; omega
    | false =>
      refine ⟨[Event.begin_set, Event.kept e, Event.undeleted d, Event.end_set],
        ?_, ?_, ?_, ?_, ?_, ?_⟩
      · simp [deletesuccessor, hk]
      · simp [deletesuccessor, hk, kept_files]
      · simp [deletion_targets]
      · simp [removal_attempts]
      · intro _; simp [deletesuccessor, hk]
      · intro h; omega
  · refine ⟨e, ?_⟩
    cases mc with
    | true =>
      obtain ⟨evs, h1, h2, h3, h4⟩ := remove_file_targets E flags
        ({ s with trace := s.trace ++ [Event.begin_set, Event.kept d] } : State DB) e
      refine ⟨[Event.begin_set, Event.kept d] ++ evs ++ [Event.end_set], ?_, ?_, ?_, ?_, ?_, ?_⟩
      · simp [deletesuccessor, hk, h1]
      · simp [deletesuccessor, hk, kept_files_append, h3, kept_files]
      · simp [deletion_targets_append, h4, deletion_targets]
      · simp [removal_attempts_append, h2, removal_attempts]
      · intro h; exact absurd h hk
      · intro _; simp [deletesuccessor, hk]
    | false =>
      refine ⟨[Event.begin_set, Event.kept d, Event.undeleted e, Event.end_set],
        ?_, ?_, ?_, ?_, ?_, ?_⟩
      · simp [deletesuccessor, hk]
      · simp [deletesuccessor, hk, kept_files]
      · simp [deletion_targets]
      · simp [removal_attempts]
      · intro h; exact absurd h hk
      · intro _; simp [deletesuccessor, hk]

theorem comparef_of_sign (flags : Flags) (o : ordertype_t) (a b : file_t) :
    comparef_of flags o a b < 0 ↔ 0 < comparef_of flags o b a := by
  unfold comparef_of
  split_ifs
  · unfold sort_pairs_by_mtime sort_pairs_by_ctime
    cases flags.F_REVERSE <;> simp <;> split_ifs <;> omega
  · unfold sort_pairs_by_ctime
    cases flags.F_REVERSE <;> simp <;> split_ifs <;> omega
  · unfold sort_pairs_by_filename
    have := strcmp_antisymm a.d_name b.d_name
    cases flags.F_REVERSE <;> simp <;> omega

theorem strcmp_neg_iff_lex : ∀ a b : List Nat, 0 ∉ a → 0 ∉ b →
    (strcmp a b < 0 ↔ List.Lex (fun x y => x < y) a b)
  | [], [], _, _ => by simp [strcmp]
  | [], b :: bs, _, hb => by
    have hb0 : b ≠ 0 := fun e => hb (by simp [e])
    simp only [strcmp]
    constructor
    · intro _; exact List.Lex.nil
    · intro _; omega
  | a :: as, [], _, _ => by
    simp only [strcmp, List.Lex.not_nil_right, iff_false]
    omega
  | a :: as, b :: bs, ha, hb => by
    have ha0 : a ≠ 0 := fun e => ha (by simp [e])
    have has : 0 ∉ as := fun h => ha (List.mem_cons_of_mem _ h)
    have hbs : 0 ∉ bs := fun h => hb (List.mem_cons_of_mem _ h)
    by_cases hab : a = b
    · subst hab
      simp only [strcmp, if_true, ha0, if_false]
      rw [strcmp_neg_iff_lex as bs has hbs]
      exact List.Lex.cons_iff.symm
    · simp only [strcmp, hab, if_false]
      constructor
      · intro h
        exact List.Lex.rel (by omega)
      · intro h
        cases h with
        | cons _ => exact absurd rfl hab
        | rel h => omega

theorem strcmp_eq_zero_iff : ∀ a b : List Nat, 0 ∉ a → 0 ∉ b → (strcmp a b = 0 ↔ a = b)
  | [], [], _, _ => by simp [strcmp]
  | [], b :: bs, _, hb => by
    have hb0 : b ≠ 0 := fun e => hb (by simp [e])
    simp only [strcmp]
    constructor
    · intro h; omega
    · intro h; cases h
  | a :: as, [], ha, _ => by
    have ha0 : a ≠ 0 := fun e => ha (by simp [e])
    simp only [strcmp]
    constructor
    · intro h; omega
    · intro h; cases h
  | a :: as, b :: bs, ha, hb => by
    have ha0 : a ≠ 0 := fun e => ha (by simp [e])
    have has : 0 ∉ as := fun h => ha (List.mem_cons_of_mem _ h)
    have hbs : 0 ∉ bs := fun h => hb (List.mem_cons_of_mem _ h)
    by_cases hab : a = b
    · subst hab
      simp only [strcmp, if_true, ha0, if_false]
      rw [strcmp_eq_zero_iff as bs has hbs]
      simp
    · simp only [strcmp, hab, if_false]
      constructor
      · intro h; omega
      · intro h
        injection h with h1 _
        exact absurd h1 hab

theorem file_at_set_file_at : ∀ (t : filetree_t) (path : List Bool) (peer v : Ptr),
    t.file_at path = some peer → (t.set_file_at path v).file_at path = some v
  | filetree_t.null, _, _, _, h => by simp [filetree_t.file_at] at h
  | filetree_t.node f l r, [], _, _, _ => by
    simp [filetree_t.file_at, filetree_t.set_file_at]
  | filetree_t.node f l r, false :: path, peer, v, h => by
    simp only [filetree_t.file_at, filetree_t.set_file_at] at h ⊢
    exact file_at_set_file_at l path peer v h
  | filetree_t.node f l r, true :: path, peer, v, h => by
    simp only [filetree_t.file_at, filetree_t.set_file_at] at h ⊢
    exact file_at_set_file_at r path peer v h

/-! ## The enumerator -/

theorem grokdir_entry_skip {DB : Type} (E : Env DB) (flags : Flags) (minsize maxsize : Int)
    (logfile_status : Option stat_t)
    (recurse : List Nat → Grok DB → Option (Grok DB × Int))
    (dir : List Nat) (fullpath : Option (List Nat)) (pathid : Int) (name : List Nat)
    (g : Grok DB) (filecount : Int) (info : stat_t)
    (hstat : E.stat (grokdir_path dir name) = some info)
    (hskip : grokdir_size_skip flags minsize maxsize info = true) :
    ∃ g', grokdir_entry E flags minsize maxsize logfile_status recurse dir fullpath pathid
        name g filecount = some (g', filecount) ∧ g'.filelist = g.filelist := by
  unfold grokdir_entry
  by_cases hdot : strcmp name [46] ≠ 0 ∧ strcmp name [46, 46] ≠ 0
  · rw [if_pos hdot]
    simp only [hstat, hskip, if_true]
    split_ifs
    · exact ⟨_, rfl, rfl⟩
    · exact ⟨_, rfl, rfl⟩
  · rw [if_neg hdot]
    exact ⟨g, rfl, rfl⟩

/-! ## The digest calls of checkmatch -/

theorem DigestKept_refl (h : Heap) : DigestKept h h := fun _ _ => ⟨rfl, fun _ => rfl⟩

theorem DigestKept_trans {h1 h2 h3 : Heap} (a : DigestKept h1 h2) (b : DigestKept h2 h3) :
    DigestKept h1 h3 := by
  intro x hx
  obtain ⟨a1, a2⟩ := a x hx
  have hx2 : file_t.crcpartial (h2 x) ≠ none := by rw [a1]; exact hx
  obtain ⟨b1, b2⟩ := b x hx2
  refine ⟨b1.trans a1, ?_⟩
  intro hs
  have hs2 : (h2 x).crcsignature ≠ none := by rw [a2 hs]; exact hs
  exact (b2 hs2).trans (a2 hs)

theorem DigestKept_of_PartFrame {h h' : Heap} (a : PartFrame h h') : DigestKept h h' := by
  intro x hx
  rw [a.2 x hx]
  exact ⟨rfl, fun _ => rfl⟩

theorem DigestKept_of_SigFrame {h h' : Heap} (a : SigFrame h h') : DigestKept h h' := by
  intro x _
  refine ⟨a.2.2 x, ?_⟩
  intro hs
  rw [a.2.1 x hs]

theorem exists_new_events (l l' : List Event) (P : List Event → Prop)
    (h : l <+: l') (hP : P (l'.drop l.length)) : ∃ evs, l' = l ++ evs ∧ P evs :=
  ⟨_, (List.prefix_iff_eq_append.mp h).symm, hP⟩

theorem checkmatch_partial_fill_trace {DB : Type} (E : Env DB) (flags : Flags) (p : Ptr)
    (s : State DB) :
    ∃ evs, (checkmatch_partial_fill E flags p s).1.trace = s.trace ++ evs ∧
      ((∀ e ∈ evs, e = Event.hashdb_loadhash p ∨ e = Event.getcrcpartialsignature p ∨
        e = Event.hashdb_savehash p) ∧
      ((checkmatch_partial_fill E flags p s).2 = false →
        file_t.crcpartial ((checkmatch_partial_fill E flags p s).1.heap p) = none ∧
        Event.getcrcpartialsignature p ∈ evs)) := by
  apply exists_new_events
  · unfold checkmatch_partial_fill
    dsimp only
    split_ifs <;> simp
  · unfold checkmatch_partial_fill
    dsimp only
    split_ifs <;> simp_all

theorem checkmatch_signature_fill_trace {DB : Type} (E : Env DB) (flags : Flags) (p : Ptr)
    (s : State DB) :
    ∃ evs, (checkmatch_signature_fill E flags p s).1.trace = s.trace ++ evs ∧
      ((∀ e ∈ evs, e = Event.getcrcsignature p ∨ e = Event.hashdb_savehash p) ∧
      ((checkmatch_signature_fill E flags p s).2 = false →
        ((checkmatch_signature_fill E flags p s).1.heap p).crcsignature = none ∧
        Event.getcrcsignature p ∈ evs)) := by
  apply exists_new_events
  · unfold checkmatch_signature_fill
    dsimp only
    split_ifs <;> simp
  · unfold checkmatch_signature_fill
    dsimp only
    split_ifs <;> simp_all

theorem DigestRun_refl {DB : Type} (s : State DB) : DigestRun s s [] :=
  ⟨by simp, DigestKept_refl _, fun _ => rfl⟩

theorem DigestRun_trans {DB : Type} {s1 s2 s3 : State DB} {e1 e2 : List Event}
    (a : DigestRun s1 s2 e1) (b : DigestRun s2 s3 e2) : DigestRun s1 s3 (e1 ++ e2) := by
  refine ⟨?_, DigestKept_trans a.2.1 b.2.1, fun x => (b.2.2 x).trans (a.2.2 x)⟩
  rw [b.1, a.1, List.append_assoc]

theorem checkmatch_partial_fill_run {DB : Type} (E : Env DB) (flags : Flags) (p : Ptr)
    (s : State DB) :
    ∃ evs, DigestRun s (checkmatch_partial_fill E flags p s).1 evs ∧
      PartFrame s.heap (checkmatch_partial_fill E flags p s).1.heap ∧
      (∀ q, Event.getcrcsignature q ∉ evs) ∧
      (∀ q, Event.getcrcpartialsignature q ∈ evs → q = p) ∧
      ((checkmatch_partial_fill E flags p s).2 = true →
        file_t.crcpartial ((checkmatch_partial_fill E flags p s).1.heap p) ≠ none) := by
  obtain ⟨evs, h1, h2, -⟩ := checkmatch_partial_fill_trace E flags p s
  have sp := checkmatch_partial_fill_spec E flags p s
  have pf : PartFrame s.heap (checkmatch_partial_fill E flags p s).1.heap := ⟨sp.1, sp.2.1⟩
  refine ⟨evs, ⟨h1, DigestKept_of_PartFrame pf, sp.1⟩, pf, ?_, ?_, sp.2.2⟩
  · intro q hq
    rcases h2 _ hq with e | e | e <;> cases e
  · intro q hq
    rcases h2 _ hq with e | e | e
    · cases e
    · injection e
    · cases e

theorem checkmatch_signature_fill_run {DB : Type} (E : Env DB) (flags : Flags) (p : Ptr)
    (s : State DB) :
    ∃ evs, DigestRun s (checkmatch_signature_fill E flags p s).1 evs ∧
      SigFrame s.heap (checkmatch_signature_fill E flags p s).1.heap ∧
      (∀ q, Event.getcrcpartialsignature q ∉ evs) ∧
      (∀ q, Event.getcrcsignature q ∈ evs → q = p) ∧
      ((checkmatch_signature_fill E flags p s).2 = true →
        ((checkmatch_signature_fill E flags p s).1.heap p).crcsignature ≠ none) := by
  obtain ⟨evs, h1, h2, -⟩ := checkmatch_signature_fill_trace E flags p s
  have sp := checkmatch_signature_fill_spec E flags p s
  have sf : SigFrame s.heap (checkmatch_signature_fill E flags p s).1.heap :=
    ⟨sp.1, sp.2.1, sp.2.2.1⟩
  refine ⟨evs, ⟨h1, DigestKept_of_SigFrame sf, sp.1⟩, sf, ?_, ?_, sp.2.2.2⟩
  · intro q hq
    rcases h2 _ hq with e | e <;> cases e
  · intro q hq
    rcases h2 _ hq with e | e
    · injection e
    · cases e

/-- The full-digest stage: what it adds to the trace. -/
theorem checkmatch_full_run {DB : Type} (E : Env DB) (flags : Flags) (s : State DB)
    (ct file : Ptr) :
    ∀ s1 ok, (checkmatch_full E flags s ct file = Compared.null s1 ∧ ok = false) ∨
        (∃ c, checkmatch_full E flags s ct file = Compared.result s1 c ∧ ok = true) →
      ∃ evs, DigestRun s s1 evs ∧ SigFrame s.heap s1.heap ∧
        (∀ q, Event.getcrcpartialsignature q ∉ evs) ∧
        (∀ q, Event.getcrcsignature q ∈ evs → q = file ∨ q = ct) ∧
        (ok = true → ∀ q, Event.getcrcsignature q ∈ evs → (s1.heap q).crcsignature ≠ none) := by
  obtain ⟨e1, r1, f1, n1, o1, k1⟩ := checkmatch_signature_fill_run E flags ct s
  obtain ⟨e2, r2, f2, n2, o2, k2⟩ :=
    checkmatch_signature_fill_run E flags file (checkmatch_signature_fill E flags ct s).1
  intro s1 ok hout
  unfold checkmatch_full at hout
  dsimp only at hout
  cases hb1 : (checkmatch_signature_fill E flags ct s).2
  · simp only [hb1, Bool.not_false, if_true] at hout
    rcases hout with ⟨e, hok⟩ | ⟨c, e, -⟩
    · injection e with e
      subst e
      refine ⟨e1, r1, f1, n1, fun q hq => Or.inr (o1 q hq), ?_⟩
      intro h; rw [hok] at h; cases h
    · cases e
  · simp only [hb1, Bool.not_true, Bool.false_eq_true, if_false] at hout
    cases hb2 : (checkmatch_signature_fill E flags file
        (checkmatch_signature_fill E flags ct s).1).2
    · simp only [hb2, Bool.not_false, if_true] at hout
      rcases hout with ⟨e, hok⟩ | ⟨c, e, -⟩
      · injection e with e
        subst e
        refine ⟨e1 ++ e2, DigestRun_trans r1 r2, SigFrame_trans f1 f2, ?_, ?_, ?_⟩
        · intro q hq
          rcases List.mem_append.mp hq with h | h
          · exact n1 q h
          · exact n2 q h
        · intro q hq
          rcases List.mem_append.mp hq with h | h
          · exact Or.inr (o1 q h)
          · exact Or.inl (o2 q h)
        · intro h; rw [hok] at h; cases h
      · cases e
    · simp only [hb2, Bool.not_true, Bool.false_eq_true, if_false] at hout
      rcases hout with ⟨e, -⟩ | ⟨c, e, -⟩
      · split at e <;> cases e
      · have hs1 : s1 = (checkmatch_signature_fill E flags file
            (checkmatch_signature_fill E flags ct s).1).1 := by
          split at e
          · injection e with e _
            exact e.symm
          · cases e
        subst hs1
        refine ⟨e1 ++ e2, DigestRun_trans r1 r2, SigFrame_trans f1 f2, ?_, ?_, ?_⟩
        · intro q hq
          rcases List.mem_append.mp hq with h | h
          · exact n1 q h
          · exact n2 q h
        · intro q hq
          rcases List.mem_append.mp hq with h | h
          · exact Or.inr (o1 q h)
          · exact Or.inl (o2 q h)
        · intro _ q hq
          rcases List.mem_append.mp hq with h | h
          · have := o1 q h
            subst this
            have hk := k1 hb1
            rw [f2.2.1 _ hk]
            exact hk
          · have := o2 q h
            subst this
            exact k2 hb2

theorem CompareFacts_nil {DB : Type} (s : State DB) (ct file : Ptr) (ok : Bool) :
    CompareFacts s s ct file ok :=
  ⟨[], DigestRun_refl s, by simp, by simp, by simp⟩

theorem checkmatch_compare_size {DB : Type} (E : Env DB) (flags : Flags) (s : State DB)
    (ct file : Ptr) (hsz : (s.heap file).size ≠ (s.heap ct).size) :
    checkmatch_compare E flags s ct file
      = Compared.result s (if (s.heap file).size < (s.heap ct).size then -1 else 1) := by
  unfold checkmatch_compare
  by_cases hlt : (s.heap file).size < (s.heap ct).size
  · simp only [hlt, if_true]
  · have hgt : (s.heap file).size > (s.heap ct).size := by omega
    simp only [hlt, hgt, if_true, if_false]

theorem checkmatch_compare_facts {DB : Type} (E : Env DB) (flags : Flags) (s : State DB)
    (ct file : Ptr) :
    ∀ s1 ok, (checkmatch_compare E flags s ct file = Compared.null s1 ∧ ok = false) ∨
        (∃ c, checkmatch_compare E flags s ct file = Compared.result s1 c ∧ ok = true) →
      CompareFacts s s1 ct file ok := by
  intro s1 ok hout
  by_cases hsz : (s.heap file).size ≠ (s.heap ct).size
  · rw [checkmatch_compare_size E flags s ct file hsz] at hout
    rcases hout with ⟨e, -⟩ | ⟨c, e, -⟩
    · cases e
    · injection e with e _
      subst e
      exact CompareFacts_nil s ct file ok
  have hsz' : (s.heap file).size = (s.heap ct).size := by
    by_contra h; exact hsz h
  have hlt : ¬ (s.heap file).size < (s.heap ct).size := by omega
  have hgt : ¬ (s.heap file).size > (s.heap ct).size := by omega
  unfold checkmatch_compare at hout
  simp only [hlt, hgt, if_false] at hout
  by_cases hperm : (flags.F_PERMISSIONS &&
      same_permissions E (s.heap file).d_name (s.heap ct).d_name == 0) = true
  · simp only [hperm, if_true] at hout
    rcases hout with ⟨e, -⟩ | ⟨c, e, -⟩
    · cases e
    · injection e with e _
      subst e
      exact CompareFacts_nil s ct file ok
  simp only [hperm, if_false] at hout
  obtain ⟨e1, r1, f1, n1, o1, k1⟩ := checkmatch_partial_fill_run E flags ct s
  obtain ⟨e2, r2, f2, n2, o2, k2⟩ :=
    checkmatch_partial_fill_run E flags file (checkmatch_partial_fill E flags ct s).1
  cases hb1 : (checkmatch_partial_fill E flags ct s).2
  · simp only [hb1, Bool.not_false, if_true] at hout
    rcases hout with ⟨e, hok⟩ | ⟨c, e, -⟩
    · injection e with e
      subst e
      refine ⟨e1, r1, fun p hp => Or.inr (o1 p hp), fun p hp => absurd hp (n1 p), ?_⟩
      intro h; rw [hok] at h; cases h
    · cases e
  simp only [hb1, Bool.not_true, Bool.false_eq_true, if_false] at hout
  have r12 := DigestRun_trans r1 r2
  have hpart : ∀ p, Event.getcrcpartialsignature p ∈ e1 ++ e2 → p = file ∨ p = ct := by
    intro p hp
    rcases List.mem_append.mp hp with h | h
    · exact Or.inr (o1 p h)
    · exact Or.inl (o2 p h)
  have hnosig : ∀ p, Event.getcrcsignature p ∉ e1 ++ e2 := by
    intro p hp
    rcases List.mem_append.mp hp with h | h
    · exact n1 p h
    · exact n2 p h
  cases hb2 : (checkmatch_partial_fill E flags file (checkmatch_partial_fill E flags ct s).1).2
  · simp only [hb2, Bool.not_false, if_true] at hout
    rcases hout with ⟨e, hok⟩ | ⟨c, e, -⟩
    · injection e with e
      subst e
      refine ⟨e1 ++ e2, r12, hpart, fun p hp => absurd hp (hnosig p), ?_⟩
      intro h; rw [hok] at h; cases h
    · cases e
  simp only [hb2, Bool.not_true, Bool.false_eq_true, if_false] at hout
  have hct1 := k1 hb1
  have hfile2 := k2 hb2
  have hct2 : file_t.crcpartial ((checkmatch_partial_fill E flags file
      (checkmatch_partial_fill E flags ct s).1).1.heap ct) ≠ none := by
    rw [f2.2 ct hct1]; exact hct1
  obtain ⟨a, ha⟩ := Option.ne_none_iff_exists'.mp hfile2
  obtain ⟨b, hb⟩ := Option.ne_none_iff_exists'.mp hct2
  simp only [ha, hb] at hout
  have hpop2 : ∀ p, Event.getcrcpartialsignature p ∈ e1 ++ e2 →
      file_t.crcpartial ((checkmatch_partial_fill E flags file
        (checkmatch_partial_fill E flags ct s).1).1.heap p) ≠ none := by
    intro p hp
    rcases hpart p hp with e | e
    · rw [e]; exact hfile2
    · rw [e]; exact hct2
  by_cases hcmp : md5cmp a b = 0
  · simp only [hcmp, if_true] at hout
    obtain ⟨e3, r3, f3, n3, o3, k3⟩ := checkmatch_full_run E flags _ ct file s1 ok hout
    have hpk : ∀ x, file_t.crcpartial (s1.heap x) = file_t.crcpartial
        ((checkmatch_partial_fill E flags file
          (checkmatch_partial_fill E flags ct s).1).1.heap x) := f3.2.2
    refine ⟨(e1 ++ e2) ++ e3, DigestRun_trans r12 r3, ?_, ?_, ?_⟩
    · intro p hp
      rcases List.mem_append.mp hp with h | h
      · exact hpart p h
      · exact absurd h (n3 p)
    · intro p hp
      rcases List.mem_append.mp hp with h | h
      · exact absurd h (hnosig p)
      · refine ⟨o3 p h, hsz', a, b, ?_, ?_, md5cmp_eq_zero a b hcmp⟩
        · rw [hpk, ha]
        · rw [hpk, hb]
    · intro hok
      constructor
      · intro p hp
        rcases List.mem_append.mp hp with h | h
        · rw [hpk]; exact hpop2 p h
        · exact absurd h (n3 p)
      · intro p hp
        rcases List.mem_append.mp hp with h | h
        · exact absurd h (hnosig p)
        · refine ⟨k3 hok p h, ?_⟩
          rw [hpk]
          rcases o3 p h with e | e
          · rw [e]; exact hfile2
          · rw [e]; exact hct2
  · simp only [hcmp, if_false] at hout
    rcases hout with ⟨e, -⟩ | ⟨c, e, -⟩
    · cases e
    · injection e with e _
      subst e
      refine ⟨e1 ++ e2, r12, hpart, fun p hp => absurd hp (hnosig p), ?_⟩
      intro _
      exact ⟨hpop2, fun p hp => absurd hp (hnosig p)⟩

/-- The ways in which a call of `checkmatch` at a node can return. -/
theorem checkmatch_node_cases {DB : Type} (E : Env DB) (flags : Flags) (fuel : Nat)
    (ct : Ptr) (l r : filetree_t) (file : Ptr) (s s' : State DB) (t' : filetree_t)
    (m : Option (List Bool))
    (h : checkmatch E flags fuel (filetree_t.node ct l r) file s = some (s', t', m)) :
    (∃ v, checkmatch_precheck E flags fuel s.heap ct file = some v ∧ v ≠ 0 ∧ s' = s ∧
      t' = filetree_t.node ct l r ∧ m = none) ∨
    (checkmatch_precheck E flags fuel s.heap ct file = some 0 ∧
      checkmatch_compare E flags s ct file = Compared.null s' ∧
      t' = filetree_t.node ct l r ∧ m = none) ∨
    (checkmatch_precheck E flags fuel s.heap ct file = some 0 ∧
      ∃ s1 c, checkmatch_compare E flags s ct file = Compared.result s1 c ∧
        ((c = 0 ∧ s' = s1 ∧ t' = filetree_t.node ct l r ∧ m = some []) ∨
         (c < 0 ∧ l = filetree_t.null ∧ s' = registerfile s1 file ∧ m = none ∧
            t' = filetree_t.node ct
              (filetree_t.node file filetree_t.null filetree_t.null) r) ∨
         (c > 0 ∧ r = filetree_t.null ∧ s' = registerfile s1 file ∧ m = none ∧
            t' = filetree_t.node ct l
              (filetree_t.node file filetree_t.null filetree_t.null)) ∨
         (c < 0 ∧ l ≠ filetree_t.null ∧ ∃ l2 m0, checkmatch E flags fuel l file s1
            = some (s', l2, m0) ∧ t' = filetree_t.node ct l2 r ∧
            m = m0.map (fun path => false :: path)) ∨
         (c > 0 ∧ r ≠ filetree_t.null ∧ ∃ r2 m0, checkmatch E flags fuel r file s1
            = some (s', r2, m0) ∧ t' = filetree_t.node ct l r2 ∧
            m = m0.map (fun path => true :: path)))) := by
  unfold checkmatch at h
  cases hv : checkmatch_precheck E flags fuel s.heap ct file with
  | none => simp [hv] at h
  | some v =>
    simp only [hv] at h
    by_cases hv0 : v ≠ 0
    · rw [if_pos hv0] at h
      injection h with h
      injection h with e1 h
      injection h with e2 e3
      exact Or.inl ⟨v, rfl, hv0, e1.symm, e2.symm, e3.symm⟩
    · have hv0' : v = 0 := by by_contra hc; exact hv0 hc
      subst hv0'
      rw [if_neg (by simp)] at h
      cases hcmp : checkmatch_compare E flags s ct file with
      | fault => simp [hcmp] at h
      | null s1 =>
        simp only [hcmp] at h
        injection h with h
        injection h with e1 h
        injection h with e2 e3
        subst e1
        exact Or.inr (Or.inl ⟨rfl, rfl, e2.symm, e3.symm⟩)
      | result s1 c =>
        simp only [hcmp] at h
        refine Or.inr (Or.inr ⟨rfl, s1, c, rfl, ?_⟩)
        by_cases hlt : c < 0
        · simp only [hlt, if_true] at h
          cases l with
          | null =>
            simp only [] at h
            injection h with h
            injection h with e1 h
            injection h with e2 e3
            exact Or.inr (Or.inl ⟨hlt, rfl, e1.symm, e3.symm, e2.symm⟩)
          | node a b c' =>
            simp only [] at h
            cases hrec : checkmatch E flags fuel (filetree_t.node a b c') file s1 with
            | none => simp [hrec] at h
            | some res =>
              obtain ⟨s2, l2, m0⟩ := res
              simp only [hrec] at h
              injection h with h
              injection h with e1 h
              injection h with e2 e3
              subst e1
              exact Or.inr (Or.inr (Or.inr (Or.inl ⟨hlt, by simp, l2, m0, rfl, e2.symm,
                e3.symm⟩)))
        · simp only [hlt, if_false] at h
          by_cases hgt : c > 0
          · simp only [hgt, if_true] at h
            cases r with
            | null =>
              simp only [] at h
              injection h with h
              injection h with e1 h
              injection h with e2 e3
              exact Or.inr (Or.inr (Or.inl ⟨hgt, rfl, e1.symm, e3.symm, e2.symm⟩))
            | node a b c' =>
              simp only [] at h
              cases hrec : checkmatch E flags fuel (filetree_t.node a b c') file s1 with
              | none => simp [hrec] at h
              | some res =>
                obtain ⟨s2, r2, m0⟩ := res
                simp only [hrec] at h
                injection h with h
                injection h with e1 h
                injection h with e2 e3
                subst e1
                exact Or.inr (Or.inr (Or.inr (Or.inr ⟨hgt, by simp, r2, m0, rfl, e2.symm,
                  e3.symm⟩)))
          · simp only [hgt, if_false] at h
            injection h with h
            injection h with e1 h
            injection h with e2 e3
            exact Or.inl ⟨by omega, e1.symm, e2.symm, e3.symm⟩

theorem strcmp_self (a : List Nat) : strcmp a a = 0 := by
  have := strcmp_antisymm a a
  omega

theorem is_same_file_self {DB : Type} (E : Env DB) (a : file_t) : is_same_file E a a ≠ 0 := by
  unfold is_same_file
  simp only [ne_eq, not_true_eq_false, or_self, if_false, strcmp_self]
  cases E.stat (E.dirname a.d_name) with
  | none => simp
  | some d => simp

theorem checkmatch_precheck_ne {DB : Type} (E : Env DB) (flags : Flags) (fuel : Nat)
    (h : Heap) (ct file : Ptr) (h0 : checkmatch_precheck E flags fuel h ct file = some 0) :
    ct ≠ file := by
  intro e
  subst e
  unfold checkmatch_precheck at h0
  by_cases hH : flags.F_CONSIDERHARDLINKS = true
  · simp only [hH, if_true] at h0
    unfold has_same_file at h0
    rw [if_pos (is_same_file_self E (h ct))] at h0
    injection h0 with h0
    omega
  · simp only [hH] at h0
    unfold is_hardlink at h0
    simp at h0

theorem digests_equal_kept {h h' : Heap} (k : DigestKept h h') (f c : Ptr)
    (d : digests_equal (file_t.crcpartial (h f)) (file_t.crcpartial (h c))) :
    digests_equal (file_t.crcpartial (h' f)) (file_t.crcpartial (h' c)) := by
  obtain ⟨a, b, ha, hb, hab⟩ := d
  refine ⟨a, b, ?_, ?_, hab⟩
  · rw [(k f (by rw [ha]; simp)).1, ha]
  · rw [(k c (by rw [hb]; simp)).1, hb]

theorem undigested_size {a b : file_t} (h : a.undigested = b.undigested) : a.size = b.size := by
  have := congrArg file_t.size h
  exact this

/-- The digest calls of one call of `checkmatch`. -/
theorem checkmatch_digest_calls {DB : Type} (E : Env DB) (flags : Flags) (fuel : Nat)
    (file : Ptr) :
    ∀ (t : filetree_t) (s s' : State DB) (t' : filetree_t) (m : Option (List Bool)),
      checkmatch E flags fuel t file s = some (s', t', m) →
      ∃ evs, DigestRun s s' evs ∧
        (∀ x ∈ t'.files, x ∈ t.files ∨ x = file) ∧
        (∀ p, Event.getcrcpartialsignature p ∈ evs → p = file ∨ p ∈ t.files) ∧
        (∀ p, Event.getcrcsignature p ∈ evs → ∃ ct ∈ t.files, ct ≠ file ∧ (p = file ∨ p = ct) ∧
          (s'.heap file).size = (s'.heap ct).size ∧
          digests_equal (file_t.crcpartial (s'.heap file)) (file_t.crcpartial (s'.heap ct))) ∧
        (∀ p, (Event.getcrcpartialsignature p ∈ evs ∧ file_t.crcpartial (s'.heap p) = none) ∨
            (Event.getcrcsignature p ∈ evs ∧ (s'.heap p).crcsignature = none) →
          m = none ∧ t' = t) := by
  intro t
  induction t with
  | null =>
    intro s s' t' m h
    simp [checkmatch] at h
  | node ct l r ihl ihr =>
    intro s s' t' m h
    rcases checkmatch_node_cases E flags fuel ct l r file s s' t' m h with
      ⟨v, -, -, e1, e2, e3⟩ | ⟨hpre, hcmp, e2, e3⟩ | ⟨hpre, s1, c, hcmp, hrest⟩
    · subst e1 e2 e3
      exact ⟨[], DigestRun_refl _, fun x hx => Or.inl hx, by simp, by simp, by simp⟩
    · subst e2 e3
      obtain ⟨evs, run, hp, hs, -⟩ :=
        checkmatch_compare_facts E flags s ct file s' false (Or.inl ⟨hcmp, rfl⟩)
      have hne := checkmatch_precheck_ne E flags fuel s.heap ct file hpre
      refine ⟨evs, run, fun x hx => Or.inl hx, ?_, ?_, fun _ _ => ⟨rfl, rfl⟩⟩
      · intro p hpm
        rcases hp p hpm with e | e
        · exact Or.inl e
        · exact Or.inr (by rw [e]; simp [filetree_t.files])
      · intro p hpm
        obtain ⟨h1, h2, h3⟩ := hs p hpm
        refine ⟨ct, by simp [filetree_t.files], hne, h1, ?_, h3⟩
        rw [undigested_size (run.2.2 file), undigested_size (run.2.2 ct)]
        exact h2
    · obtain ⟨evs1, run1, hp1, hs1, hok1⟩ :=
        checkmatch_compare_facts E flags s ct file s1 true (Or.inr ⟨c, hcmp, rfl⟩)
      obtain ⟨pop1, pop2⟩ := hok1 rfl
      have hne := checkmatch_precheck_ne E flags fuel s.heap ct file hpre
      have hsz1 : ∀ x, (s1.heap x).size = (s.heap x).size :=
        fun x => undigested_size (run1.2.2 x)
      -- the facts of this node, for a later state `s'` that keeps the digests
      have node_sig : ∀ (s' : State DB), DigestKept s1.heap s'.heap →
          (∀ x, (s'.heap x).undigested = (s1.heap x).undigested) →
          ∀ p, Event.getcrcsignature p ∈ evs1 → ∃ ct' ∈ (filetree_t.node ct l r).files,
            ct' ≠ file ∧ (p = file ∨ p = ct') ∧ (s'.heap file).size = (s'.heap ct').size ∧
            digests_equal (file_t.crcpartial (s'.heap file))
              (file_t.crcpartial (s'.heap ct')) := by
        intro s' k hu p hpm
        obtain ⟨h1, h2, h3⟩ := hs1 p hpm
        refine ⟨ct, by simp [filetree_t.files], hne, h1, ?_, digests_equal_kept k file ct h3⟩
        rw [undigested_size (hu file), undigested_size (hu ct), hsz1, hsz1]
        exact h2
      have node_part : ∀ p, Event.getcrcpartialsignature p ∈ evs1 →
          p = file ∨ p ∈ (filetree_t.node ct l r).files := by
        intro p hpm
        rcases hp1 p hpm with e | e
        · exact Or.inl e
        · exact Or.inr (by rw [e]; simp [filetree_t.files])
      have node_ok : ∀ (s' : State DB), DigestKept s1.heap s'.heap → ∀ p,
          ¬ ((Event.getcrcpartialsignature p ∈ evs1 ∧ file_t.crcpartial (s'.heap p) = none) ∨
            (Event.getcrcsignature p ∈ evs1 ∧ (s'.heap p).crcsignature = none)) := by
        intro s' k p hbad
        rcases hbad with ⟨hm, hn⟩ | ⟨hm, hn⟩
        · have := pop1 p hm
          rw [(k p this).1] at hn
          exact this hn
        · obtain ⟨hsig, hpart⟩ := pop2 p hm
          rw [(k p hpart).2 hsig] at hn
          exact hsig hn
      rcases hrest with ⟨-, e1, e2, e3⟩ | ⟨-, -, e1, e3, e2⟩ | ⟨-, -, e1, e3, e2⟩ |
          ⟨-, -, l2, m0, hrec, e2, e3⟩ | ⟨-, -, r2, m0, hrec, e2, e3⟩
      · subst e1 e2 e3
        refine ⟨evs1, run1, fun x hx => Or.inl hx, node_part,
          node_sig s' (DigestKept_refl _) (fun _ => rfl), ?_⟩
        intro p hbad
        exact absurd hbad (node_ok s' (DigestKept_refl _) p)
      · subst e1 e2 e3
        have run2 : DigestRun s1 (registerfile s1 file) [Event.registerfile file] :=
          ⟨rfl, DigestKept_refl _, fun _ => rfl⟩
        refine ⟨evs1 ++ [Event.registerfile file], DigestRun_trans run1 run2, ?_, ?_, ?_, ?_⟩
        · intro x hx
          simp [filetree_t.files] at hx ⊢
          tauto
        · intro p hpm
          simp at hpm
          exact node_part p hpm
        · intro p hpm
          simp at hpm
          exact node_sig (registerfile s1 file) (DigestKept_refl _) (fun _ => rfl) p hpm
        · intro p hbad
          simp at hbad
          exact absurd hbad (node_ok (registerfile s1 file) (DigestKept_refl _) p)
      · subst e1 e2 e3
        have run2 : DigestRun s1 (registerfile s1 file) [Event.registerfile file] :=
          ⟨rfl, DigestKept_refl _, fun _ => rfl⟩
        refine ⟨evs1 ++ [Event.registerfile file], DigestRun_trans run1 run2, ?_, ?_, ?_, ?_⟩
        · intro x hx
          simp [filetree_t.files] at hx ⊢
          tauto
        · intro p hpm
          simp at hpm
          exact node_part p hpm
        · intro p hpm
          simp at hpm
          exact node_sig (registerfile s1 file) (DigestKept_refl _) (fun _ => rfl) p hpm
        · intro p hbad
          simp at hbad
          exact absurd hbad (node_ok (registerfile s1 file) (DigestKept_refl _) p)
      · subst e2 e3
        obtain ⟨evs2, run2, hf2, hp2, hs2, hbad2⟩ := ihl s1 s' l2 m0 hrec
        refine ⟨evs1 ++ evs2, DigestRun_trans run1 run2, ?_, ?_, ?_, ?_⟩
        · intro x hx
          simp only [filetree_t.files, List.mem_cons, List.mem_append] at hx ⊢
          rcases hx with e | hx | hx
          · exact Or.inl (Or.inl e)
          · rcases hf2 x hx with h' | h'
            · exact Or.inl (Or.inr (Or.inl h'))
            · exact Or.inr h'
          · exact Or.inl (Or.inr (Or.inr hx))
        · intro p hpm
          rcases List.mem_append.mp hpm with h' | h'
          · exact node_part p h'
          · rcases hp2 p h' with e | e
            · exact Or.inl e
            · exact Or.inr (by simp [filetree_t.files, e])
        · intro p hpm
          rcases List.mem_append.mp hpm with h' | h'
          · exact node_sig s' run2.2.1 run2.2.2 p h'
          · obtain ⟨ct', hct', rest⟩ := hs2 p h'
            exact ⟨ct', by simp [filetree_t.files, hct'], rest⟩
        · intro p hbad
          have hbad' : (Event.getcrcpartialsignature p ∈ evs2 ∧
              file_t.crcpartial (s'.heap p) = none) ∨
              (Event.getcrcsignature p ∈ evs2 ∧ (s'.heap p).crcsignature = none) := by
            rcases hbad with ⟨hm, hn⟩ | ⟨hm, hn⟩
            · rcases List.mem_append.mp hm with h' | h'
              · exact absurd (Or.inl ⟨h', hn⟩) (node_ok s' run2.2.1 p)
              · exact Or.inl ⟨h', hn⟩
            · rcases List.mem_append.mp hm with h' | h'
              · exact absurd (Or.inr ⟨h', hn⟩) (node_ok s' run2.2.1 p)
              · exact Or.inr ⟨h', hn⟩
          obtain ⟨em, et⟩ := hbad2 p hbad'
          subst em et
          exact ⟨rfl, rfl⟩
      · subst e2 e3
        obtain ⟨evs2, run2, hf2, hp2, hs2, hbad2⟩ := ihr s1 s' r2 m0 hrec
        refine ⟨evs1 ++ evs2, DigestRun_trans run1 run2, ?_, ?_, ?_, ?_⟩
        · intro x hx
          simp only [filetree_t.files, List.mem_cons, List.mem_append] at hx ⊢
          rcases hx with e | hx | hx
          · exact Or.inl (Or.inl e)
          · exact Or.inl (Or.inr (Or.inl hx))
          · rcases hf2 x hx with h' | h'
            · exact Or.inl (Or.inr (Or.inr h'))
            · exact Or.inr h'
        · intro p hpm
          rcases List.mem_append.mp hpm with h' | h'
          · exact node_part p h'
          · rcases hp2 p h' with e | e
            · exact Or.inl e
            · exact Or.inr (by simp [filetree_t.files, e])
        · intro p hpm
          rcases List.mem_append.mp hpm with h' | h'
          · exact node_sig s' run2.2.1 run2.2.2 p h'
          · obtain ⟨ct', hct', rest⟩ := hs2 p h'
            exact ⟨ct', by simp [filetree_t.files, hct'], rest⟩
        · intro p hbad
          have hbad' : (Event.getcrcpartialsignature p ∈ evs2 ∧
              file_t.crcpartial (s'.heap p) = none) ∨
              (Event.getcrcsignature p ∈ evs2 ∧ (s'.heap p).crcsignature = none) := by
            rcases hbad with ⟨hm, hn⟩ | ⟨hm, hn⟩
            · rcases List.mem_append.mp hm with h' | h'
              · exact absurd (Or.inl ⟨h', hn⟩) (node_ok s' run2.2.1 p)
              · exact Or.inl ⟨h', hn⟩
            · rcases List.mem_append.mp hm with h' | h'
              · exact absurd (Or.inr ⟨h', hn⟩) (node_ok s' run2.2.1 p)
              · exact Or.inr ⟨h', hn⟩
          obtain ⟨em, et⟩ := hbad2 p hbad'
          subst em et
          exact ⟨rfl, rfl⟩

theorem registerpair_loop_frame (cmp : file_t → file_t → Int) (m : Ptr) :
    ∀ (fuel : Nat) (h : Heap) (ml : Ptr) (back traverse : Option Ptr) (h' : Heap) (ml' : Ptr),
      registerpair_loop cmp m fuel h ml back traverse = some (h', ml') →
      (ml' = ml ∨ ml' = m) ∧ ∀ x, (h' x).unlinked = (h x).unlinked := by
  intro fuel
  induction fuel with
  | zero =>
    intro h ml back traverse h' ml' hrun
    cases traverse with
    | none =>
      simp [registerpair_loop] at hrun
      obtain ⟨e1, e2⟩ := hrun
      subst e1 e2
      exact ⟨Or.inl rfl, fun _ => rfl⟩
    | some t => simp [registerpair_loop] at hrun
  | succ fuel ih =>
    intro h ml back traverse h' ml' hrun
    cases traverse with
    | none =>
      simp [registerpair_loop] at hrun
      obtain ⟨e1, e2⟩ := hrun
      subst e1 e2
      exact ⟨Or.inl rfl, fun _ => rfl⟩
    | some t =>
      unfold registerpair_loop at hrun
      by_cases hcmp : cmp (h m) (h t) ≤ 0
      · rw [if_pos hcmp] at hrun
        cases back with
        | none =>
          simp only [] at hrun
          injection hrun with hrun
          injection hrun with e1 e2
          subst e1 e2
          exact ⟨Or.inr rfl, fun x => by simp⟩
        | some b =>
          simp only [] at hrun
          injection hrun with hrun
          injection hrun with e1 e2
          subst e1 e2
          exact ⟨Or.inl rfl, fun x => by simp⟩
      · rw [if_neg hcmp] at hrun
        by_cases hd : (h t).duplicates = none
        · rw [if_pos hd] at hrun
          cases back with
          | none =>
            simp only [] at hrun
            injection hrun with hrun
            injection hrun with e1 e2
            subst e1 e2
            exact ⟨Or.inl rfl, fun x => by simp⟩
          | some b =>
            simp only [] at hrun
            injection hrun with hrun
            injection hrun with e1 e2
            subst e1 e2
            exact ⟨Or.inl rfl, fun x => by simp⟩
        · rw [if_neg hd] at hrun
          exact ih h ml (some t) (h t).duplicates h' ml' hrun

theorem registerpair_frame (cmp : file_t → file_t → Int) (fuel : Nat) (h : Heap) (q m : Ptr)
    (h' : Heap) (ml' : Ptr) (hrun : registerpair cmp fuel h q m = some (h', ml')) :
    (ml' = q ∨ ml' = m) ∧ ∀ x, (h' x).unlinked = (h x).unlinked := by
  unfold registerpair at hrun
  obtain ⟨h1, h2⟩ := registerpair_loop_frame cmp m fuel _ q none (some q) h' ml' hrun
  refine ⟨h1, fun x => ?_⟩
  rw [h2 x]
  simp

theorem remove_file_no_digest {DB : Type} (E : Env DB) (flags : Flags) (s : State DB)
    (p q : Ptr) (hq : Event.getcrcsignature q ∈ (remove_file E flags s p).trace) :
    Event.getcrcsignature q ∈ s.trace := by
  unfold remove_file at hq
  dsimp only at hq
  by_cases hr : E.removeifnotchanged (s.heap p) = 0
  · rw [if_pos hr] at hq
    by_cases hc : flags.F_CACHESIGNATURES = true
    · rw [if_pos hc] at hq
      cases hg : E.getrealpath (s.heap p).d_name with
      | none =>
        rw [hg] at hq
        simpa using hq
      | some dp =>
        rw [hg] at hq
        dsimp only at hq
        split_ifs at hq <;> simpa using hq
    · rw [if_neg hc] at hq
      simpa using hq
  · rw [if_neg hr] at hq
    simpa using hq

theorem deletesuccessor_no_digest {DB : Type} (E : Env DB) (flags : Flags)
    (cmp : file_t → file_t → Int) (s : State DB) (e d : Ptr) (mc : Bool) (q : Ptr)
    (hq : Event.getcrcsignature q ∈ (deletesuccessor E flags cmp s e d mc).1.trace) :
    Event.getcrcsignature q ∈ s.trace := by
  unfold deletesuccessor at hq
  dsimp only at hq
  simp only [List.mem_append, List.mem_singleton, reduceCtorEq, or_false] at hq
  cases mc with
  | true =>
    simp only [if_true] at hq
    have := remove_file_no_digest E flags _ _ q hq
    simpa using this
  | false =>
    simp only [Bool.false_eq_true, if_false] at hq
    simpa using hq

theorem set_file_at_mem : ∀ (t : filetree_t) (path : List Bool) (v x : Ptr),
    x ∈ (t.set_file_at path v).files → x ∈ t.files ∨ x = v
  | filetree_t.null, _, _, _, h => by simp [filetree_t.set_file_at, filetree_t.files] at h
  | filetree_t.node f l r, [], v, x, h => by
    simp only [filetree_t.set_file_at, filetree_t.files, List.mem_cons, List.mem_append] at h ⊢
    tauto
  | filetree_t.node f l r, false :: path, v, x, h => by
    simp only [filetree_t.set_file_at, filetree_t.files, List.mem_cons, List.mem_append] at h ⊢
    rcases h with h | h | h
    · exact Or.inl (Or.inl h)
    · rcases set_file_at_mem l path v x h with h' | h'
      · exact Or.inl (Or.inr (Or.inl h'))
      · exact Or.inr h'
    · exact Or.inl (Or.inr (Or.inr h))
  | filetree_t.node f l r, true :: path, v, x, h => by
    simp only [filetree_t.set_file_at, filetree_t.files, List.mem_cons, List.mem_append] at h ⊢
    rcases h with h | h | h
    · exact Or.inl (Or.inl h)
    · exact Or.inl (Or.inr (Or.inl h))
    · rcases set_file_at_mem r path v x h with h' | h'
      · exact Or.inl (Or.inr (Or.inr h'))
      · exact Or.inr h'

theorem core_of_kept {a b : file_t} (h : a.core = b.core) : a.next = b.next ∧ a.size = b.size :=
  ⟨core_next h, core_size h⟩

/-- The invariant on full-digest calls moves along a change of the heap that
keeps the digests and the fields that the scan never writes. -/
theorem FullDigestInv_move {DB : Type} (A : List Ptr) (ms ms' : Scan DB)
    (inv : FullDigestInv A ms)
    (hk : DigestKept ms.st.heap ms'.st.heap)
    (hc : ∀ x, (ms'.st.heap x).core = (ms.st.heap x).core)
    (ht : ∀ x ∈ ms'.checktree.files, x ∈ A)
    (hnew : ∀ p, Event.getcrcsignature p ∈ ms'.st.trace →
      Event.getcrcsignature p ∈ ms.st.trace ∨ (p ∈ A ∧ ∃ q ∈ A, q ≠ p ∧
        (ms'.st.heap p).size = (ms'.st.heap q).size ∧
        digests_equal (file_t.crcpartial (ms'.st.heap p))
          (file_t.crcpartial (ms'.st.heap q)))) :
    FullDigestInv A ms' := by
  refine ⟨?_, ht, ?_⟩
  · intro x hx y hy
    rw [core_next (hc x)] at hy
    exact inv.1 x hx y hy
  · intro p hp
    rcases hnew p hp with hold | hnew'
    · obtain ⟨hpA, q, hqA, hqp, hsz, hd⟩ := inv.2.2 p hold
      refine ⟨hpA, q, hqA, hqp, ?_, digests_equal_kept hk p q hd⟩
      rw [core_size (hc p), core_size (hc q)]
      exact hsz
    · exact hnew'

theorem main_scan_step_digest {DB : Type} (E : Env DB) (flags : Flags) (o : ordertype_t)
    (cfuel : Nat) (A : List Ptr) (ms ms' : Scan DB) (curfile : Ptr)
    (inv : FullDigestInv A ms) (hcur : curfile ∈ A)
    (hrun : main_scan_step E flags o cfuel ms curfile = some ms') :
    FullDigestInv A ms' := by
  unfold main_scan_step at hrun
  cases hlook : main_scan_lookup E flags cfuel ms curfile with
  | none => rw [hlook] at hrun; cases hrun
  | some ms1 =>
    rw [hlook] at hrun
    simp only [] at hrun
    -- the lookup
    have inv1 : FullDigestInv A ms1 := by
      unfold main_scan_lookup at hlook
      cases htree : ms.checktree with
      | null =>
        rw [htree] at hlook
        simp only [] at hlook
        injection hlook with hlook
        subst hlook
        refine FullDigestInv_move A ms _ inv (DigestKept_refl _) (fun _ => rfl) ?_ ?_
        · intro x hx
          simp [filetree_t.files] at hx
          rw [hx]; exact hcur
        · intro p hp
          simp [registerfile] at hp
          exact Or.inl hp
      | node a b c =>
        rw [htree] at hlook
        simp only [] at hlook
        cases hcm : checkmatch E flags cfuel (filetree_t.node a b c) curfile ms.st with
        | none => rw [hcm] at hlook; cases hlook
        | some res =>
          obtain ⟨s1, t1, m⟩ := res
          rw [hcm] at hlook
          simp only [] at hlook
          injection hlook with hlook
          subst hlook
          obtain ⟨evs, run, hf, -, hs, -⟩ :=
            checkmatch_digest_calls E flags cfuel curfile _ _ _ _ _ hcm
          have htA : ∀ x ∈ (filetree_t.node a b c).files, x ∈ A := by
            intro x hx; rw [← htree] at hx; exact inv.2.1 x hx
          refine FullDigestInv_move A ms _ inv run.2.1
            (fun x => core_of_undigested (run.2.2 x)) ?_ ?_
          · intro x hx
            rcases hf x hx with h' | h'
            · exact htA x h'
            · rw [h']; exact hcur
          · intro p hp
            simp only [] at hp
            rw [run.1] at hp
            rcases List.mem_append.mp hp with h' | h'
            · exact Or.inl h'
            · right
              obtain ⟨ct, hct, hne, hpc, hsz, hd⟩ := hs p h'
              rcases hpc with e | e
              · subst e
                exact ⟨hcur, ct, htA ct hct, hne, hsz, hd⟩
              · subst e
                exact ⟨htA p hct, curfile, hcur, fun e => hne e.symm, hsz.symm,
                  digests_equal_symm hd⟩
    -- the block that follows a match
    unfold main_scan_pair at hrun
    cases hm : ms1.matched with
    | none =>
      rw [hm] at hrun
      simp only [] at hrun
      injection hrun with hrun
      subst hrun
      exact inv1
    | some path =>
      rw [hm] at hrun
      simp only [] at hrun
      cases hat : ms1.checktree.file_at path with
      | none => rw [hat] at hrun; cases hrun
      | some peer =>
        rw [hat] at hrun
        simp only [] at hrun
        have hpeer : peer ∈ A := inv1.2.1 peer (file_at_mem _ _ _ hat)
        split_ifs at hrun with h1 h2 h3 h4
        · injection hrun with hrun; subst hrun; exact inv1
        · injection hrun with hrun; subst hrun; exact inv1
        · injection hrun with hrun
          subst hrun
          refine FullDigestInv_move A ms1 _ inv1 ?_ ?_ ?_ ?_
          · simp only [deletesuccessor_heap]
            exact DigestKept_refl _
          · intro x
            simp only [deletesuccessor_heap]
          · intro x hx
            rcases set_file_at_mem _ _ _ _ hx with h' | h'
            · exact inv1.2.1 x h'
            · rw [h']
              rcases deletesuccessor_keep E flags (comparef_of flags o) ms1.st peer curfile
                (E.confirmmatch (ms1.st.heap curfile).d_name (ms1.st.heap peer).d_name)
                with e | e
              · rw [e]; exact hpeer
              · rw [e]; exact hcur
          · intro p hp
            exact Or.inl (deletesuccessor_no_digest E flags _ _ _ _ _ p hp)
        · cases hreg : registerpair (comparef_of flags o) cfuel ms1.st.heap peer curfile with
          | none => rw [hreg] at hrun; cases hrun
          | some res =>
            obtain ⟨h2', ml⟩ := res
            rw [hreg] at hrun
            simp only [] at hrun
            injection hrun with hrun
            subst hrun
            obtain ⟨hml, hun⟩ := registerpair_frame _ _ _ _ _ _ _ hreg
            refine FullDigestInv_move A ms1 _ inv1 ?_ ?_ ?_ ?_
            · intro x _
              simp only []
              rw [crcpartial_of_unlinked (hun x), crcsignature_of_unlinked (hun x)]
              exact ⟨rfl, fun _ => rfl⟩
            · intro x
              exact core_of_unlinked (hun x)
            · intro x hx
              rcases set_file_at_mem _ _ _ _ hx with h' | h'
              · exact inv1.2.1 x h'
              · rw [h']
                rcases hml with e | e
                · rw [e]; exact hpeer
                · rw [e]; exact hcur
            · intro p hp
              exact Or.inl hp
        · injection hrun with hrun; subst hrun; exact inv1

theorem main_scan_digest {DB : Type} (E : Env DB) (flags : Flags) (o : ordertype_t)
    (cfuel : Nat) (A : List Ptr) :
    ∀ (fuel : Nat) (ms ms' : Scan DB) (cur : Option Ptr),
      FullDigestInv A ms → (∀ c, cur = some c → c ∈ A) →
      main_scan E flags o cfuel fuel ms cur = some ms' → FullDigestInv A ms' := by
  intro fuel
  induction fuel with
  | zero =>
    intro ms ms' cur inv _ hrun
    cases cur with
    | none =>
      simp [main_scan] at hrun
      subst hrun
      exact inv
    | some c => simp [main_scan] at hrun
  | succ fuel ih =>
    intro ms ms' cur inv hcur hrun
    cases cur with
    | none =>
      simp [main_scan] at hrun
      subst hrun
      exact inv
    | some c =>
      unfold main_scan at hrun
      cases hstep : main_scan_step E flags o cfuel ms c with
      | none => rw [hstep] at hrun; cases hrun
      | some ms1 =>
        rw [hstep] at hrun
        simp only [] at hrun
        have hc := hcur c rfl
        have inv1 := main_scan_step_digest E flags o cfuel A ms ms1 c inv hc hstep
        exact ih ms1 ms' _ inv1 (fun y hy => inv1.1 c hc y hy) hrun

theorem Listed_closed (h : Heap) :
    ∀ (L : List Ptr) (o : Option Ptr), Listed h o L →
      (∀ c, o = some c → c ∈ L) ∧ ∀ x ∈ L, ∀ y, (h x).next = some y → y ∈ L
  | [], o, hl => by
    have : o = none := hl
    subst this
    exact ⟨by simp, by simp⟩
  | p :: L, o, hl => by
    obtain ⟨h1, h2⟩ := Listed_closed h L _ hl.2
    have ho : o = some p := hl.1
    subst ho
    refine ⟨by simp, ?_⟩
    intro x hx y hy
    rcases List.mem_cons.mp hx with e | hxL
    · subst e
      exact List.mem_cons_of_mem _ (h1 y hy)
    · exact List.mem_cons_of_mem _ (h2 x hxL y hy)

@[simp] theorem crcpartial_assign_d_name (h : Heap) (p : Ptr) (v : Option md5) (q : Ptr) :
    (crcpartial_assign h p v q).d_name = (h q).d_name := by
  unfold crcpartial_assign; split <;> rfl

@[simp] theorem crcpartial_assign_size (h : Heap) (p : Ptr) (v : Option md5) (q : Ptr) :
    (crcpartial_assign h p v q).size = (h q).size := by
  unfold crcpartial_assign; split <;> rfl

@[simp] theorem set_crcsignature_d_name (h : Heap) (p : Ptr) (v : Option md5) (q : Ptr) :
    (set_crcsignature h p v q).d_name = (h q).d_name := by
  unfold set_crcsignature; split <;> rfl

@[simp] theorem set_crcsignature_size (h : Heap) (p : Ptr) (v : Option md5) (q : Ptr) :
    (set_crcsignature h p v q).size = (h q).size := by
  unfold set_crcsignature; split <;> rfl

theorem checkmatch_partial_fill_fails {DB : Type} (E : Env DB) (flags : Flags) (p : Ptr)
    (s : State DB) :
    (checkmatch_partial_fill E flags p s).2 = false ↔
      (file_t.crcpartial (s.heap p) = none ∧
       (flags.F_CACHESIGNATURES = true → (E.hashdb_loadhash s.db (s.heap p)).1 = none) ∧
       E.getcrcpartialsignature (s.heap p).d_name (s.heap p).size = none) := by
  unfold checkmatch_partial_fill
  dsimp only
  split_ifs <;> simp_all

theorem checkmatch_signature_fill_fails {DB : Type} (E : Env DB) (flags : Flags) (p : Ptr)
    (s : State DB) :
    (checkmatch_signature_fill E flags p s).2 = false ↔
      ((s.heap p).crcsignature = none ∧
       E.getcrcsignature (s.heap p).d_name (s.heap p).size = none) := by
  unfold checkmatch_signature_fill
  dsimp only
  split_ifs <;> simp_all

/-! ## The digest readers -/

theorem chunk_bytes_add (content : List Nat) (o a b : Nat) :
    chunk_bytes content (o, a + b)
      = chunk_bytes content (o, a) ++ chunk_bytes content (o + a, b) := by
  unfold chunk_bytes
  simp only []
  rw [List.take_add, List.drop_drop]

theorem fed_bytes_append (content : List Nat) (a b : md5_state_t) :
    fed_bytes content (a ++ b) = fed_bytes content a ++ fed_bytes content b := by
  simp [fed_bytes, List.flatMap_append]

theorem fed_bytes_cons (content : List Nat) (c : Chunk) (cs : md5_state_t) :
    fed_bytes content (c :: cs) = chunk_bytes content c ++ fed_bytes content cs := by
  simp [fed_bytes, List.flatMap_cons]

/-- Pieces that follow one another from the offset `o`. -/
theorem read_loop_spec (C : Nat) (hC : 0 < C) :
    ∀ (fuel n : Nat) (file : FILE) (state : md5_state_t),
      file.pos + n ≤ file.length → n ≤ fuel * C →
      ∃ cs, read_loop C fuel n file state
          = some (some ({ file with pos := file.pos + n }, state ++ cs)) ∧
        (n ≤ cs.length * C ∧ cs.length * C < n + C) ∧
        (∀ c ∈ cs, 0 < c.2 ∧ c.2 ≤ C ∧ file.pos ≤ c.1 ∧ c.1 + c.2 ≤ file.pos + n) ∧
        (∀ content, fed_bytes content cs = chunk_bytes content (file.pos, n)) ∧
        chunks_follow file.pos cs := by
  intro fuel
  induction fuel with
  | zero =>
    intro n file state _ hf
    have hn : n = 0 := by simpa using hf
    subst hn
    refine ⟨[], ?_, by simp; omega, by simp, ?_, trivial⟩
    · unfold read_loop
      simp
    · intro content
      simp [fed_bytes, chunk_bytes]
  | succ fuel ih =>
    intro n file state hlen hf
    by_cases hn : n = 0
    · subst hn
      refine ⟨[], ?_, by simp; omega, by simp, ?_, trivial⟩
      · unfold read_loop
        simp
      · intro content
        simp [fed_bytes, chunk_bytes]
    · have hpos : (n : Int) > 0 := by omega
      by_cases hge : C ≤ n
      · have hr : fread file (C : Int)
            = some ((file.pos, C), { file with pos := file.pos + C }) := by
          unfold fread
          rw [if_pos ⟨by omega, by simp; omega⟩]
          simp
        have hf' : n - C ≤ fuel * C := by
          rw [Nat.succ_mul] at hf
          omega
        obtain ⟨cs, hrun, hcnt, hcs, hbytes, hfol⟩ := ih (n - C)
          { file with pos := file.pos + C } (state ++ [(file.pos, C)]) (by simp; omega) hf'
        refine ⟨(file.pos, C) :: cs, ?_, ?_, ?_, ?_, ⟨rfl, hfol⟩⟩
        · unfold read_loop
          rw [if_pos hpos]
          simp only []
          rw [if_pos (by omega : (n : Int) ≥ (C : Int)), hr]
          simp only []
          have e : (n : Int) - (C : Int) = ((n - C : Nat) : Int) := by omega
          rw [e, hrun]
          simp only [List.append_assoc, List.singleton_append]
          congr 4
          omega
        · simp only [List.length_cons]
          rw [Nat.succ_mul]
          omega
        · intro c hc
          rcases List.mem_cons.mp hc with e | hc'
          · subst e
            simp only []
            omega
          · have := hcs c hc'
            simp only [] at this
            omega
        · intro content
          rw [fed_bytes_cons, hbytes content]
          have e : n = C + (n - C) := by omega
          conv_rhs => rw [e]
          rw [chunk_bytes_add]
      · have hlt : n < C := by omega
        have hr : fread file (n : Int)
            = some ((file.pos, n), { file with pos := file.pos + n }) := by
          unfold fread
          rw [if_pos ⟨by omega, by simp; omega⟩]
          simp
        refine ⟨[(file.pos, n)], ?_, ?_, ?_, ?_, ⟨rfl, trivial⟩⟩
        · unfold read_loop
          rw [if_pos hpos]
          simp only []
          rw [if_neg (by omega : ¬ (n : Int) ≥ (C : Int)), hr]
          simp only []
          unfold read_loop
          simp
        · simp
          omega
        · intro c hc
          simp at hc
          subst hc
          simp only []
          omega
        · intro content
          simp [fed_bytes]

theorem read_loop_fuel (C : Nat) (hC : 0 < C) :
    ∀ (fuel n : Nat) (file : FILE) (state : md5_state_t),
      file.pos + n ≤ file.length → fuel * C < n →
      read_loop C fuel n file state = none := by
  intro fuel
  induction fuel with
  | zero =>
    intro n file state _ hf
    unfold read_loop
    rw [if_pos (by omega)]
  | succ fuel ih =>
    intro n file state hlen hf
    rw [Nat.succ_mul] at hf
    have hr : fread file (C : Int)
        = some ((file.pos, C), { file with pos := file.pos + C }) := by
      unfold fread
      rw [if_pos ⟨by omega, by simp; omega⟩]
      simp
    unfold read_loop
    rw [if_pos (by omega)]
    simp only []
    rw [if_pos (by omega : (n : Int) ≥ (C : Int)), hr]
    simp only []
    have e : (n : Int) - (C : Int) = ((n - C : Nat) : Int) := by omega
    rw [e]
    exact ih (n - C) _ _ (by simp; omega) (by omega)

theorem getcrcsignatureuntil_fsize (s N : Nat) :
    (if (N : Int) ≠ 0 ∧ (s : Int) > (N : Int) then (N : Int) else (s : Int))
      = ((if N = 0 then s else min s N : Nat) : Int) := by
  split_ifs <;> omega

theorem sampled_offsets_mem (strict : Bool) (s o : Nat) (hs : 1048576 < s) :
    o ∈ sampled_offsets strict s ↔
      ∃ k, 0 < k ∧ o = k * 52428800 ∧
        (if strict then o + 1048576 < s else o + 1048576 ≤ s) := by
  have hB : HEURISTIC_BLOCK.toNat = 1048576 := by decide
  have hI : HEURISTIC_INTERVAL.toNat = 52428800 := by decide
  unfold sampled_offsets
  rw [hB, hI]
  simp only [List.mem_map, List.mem_range]
  constructor
  · rintro ⟨i, hi, rfl⟩
    refine ⟨i + 1, by omega, rfl, ?_⟩
    cases strict
    · simp only [Bool.false_eq_true, if_false] at hi ⊢
      omega
    · simp only [if_true] at hi ⊢
      omega
  · rintro ⟨k, hk, rfl, hc⟩
    refine ⟨k - 1, ?_, by congr 1; omega⟩
    cases strict
    · simp only [Bool.false_eq_true, if_false] at hc ⊢
      omega
    · simp only [if_true] at hc ⊢
      omega

theorem sampled_offsets_increasing (strict : Bool) (s : Nat) :
    List.Pairwise (fun a b => a < b) (sampled_offsets strict s) := by
  unfold sampled_offsets
  rw [List.pairwise_map]
  refine List.Pairwise.imp ?_ (List.pairwise_lt_range _)
  intro a b hab
  have hI : HEURISTIC_INTERVAL.toNat = 52428800 := by decide
  rw [hI]
  omega

theorem getheuristicsignature_loop_spec (C : Nat) (hC : 0 < C) (rfuel s : Nat)
    (hr : 1048576 ≤ rfuel * C) (hs : 1048576 < s) :
    ∀ (d j fuel : Nat) (file : FILE) (state : md5_state_t),
      j + d = (s - 1048576 - 1) / 52428800 → d ≤ fuel → s ≤ file.length →
      ∃ file' cs, getheuristicsignature_loop C rfuel s fuel (((j + 1) * 52428800 : Nat) : Int)
          file state = some (some (file', state ++ cs)) ∧
        file'.length = file.length ∧
        ∀ content, fed_bytes content cs
          = ((List.range' j d).map (fun i => ((i + 1) * 52428800, 1048576))).flatMap
              (chunk_bytes content) := by
  have hB : HEURISTIC_BLOCK = 1048576 := by decide
  have hI : HEURISTIC_INTERVAL = 52428800 := by decide
  intro d
  induction d with
  | zero =>
    intro j fuel file state hj _ _
    refine ⟨file, [], ?_, rfl, by simp [fed_bytes]⟩
    unfold getheuristicsignature_loop
    rw [hB, if_neg (by omega)]
    simp
  | succ d ih =>
    intro j fuel file state hj hf hlen
    obtain ⟨fuel, rfl⟩ : ∃ k, fuel = k + 1 := ⟨fuel - 1, by omega⟩
    have hcond : (((j + 1) * 52428800 : Nat) : Int) + 1048576 < (s : Int) := by omega
    have hseek : fseeko file (((j + 1) * 52428800 : Nat) : Int)
        = some { file with pos := (j + 1) * 52428800 } := by
      unfold fseeko
      rw [if_pos (by omega), Int.toNat_ofNat]
    obtain ⟨cs1, hrun1, -, -, hbytes1, -⟩ := read_loop_spec C hC rfuel 1048576
      { file with pos := (j + 1) * 52428800 } state (by simp; omega) hr
    obtain ⟨file', cs2, hrun2, hlen2, hbytes2⟩ := ih (j + 1) fuel
      { file with pos := (j + 1) * 52428800 + 1048576 } (state ++ cs1) (by omega) (by omega)
      (by simpa using hlen)
    refine ⟨file', cs1 ++ cs2, ?_, ?_, ?_⟩
    · unfold getheuristicsignature_loop
      rw [hB, if_pos hcond]
      simp only []
      rw [hseek]
      simp only []
      have e1 : (1048576 : Int) = ((1048576 : Nat) : Int) := by norm_num
      rw [e1, hrun1]
      simp only []
      have e2 : (((j + 1) * 52428800 : Nat) : Int) + HEURISTIC_INTERVAL
          = (((j + 1 + 1) * 52428800 : Nat) : Int) := by
        rw [hI]; push_cast; ring
      rw [e2, hrun2, List.append_assoc]
    · rw [hlen2]
    · intro content
      rw [fed_bytes_append, hbytes1 content, hbytes2 content, List.range'_succ]
      simp [List.flatMap_cons]

/-! ## The order of group members that compare equal -/

theorem tie_order_mono {cmp : file_t → file_t → Int} {h : Heap} {P P' : List Ptr}
    (hs : List.Sublist P P') {x y : Ptr} (ht : tie_order cmp h P x y) :
    tie_order cmp h P' x y :=
  ht.imp id (fun s => s.trans hs)

theorem tie_order_core (flags : Flags) (o : ordertype_t) {h h' : Heap} {P : List Ptr}
    (hc : ∀ x, (h' x).core = (h x).core) {x y : Ptr}
    (ht : tie_order (comparef_of flags o) h P x y) :
    tie_order (comparef_of flags o) h' P x y := by
  unfold tie_order at ht ⊢
  rw [comparef_of_core flags o (h' x) (h' y), hc x, hc y, ← comparef_of_core flags o (h x) (h y)]
  exact ht

theorem insert_before_first_ge_stable (cmp : file_t → file_t → Int) (h : Heap) (m : Ptr)
    (P : List Ptr) (hsign : ∀ x, ¬ cmp (h m) (h x) ≤ 0 → cmp (h x) (h m) < 0) :
    ∀ L : List Ptr, (∀ x ∈ L, x ∈ P) → L.Pairwise (tie_order cmp h P) →
      (insert_before_first_ge cmp h m L).Pairwise (tie_order cmp h (m :: P))
  | [], _, _ => by simp [insert_before_first_ge]
  | p :: L, hsub, hpw => by
    have hpw' := List.pairwise_cons.mp hpw
    have hlift : (p :: L).Pairwise (tie_order cmp h (m :: P)) :=
      hpw.imp (fun ht => tie_order_mono (List.sublist_cons_self m P) ht)
    by_cases hcmp : cmp (h m) (h p) ≤ 0
    · simp only [insert_before_first_ge, hcmp, if_true]
      refine List.pairwise_cons.mpr ⟨?_, hlift⟩
      intro y hy
      exact Or.inr (List.Sublist.cons₂ m (List.singleton_sublist.mpr (hsub y hy)))
    · simp only [insert_before_first_ge, hcmp, if_false]
      refine List.pairwise_cons.mpr ⟨?_, insert_before_first_ge_stable cmp h m P hsign L
        (fun x hx => hsub x (List.mem_cons_of_mem _ hx)) hpw'.2⟩
      intro y hy
      have hy' := (insert_before_first_ge_perm cmp h m L).mem_iff.mp hy
      rcases List.mem_cons.mp hy' with e | hyL
      · subst e; exact Or.inl (hsign p hcmp)
      · exact tie_order_mono (List.sublist_cons_self m P) (hpw'.1 y hyL)

theorem StableInv_mono {cmp : file_t → file_t → Int} {h : Heap} {T T' P P' : List Ptr}
    (hT : ∀ q ∈ T', q ∈ T) (hs : List.Sublist P P') (st : StableInv cmp h T P) :
    StableInv cmp h T' P' :=
  fun q hq L hc => (st q (hT q hq) L hc).imp (fun ht => tie_order_mono hs ht)

theorem StableInv_step (flags : Flags) (o : ordertype_t) {h h' : Heap} {T T' P : List Ptr}
    {p : Ptr} (hstep : DigestStep h h') (hT : ∀ q ∈ T', q ∈ T ∨ q = p)
    (hfresh : (h p).duplicates = none) (st : StableInv (comparef_of flags o) h T P) :
    StableInv (comparef_of flags o) h' T' P := by
  intro q hq L hc
  have hc0 : Chain h (some q) L := (Chain_digest hstep _ _).mp hc
  rcases hT q hq with hqT | e
  · exact (st q hqT L hc0).imp
      (fun ht => tie_order_core flags o (fun x => core_of_undigested (hstep.1 x)) ht)
  · subst e
    have h1 : Chain h (some q) [q] := ⟨rfl, hfresh⟩
    rw [Chain_unique _ _ _ hc0 h1]
    exact List.pairwise_singleton _ _

theorem StableInv_registerpair {DB : Type} (E : Env DB) (flags : Flags) (o : ordertype_t)
    (Q : List Nat → List Nat → Prop)
    {A : List Ptr} {h0 h : Heap} {X P : List Ptr} {peer : Ptr}
    (inv : ScanInv E flags o Q A h0 h (peer :: X) P)
    (st : StableInv (comparef_of flags o) h (peer :: X) P)
    (p : Ptr) (hp : p ∉ P) (hpA : p ∈ A)
    (cfuel : Nat) (hfuel : P.length ≤ cfuel) (h2 : Heap) (ml : Ptr)
    (hreg : registerpair (comparef_of flags o) cfuel h peer p = some (h2, ml)) :
    StableInv (comparef_of flags o) h2 (ml :: X) (p :: P) := by
  have hpeerT : peer ∈ peer :: X := List.mem_cons_self _ _
  obtain ⟨L, g⟩ := inv.groups peer hpeerT
  obtain ⟨S, hLS⟩ := Chain_head g.chain
  subst hLS
  have hpL : p ∉ peer :: S := fun hx => hp (g.sub p hx)
  obtain ⟨hp0, hpd⟩ := ScanInv_fresh inv hp hpA
  have hlen : S.length < cfuel := by
    have h1 : (peer :: S).length ≤ P.length :=
      ((Chain_nodup _ _ g.chain).subperm (fun x hx => g.sub x hx)).length_le
    simp at h1
    omega
  obtain ⟨h2', ml', R, hrun, hins, hch, -, -, -, hfr, hun⟩ :=
    registerpair_spec (comparef_of flags o) p peer S cfuel h g.chain hpL hpd hlen
  rw [hrun] at hreg
  injection hreg with hreg
  injection hreg with e1 e2
  subst e1 e2
  have hpeerX : peer ∉ X := (List.nodup_cons.mp inv.nodup).1
  have hother : ∀ q ∈ X, ∀ Lq, Chain h (some q) Lq → ∀ x ∈ Lq, h2' x = h x := by
    intro q hq Lq hc x hx
    have hxP : x ∈ P := ScanInv_chain_sub inv (List.mem_cons_of_mem _ hq) hc x hx
    have hxp : x ≠ p := fun e => hp (e ▸ hxP)
    have hqp : peer ≠ q := fun e => hpeerX (e ▸ hq)
    have hxL : x ∉ peer :: S := fun hxL =>
      inv.disj peer hpeerT q (List.mem_cons_of_mem _ hq) hqp _ _ g.chain hc x hxL hx
    exact hfr x hxp hxL
  have hchain2 : ∀ q ∈ X, ∀ L', Chain h2' (some q) L' → Chain h (some q) L' := by
    intro q hq L' hc'
    obtain ⟨Lq, gq⟩ := inv.groups q (List.mem_cons_of_mem _ hq)
    have hc2 : Chain h2' (some q) Lq :=
      Chain_congr _ _ (fun x hx => by rw [hother q hq Lq gq.chain x hx]) gq.chain
    rw [Chain_unique _ _ _ hc' hc2]
    exact gq.chain
  have hun0 : ∀ x, (set_hasdupes h peer 1 x).unlinked = (h x).unlinked :=
    fun x => set_hasdupes_unlinked h peer 1 x
  intro q hq L hc
  rcases List.mem_cons.mp hq with e | hqX
  · subst e
    rw [Chain_unique _ _ _ hc hch]
    have hs0 : (peer :: S).Pairwise
        (tie_order (comparef_of flags o) (set_hasdupes h peer 1) P) :=
      (st peer hpeerT _ g.chain).imp
        (fun ht => tie_order_core flags o (fun x => core_of_unlinked (hun0 x)) ht)
    have hs1 := insert_before_first_ge_stable (comparef_of flags o) (set_hasdupes h peer 1) p P
      (fun x hx => (comparef_of_sign flags o _ _).mpr (by omega)) (peer :: S)
      (fun x hx => g.sub x hx) hs0
    rw [hins] at hs1
    refine hs1.imp (fun ht => tie_order_core flags o (fun x => core_of_unlinked ?_) ht)
    rw [hun x, hun0 x]
  · have hcq := hchain2 q hqX L hc
    exact (st q (List.mem_cons_of_mem _ hqX) L hcq).imp (fun ht =>
      tie_order_mono (List.sublist_cons_self p P)
        (tie_order_core flags o (fun x => core_of_unlinked (hun x)) ht))

theorem main_scan_step_stable {DB : Type} (E : Env DB) (flags : Flags) (o : ordertype_t)
    (Q : List Nat → List Nat → Prop) {A : List Ptr} {h0 : Heap}
    (ms : Scan DB) (P : List Ptr) (p : Ptr)
    (inv : ScanInv E flags o Q A h0 ms.st.heap ms.checktree.files P)
    (st : StableInv (comparef_of flags o) ms.st.heap ms.checktree.files P)
    (hm : ms.checktree = filetree_t.null → ms.matched = none)
    (hp : p ∉ P) (hpA : p ∈ A)
    (cfuel : Nat) (hfuel : P.length ≤ cfuel) (ms' : Scan DB)
    (hrun : main_scan_step E flags o cfuel ms p = some ms') :
    StableInv (comparef_of flags o) ms'.st.heap ms'.checktree.files (p :: P) := by
  obtain ⟨ms1, hlook, hres⟩ := main_scan_lookup_spec E flags o Q ms P p inv hm hp hpA cfuel hfuel
  obtain ⟨-, hpd⟩ := ScanInv_fresh inv hp hpA
  have hPp : List.Sublist P (p :: P) := List.sublist_cons_self p P
  have st1 : StableInv (comparef_of flags o) ms1.st.heap ms1.checktree.files P := by
    have hl := hlook
    unfold main_scan_lookup at hl
    cases htree : ms.checktree with
    | null =>
      rw [htree] at hl
      simp only [Option.some.injEq] at hl
      subst hl
      refine StableInv_step flags o (DigestStep_refl _) ?_ hpd st
      intro q hq
      simp [filetree_t.files] at hq
      exact Or.inr hq
    | node a b c =>
      rw [htree] at hl
      have hpre : PrecheckOK ms.st.heap cfuel (filetree_t.node a b c).files := by
        rw [← htree]; exact ScanInv_precheck inv cfuel hfuel
      obtain ⟨s', t', m, hcm, hds, hcases⟩ := checkmatch_spec E flags cfuel p
        (filetree_t.node a b c) ms.st (by simp) hpre
      simp only [hcm, Option.some.injEq] at hl
      subst hl
      refine StableInv_step flags o hds ?_ hpd st
      intro q hq
      simp only at hq
      rw [htree]
      rcases hcases with ⟨-, e | hperm⟩ | ⟨path, peer, -, e, -, -⟩
      · rw [e] at hq; exact Or.inl hq
      · rcases List.mem_cons.mp (hperm.mem_iff.mp hq) with e | hqT
        · exact Or.inr e
        · exact Or.inl hqT
      · rw [e] at hq; exact Or.inl hq
  unfold main_scan_step at hrun
  rw [hlook] at hrun
  simp only at hrun
  rcases hres with ⟨hmn, -, -⟩ | ⟨path, peer, hmp, hat, hfacts, inv1⟩
  · simp only [main_scan_pair, hmn, Option.some.injEq] at hrun
    subst hrun
    exact StableInv_mono (fun q hq => hq) hPp st1
  · have hpeerT : peer ∈ ms1.checktree.files := file_at_mem _ _ _ hat
    obtain ⟨-, hpd1⟩ := ScanInv_fresh inv1 hp hpA
    unfold main_scan_pair at hrun
    simp only [hmp, hat] at hrun
    by_cases hf1 : E.fopen (ms1.st.heap p).d_name = true
    swap
    · simp only [hf1, Bool.not_false, if_true, Option.some.injEq] at hrun
      subst hrun
      exact StableInv_mono (fun q hq => hq) hPp st1
    by_cases hf2 : E.fopen (ms1.st.heap peer).d_name = true
    swap
    · simp only [hf1, hf2, Bool.not_true, Bool.not_false, Bool.false_eq_true, if_false, if_true,
        Option.some.injEq] at hrun
      subst hrun
      exact StableInv_mono (fun q hq => hq) hPp st1
    simp only [hf1, hf2, Bool.not_true, Bool.false_eq_true, if_false] at hrun
    by_cases himm : (flags.F_DELETEFILES && flags.F_IMMEDIATE) = true
    · simp only [himm, if_true, Option.some.injEq] at hrun
      subst hrun
      simp only [deletesuccessor_heap]
      refine StableInv_mono (fun q hq => hq) hPp
        (StableInv_step flags o (DigestStep_refl _) ?_ hpd1 st1)
      intro q hq
      rcases set_file_at_mem _ _ _ _ hq with hqT | e
      · exact Or.inl hqT
      · rcases deletesuccessor_keep E flags (comparef_of flags o) ms1.st peer p
          (E.confirmmatch (ms1.st.heap p).d_name (ms1.st.heap peer).d_name) with e' | e'
        · rw [e'] at e; exact Or.inl (e ▸ hpeerT)
        · rw [e'] at e; exact Or.inr e
    · have himm' : (flags.F_DELETEFILES && flags.F_IMMEDIATE) = false := by
        cases hb : (flags.F_DELETEFILES && flags.F_IMMEDIATE)
        · rfl
        · exact absurd hb himm
      simp only [himm', Bool.false_eq_true, if_false] at hrun
      by_cases hconf : (flags.F_DEFERCONFIRMATION || flags.F_QUICKSUMMARY ||
          E.confirmmatch (ms1.st.heap p).d_name (ms1.st.heap peer).d_name) = true
      · simp only [hconf, if_true] at hrun
        cases hreg : registerpair (comparef_of flags o) cfuel ms1.st.heap peer p with
        | none => rw [hreg] at hrun; cases hrun
        | some r =>
          obtain ⟨h2, ml⟩ := r
          rw [hreg] at hrun
          simp only [Option.some.injEq] at hrun
          subst hrun
          obtain ⟨X, hX1, hX2⟩ := set_file_at_files ms1.checktree path peer ml hat
          have inv2 := ScanInv_perm E flags o Q hX1.symm (fun x hx => hx) inv1
          have st2 : StableInv (comparef_of flags o) ms1.st.heap (peer :: X) P :=
            StableInv_mono (fun q hq => hX1.mem_iff.mpr hq) (List.Sublist.refl _) st1
          have st3 := StableInv_registerpair E flags o Q inv2 st2 p hp hpA cfuel hfuel h2 ml hreg
          exact StableInv_mono (fun q hq => hX2.mem_iff.mp hq) (List.Sublist.refl _) st3
      · simp only [hconf, Bool.false_eq_true, if_false, Option.some.injEq] at hrun
        subst hrun
        exact StableInv_mono (fun q hq => hq) hPp st1

theorem main_scan_stable {DB : Type} (E : Env DB) (flags : Flags) (o : ordertype_t)
    (Q : List Nat → List Nat → Prop) (hQs : ∀ a b, Q a b → Q b a)
    (hQt : ∀ a b c, Q a b → Q b c → Q a c) {A : List Ptr} {h0 : Heap}
    (hQ : ∀ x ∈ A, ∀ y ∈ A,
      (flags.F_PERMISSIONS = true →
        same_permissions E (h0 x).d_name (h0 y).d_name ≠ 0) →
      (flags.F_DEFERCONFIRMATION || flags.F_QUICKSUMMARY ||
        E.confirmmatch (h0 x).d_name (h0 y).d_name) = true →
      Q (h0 x).d_name (h0 y).d_name)
    (cfuel : Nat) :
    ∀ (R P : List Ptr) (ms : Scan DB) (cur : Option Ptr) (fuel : Nat),
      Listed h0 cur R → (∀ x ∈ R, x ∈ A) → (∀ x ∈ P, x ∈ A) → (∀ x ∈ R, x ∉ P) → R.Nodup →
      P.length + R.length ≤ cfuel →
      ScanInv E flags o Q A h0 ms.st.heap ms.checktree.files P →
      StableInv (comparef_of flags o) ms.st.heap ms.checktree.files P →
      (ms.checktree = filetree_t.null → ms.matched = none) →
      ∀ ms', main_scan E flags o cfuel fuel ms cur = some ms' →
        StableInv (comparef_of flags o) ms'.st.heap ms'.checktree.files (R.reverse ++ P) := by
  intro R
  induction R with
  | nil =>
    intro P ms cur fuel hl _ _ _ _ _ _ st _ ms' hrun
    have hcur : cur = none := hl
    subst hcur
    have e : ms' = ms := by
      cases fuel <;> simp [main_scan] at hrun <;> exact hrun.symm
    subst e
    simpa using st
  | cons p R ih =>
    intro P ms cur fuel hl hRA hPA hRP hnd hc inv st hm ms' hrun
    have hcur : cur = some p := hl.1
    subst hcur
    cases fuel with
    | zero => simp [main_scan] at hrun
    | succ fuel =>
      have hpP : p ∉ P := hRP p (List.mem_cons_self _ _)
      have hpA : p ∈ A := hRA p (List.mem_cons_self _ _)
      obtain ⟨ms1, hstep, inv1, hne⟩ := main_scan_step_spec E flags o Q hQs hQt hQ ms P p inv hm
        hpP hpA hPA cfuel (by simp at hc; omega)
      have st1 := main_scan_step_stable E flags o Q ms P p inv st hm hpP hpA cfuel
        (by simp at hc; omega) ms1 hstep
      have hnext : (ms1.st.heap p).next = (h0 p).next := core_next (inv1.core p)
      simp only [main_scan, hstep, hnext] at hrun
      have := ih (p :: P) ms1 (h0 p).next fuel hl.2
        (fun x hx => hRA x (List.mem_cons_of_mem _ hx))
        (by
          intro x hx
          rcases List.mem_cons.mp hx with e | hxP
          · subst e; exact hpA
          · exact hPA x hxP)
        (by
          intro x hx hx'
          rcases List.mem_cons.mp hx' with e | hxP
          · subst e; exact (List.nodup_cons.mp hnd).1 hx
          · exact hRP x (List.mem_cons_of_mem _ hx) hxP)
        (List.nodup_cons.mp hnd).2
        (by simp at hc ⊢; omega)
        inv1 st1
        (by
          intro e
          rw [e] at hne
          exact absurd rfl hne)
        ms' hrun
      simpa using this

/-- The scan loop on a file list `A` of fresh records: it returns, and every
record that ends with `hasdupes` set heads a group that satisfies the group
invariant and is in `tie_order` for the order in which the loop took the
records (`A` from its first record on). -/
theorem main_scan_stable_groups {DB : Type} (E : Env DB) (flags : Flags) (o : ordertype_t)
    (Q : List Nat → List Nat → Prop) (hQs : ∀ a b, Q a b → Q b a)
    (hQt : ∀ a b c, Q a b → Q b c → Q a c) (A : List Ptr) (h0 : Heap) (db : DB)
    (first : Option Ptr) (fuel cfuel : Nat)
    (hQ : ∀ x ∈ A, ∀ y ∈ A,
      (flags.F_PERMISSIONS = true →
        same_permissions E (h0 x).d_name (h0 y).d_name ≠ 0) →
      (flags.F_DEFERCONFIRMATION || flags.F_QUICKSUMMARY ||
        E.confirmmatch (h0 x).d_name (h0 y).d_name) = true →
      Q (h0 x).d_name (h0 y).d_name)
    (hl : Listed h0 first A)
    (hfresh : ∀ x ∈ A, (h0 x).hasdupes = 0 ∧ (h0 x).duplicates = none)
    (hf : A.length ≤ fuel) (hcf : A.length ≤ cfuel) :
    ∃ ms, main_scan E flags o cfuel fuel (scan_init h0 db) first = some ms ∧
      (∀ x, (ms.st.heap x).core = (h0 x).core) ∧
      ∀ q ∈ A, (ms.st.heap q).hasdupes ≠ 0 →
        ∃ L, GroupInv E flags o Q ms.st.heap A q L ∧
          L.Pairwise (tie_order (comparef_of flags o) ms.st.heap A.reverse) := by
  have inv0 : ScanInv E flags o Q A h0 (scan_init h0 db).st.heap
      (scan_init h0 db).checktree.files [] := by
    refine ⟨fun _ => rfl, List.nodup_nil, ?_, ?_, ?_, ?_⟩
    · intro q hq; simp [scan_init, filetree_t.files] at hq
    · intro q hq; simp [scan_init, filetree_t.files] at hq
    · intro x hx _; exact hfresh x hx
    · intro _ q hq; simp [scan_init, filetree_t.files] at hq
  have st0 : StableInv (comparef_of flags o) (scan_init h0 db).st.heap
      (scan_init h0 db).checktree.files [] := by
    intro q hq; simp [scan_init, filetree_t.files] at hq
  obtain ⟨ms, hrun, inv⟩ := main_scan_spec E flags o Q hQs hQt hQ cfuel A [] (scan_init h0 db)
    first fuel hl (fun x hx => hx) (by simp) (by simp) (Listed_nodup hl) (by simpa using hcf)
    hf inv0 (fun _ => rfl)
  have st := main_scan_stable E flags o Q hQs hQt hQ cfuel A [] (scan_init h0 db)
    first fuel hl (fun x hx => hx) (by simp) (by simp) (Listed_nodup hl) (by simpa using hcf)
    inv0 st0 (fun _ => rfl) ms hrun
  simp only [List.append_nil] at st
  refine ⟨ms, hrun, inv.core, ?_⟩
  intro q hqA hd
  by_contra hno
  have hout : ∀ q' ∈ ms.checktree.files, ∀ L, Chain ms.st.heap (some q') L → q ∉ L := by
    intro q' hq' L hc hqL
    obtain ⟨L', g⟩ := inv.groups q' hq'
    have hLL := Chain_unique _ _ _ hc g.chain
    subst hLL
    by_cases hqq : q = q'
    · subst hqq
      apply hno
      exact ⟨L, GroupInv_congr E flags o Q (fun _ _ => rfl) (by simp) g, st q hq' L hc⟩
    · exact hd (g.tail0 q hqL hqq)
  exact hd (inv.outside q hqA hout).1

/-! ## The file list that grokdir builds -/

theorem Listed_congr {h h' : Heap} :
    ∀ (L : List Ptr) (o : Option Ptr),
      (∀ x ∈ L, (h' x).next = (h x).next) → Listed h o L → Listed h' o L
  | [], _, _, hl => hl
  | p :: L, o, hx, hl => by
    refine ⟨hl.1, ?_⟩
    rw [hx p (List.mem_cons_self _ _)]
    exact Listed_congr L _ (fun x hxL => hx x (List.mem_cons_of_mem _ hxL)) hl.2

theorem GrokInv_alloc {h h1 : Heap} {filelist : Option Ptr} {brk : Ptr} {L : List Ptr}
    (hh : ∀ x, x ≠ brk → h1 x = h x) (inv : GrokInv h filelist brk L) :
    GrokInv h1 filelist (brk + 1) L := by
  obtain ⟨i1, i2, i3, i4⟩ := inv
  have hne : ∀ x ∈ L, x ≠ brk := fun x hx => Nat.ne_of_lt (i3 x hx)
  refine ⟨Listed_congr L _ (fun x hx => by rw [hh x (hne x hx)]) i1, i2, ?_, ?_⟩
  · intro x hx; exact Nat.lt_succ_of_lt (i3 x hx)
  · intro x hx; rw [hh x (hne x hx)]; exact i4 x hx

theorem GrokInv_emit {h h2 : Heap} {filelist : Option Ptr} {brk : Ptr} {L : List Ptr}
    (hh : ∀ x, x ≠ brk → h2 x = h x) (hn : (h2 brk).next = filelist)
    (h0 : (h2 brk).hasdupes = 0) (hd : (h2 brk).duplicates = none)
    (inv : GrokInv h filelist brk L) :
    GrokInv h2 (some brk) (brk + 1) (brk :: L) := by
  obtain ⟨i1, i2, i3, i4⟩ := GrokInv_alloc hh inv
  refine ⟨⟨rfl, ?_⟩, List.pairwise_cons.mpr ⟨fun x hx => inv.2.2.1 x hx, i2⟩, ?_, ?_⟩
  · rw [hn]; exact i1
  · intro x hx
    rcases List.mem_cons.mp hx with e | hxL
    · rw [e]; exact Nat.lt_succ_self _
    · exact i3 x hxL
  · intro x hx
    rcases List.mem_cons.mp hx with e | hxL
    · rw [e]; exact ⟨h0, hd⟩
    · exact i4 x hxL

theorem grokdir_entry_inv {DB : Type} (E : Env DB) (flags : Flags) (minsize maxsize : Int)
    (logfile_status : Option stat_t)
    (recurse : List Nat → Grok DB → Option (Grok DB × Int))
    (hrec : ∀ d g L g' n, GrokInv g.st.heap g.filelist g.brk L → recurse d g = some (g', n) →
      ∃ N, GrokInv g'.st.heap g'.filelist g'.brk (N ++ L))
    (dir : List Nat) (fullpath : Option (List Nat)) (pathid : Int) (name : List Nat)
    (g : Grok DB) (filecount : Int) (L : List Ptr)
    (inv : GrokInv g.st.heap g.filelist g.brk L) (g' : Grok DB) (n : Int)
    (hrun : grokdir_entry E flags minsize maxsize logfile_status recurse dir fullpath pathid
      name g filecount = some (g', n)) :
    ∃ N, GrokInv g'.st.heap g'.filelist g'.brk (N ++ L) := by
  unfold grokdir_entry at hrun
  by_cases hdot : strcmp name [46] ≠ 0 ∧ strcmp name [46, 46] ≠ 0
  swap
  · rw [if_neg hdot] at hrun
    simp only [Option.some.injEq, Prod.mk.injEq] at hrun
    obtain ⟨rfl, -⟩ := hrun
    exact ⟨[], inv⟩
  rw [if_pos hdot] at hrun
  dsimp only at hrun
  have hskip : ∀ {h1 : Heap} {fc : Int},
      (∀ x, x ≠ g.brk → h1 x = g.st.heap x) →
      some (({ st := { heap := h1, db := g.st.db, trace := g.st.trace },
               filelist := g.filelist, brk := g.brk + 1 } : Grok DB), fc) = some (g', n) →
      ∃ N, GrokInv g'.st.heap g'.filelist g'.brk (N ++ L) := by
    intro h1 fc hh e
    simp only [Option.some.injEq, Prod.mk.injEq] at e
    obtain ⟨rfl, -⟩ := e
    exact ⟨[], GrokInv_alloc hh inv⟩
  have hh1 : ∀ x, x ≠ g.brk →
      (fun q => if q = g.brk then
          ({ d_name := grokdir_path dir name, size := (g.st.heap q).size, crcpartial := none,
             crcsignature := none, device := 0, inode := 0, mtime := (g.st.heap q).mtime,
             ctime := (g.st.heap q).ctime, mtime_nsec := (g.st.heap q).mtime_nsec,
             ctime_nsec := (g.st.heap q).ctime_nsec, hasdupes := 0, duplicates := none,
             next := g.filelist } : file_t)
        else g.st.heap q) x = g.st.heap x := fun x hx => if_neg hx
  split at hrun
  · exact hskip hh1 hrun
  split at hrun
  · exact hskip hh1 hrun
  split at hrun
  · exact hskip hh1 hrun
  split at hrun
  · exact hskip hh1 hrun
  split at hrun
  · exact hskip hh1 hrun
  split at hrun
  · split at hrun
    · split at hrun
      · cases hrun
      · rename_i g2 filesadded hr
        obtain ⟨N, hN⟩ := hrec _ _ L g2 filesadded (GrokInv_alloc hh1 inv) hr
        split at hrun
        · simp only [Option.some.injEq, Prod.mk.injEq] at hrun
          obtain ⟨rfl, -⟩ := hrun
          exact ⟨N, hN⟩
        · simp only [Option.some.injEq, Prod.mk.injEq] at hrun
          obtain ⟨rfl, -⟩ := hrun
          exact ⟨N, hN⟩
    · exact hskip hh1 hrun
  · split at hrun
    · simp only [Option.some.injEq, Prod.mk.injEq] at hrun
      obtain ⟨rfl, -⟩ := hrun
      refine ⟨[g.brk], ?_⟩
      refine GrokInv_emit (h := g.st.heap) ?_ ?_ ?_ ?_ inv
      · intro x hx; simp only [if_neg hx]
      · simp [getfilestats]
      · simp [getfilestats]
      · simp [getfilestats]
    · exact hskip hh1 hrun

theorem grokdir_loop_inv {DB : Type}
    (body : List Nat → Grok DB → Int → Option (Grok DB × Int))
    (hbody : ∀ name g fc L g' n, GrokInv g.st.heap g.filelist g.brk L →
      body name g fc = some (g', n) → ∃ N, GrokInv g'.st.heap g'.filelist g'.brk (N ++ L)) :
    ∀ (entries : List (List Nat)) (g : Grok DB) (fc : Int) (L : List Ptr) (g' : Grok DB)
      (n : Int), GrokInv g.st.heap g.filelist g.brk L →
      grokdir_loop body entries g fc = some (g', n) →
      ∃ N, GrokInv g'.st.heap g'.filelist g'.brk (N ++ L)
  | [], g, fc, L, g', n, inv, hrun => by
    simp only [grokdir_loop, Option.some.injEq, Prod.mk.injEq] at hrun
    obtain ⟨rfl, -⟩ := hrun
    exact ⟨[], inv⟩
  | name :: rest, g, fc, L, g', n, inv, hrun => by
    simp only [grokdir_loop] at hrun
    cases hb : body name g fc with
    | none => rw [hb] at hrun; cases hrun
    | some r =>
      obtain ⟨g1, fc1⟩ := r
      rw [hb] at hrun
      simp only at hrun
      obtain ⟨N1, h1⟩ := hbody name g fc L g1 fc1 inv hb
      obtain ⟨N2, h2⟩ := grokdir_loop_inv body hbody rest g1 fc1 (N1 ++ L) g' n h1 hrun
      exact ⟨N2 ++ N1, by simpa using h2⟩

theorem grokdir_cache_heap {DB : Type} (E : Env DB) (flags : Flags) (dir : List Nat)
    (s : State DB) : (grokdir_cache E flags dir s).1.heap = s.heap := by
  unfold grokdir_cache
  split
  · split
    · rfl
    · split
      · split <;> rfl
      · rfl
  · rfl

theorem grokdir_inv {DB : Type} (E : Env DB) (flags : Flags) (minsize maxsize : Int)
    (logfile_status : Option stat_t) :
    ∀ (fuel : Nat) (dir : List Nat) (g : Grok DB) (L : List Ptr) (g' : Grok DB) (n : Int),
      GrokInv g.st.heap g.filelist g.brk L →
      grokdir E flags minsize maxsize logfile_status fuel dir g = some (g', n) →
      ∃ N, GrokInv g'.st.heap g'.filelist g'.brk (N ++ L)
  | 0, _, _, _, _, _, _, hrun => by simp [grokdir] at hrun
  | fuel + 1, dir, g, L, g', n, inv, hrun => by
    simp only [grokdir] at hrun
    cases hr : E.readdir dir with
    | none =>
      rw [hr] at hrun
      simp only [Option.some.injEq, Prod.mk.injEq] at hrun
      obtain ⟨rfl, -⟩ := hrun
      exact ⟨[], inv⟩
    | some entries =>
      rw [hr] at hrun
      simp only at hrun
      refine grokdir_loop_inv _ ?_ entries _ 0 L g' n ?_ hrun
      · intro name g1 fc L1 g2 n2 inv1 hb
        exact grokdir_entry_inv E flags minsize maxsize logfile_status _
          (fun d g3 L3 g4 n4 i3 h3 =>
            grokdir_inv E flags minsize maxsize logfile_status fuel d g3 L3 g4 n4 i3 h3)
          dir _ _ name g1 fc L1 inv1 g2 n2 hb
      · simp only [grokdir_cache_heap]
        exact inv

theorem main_grokdirs_inv {DB : Type} (E : Env DB) (flags : Flags) (minsize maxsize : Int)
    (logfile_status : Option stat_t) (fuel : Nat) :
    ∀ (dirs : List (List Nat)) (g : Grok DB) (fc : Int) (L : List Ptr) (g' : Grok DB)
      (n : Int), GrokInv g.st.heap g.filelist g.brk L →
      main_grokdirs E flags minsize maxsize logfile_status fuel dirs g fc = some (g', n) →
      ∃ N, GrokInv g'.st.heap g'.filelist g'.brk (N ++ L)
  | [], g, fc, L, g', n, inv, hrun => by
    simp only [main_grokdirs, Option.some.injEq, Prod.mk.injEq] at hrun
    obtain ⟨rfl, -⟩ := hrun
    exact ⟨[], inv⟩
  | dir :: rest, g, fc, L, g', n, inv, hrun => by
    simp only [main_grokdirs] at hrun
    cases hb : grokdir E flags minsize maxsize logfile_status fuel dir g with
    | none => rw [hb] at hrun; cases hrun
    | some r =>
      obtain ⟨g1, n1⟩ := r
      rw [hb] at hrun
      simp only at hrun
      obtain ⟨N1, h1⟩ := grokdir_inv E flags minsize maxsize logfile_status fuel dir g L g1 n1
        inv hb
      obtain ⟨N2, h2⟩ := main_grokdirs_inv E flags minsize maxsize logfile_status fuel rest g1 _
        (N1 ++ L) g' n h1 hrun
      exact ⟨N2 ++ N1, by simpa using h2⟩

/-- The body of `deletefiles` without prompt, for a group with chain `q ::
S`: it finishes, marks `q` as preserved and calls `removeifnotchanged` on the
members of `S`, in chain order. -/
theorem deletefiles_set_noprompt {DB : Type} (E : Env DB) (flags : Flags)
    (cfuel pfuel : Nat) (s : State DB) (q : Ptr) (S : List Ptr) (dl : Slots Ptr)
    (pr : Slots Int) (tty : List (List Nat))
    (hopt : main_rejects_options flags = false) (hN : flags.F_NOPROMPT = true)
    (hc : Chain s.heap (some q) (q :: S)) (hf : S.length ≤ cfuel)
    (hdl : S.length + 1 < dl.max) (hpr : S.length + 1 < pr.max) :
    ∃ s' dl' pr', deletefiles_set E flags cfuel pfuel false s q dl pr tty
        = some (SetResult.done s' dl' pr' tty) ∧
      s'.heap = s.heap ∧ dl'.max = dl.max ∧ pr'.max = pr.max ∧
      kept_files s'.trace = kept_files s.trace ++ [q] ∧
      removal_attempts s'.trace = removal_attempts s.trace ++ S := by
  have hconf := main_noprompt_confirms flags hopt hN
  obtain ⟨r, hcol⟩ := deletefiles_collect_total s.heap q S cfuel dl hc hf hdl
  obtain ⟨c1, c2, -, c4⟩ := deletefiles_collect_sound s.heap q S cfuel dl r hc hcol
  obtain ⟨counter, dl1⟩ := r
  simp only at c1 c2 c4
  subst c1
  obtain ⟨pr2, hsel, pmax, p1, p0⟩ :=
    deletefiles_select_noprompt E (S.length + 1) pfuel pr tty (by omega) (by omega)
  have hq1 : dl1.val 1 = q := c4 0 q (by simp)
  obtain ⟨s1, hloop, hheap, -, hat, hk⟩ :=
    deletefiles_remove_loop_all E flags (S.length + 1) dl1 pr2 hconf S 2
      ({ heap := s.heap, db := s.db,
         trace := s.trace ++ [Event.begin_set] ++ [Event.kept q] } : State DB)
      (by
        intro i p hp
        obtain ⟨hlt, _⟩ := List.getElem?_eq_some.mp hp
        have hd := c4 (i + 1) p (by simpa using hp)
        have e : i + 1 + 1 = 2 + i := by omega
        rw [e] at hd
        exact ⟨by omega, by omega, p0 (2 + i) (by omega) (by omega), hd⟩)
  refine ⟨{ s1 with trace := s1.trace ++ [Event.end_set] }, dl1, pr2, ?_, hheap, c2, pmax,
    ?_, ?_⟩
  · unfold deletefiles_set
    rw [hcol]
    simp only [hsel]
    have hp1 : pr2.val 1 ≠ 0 := by rw [p1]; decide
    simp only [deletefiles_remove_loop, Slots_read_some pr2 1 (by omega),
      Slots_read_some dl1 1 (by omega), hq1, hp1, ne_eq, not_false_eq_true, if_true]
    rw [hloop]
  · simp only [kept_files_append, hk]
    simp [kept_files]
  · simp only [removal_attempts_append, hat]
    simp [removal_attempts]

/-! ## Signs of the comparators -/

theorem lex_cons_cons {α : Type} (r : α → α → Prop) (a b : α) (l m : List α) :
    List.Lex r (a :: l) (b :: m) ↔ r a b ∨ (a = b ∧ List.Lex r l m) := by
  constructor
  · intro h
    cases h with
    | cons h => exact Or.inr ⟨rfl, h⟩
    | rel h => exact Or.inl h
  · rintro (h | ⟨rfl, h⟩)
    · exact List.Lex.rel h
    · exact List.Lex.cons h

theorem lex_pair (a b c d : Int) :
    List.Lex (fun x y : Int => x < y) [a, b] [c, d] ↔ a < c ∨ (a = c ∧ b < d) := by
  simp [lex_cons_cons]

theorem lex_quad (a b c d a' b' c' d' : Int) :
    List.Lex (fun x y : Int => x < y) [a, b, c, d] [a', b', c', d'] ↔
      a < a' ∨ (a = a' ∧ (b < b' ∨ (b = b' ∧ (c < c' ∨ (c = c' ∧ d < d'))))) := by
  simp [lex_cons_cons]

theorem sort_pairs_by_ctime_sign (flags : Flags) (f1 f2 : file_t) :
    (sort_pairs_by_ctime { flags with F_REVERSE := false } f1 f2 < 0 ↔
      List.Lex (fun x y : Int => x < y) [f1.ctime, f1.ctime_nsec] [f2.ctime, f2.ctime_nsec]) ∧
    (sort_pairs_by_ctime { flags with F_REVERSE := false } f1 f2 = 0 ↔
      [f1.ctime, f1.ctime_nsec] = [f2.ctime, f2.ctime_nsec]) ∧
    (sort_pairs_by_ctime { flags with F_REVERSE := false } f1 f2 > 0 ↔
      List.Lex (fun x y : Int => x < y) [f2.ctime, f2.ctime_nsec] [f1.ctime, f1.ctime_nsec]) := by
  simp only [lex_pair, sort_pairs_by_ctime, Bool.not_false, if_true]
  refine ⟨?_, ?_, ?_⟩ <;> (split_ifs <;> simp <;> omega)

theorem sort_pairs_by_mtime_sign (flags : Flags) (f1 f2 : file_t) :
    (sort_pairs_by_mtime { flags with F_REVERSE := false } f1 f2 < 0 ↔
      List.Lex (fun x y : Int => x < y) [f1.mtime, f1.mtime_nsec, f1.ctime, f1.ctime_nsec]
        [f2.mtime, f2.mtime_nsec, f2.ctime, f2.ctime_nsec]) ∧
    (sort_pairs_by_mtime { flags with F_REVERSE := false } f1 f2 = 0 ↔
      [f1.mtime, f1.mtime_nsec, f1.ctime, f1.ctime_nsec]
        = [f2.mtime, f2.mtime_nsec, f2.ctime, f2.ctime_nsec]) ∧
    (sort_pairs_by_mtime { flags with F_REVERSE := false } f1 f2 > 0 ↔
      List.Lex (fun x y : Int => x < y) [f2.mtime, f2.mtime_nsec, f2.ctime, f2.ctime_nsec]
        [f1.mtime, f1.mtime_nsec, f1.ctime, f1.ctime_nsec]) := by
  simp only [lex_quad, sort_pairs_by_mtime, sort_pairs_by_ctime, Bool.not_false, if_true]
  refine ⟨?_, ?_, ?_⟩ <;> (split_ifs <;> simp <;> omega)

theorem sort_pairs_reverse_sign (flags : Flags) (f1 f2 : file_t) :
    (sort_pairs_by_ctime { flags with F_REVERSE := true } f1 f2
      = - sort_pairs_by_ctime { flags with F_REVERSE := false } f1 f2) ∧
    (sort_pairs_by_mtime { flags with F_REVERSE := true } f1 f2
      = - sort_pairs_by_mtime { flags with F_REVERSE := false } f1 f2) ∧
    (sort_pairs_by_filename { flags with F_REVERSE := true } f1 f2
      = - sort_pairs_by_filename { flags with F_REVERSE := false } f1 f2) := by
  simp only [sort_pairs_by_mtime, sort_pairs_by_ctime, sort_pairs_by_filename, Bool.not_false,
    Bool.not_true, if_true, Bool.false_eq_true, if_false]
  refine ⟨?_, ?_, trivial⟩ <;> (split_ifs <;> simp)

/-! ## findarg -/

theorem findarg_loop_spec (arg : List Nat) (argc : Nat) (argv : List (List Nat)) :
    ∀ n x, x + n = argc →
      x ≤ findarg_loop arg argc argv n x ∧ findarg_loop arg argc argv n x ≤ argc ∧
      (findarg_loop arg argc argv n x < argc →
        strcmp (argv.getD (findarg_loop arg argc argv n x) []) arg = 0) ∧
      ∀ y, x ≤ y → y < findarg_loop arg argc argv n x → strcmp (argv.getD y []) arg ≠ 0
  | 0, x, h => by
    simp only [findarg_loop]
    exact ⟨Nat.le_refl _, by omega, fun hlt => by omega, fun y h1 h2 => by omega⟩
  | n + 1, x, h => by
    have hx : x < argc := by omega
    simp only [findarg_loop, if_pos hx]
    by_cases hc : strcmp (argv.getD x []) arg = 0
    · simp only [if_pos hc]
      exact ⟨Nat.le_refl _, by omega, fun _ => hc, fun y h1 h2 => by omega⟩
    · simp only [if_neg hc]
      obtain ⟨i1, i2, i3, i4⟩ := findarg_loop_spec arg argc argv n (x + 1) (by omega)
      refine ⟨by omega, i2, i3, ?_⟩
      intro y h1 h2
      by_cases hy : y = x
      · subst hy; exact hc
      · exact i4 y (by omega) h2

/-! ## The body of the readdir loop on an entry that is not a directory -/

theorem grokdir_entry_nondir_total {DB : Type} (E : Env DB) (flags : Flags)
    (minsize maxsize : Int) (logfile_status : Option stat_t)
    (recurse : List Nat → Grok DB → Option (Grok DB × Int))
    (dir : List Nat) (fullpath : Option (List Nat)) (pathid : Int) (name : List Nat)
    (g : Grok DB) (filecount : Int) (info : stat_t)
    (hstat : E.stat (grokdir_path dir name) = some info)
    (hnd : S_ISDIR info.st_mode = false) :
    ∃ r, grokdir_entry E flags minsize maxsize logfile_status recurse dir fullpath pathid
      name g filecount = some r := by
  unfold grokdir_entry
  simp only [hstat, hnd, Bool.false_eq_true, if_false]
  split
  · split
    · exact ⟨_, rfl⟩
    · split
      · exact ⟨_, rfl⟩
      · split
        · exact ⟨_, rfl⟩
        · split
          · exact ⟨_, rfl⟩
          · split <;> exact ⟨_, rfl⟩
  · exact ⟨_, rfl⟩

theorem grokdir_entry_nondir_cases {DB : Type} (E : Env DB) (flags : Flags)
    (minsize maxsize : Int) (logfile_status : Option stat_t)
    (recurse : List Nat → Grok DB → Option (Grok DB × Int))
    (dir : List Nat) (fullpath : Option (List Nat)) (pathid : Int) (name : List Nat)
    (g : Grok DB) (filecount : Int) (info : stat_t)
    (hstat : E.stat (grokdir_path dir name) = some info)
    (hnd : S_ISDIR info.st_mode = false) (g' : Grok DB) (n : Int)
    (hrun : grokdir_entry E flags minsize maxsize logfile_status recurse dir fullpath pathid
      name g filecount = some (g', n)) :
    (n = filecount + 1 ∧ g'.filelist = some g.brk ∧
      (g'.st.heap g.brk).d_name = grokdir_path dir name ∧
      ((strcmp name [46] ≠ 0 ∧ strcmp name [46, 46] ≠ 0) ∧
        (flags.F_EXCLUDEHIDDEN && grokdir_hidden (E.basename (grokdir_path dir name))) = false ∧
        grokdir_size_skip flags minsize maxsize info = false ∧
        (∀ ls, logfile_status = some ls → ¬ (info.st_dev = ls.st_dev ∧ info.st_ino = ls.st_ino)) ∧
        ∃ linfo, E.lstat (grokdir_path dir name) = some linfo ∧
          (S_ISREG linfo.st_mode = true ∨
            (S_ISLNK linfo.st_mode = true ∧ flags.F_FOLLOWLINKS = true)))) ∨
    (n = filecount ∧ g'.filelist = g.filelist ∧
      ¬ ((strcmp name [46] ≠ 0 ∧ strcmp name [46, 46] ≠ 0) ∧
        (flags.F_EXCLUDEHIDDEN && grokdir_hidden (E.basename (grokdir_path dir name))) = false ∧
        grokdir_size_skip flags minsize maxsize info = false ∧
        (∀ ls, logfile_status = some ls → ¬ (info.st_dev = ls.st_dev ∧ info.st_ino = ls.st_ino)) ∧
        ∃ linfo, E.lstat (grokdir_path dir name) = some linfo ∧
          (S_ISREG linfo.st_mode = true ∨
            (S_ISLNK linfo.st_mode = true ∧ flags.F_FOLLOWLINKS = true)))) := by
  unfold grokdir_entry at hrun
  by_cases hdot : strcmp name [46] ≠ 0 ∧ strcmp name [46, 46] ≠ 0
  swap
  · rw [if_neg hdot] at hrun
    simp only [Option.some.injEq, Prod.mk.injEq] at hrun
    obtain ⟨rfl, rfl⟩ := hrun
    exact Or.inr ⟨rfl, rfl, fun h => hdot h.1⟩
  rw [if_pos hdot] at hrun
  simp only [hstat, hnd, Bool.false_eq_true, if_false] at hrun
  cases hhid : (flags.F_EXCLUDEHIDDEN && grokdir_hidden (E.basename (grokdir_path dir name)))
  swap
  · simp only [hhid, if_true, Option.some.injEq, Prod.mk.injEq] at hrun
    obtain ⟨rfl, rfl⟩ := hrun
    exact Or.inr ⟨rfl, rfl, fun h => by simp at h⟩
  simp only [hhid, Bool.false_eq_true, if_false] at hrun
  cases hsk : grokdir_size_skip flags minsize maxsize info
  swap
  · simp only [hsk, if_true, Option.some.injEq, Prod.mk.injEq] at hrun
    obtain ⟨rfl, rfl⟩ := hrun
    exact Or.inr ⟨rfl, rfl, fun h => by simp at h⟩
  simp only [hsk, Bool.false_eq_true, if_false] at hrun
  split at hrun
  · rename_i hlog
    simp only [Option.some.injEq, Prod.mk.injEq] at hrun
    obtain ⟨rfl, rfl⟩ := hrun
    refine Or.inr ⟨rfl, rfl, ?_⟩
    rintro ⟨-, -, -, h, -⟩
    cases hls : logfile_status with
    | none => rw [hls] at hlog; simp at hlog
    | some ls =>
      rw [hls] at hlog
      simp only [Bool.and_eq_true, beq_iff_eq] at hlog
      exact h ls hls hlog
  rename_i hlog
  have hlog' : ∀ ls, logfile_status = some ls →
      ¬ (info.st_dev = ls.st_dev ∧ info.st_ino = ls.st_ino) := by
    intro ls hls hc
    apply hlog
    rw [hls]
    simp [hc.1, hc.2]
  cases hl : E.lstat (grokdir_path dir name) with
  | none =>
    rw [hl] at hrun
    simp only [Option.some.injEq, Prod.mk.injEq] at hrun
    obtain ⟨rfl, rfl⟩ := hrun
    refine Or.inr ⟨rfl, rfl, ?_⟩
    rintro ⟨-, -, -, -, linfo, h, -⟩
    cases h
  | some linfo =>
    rw [hl] at hrun
    simp only [] at hrun
    cases hty : (S_ISREG linfo.st_mode || (S_ISLNK linfo.st_mode && flags.F_FOLLOWLINKS))
    · simp only [hty, Bool.false_eq_true, if_false, Option.some.injEq, Prod.mk.injEq] at hrun
      obtain ⟨rfl, rfl⟩ := hrun
      refine Or.inr ⟨rfl, rfl, ?_⟩
      rintro ⟨-, -, -, -, linfo', e, h⟩
      simp only [Option.some.injEq] at e
      subst e
      have : (S_ISREG linfo.st_mode || (S_ISLNK linfo.st_mode && flags.F_FOLLOWLINKS))
          = true := by simpa using h
      rw [hty] at this
      cases this
    · simp only [hty, if_true, Option.some.injEq, Prod.mk.injEq] at hrun
      obtain ⟨rfl, rfl⟩ := hrun
      refine Or.inl ⟨rfl, rfl, by simp [getfilestats], hdot, rfl, rfl, hlog', linfo, rfl, ?_⟩
      simpa using hty

theorem strtok_tokens_splitOnP :
    ∀ (l cur : List Nat), strtok_tokens l cur =
      ((l.splitOnP is_delimiter).modifyHead (fun t => cur ++ t)).filter
        (fun t => decide (t ≠ []))
  | [], cur => by
    by_cases hc : cur = []
    · simp [strtok_tokens, hc, List.splitOnP_nil, List.modifyHead]
    · simp [strtok_tokens, hc, List.splitOnP_nil, List.modifyHead]
  | c :: cs, cur => by
    rw [List.splitOnP_cons]
    by_cases hd : is_delimiter c = true
    · simp only [strtok_tokens, hd, if_true]
      have ih := strtok_tokens_splitOnP cs []
      have hid : (fun t : List Nat => [] ++ t) = id := by funext t; simp
      rw [hid] at ih
      have hm : ∀ L : List (List Nat), List.modifyHead id L = L := by
        intro L; cases L <;> rfl
      rw [hm] at ih
      by_cases hc : cur = []
      · simp [hc, ih, List.modifyHead]
      · simp [hc, ih, List.modifyHead]
    · simp only [strtok_tokens, hd, if_false, Bool.false_eq_true]
      rw [strtok_tokens_splitOnP cs (cur ++ [c])]
      congr 1
      cases List.splitOnP is_delimiter cs with
      | nil => rfl
      | cons a L => simp [List.modifyHead]

theorem preserve_token_spec {DB : Type} (E : Env DB) (counter : Nat) (token : List Nat)
    (pr : Slots Int) (hpr : counter < pr.max) :
    ∃ pr', preserve_token E counter token pr = some pr' ∧ pr'.max = pr.max ∧
      ∀ j, (pr'.val j = 1 ∧
          (((strcasecmp token [97, 108, 108] = 0 ∨ strcasecmp token [97] = 0) ∧ j ≤ counter) ∨
            (0 < j ∧ j ≤ counter ∧ E.sscanf_d token = some (j : Int)))) ∨
        (pr'.val j = pr.val j ∧
          ¬ (((strcasecmp token [97, 108, 108] = 0 ∨ strcasecmp token [97] = 0) ∧
              1 ≤ j ∧ j ≤ counter) ∨
            (0 < j ∧ j ≤ counter ∧ E.sscanf_d token = some (j : Int)))) := by
  unfold preserve_token
  -- the optional fill for `all`
  have hfill : ∃ pr1,
      (if strcasecmp token [97, 108, 108] = 0 ∨ strcasecmp token [97] = 0 then
        preserve_fill 1 (counter + 1) 0 pr else some pr) = some pr1 ∧ pr1.max = pr.max ∧
      ∀ j, (pr1.val j = 1 ∧
          ((strcasecmp token [97, 108, 108] = 0 ∨ strcasecmp token [97] = 0) ∧ j ≤ counter)) ∨
        (pr1.val j = pr.val j ∧
          ¬ ((strcasecmp token [97, 108, 108] = 0 ∨ strcasecmp token [97] = 0) ∧
              j ≤ counter)) := by
    by_cases ha : strcasecmp token [97, 108, 108] = 0 ∨ strcasecmp token [97] = 0
    · rw [if_pos ha]
      obtain ⟨pr1, h1⟩ := preserve_fill_total 1 (counter + 1) 0 pr (by omega)
      obtain ⟨hm, hin, hout⟩ := preserve_fill_sound 1 _ _ _ _ h1
      refine ⟨pr1, h1, hm, fun j => ?_⟩
      by_cases hj : j ≤ counter
      · exact Or.inl ⟨hin j (by omega) (by omega), ha, hj⟩
      · exact Or.inr ⟨hout j (Or.inr (by omega)), fun h => hj h.2⟩
    · rw [if_neg ha]
      exact ⟨pr, rfl, rfl, fun j => Or.inr ⟨rfl, fun h => ha h.1⟩⟩
  obtain ⟨pr1, h1, hm1, hv1⟩ := hfill
  rw [h1]
  simp only []
  by_cases hn : (E.sscanf_d token).getD 0 > 0 ∧ (E.sscanf_d token).getD 0 ≤ (counter : Int)
  · rw [if_pos hn]
    obtain ⟨n, hn'⟩ : ∃ n : Nat, (E.sscanf_d token).getD 0 = (n : Int) :=
      ⟨((E.sscanf_d token).getD 0).toNat, (Int.toNat_of_nonneg (by omega)).symm⟩
    have hsome : E.sscanf_d token = some (n : Int) := by
      cases hs : E.sscanf_d token with
      | none => rw [hs] at hn; simp at hn
      | some v => rw [hs] at hn'; simp at hn'; rw [hn']
    rw [hn'] at hn ⊢
    have hn0 : 0 < n := by omega
    have hnc : n ≤ counter := by omega
    simp only [Int.toNat_ofNat]
    rw [Slots_write_some pr1 n 1 (by omega)]
    refine ⟨_, rfl, hm1, fun j => ?_⟩
    by_cases hj : j = n
    · subst hj
      exact Or.inl ⟨by simp, Or.inr ⟨hn0, hnc, hsome⟩⟩
    · simp only [hj, if_false]
      rcases hv1 j with ⟨ha, hb⟩ | ⟨ha, hb⟩
      · exact Or.inl ⟨ha, Or.inl hb⟩
      · refine Or.inr ⟨ha, ?_⟩
        rintro (⟨h1', _, h3'⟩ | ⟨_, _, h3'⟩)
        · exact hb ⟨h1', h3'⟩
        · rw [hsome] at h3'
          simp at h3'
          exact hj h3'.symm
  · rw [if_neg hn]
    refine ⟨pr1, rfl, hm1, fun j => ?_⟩
    rcases hv1 j with ⟨ha, hb⟩ | ⟨ha, hb⟩
    · exact Or.inl ⟨ha, Or.inl hb⟩
    · refine Or.inr ⟨ha, ?_⟩
      rintro (⟨h1', _, h3'⟩ | ⟨h1', h2', h3'⟩)
      · exact hb ⟨h1', h3'⟩
      · apply hn
        rw [h3']
        simp
        omega

theorem preserve_tokens_spec {DB : Type} (E : Env DB) (counter : Nat) :
    ∀ (tokens : List (List Nat)) (pr : Slots Int), counter < pr.max →
      ∃ pr', preserve_tokens E counter tokens pr = some pr' ∧ pr'.max = pr.max ∧
        ∀ j, 1 ≤ j → j ≤ counter →
          (pr'.val j = 1 ∧ ∃ t ∈ tokens,
              strcasecmp t [97, 108, 108] = 0 ∨ strcasecmp t [97] = 0 ∨
                E.sscanf_d t = some (j : Int)) ∨
          (pr'.val j = pr.val j ∧ ∀ t ∈ tokens,
              ¬ (strcasecmp t [97, 108, 108] = 0 ∨ strcasecmp t [97] = 0 ∨
                E.sscanf_d t = some (j : Int)))
  | [], pr, _ => ⟨pr, rfl, rfl, fun j _ _ => Or.inr ⟨rfl, fun t ht => by cases ht⟩⟩
  | token :: rest, pr, hpr => by
    obtain ⟨pr1, h1, hm1, hv1⟩ := preserve_token_spec E counter token pr hpr
    obtain ⟨pr2, h2, hm2, hv2⟩ := preserve_tokens_spec E counter rest pr1 (by omega)
    simp only [preserve_tokens, h1]
    refine ⟨pr2, h2, by rw [hm2, hm1], fun j hj1 hj2 => ?_⟩
    rcases hv2 j hj1 hj2 with ⟨ha, t, ht, hb⟩ | ⟨ha, hb⟩
    · exact Or.inl ⟨ha, t, List.mem_cons_of_mem _ ht, hb⟩
    · rcases hv1 j with ⟨hc, hd⟩ | ⟨hc, hd⟩
      · refine Or.inl ⟨by rw [ha, hc], token, List.mem_cons_self _ _, ?_⟩
        rcases hd with ⟨h | h, _⟩ | ⟨_, _, h⟩
        · exact Or.inl h
        · exact Or.inr (Or.inl h)
        · exact Or.inr (Or.inr h)
      · refine Or.inr ⟨by rw [ha, hc], fun t ht => ?_⟩
        rcases List.mem_cons.mp ht with rfl | ht
        · rintro (h | h | h)
          · exact hd (Or.inl ⟨Or.inl h, hj1, hj2⟩)
          · exact hd (Or.inl ⟨Or.inr h, hj1, hj2⟩)
          · exact hd (Or.inr ⟨by omega, hj2, h⟩)
        · exact hb t ht

theorem preserve_sum_spec (pr : Slots Int) :
    ∀ (n x : Nat) (acc : Int), x + n ≤ pr.max →
      (∀ j, x ≤ j → j < x + n → pr.val j = 1 ∨ pr.val j = 0) →
      ∃ t, preserve_sum pr n x acc = some t ∧ acc ≤ t ∧
        (t = acc → ∀ j, x ≤ j → j < x + n → pr.val j = 0)
  | 0, x, acc, _, _ => ⟨acc, rfl, le_refl _, fun _ j h1 h2 => by omega⟩
  | n + 1, x, acc, hb, hv => by
    simp only [preserve_sum, Slots_read_some pr x (by omega)]
    obtain ⟨t, ht, hle, hz⟩ := preserve_sum_spec pr n (x + 1) (acc + pr.val x) (by omega)
      (fun j h1 h2 => hv j (by omega) (by omega))
    have hx := hv x (Nat.le_refl _) (by omega)
    refine ⟨t, ht, by rcases hx with h | h <;> omega, ?_⟩
    intro hta j hj1 hj2
    have hx0 : pr.val x = 0 := by rcases hx with h | h <;> omega
    by_cases hjx : j = x
    · rw [hjx]; exact hx0
    · exact hz (by rw [hta, hx0]; simp) j (by omega) (by omega)

theorem deletefiles_prompt_pass {DB : Type} (E : Env DB) (counter fuel : Nat)
    (pr : Slots Int) (tty : List (List Nat)) (hpr : counter < pr.max)
    (hq : ¬ (strcmp (tty.headD [10]) [113, 10] = 0 ∨
      strcmp (tty.headD [10]) [113, 117, 105, 116, 10] = 0)) :
    ∃ pr2, pr2.max = pr.max ∧
      (∀ k, 1 ≤ k → k ≤ counter →
        (pr2.val k = 1 ∨ pr2.val k = 0) ∧
        (pr2.val k = 1 ↔ ∃ t ∈ strtok_tokens (tty.headD [10]) [],
          strcasecmp t [97, 108, 108] = 0 ∨ strcasecmp t [97] = 0 ∨
            E.sscanf_d t = some (k : Int))) ∧
      ((∃ k, 1 ≤ k ∧ k ≤ counter ∧ pr2.val k = 1) →
        deletefiles_prompt E counter (fuel + 1) pr tty
          = some (Selected.chosen pr2 tty.tail)) ∧
      ((∀ k, 1 ≤ k → k ≤ counter → pr2.val k = 0) →
        deletefiles_prompt E counter (fuel + 1) pr tty
          = deletefiles_prompt E counter fuel pr2 tty.tail) := by
  obtain ⟨pr1, h1⟩ := preserve_fill_total 0 counter 1 pr (by omega)
  obtain ⟨hm1, hin1, _⟩ := preserve_fill_sound 0 _ _ _ _ h1
  obtain ⟨pr2, h2, hm2, hv2⟩ :=
    preserve_tokens_spec E counter (strtok_tokens (tty.headD [10]) []) pr1 (by omega)
  have hval : ∀ k, 1 ≤ k → k ≤ counter →
      (pr2.val k = 1 ∨ pr2.val k = 0) ∧
      (pr2.val k = 1 ↔ ∃ t ∈ strtok_tokens (tty.headD [10]) [],
        strcasecmp t [97, 108, 108] = 0 ∨ strcasecmp t [97] = 0 ∨
          E.sscanf_d t = some (k : Int)) := by
    intro k hk1 hk2
    rcases hv2 k hk1 hk2 with ⟨ha, hb⟩ | ⟨ha, hb⟩
    · exact ⟨Or.inl ha, fun _ => hb, fun _ => ha⟩
    · have h0 : pr2.val k = 0 := by rw [ha]; exact hin1 k (by omega) (by omega)
      refine ⟨Or.inr h0, fun h => ?_, fun ⟨t, ht, h⟩ => absurd h (hb t ht)⟩
      rw [h0] at h
      exact absurd h (by decide)
  obtain ⟨sum, h3, hle, hz⟩ := preserve_sum_spec pr2 counter 1 0 (by omega)
    (fun j hj1 hj2 => (hval j hj1 (by omega)).1)
  have hrun : deletefiles_prompt E counter (fuel + 1) pr tty =
      if sum < 1 then deletefiles_prompt E counter fuel pr2 tty.tail
      else some (Selected.chosen pr2 tty.tail) := by
    rw [deletefiles_prompt]
    simp only [hq, if_false, h1, h2, h3]
  refine ⟨pr2, by rw [hm2, hm1], hval, ?_, ?_⟩
  · rintro ⟨k, hk1, hk2, hk⟩
    rw [hrun, if_neg]
    intro hs
    have := hz (by omega) k hk1 (by omega)
    rw [this] at hk
    exact absurd hk (by decide)
  · intro hall
    rw [hrun, if_pos]
    have := preserve_sum_zero pr2 counter 1 0 sum h3 (fun j h1' h2' => hall j h1' (by omega))
    omega

theorem CacheKept_refl {DB : Type} (s : State DB) : CacheKept s s := ⟨rfl, rfl⟩

theorem CacheKept_trans {DB : Type} {s1 s2 s3 : State DB} (h1 : CacheKept s1 s2)
    (h2 : CacheKept s2 s3) : CacheKept s1 s3 :=
  ⟨h2.1.trans h1.1, h2.2.trans h1.2⟩

theorem CacheKept_emit {DB : Type} (s : State DB) (h : Heap) (evs : List Event)
    (hev : ∀ e ∈ evs, is_cache_write e = false) :
    CacheKept s { s with heap := h, trace := s.trace ++ evs } := by
  refine ⟨rfl, ?_⟩
  simp only [cache_writes, List.filter_append]
  have : evs.filter is_cache_write = [] := by
    rw [List.filter_eq_nil_iff]
    intro e he
    rw [hev e he]
    simp
  rw [this, List.append_nil]

theorem checkmatch_partial_fill_ro {DB : Type} (E : Env DB) (flags : Flags)
    (hro : flags.F_READONLYCACHE = true) (p : Ptr) (s : State DB) :
    CacheKept s (checkmatch_partial_fill E flags p s).1 := by
  unfold checkmatch_partial_fill
  simp only [hro, Bool.not_true, Bool.and_false, Bool.false_eq_true, if_false]
  split_ifs <;>
    simp [CacheKept, cache_writes, List.filter_append, is_cache_write]

theorem checkmatch_signature_fill_ro {DB : Type} (E : Env DB) (flags : Flags)
    (hro : flags.F_READONLYCACHE = true) (p : Ptr) (s : State DB) :
    CacheKept s (checkmatch_signature_fill E flags p s).1 := by
  unfold checkmatch_signature_fill
  simp only [hro, Bool.not_true, Bool.and_false, Bool.false_eq_true, if_false]
  split_ifs <;>
    simp [CacheKept, cache_writes, List.filter_append, is_cache_write]

theorem checkmatch_full_ro {DB : Type} (E : Env DB) (flags : Flags)
    (hro : flags.F_READONLYCACHE = true) (s : State DB) (ct file : Ptr) (s' : State DB)
    (h : checkmatch_full E flags s ct file = Compared.null s' ∨
      ∃ c, checkmatch_full E flags s ct file = Compared.result s' c) :
    CacheKept s s' := by
  have k1 := checkmatch_signature_fill_ro E flags hro ct s
  have k12 := CacheKept_trans k1
    (checkmatch_signature_fill_ro E flags hro file (checkmatch_signature_fill E flags ct s).1)
  unfold checkmatch_full at h
  dsimp only at h
  split at h
  · rcases h with h | ⟨c, h⟩
    · cases h; exact k1
    · cases h
  · split at h
    · rcases h with h | ⟨c, h⟩
      · cases h; exact k12
      · cases h
    · split at h
      · rcases h with h | ⟨c, h⟩
        · cases h
        · cases h; exact k12
      · rcases h with h | ⟨c, h⟩ <;> cases h

theorem checkmatch_compare_ro {DB : Type} (E : Env DB) (flags : Flags)
    (hro : flags.F_READONLYCACHE = true) (s : State DB) (ct file : Ptr) (s' : State DB)
    (h : checkmatch_compare E flags s ct file = Compared.null s' ∨
      ∃ c, checkmatch_compare E flags s ct file = Compared.result s' c) :
    CacheKept s s' := by
  have k1 := checkmatch_partial_fill_ro E flags hro ct s
  have k12 := CacheKept_trans k1
    (checkmatch_partial_fill_ro E flags hro file (checkmatch_partial_fill E flags ct s).1)
  unfold checkmatch_compare at h
  dsimp only at h
  have hsame : ∀ c0 : Int, (Compared.result s c0 = Compared.null s' ∨
      ∃ c, Compared.result s c0 = Compared.result s' c) → CacheKept s s' := by
    intro c0 h
    rcases h with h | ⟨c, h⟩
    · cases h
    · cases h; exact CacheKept_refl _
  split at h
  · exact hsame _ h
  split at h
  · exact hsame _ h
  split at h
  · exact hsame _ h
  split at h
  · rcases h with h | ⟨c, h⟩
    · cases h; exact k1
    · cases h
  split at h
  · rcases h with h | ⟨c, h⟩
    · cases h; exact k12
    · cases h
  split at h
  · split at h
    · exact CacheKept_trans k12 (checkmatch_full_ro E flags hro _ ct file s' h)
    · rcases h with h | ⟨c, h⟩
      · cases h
      · cases h; exact k12
  · rcases h with h | ⟨c, h⟩ <;> cases h

theorem registerfile_ro {DB : Type} (s : State DB) (file : Ptr) :
    CacheKept s (registerfile s file) := by
  simp [registerfile, CacheKept, cache_writes, List.filter_append, is_cache_write]

theorem checkmatch_ro {DB : Type} (E : Env DB) (flags : Flags)
    (hro : flags.F_READONLYCACHE = true) (fuel : Nat) (file : Ptr) :
    ∀ (t : filetree_t) (s s' : State DB) (t' : filetree_t) (m : Option (List Bool)),
      checkmatch E flags fuel t file s = some (s', t', m) → CacheKept s s' := by
  intro t
  induction t with
  | null =>
    intro s s' t' m h
    simp [checkmatch] at h
  | node ct l r ihl ihr =>
    intro s s' t' m h
    rcases checkmatch_node_cases E flags fuel ct l r file s s' t' m h with
      ⟨v, -, -, e1, -, -⟩ | ⟨-, hcmp, -, -⟩ | ⟨-, s1, c, hcmp, hrest⟩
    · subst e1; exact CacheKept_refl _
    · exact checkmatch_compare_ro E flags hro s ct file s' (Or.inl hcmp)
    · have k1 := checkmatch_compare_ro E flags hro s ct file s1 (Or.inr ⟨c, hcmp⟩)
      rcases hrest with ⟨-, e1, -, -⟩ | ⟨-, -, e1, -, -⟩ | ⟨-, -, e1, -, -⟩ |
          ⟨-, -, l2, m0, hrec, -, -⟩ | ⟨-, -, r2, m0, hrec, -, -⟩
      · subst e1; exact k1
      · subst e1; exact CacheKept_trans k1 (registerfile_ro _ _)
      · subst e1; exact CacheKept_trans k1 (registerfile_ro _ _)
      · exact CacheKept_trans k1 (ihl s1 s' l2 m0 hrec)
      · exact CacheKept_trans k1 (ihr s1 s' r2 m0 hrec)

theorem remove_file_ro {DB : Type} (E : Env DB) (flags : Flags)
    (hro : flags.F_READONLYCACHE = true) (s : State DB) (p : Ptr) :
    CacheKept s (remove_file E flags s p) := by
  unfold remove_file
  simp only [hro, Bool.not_true, Bool.false_eq_true, if_false]
  split_ifs <;> first
    | (simp [CacheKept, cache_writes, List.filter_append, is_cache_write]; done)
    | (split <;> simp [CacheKept, cache_writes, List.filter_append, is_cache_write])

theorem CacheKept_then {DB : Type} {s s2 : State DB} (e : Event) (k : CacheKept s s2)
    (he : is_cache_write e = false) :
    CacheKept s { s2 with trace := s2.trace ++ [e] } := by
  refine ⟨k.1, ?_⟩
  rw [← k.2]
  simp [cache_writes, List.filter_append, he]

theorem deletesuccessor_ro {DB : Type} (E : Env DB) (flags : Flags)
    (hro : flags.F_READONLYCACHE = true) (comparef : file_t → file_t → Int) (s : State DB)
    (existing duplicate : Ptr) (matchconfirmed : Bool) :
    CacheKept s (deletesuccessor E flags comparef s existing duplicate matchconfirmed).1 := by
  unfold deletesuccessor
  dsimp only
  have k0 : ∀ p, CacheKept s { s with trace := s.trace ++ [Event.begin_set, Event.kept p] } := by
    intro p
    simp [CacheKept, cache_writes, List.filter_append, is_cache_write]
  cases matchconfirmed
  · simp [CacheKept, cache_writes, List.filter_append, is_cache_write]
  · simp only [if_true]
    refine CacheKept_then _ ?_ rfl
    exact CacheKept_trans (k0 _) (remove_file_ro E flags hro _ _)

theorem main_scan_pair_ro {DB : Type} (E : Env DB) (flags : Flags)
    (hro : flags.F_READONLYCACHE = true) (o : ordertype_t) (cfuel : Nat) (ms1 : Scan DB)
    (curfile : Ptr) (ms2 : Scan DB)
    (h : main_scan_pair E flags o cfuel ms1 curfile = some ms2) :
    CacheKept ms1.st ms2.st := by
  unfold main_scan_pair at h
  split at h
  · cases h; exact CacheKept_refl _
  split at h
  · cases h
  split at h
  · cases h; exact CacheKept_refl _
  split at h
  · cases h; exact CacheKept_refl _
  split at h
  · cases h
    exact deletesuccessor_ro E flags hro _ _ _ _ _
  split at h
  · split at h
    · cases h
    · cases h
      exact ⟨rfl, rfl⟩
  · cases h; exact CacheKept_refl _

theorem main_scan_lookup_ro {DB : Type} (E : Env DB) (flags : Flags)
    (hro : flags.F_READONLYCACHE = true) (cfuel : Nat) (ms : Scan DB) (curfile : Ptr)
    (ms1 : Scan DB) (h : main_scan_lookup E flags cfuel ms curfile = some ms1) :
    CacheKept ms.st ms1.st := by
  unfold main_scan_lookup at h
  split at h
  · cases h
    exact registerfile_ro _ _
  · split at h
    · cases h
    · rename_i s1 t1 m hc
      cases h
      exact checkmatch_ro E flags hro cfuel curfile _ _ _ _ _ hc

theorem main_scan_step_ro {DB : Type} (E : Env DB) (flags : Flags)
    (hro : flags.F_READONLYCACHE = true) (o : ordertype_t) (cfuel : Nat) (ms : Scan DB)
    (curfile : Ptr) (ms2 : Scan DB)
    (h : main_scan_step E flags o cfuel ms curfile = some ms2) :
    CacheKept ms.st ms2.st := by
  unfold main_scan_step at h
  split at h
  · cases h
  · rename_i ms1 hl
    exact CacheKept_trans (main_scan_lookup_ro E flags hro cfuel ms curfile ms1 hl)
      (main_scan_pair_ro E flags hro o cfuel ms1 curfile ms2 h)

theorem main_scan_ro {DB : Type} (E : Env DB) (flags : Flags)
    (hro : flags.F_READONLYCACHE = true) (o : ordertype_t) (cfuel : Nat) :
    ∀ (fuel : Nat) (ms : Scan DB) (cur : Option Ptr) (ms' : Scan DB),
      main_scan E flags o cfuel fuel ms cur = some ms' → CacheKept ms.st ms'.st
  | fuel, ms, none, ms', h => by
    cases fuel <;>
    · simp only [main_scan, Option.some.injEq] at h
      subst h
      exact CacheKept_refl _
  | 0, ms, some c, ms', h => by simp [main_scan] at h
  | fuel + 1, ms, some c, ms', h => by
    simp only [main_scan] at h
    split at h
    · cases h
    · rename_i ms1 hs
      exact CacheKept_trans (main_scan_step_ro E flags hro o cfuel ms c ms1 hs)
        (main_scan_ro E flags hro o cfuel fuel ms1 _ ms' h)

theorem grokdir_cache_ro {DB : Type} (E : Env DB) (flags : Flags)
    (hro : flags.F_READONLYCACHE = true) (dir : List Nat) (s : State DB) :
    (grokdir_cache E flags dir s).1 = s := by
  unfold grokdir_cache
  simp only [hro, Bool.not_true, Bool.false_eq_true, if_false]
  split
  · split <;> rfl
  · rfl

theorem grokdir_entry_ro {DB : Type} (E : Env DB) (flags : Flags)
    (hro : flags.F_READONLYCACHE = true) (minsize maxsize : Int)
    (logfile_status : Option stat_t)
    (recurse : List Nat → Grok DB → Option (Grok DB × Int))
    (hrec : ∀ d g g' n, recurse d g = some (g', n) → CacheKept g.st g'.st)
    (dir : List Nat) (fullpath : Option (List Nat)) (pathid : Int) (name : List Nat)
    (g : Grok DB) (filecount : Int) (g' : Grok DB) (n : Int)
    (hrun : grokdir_entry E flags minsize maxsize logfile_status recurse dir fullpath pathid
      name g filecount = some (g', n)) :
    CacheKept g.st g'.st := by
  unfold grokdir_entry at hrun
  simp only [hro, Bool.not_true, Bool.and_false, Bool.false_and, Bool.false_eq_true,
    if_false] at hrun
  split at hrun
  swap
  · cases hrun; exact CacheKept_refl _
  try dsimp only at hrun
  split at hrun
  · cases hrun; exact ⟨rfl, rfl⟩
  split at hrun
  · cases hrun; exact ⟨rfl, rfl⟩
  split at hrun
  · cases hrun; exact ⟨rfl, rfl⟩
  split at hrun
  · cases hrun; exact ⟨rfl, rfl⟩
  split at hrun
  · cases hrun; exact ⟨rfl, rfl⟩
  split at hrun
  · split at hrun
    · split at hrun
      · cases hrun
      · rename_i g2 filesadded hr
        have k := hrec _ _ g2 filesadded hr
        cases hrun
        exact k
    · cases hrun; exact ⟨rfl, rfl⟩
  · split at hrun
    · cases hrun; exact ⟨rfl, rfl⟩
    · cases hrun; exact ⟨rfl, rfl⟩

theorem grokdir_loop_ro {DB : Type}
    (body : List Nat → Grok DB → Int → Option (Grok DB × Int))
    (hbody : ∀ name g fc g' n, body name g fc = some (g', n) → CacheKept g.st g'.st) :
    ∀ (entries : List (List Nat)) (g : Grok DB) (fc : Int) (g' : Grok DB) (n : Int),
      grokdir_loop body entries g fc = some (g', n) → CacheKept g.st g'.st
  | [], g, fc, g', n, hrun => by
    simp only [grokdir_loop, Option.some.injEq, Prod.mk.injEq] at hrun
    obtain ⟨rfl, -⟩ := hrun
    exact CacheKept_refl _
  | name :: rest, g, fc, g', n, hrun => by
    simp only [grokdir_loop] at hrun
    cases hb : body name g fc with
    | none => rw [hb] at hrun; cases hrun
    | some r =>
      obtain ⟨g1, fc1⟩ := r
      rw [hb] at hrun
      simp only at hrun
      exact CacheKept_trans (hbody name g fc g1 fc1 hb)
        (grokdir_loop_ro body hbody rest g1 fc1 g' n hrun)

theorem grokdir_ro {DB : Type} (E : Env DB) (flags : Flags)
    (hro : flags.F_READONLYCACHE = true) (minsize maxsize : Int)
    (logfile_status : Option stat_t) :
    ∀ (fuel : Nat) (dir : List Nat) (g : Grok DB) (g' : Grok DB) (n : Int),
      grokdir E flags minsize maxsize logfile_status fuel dir g = some (g', n) →
      CacheKept g.st g'.st
  | 0, _, _, _, _, hrun => by simp [grokdir] at hrun
  | fuel + 1, dir, g, g', n, hrun => by
    simp only [grokdir] at hrun
    cases hr : E.readdir dir with
    | none =>
      rw [hr] at hrun
      simp only [Option.some.injEq, Prod.mk.injEq] at hrun
      obtain ⟨rfl, -⟩ := hrun
      exact CacheKept_refl _
    | some entries =>
      rw [hr] at hrun
      simp only at hrun
      have k := grokdir_loop_ro _ (fun name g1 fc g2 n2 hb =>
        grokdir_entry_ro E flags hro minsize maxsize logfile_status _
          (fun d g3 g4 n4 h3 =>
            grokdir_ro E flags hro minsize maxsize logfile_status fuel d g3 g4 n4 h3)
          dir _ _ name g1 fc g2 n2 hb) entries _ 0 g' n hrun
      simpa only [grokdir_cache_ro E flags hro] using k

theorem main_grokdirs_ro {DB : Type} (E : Env DB) (flags : Flags)
    (hro : flags.F_READONLYCACHE = true) (minsize maxsize : Int)
    (logfile_status : Option stat_t) (fuel : Nat) :
    ∀ (dirs : List (List Nat)) (g : Grok DB) (fc : Int) (g' : Grok DB) (n : Int),
      main_grokdirs E flags minsize maxsize logfile_status fuel dirs g fc = some (g', n) →
      CacheKept g.st g'.st
  | [], g, fc, g', n, hrun => by
    simp only [main_grokdirs, Option.some.injEq, Prod.mk.injEq] at hrun
    obtain ⟨rfl, -⟩ := hrun
    exact CacheKept_refl _
  | dir :: rest, g, fc, g', n, hrun => by
    simp only [main_grokdirs] at hrun
    split at hrun
    · cases hrun
    · rename_i g1 n1 hg
      exact CacheKept_trans
        (grokdir_ro E flags hro minsize maxsize logfile_status fuel dir g g1 n1 hg)
        (main_grokdirs_ro E flags hro minsize maxsize logfile_status fuel rest g1 _ g' n hrun)

theorem deletefiles_remove_loop_ro {DB : Type} (E : Env DB) (flags : Flags)
    (hro : flags.F_READONLYCACHE = true) (counter : Nat) (dl : Slots Ptr) (pr : Slots Int) :
    ∀ (n x : Nat) (s s' : State DB),
      deletefiles_remove_loop E flags counter dl pr n x s = some s' → CacheKept s s'
  | 0, x, s, s', h => by
    simp only [deletefiles_remove_loop, Option.some.injEq] at h
    subst h
    exact CacheKept_refl _
  | n + 1, x, s, s', h => by
    unfold deletefiles_remove_loop at h
    have kev : ∀ e, is_cache_write e = false →
        CacheKept s { s with trace := s.trace ++ [e] } := by
      intro e he
      simp [CacheKept, cache_writes, List.filter_append, he]
    split at h
    · split at h
      · exact CacheKept_trans (kev (Event.kept _) rfl)
          (deletefiles_remove_loop_ro E flags hro counter dl pr n (x + 1) _ s' h)
      · split at h
        · cases h
        · split at h
          · exact CacheKept_trans (remove_file_ro E flags hro _ _)
              (deletefiles_remove_loop_ro E flags hro counter dl pr n (x + 1) _ s' h)
          · exact CacheKept_trans (kev (Event.undeleted _) rfl)
              (deletefiles_remove_loop_ro E flags hro counter dl pr n (x + 1) _ s' h)
    · cases h

theorem deletefiles_set_ro {DB : Type} (E : Env DB) (flags : Flags)
    (hro : flags.F_READONLYCACHE = true) (cfuel pfuel : Nat) (prompt : Bool) (s : State DB)
    (files : Ptr) (dl : Slots Ptr) (pr : Slots Int) (tty : List (List Nat))
    (s' : State DB) (dl' : Slots Ptr) (pr' : Slots Int) (tty' : List (List Nat))
    (h : deletefiles_set E flags cfuel pfuel prompt s files dl pr tty
      = some (SetResult.done s' dl' pr' tty')) :
    CacheKept s s' := by
  unfold deletefiles_set at h
  split at h
  · cases h
  split at h
  · cases h
  · cases h
  · split at h
    · cases h
    · rename_i s1 hl
      cases h
      have k := deletefiles_remove_loop_ro E flags hro _ _ _ _ _ _ s1 hl
      have k0 : CacheKept s { s with trace := s.trace ++ [Event.begin_set] } := by
        simp [CacheKept, cache_writes, List.filter_append, is_cache_write]
      have k2 : CacheKept s1 { s1 with trace := s1.trace ++ [Event.end_set] } := by
        simp [CacheKept, cache_writes, List.filter_append, is_cache_write]
      exact CacheKept_trans (CacheKept_trans k0 k) k2

theorem deletefiles_loop_ro {DB : Type} (E : Env DB) (flags : Flags)
    (hro : flags.F_READONLYCACHE = true) (cfuel pfuel : Nat) (prompt : Bool) :
    ∀ (fuel : Nat) (s : State DB) (cur : Option Ptr) (dl : Slots Ptr) (pr : Slots Int)
      (tty : List (List Nat)) (s' : State DB) (dl' : Slots Ptr) (pr' : Slots Int)
      (tty' : List (List Nat)),
      deletefiles_loop E flags cfuel pfuel prompt fuel s cur dl pr tty
        = some (SetResult.done s' dl' pr' tty') → CacheKept s s'
  | fuel, s, none, dl, pr, tty, s', dl', pr', tty', h => by
    cases fuel <;>
    · simp only [deletefiles_loop, Option.some.injEq, SetResult.done.injEq] at h
      obtain ⟨rfl, -⟩ := h
      exact CacheKept_refl _
  | 0, s, some c, dl, pr, tty, s', dl', pr', tty', h => by simp [deletefiles_loop] at h
  | fuel + 1, s, some c, dl, pr, tty, s', dl', pr', tty', h => by
    simp only [deletefiles_loop] at h
    split at h
    · split at h
      · cases h
      · cases h
      · rename_i s1 dl1 pr1 tty1 hs
        exact CacheKept_trans
          (deletefiles_set_ro E flags hro cfuel pfuel prompt s c dl pr tty s1 dl1 pr1 tty1 hs)
          (deletefiles_loop_ro E flags hro cfuel pfuel prompt fuel s1 _ dl1 pr1 tty1
            s' dl' pr' tty' h)
    · exact deletefiles_loop_ro E flags hro cfuel pfuel prompt fuel s _ dl pr tty
        s' dl' pr' tty' h

theorem deletefiles_ro {DB : Type} (E : Env DB) (flags : Flags)
    (hro : flags.F_READONLYCACHE = true) (fuel cfuel pfuel : Nat) (s : State DB)
    (files : Option Ptr) (prompt : Bool) (tty : List (List Nat)) (dl0 : Nat → Ptr)
    (pr0 : Nat → Int) (s' : State DB) (dl' : Slots Ptr) (pr' : Slots Int)
    (tty' : List (List Nat))
    (h : deletefiles E flags fuel cfuel pfuel s files prompt tty dl0 pr0
      = some (SetResult.done s' dl' pr' tty')) :
    CacheKept s s' := by
  unfold deletefiles at h
  split at h
  · cases h
  · exact deletefiles_loop_ro E flags hro cfuel pfuel prompt fuel s files _ _ tty
      s' dl' pr' tty' h

theorem md5cmp_from_values (a b : md5) :
    ∀ n x, md5cmp_from a b n x = -1 ∨ md5cmp_from a b n x = 0 ∨ md5cmp_from a b n x = 1
  | 0, _ => Or.inr (Or.inl rfl)
  | n + 1, x => by
    simp only [md5cmp_from]
    split_ifs
    · exact Or.inl rfl
    · exact Or.inr (Or.inr rfl)
    · exact md5cmp_from_values a b n (x + 1)

theorem md5cmp_from_swap (a b : md5) :
    ∀ n x, md5cmp_from b a n x = - md5cmp_from a b n x
  | 0, _ => by simp [md5cmp_from]
  | n + 1, x => by
    simp only [md5cmp_from]
    have ih := md5cmp_from_swap a b n (x + 1)
    split_ifs <;> omega

theorem md5cmp_from_trans (a b c : md5) :
    ∀ n x, md5cmp_from a b n x ≤ 0 → md5cmp_from b c n x ≤ 0 →
      md5cmp_from a c n x ≤ 0 ∧
      (md5cmp_from a b n x < 0 ∨ md5cmp_from b c n x < 0 → md5cmp_from a c n x < 0)
  | 0, _ => by simp [md5cmp_from]
  | n + 1, x => by
    simp only [md5cmp_from]
    have ih := md5cmp_from_trans a b c n (x + 1)
    split_ifs <;> omega

theorem md5cmp_from_lt (a b : md5) :
    ∀ n x, md5cmp_from a b n x = -1 ↔
      ∃ i, x ≤ i ∧ i < x + n ∧ (∀ j, x ≤ j → j < i → a.getD j 0 = b.getD j 0) ∧
        a.getD i 0 < b.getD i 0
  | 0, x => by
    simp only [md5cmp_from]
    constructor
    · intro h; omega
    · rintro ⟨i, h1, h2, -⟩; omega
  | n + 1, x => by
    simp only [md5cmp_from]
    have ih := md5cmp_from_lt a b n (x + 1)
    by_cases hlt : a.getD x 0 < b.getD x 0
    · simp only [hlt, if_true, true_iff]
      exact ⟨x, le_refl _, by omega, fun j h1 h2 => by omega, hlt⟩
    · rw [if_neg hlt]
      by_cases hgt : a.getD x 0 > b.getD x 0
      · rw [if_pos hgt]
        constructor
        · intro h; omega
        · rintro ⟨i, h1, h2, h3, h4⟩
          by_cases hix : i = x
          · subst hix; omega
          · have := h3 x (le_refl _) (by omega)
            omega
      · rw [if_neg hgt, ih]
        have hx : a.getD x 0 = b.getD x 0 := by omega
        constructor
        · rintro ⟨i, h1, h2, h3, h4⟩
          refine ⟨i, by omega, by omega, ?_, h4⟩
          intro j hj1 hj2
          by_cases hjx : j = x
          · rw [hjx]; exact hx
          · exact h3 j (by omega) hj2
        · rintro ⟨i, h1, h2, h3, h4⟩
          have hix : i ≠ x := by
            intro e
            rw [e] at h4
            omega
          exact ⟨i, by omega, by omega, fun j hj1 hj2 => h3 j (by omega) hj2, h4⟩

theorem md5cmp_from_zero_iff (a b : md5) (n x : Nat) :
    md5cmp_from a b n x = 0 ↔ ∀ i, x ≤ i → i < x + n → a.getD i 0 = b.getD i 0 := by
  constructor
  · exact md5cmp_from_eq_zero a b n x
  · intro h
    rcases md5cmp_from_values a b n x with h1 | h1 | h1
    · obtain ⟨i, a1, a2, -, a4⟩ := (md5cmp_from_lt a b n x).mp h1
      have := h i a1 a2
      omega
    · exact h1
    · have h2 : md5cmp_from b a n x = -1 := by rw [md5cmp_from_swap a b, h1]
      obtain ⟨i, a1, a2, -, a4⟩ := (md5cmp_from_lt b a n x).mp h2
      have := h i a1 a2
      omega

theorem md5cmp_swap (a b : md5) : md5cmp b a = - md5cmp a b := md5cmp_from_swap a b _ _

theorem md5cmp_zero_iff (a b : md5) : md5cmp a b = 0 ↔ md5_eq a b := by
  unfold md5cmp md5_eq
  rw [md5cmp_from_zero_iff]
  constructor
  · intro h i hi; exact h i (Nat.zero_le _) (by omega)
  · intro h i _ hi; exact h i (by omega)

theorem md5cmp_congr_left {a a' : md5} (b : md5) (h : md5_eq a a') :
    md5cmp a b = md5cmp a' b := by
  have key : ∀ n x, x + n ≤ MD5_DIGEST_LENGTH →
      md5cmp_from a b n x = md5cmp_from a' b n x := by
    intro n
    induction n with
    | zero => intro x _; rfl
    | succ n ih =>
      intro x hx
      simp only [md5cmp_from]
      rw [h x (by omega), ih (x + 1) (by omega)]
  exact key _ _ (by simp)

theorem md5cmp_congr_right (a : md5) {b b' : md5} (h : md5_eq b b') :
    md5cmp a b = md5cmp a b' := by
  rw [← neg_neg (md5cmp a b), ← md5cmp_swap a b, md5cmp_congr_left a h, md5cmp_swap a b',
    neg_neg]

theorem md5cmp_trans (a b c : md5) (h1 : md5cmp a b ≤ 0) (h2 : md5cmp b c ≤ 0) :
    md5cmp a c ≤ 0 ∧ (md5cmp a b < 0 ∨ md5cmp b c < 0 → md5cmp a c < 0) :=
  md5cmp_from_trans a b c _ _ h1 h2


theorem staged_lt_mono {h h' : Heap} (hsz : ∀ x, (h' x).size = (h x).size)
    (k : DigestKept h h') (x y : Ptr) (hlt : staged_lt (h x) (h y)) :
    staged_lt (h' x) (h' y) := by
  rcases hlt with hs | ⟨hs, a, b, ha, hb, hd⟩
  · exact Or.inl (by rw [hsz, hsz]; exact hs)
  · refine Or.inr ⟨by rw [hsz, hsz]; exact hs, a, b, ?_, ?_, ?_⟩
    · rw [(k x (by rw [ha]; simp)).1, ha]
    · rw [(k y (by rw [hb]; simp)).1, hb]
    · rcases hd with hd | ⟨hd, c, d, hc, hd', hcd⟩
      · exact Or.inl hd
      · refine Or.inr ⟨hd, c, d, ?_, ?_, hcd⟩
        · rw [(k x (by rw [ha]; simp)).2 (by rw [hc]; simp), hc]
        · rw [(k y (by rw [hb]; simp)).2 (by rw [hd']; simp), hd']

theorem staged_lt_congr_right {f g g' : file_t} (m : Matched g g') (hlt : staged_lt f g) :
    staged_lt f g' := by
  obtain ⟨ms, ⟨b0, b1, hb0, hb1, hbe⟩, ⟨d0, d1, hd0, hd1, hde⟩⟩ := m
  rcases hlt with hs | ⟨hs, a, b, ha, hb, hd⟩
  · exact Or.inl (by omega)
  · rw [hb0] at hb
    cases hb
    refine Or.inr ⟨by omega, a, b1, ha, hb1, ?_⟩
    rw [← md5cmp_congr_right a hbe]
    rcases hd with hd | ⟨hd, c, d, hc, hd', hcd⟩
    · exact Or.inl hd
    · rw [hd0] at hd'
      cases hd'
      exact Or.inr ⟨hd, c, d1, hc, hd1, by rw [← md5cmp_congr_right c hde]; exact hcd⟩

theorem staged_lt_congr_left {f f' g : file_t} (m : Matched f f') (hlt : staged_lt f g) :
    staged_lt f' g := by
  obtain ⟨ms, ⟨a0, a1, ha0, ha1, hae⟩, ⟨c0, c1, hc0, hc1, hce⟩⟩ := m
  rcases hlt with hs | ⟨hs, a, b, ha, hb, hd⟩
  · exact Or.inl (by omega)
  · rw [ha0] at ha
    cases ha
    refine Or.inr ⟨by omega, a1, b, ha1, hb, ?_⟩
    rw [← md5cmp_congr_left b hae]
    rcases hd with hd | ⟨hd, c, d, hc, hd', hcd⟩
    · exact Or.inl hd
    · rw [hc0] at hc
      cases hc
      exact Or.inr ⟨hd, c1, d, hc1, hd', by rw [← md5cmp_congr_left d hce]; exact hcd⟩

theorem staged_lt_trans {f g k : file_t} (h1 : staged_lt f g) (h2 : staged_lt g k) :
    staged_lt f k := by
  rcases h1 with hs1 | ⟨hs1, a, b, ha, hb, hd1⟩
  · rcases h2 with hs2 | ⟨hs2, -⟩
    · exact Or.inl (by omega)
    · exact Or.inl (by omega)
  · rcases h2 with hs2 | ⟨hs2, b', c, hb', hc, hd2⟩
    · exact Or.inl (by omega)
    · rw [hb] at hb'
      cases hb'
      refine Or.inr ⟨by omega, a, c, ha, hc, ?_⟩
      rcases hd1 with hd1 | ⟨hd1, u, v, hu, hv, huv⟩
      · have h2le : md5cmp b c ≤ 0 := by
          rcases hd2 with hd2 | ⟨hd2, -⟩ <;> omega
        exact Or.inl ((md5cmp_trans a b c (by omega) h2le).2 (Or.inl hd1))
      · rcases hd2 with hd2 | ⟨hd2, v', w, hv', hw, hvw⟩
        · exact Or.inl ((md5cmp_trans a b c (by omega) (by omega)).2 (Or.inr hd2))
        · rw [hv] at hv'
          cases hv'
          refine Or.inr ⟨?_, u, w, hu, hw, ?_⟩
          · rw [md5cmp_congr_left c ((md5cmp_zero_iff a b).mp hd1)]
            exact hd2
          · exact (md5cmp_trans u v w (by omega) (by omega)).2 (Or.inl huv)

theorem staged_lt_not_matched {f g : file_t} (hlt : staged_lt f g) : ¬ Matched f g := by
  rintro ⟨ms, ⟨a0, b0, ha0, hb0, hab⟩, ⟨c0, d0, hc0, hd0, hcd⟩⟩
  rcases hlt with hs | ⟨hs, a, b, ha, hb, hd⟩
  · omega
  · rw [ha0] at ha
    rw [hb0] at hb
    cases ha
    cases hb
    have h0 := (md5cmp_zero_iff a0 b0).mpr hab
    rcases hd with hd | ⟨-, c, d, hc, hd', hlt'⟩
    · omega
    · rw [hc0] at hc
      rw [hd0] at hd'
      cases hc
      cases hd'
      have := (md5cmp_zero_iff c0 d0).mpr hcd
      omega

theorem staged_lt_asymm {f g : file_t} (h1 : staged_lt f g) : ¬ staged_lt g f := by
  intro h2
  have h3 := staged_lt_trans h1 h2
  rcases h3 with hs | ⟨-, a, b, ha, hb, hd⟩
  · omega
  · rw [ha] at hb
    cases hb
    have h0 : md5cmp a a = 0 := (md5cmp_zero_iff a a).mpr (fun _ _ => rfl)
    rcases hd with hd | ⟨-, c, d, hc, hd', hlt'⟩
    · omega
    · rw [hc] at hd'
      cases hd'
      have : md5cmp c c = 0 := (md5cmp_zero_iff c c).mpr (fun _ _ => rfl)
      omega

theorem TreeOrdered_mono {h h' : Heap} (hsz : ∀ x, (h' x).size = (h x).size)
    (k : DigestKept h h') : ∀ t : filetree_t, TreeOrdered h t → TreeOrdered h' t
  | filetree_t.null, _ => trivial
  | filetree_t.node _ l r, ⟨h1, h2, h3, h4⟩ =>
    ⟨fun x hx => staged_lt_mono hsz k _ _ (h1 x hx),
      fun x hx => staged_lt_mono hsz k _ _ (h2 x hx),
      TreeOrdered_mono hsz k l h3, TreeOrdered_mono hsz k r h4⟩

theorem TreeOrdered_run {DB : Type} {s s' : State DB} {evs : List Event}
    (run : DigestRun s s' evs) (t : filetree_t) (ho : TreeOrdered s.heap t) :
    TreeOrdered s'.heap t :=
  TreeOrdered_mono (fun x => undigested_size (run.2.2 x)) run.2.1 t ho

theorem staged_lt_run {DB : Type} {s s' : State DB} {evs : List Event}
    (run : DigestRun s s' evs) (x y : Ptr) (hlt : staged_lt (s.heap x) (s.heap y)) :
    staged_lt (s'.heap x) (s'.heap y) :=
  staged_lt_mono (fun x => undigested_size (run.2.2 x)) run.2.1 x y hlt

theorem checkmatch_full_inv {DB : Type} (E : Env DB) (flags : Flags) (s : State DB)
    (ct file : Ptr) (s' : State DB) (c : Int)
    (h : checkmatch_full E flags s ct file = Compared.result s' c) :
    ∃ a b, (s'.heap file).crcsignature = some a ∧ (s'.heap ct).crcsignature = some b ∧
      c = md5cmp a b := by
  unfold checkmatch_full at h
  dsimp only at h
  split at h
  · cases h
  · split at h
    · cases h
    · split at h
      · rename_i a b ha hb
        cases h
        exact ⟨a, b, ha, hb, rfl⟩
      · cases h

theorem checkmatch_compare_inv {DB : Type} (E : Env DB) (flags : Flags)
    (hP : flags.F_PERMISSIONS = false) (s : State DB) (ct file : Ptr) (s' : State DB)
    (c : Int) (h : checkmatch_compare E flags s ct file = Compared.result s' c) :
    ((s.heap file).size < (s.heap ct).size ∧ s' = s ∧ c = -1) ∨
    ((s.heap file).size > (s.heap ct).size ∧ s' = s ∧ c = 1) ∨
    ((s.heap file).size = (s.heap ct).size ∧
      ∃ a b, file_t.crcpartial
          ((checkmatch_partial_fill E flags file (checkmatch_partial_fill E flags ct s).1).1.heap
            file) = some a ∧
        file_t.crcpartial
          ((checkmatch_partial_fill E flags file (checkmatch_partial_fill E flags ct s).1).1.heap
            ct) = some b ∧
        ((md5cmp a b ≠ 0 ∧
            s' = (checkmatch_partial_fill E flags file (checkmatch_partial_fill E flags ct s).1).1
            ∧ c = md5cmp a b) ∨
          (md5cmp a b = 0 ∧
            checkmatch_full E flags
              (checkmatch_partial_fill E flags file (checkmatch_partial_fill E flags ct s).1).1
              ct file = Compared.result s' c))) := by
  unfold checkmatch_compare at h
  simp only [hP, Bool.false_and, Bool.false_eq_true, if_false] at h
  split at h
  · rename_i hlt
    cases h
    exact Or.inl ⟨hlt, rfl, rfl⟩
  split at h
  · rename_i hlt hgt
    cases h
    exact Or.inr (Or.inl ⟨hgt, rfl, rfl⟩)
  rename_i hlt hgt
  refine Or.inr (Or.inr ⟨by omega, ?_⟩)
  split at h
  · cases h
  split at h
  · cases h
  split at h
  · rename_i a b ha hb
    refine ⟨a, b, ha, hb, ?_⟩
    split at h
    · rename_i h0
      exact Or.inr ⟨h0, h⟩
    · rename_i h0
      cases h
      exact Or.inl ⟨h0, rfl, rfl⟩
  · cases h

theorem checkmatch_compare_order {DB : Type} (E : Env DB) (flags : Flags)
    (hP : flags.F_PERMISSIONS = false) (s : State DB) (ct file : Ptr) (s' : State DB)
    (c : Int) (h : checkmatch_compare E flags s ct file = Compared.result s' c) :
    (c < 0 → staged_lt (s'.heap file) (s'.heap ct)) ∧
    (c > 0 → staged_lt (s'.heap ct) (s'.heap file)) := by
  rcases checkmatch_compare_inv E flags hP s ct file s' c h with
    ⟨hlt, e1, e2⟩ | ⟨hgt, e1, e2⟩ | ⟨hsz, a, b, ha, hb, hcase⟩
  · subst e1 e2
    exact ⟨fun _ => Or.inl hlt, fun hc => by omega⟩
  · subst e1 e2
    exact ⟨fun hc => by omega, fun _ => Or.inl hgt⟩
  · have h1 := checkmatch_partial_fill_spec E flags ct s
    have h2 := checkmatch_partial_fill_spec E flags file (checkmatch_partial_fill E flags ct s).1
    have hsz2 : ∀ x, ((checkmatch_partial_fill E flags file
        (checkmatch_partial_fill E flags ct s).1).1.heap x).size = (s.heap x).size := by
      intro x
      rw [undigested_size (h2.1 x), undigested_size (h1.1 x)]
    rcases hcase with ⟨h0, e1, e2⟩ | ⟨h0, hfull⟩
    · subst e1 e2
      refine ⟨fun hc => Or.inr ⟨by rw [hsz2, hsz2]; exact hsz, a, b, ha, hb, Or.inl hc⟩,
        fun hc => Or.inr ⟨by rw [hsz2, hsz2]; exact hsz.symm, b, a, hb, ha, Or.inl ?_⟩⟩
      rw [md5cmp_swap a b]
      omega
    · obtain ⟨u, v, hu, hv, hc⟩ := checkmatch_full_inv E flags _ ct file s' c hfull
      obtain ⟨hfr, -⟩ := (checkmatch_full_spec E flags _ ct file).2.2 s' c hfull
      have hsz3 : ∀ x, (s'.heap x).size = (s.heap x).size := by
        intro x
        rw [undigested_size (hfr.1 x), hsz2]
      have ha' : file_t.crcpartial (s'.heap file) = some a := by rw [hfr.2.2 file]; exact ha
      have hb' : file_t.crcpartial (s'.heap ct) = some b := by rw [hfr.2.2 ct]; exact hb
      refine ⟨fun hlt => Or.inr ⟨by rw [hsz3, hsz3]; exact hsz, a, b, ha', hb',
          Or.inr ⟨h0, u, v, hu, hv, by omega⟩⟩,
        fun hgt => Or.inr ⟨by rw [hsz3, hsz3]; exact hsz.symm, b, a, hb', ha',
          Or.inr ⟨by rw [md5cmp_swap a b]; omega, v, u, hv, hu, ?_⟩⟩⟩
      rw [md5cmp_swap u v]
      omega

theorem checkmatch_ordered {DB : Type} (E : Env DB) (flags : Flags)
    (hP : flags.F_PERMISSIONS = false) (fuel : Nat) (file : Ptr) :
    ∀ (t : filetree_t) (s s' : State DB) (t' : filetree_t) (m : Option (List Bool)),
      TreeOrdered s.heap t → checkmatch E flags fuel t file s = some (s', t', m) →
      TreeOrdered s'.heap t' := by
  intro t
  induction t with
  | null =>
    intro s s' t' m _ h
    simp [checkmatch] at h
  | node ct l r ihl ihr =>
    intro s s' t' m ho h
    rcases checkmatch_node_cases E flags fuel ct l r file s s' t' m h with
      ⟨v, -, -, e1, e2, -⟩ | ⟨-, hcmp, e2, -⟩ | ⟨-, s1, c, hcmp, hrest⟩
    · subst e1 e2
      exact ho
    · subst e2
      obtain ⟨evs, run, -⟩ :=
        checkmatch_compare_facts E flags s ct file s' false (Or.inl ⟨hcmp, rfl⟩)
      exact TreeOrdered_run run _ ho
    · obtain ⟨evs1, run1, -⟩ :=
        checkmatch_compare_facts E flags s ct file s1 true (Or.inr ⟨c, hcmp, rfl⟩)
      obtain ⟨hneg, hpos⟩ := checkmatch_compare_order E flags hP s ct file s1 c hcmp
      have ho1 := TreeOrdered_run run1 _ ho
      have run2 : DigestRun s1 (registerfile s1 file) [Event.registerfile file] :=
        ⟨rfl, DigestKept_refl _, fun _ => rfl⟩
      rcases hrest with ⟨-, e1, e2, -⟩ | ⟨hc, hl, e1, -, e2⟩ | ⟨hc, hr, e1, -, e2⟩ |
          ⟨hc, -, l2, m0, hrec, e2, -⟩ | ⟨hc, -, r2, m0, hrec, e2, -⟩
      · subst e1 e2
        exact ho1
      · subst e1 e2 hl
        obtain ⟨o1, o2, o3, o4⟩ := ho1
        refine ⟨?_, o2, ⟨by simp [filetree_t.files], by simp [filetree_t.files], trivial,
          trivial⟩, o4⟩
        intro x hx
        simp only [filetree_t.files, List.append_nil, List.mem_singleton] at hx
        subst hx
        exact hneg hc
      · subst e1 e2 hr
        obtain ⟨o1, o2, o3, o4⟩ := ho1
        refine ⟨o1, ?_, o3, ⟨by simp [filetree_t.files], by simp [filetree_t.files], trivial,
          trivial⟩⟩
        intro x hx
        simp only [filetree_t.files, List.append_nil, List.mem_singleton] at hx
        subst hx
        exact hpos hc
      · subst e2
        obtain ⟨o1, o2, o3, o4⟩ := ho1
        obtain ⟨evs2, run2', hf2, -⟩ := checkmatch_digest_calls E flags fuel file l s1 s' l2 m0 hrec
        refine ⟨?_, fun x hx => staged_lt_run run2' _ _ (o2 x hx), ihl s1 s' l2 m0 o3 hrec,
          TreeOrdered_run run2' _ o4⟩
        intro x hx
        rcases hf2 x hx with hx' | hx'
        · exact staged_lt_run run2' _ _ (o1 x hx')
        · subst hx'
          exact staged_lt_run run2' _ _ (hneg hc)
      · subst e2
        obtain ⟨o1, o2, o3, o4⟩ := ho1
        obtain ⟨evs2, run2', hf2, -⟩ := checkmatch_digest_calls E flags fuel file r s1 s' r2 m0 hrec
        refine ⟨fun x hx => staged_lt_run run2' _ _ (o1 x hx), ?_, TreeOrdered_run run2' _ o3,
          ihr s1 s' r2 m0 o4 hrec⟩
        intro x hx
        rcases hf2 x hx with hx' | hx'
        · exact staged_lt_run run2' _ _ (o2 x hx')
        · subst hx'
          exact staged_lt_run run2' _ _ (hpos hc)

theorem set_file_at_ordered (h : Heap) (v : Ptr) :
    ∀ (t : filetree_t) (path : List Bool) (peer : Ptr), TreeOrdered h t →
      t.file_at path = some peer → Matched (h v) (h peer) →
      TreeOrdered h (t.set_file_at path v)
  | filetree_t.null, _, _, _, hat, _ => by simp [filetree_t.file_at] at hat
  | filetree_t.node f l r, [], peer, ⟨o1, o2, o3, o4⟩, hat, hm => by
    simp only [filetree_t.file_at, Option.some.injEq] at hat
    subst hat
    exact ⟨fun x hx => staged_lt_congr_right (Matched_symm hm) (o1 x hx),
      fun x hx => staged_lt_congr_left (Matched_symm hm) (o2 x hx), o3, o4⟩
  | filetree_t.node f l r, false :: path, peer, ⟨o1, o2, o3, o4⟩, hat, hm => by
    simp only [filetree_t.file_at] at hat
    refine ⟨?_, o2, set_file_at_ordered h v l path peer o3 hat hm, o4⟩
    intro x hx
    rcases set_file_at_mem l path v x hx with hx' | hx'
    · exact o1 x hx'
    · subst hx'
      exact staged_lt_congr_left (Matched_symm hm) (o1 peer (file_at_mem l path peer hat))
  | filetree_t.node f l r, true :: path, peer, ⟨o1, o2, o3, o4⟩, hat, hm => by
    simp only [filetree_t.file_at] at hat
    refine ⟨o1, ?_, o3, set_file_at_ordered h v r path peer o4 hat hm⟩
    intro x hx
    rcases set_file_at_mem r path v x hx with hx' | hx'
    · exact o2 x hx'
    · subst hx'
      exact staged_lt_congr_right (Matched_symm hm) (o2 peer (file_at_mem r path peer hat))

theorem Matched_unlinked {h h' : Heap} (hu : ∀ x, (h' x).unlinked = (h x).unlinked)
    (x y : Ptr) (m : Matched (h x) (h y)) : Matched (h' x) (h' y) := by
  obtain ⟨m1, m2, m3⟩ := m
  refine ⟨?_, ?_, ?_⟩
  · rw [core_size (core_of_unlinked (hu x)), core_size (core_of_unlinked (hu y))]
    exact m1
  · rw [crcpartial_of_unlinked (hu x), crcpartial_of_unlinked (hu y)]
    exact m2
  · rw [crcsignature_of_unlinked (hu x), crcsignature_of_unlinked (hu y)]
    exact m3

theorem TreeOrdered_unlinked {h h' : Heap} (hu : ∀ x, (h' x).unlinked = (h x).unlinked)
    (t : filetree_t) (ho : TreeOrdered h t) : TreeOrdered h' t := by
  refine TreeOrdered_mono (fun x => core_size (core_of_unlinked (hu x))) ?_ t ho
  intro x _
  exact ⟨crcpartial_of_unlinked (hu x), fun _ => crcsignature_of_unlinked (hu x)⟩

theorem main_scan_pair_ordered {DB : Type} (E : Env DB) (flags : Flags) (o : ordertype_t)
    (cfuel : Nat) (ms1 : Scan DB) (curfile : Ptr) (ms2 : Scan DB)
    (ho : TreeOrdered ms1.st.heap ms1.checktree)
    (hm : ∀ path peer, ms1.matched = some path → ms1.checktree.file_at path = some peer →
      Matched (ms1.st.heap curfile) (ms1.st.heap peer))
    (h : main_scan_pair E flags o cfuel ms1 curfile = some ms2) :
    TreeOrdered ms2.st.heap ms2.checktree := by
  unfold main_scan_pair at h
  split at h
  · cases h; exact ho
  rename_i path hpath
  split at h
  · cases h
  rename_i peer hpeer
  have hmp := hm path peer hpath hpeer
  have hpp : Matched (ms1.st.heap peer) (ms1.st.heap peer) :=
    Matched_trans (Matched_symm hmp) hmp
  split at h
  · cases h; exact ho
  split at h
  · cases h; exact ho
  split at h
  · cases h
    simp only [deletesuccessor_heap]
    rcases deletesuccessor_keep E flags (comparef_of flags o) ms1.st peer curfile
      (E.confirmmatch (ms1.st.heap curfile).d_name (ms1.st.heap peer).d_name) with e | e
    · rw [e]
      exact set_file_at_ordered _ _ _ path peer ho hpeer hpp
    · rw [e]
      exact set_file_at_ordered _ _ _ path peer ho hpeer hmp
  split at h
  · split at h
    · cases h
    · rename_i h2 ml hreg
      cases h
      obtain ⟨hml, hu⟩ := registerpair_frame _ _ _ _ _ _ _ hreg
      have ho2 := TreeOrdered_unlinked hu _ ho
      rcases hml with e | e
      · subst e
        exact set_file_at_ordered _ _ _ path _ ho2 hpeer (Matched_unlinked hu _ _ hpp)
      · subst e
        exact set_file_at_ordered _ _ _ path peer ho2 hpeer (Matched_unlinked hu _ _ hmp)
  · cases h; exact ho

theorem set_file_at_ne_null : ∀ (t : filetree_t) (path : List Bool) (v : Ptr),
    t ≠ filetree_t.null → t.set_file_at path v ≠ filetree_t.null
  | filetree_t.null, _, _, h => absurd rfl h
  | filetree_t.node _ _ _, [], _, _ => by simp [filetree_t.set_file_at]
  | filetree_t.node _ _ _, false :: _, _, _ => by simp [filetree_t.set_file_at]
  | filetree_t.node _ _ _, true :: _, _, _ => by simp [filetree_t.set_file_at]

theorem main_scan_pair_ne_null {DB : Type} (E : Env DB) (flags : Flags) (o : ordertype_t)
    (cfuel : Nat) (ms1 : Scan DB) (curfile : Ptr) (ms2 : Scan DB)
    (hne : ms1.checktree ≠ filetree_t.null)
    (h : main_scan_pair E flags o cfuel ms1 curfile = some ms2) :
    ms2.checktree ≠ filetree_t.null := by
  unfold main_scan_pair at h
  split at h
  · cases h; exact hne
  split at h
  · cases h
  split at h
  · cases h; exact hne
  split at h
  · cases h; exact hne
  split at h
  · cases h
    exact set_file_at_ne_null _ _ _ hne
  split at h
  · split at h
    · cases h
    · cases h
      exact set_file_at_ne_null _ _ _ hne
  · cases h; exact hne

theorem checkmatch_ne_null {DB : Type} (E : Env DB) (flags : Flags) (fuel : Nat)
    (t : filetree_t) (file : Ptr) (s s' : State DB) (t' : filetree_t)
    (m : Option (List Bool)) (h : checkmatch E flags fuel t file s = some (s', t', m)) :
    t' ≠ filetree_t.null := by
  cases t with
  | null => simp [checkmatch] at h
  | node a b c =>
    rcases checkmatch_node_cases E flags fuel a b c file _ _ _ _ h with
      ⟨v, -, -, -, e2, -⟩ | ⟨-, -, e2, -⟩ | ⟨-, s1', c', -, hrest⟩
    · rw [e2]; simp
    · rw [e2]; simp
    · rcases hrest with ⟨-, -, e2, -⟩ | ⟨-, -, -, -, e2⟩ | ⟨-, -, -, -, e2⟩ |
        ⟨-, -, l2, m0, -, e2, -⟩ | ⟨-, -, r2, m0, -, e2, -⟩ <;> (rw [e2]; simp)

theorem main_scan_step_ordered {DB : Type} (E : Env DB) (flags : Flags)
    (hP : flags.F_PERMISSIONS = false) (o : ordertype_t) (cfuel : Nat) (ms : Scan DB)
    (curfile : Ptr) (ms2 : Scan DB) (ho : TreeOrdered ms.st.heap ms.checktree)
    (hnull : ms.checktree = filetree_t.null → ms.matched = none)
    (h : main_scan_step E flags o cfuel ms curfile = some ms2) :
    TreeOrdered ms2.st.heap ms2.checktree ∧ ms2.checktree ≠ filetree_t.null := by
  unfold main_scan_step at h
  split at h
  · cases h
  rename_i ms1 hl
  unfold main_scan_lookup at hl
  split at hl
  · rename_i hnil
    cases hl
    have hmn := hnull hnil
    simp only [main_scan_pair, hmn, Option.some.injEq] at h
    subst h
    exact ⟨⟨by simp [filetree_t.files], by simp [filetree_t.files], trivial, trivial⟩,
      by simp⟩
  · rename_i a b c hnode
    split at hl
    · cases hl
    · rename_i s1 t1 m hc
      cases hl
      rw [hnode] at ho
      have ho1 := checkmatch_ordered E flags hP cfuel curfile _ _ _ _ _ ho hc
      refine ⟨main_scan_pair_ordered E flags o cfuel
        { st := s1, checktree := t1, matched := m } curfile ms2 ho1
        (by
          intro path peer hp hat
          simp only at hp hat
          subst hp
          obtain ⟨et, peer', hat', hmm⟩ := checkmatch_sound E flags cfuel curfile _ _ _ _ _ hc
          subst et
          rw [hat'] at hat
          cases hat
          exact hmm) h, ?_⟩
      exact main_scan_pair_ne_null E flags o cfuel _ curfile ms2
        (checkmatch_ne_null E flags cfuel _ curfile _ _ _ _ hc) h

theorem main_scan_ordered {DB : Type} (E : Env DB) (flags : Flags)
    (hP : flags.F_PERMISSIONS = false) (o : ordertype_t) (cfuel : Nat) :
    ∀ (fuel : Nat) (ms : Scan DB) (cur : Option Ptr) (ms' : Scan DB),
      TreeOrdered ms.st.heap ms.checktree →
      (ms.checktree = filetree_t.null → ms.matched = none) →
      main_scan E flags o cfuel fuel ms cur = some ms' →
      TreeOrdered ms'.st.heap ms'.checktree
  | fuel, ms, none, ms', ho, _, h => by
    cases fuel <;>
    · simp only [main_scan, Option.some.injEq] at h
      subst h
      exact ho
  | 0, ms, some c, ms', _, _, h => by simp [main_scan] at h
  | fuel + 1, ms, some c, ms', ho, hn, h => by
    simp only [main_scan] at h
    split at h
    · cases h
    · rename_i ms1 hs
      obtain ⟨ho1, hne⟩ := main_scan_step_ordered E flags hP o cfuel ms c ms1 ho hn hs
      exact main_scan_ordered E flags hP o cfuel fuel ms1 _ ms' ho1
        (fun e => absurd e hne) h

theorem TreeOrdered_distinct (h : Heap) :
    ∀ (t : filetree_t) (p1 p2 : List Bool) (x y : Ptr), TreeOrdered h t → p1 ≠ p2 →
      t.file_at p1 = some x → t.file_at p2 = some y →
      staged_lt (h x) (h y) ∨ staged_lt (h y) (h x)
  | filetree_t.null, _, _, _, _, _, _, h1, _ => by simp [filetree_t.file_at] at h1
  | filetree_t.node f l r, [], [], _, _, _, hne, _, _ => absurd rfl hne
  | filetree_t.node f l r, [], false :: q, x, y, ⟨o1, o2, o3, o4⟩, _, h1, h2 => by
    simp only [filetree_t.file_at, Option.some.injEq] at h1 h2
    subst h1
    exact Or.inr (o1 y (file_at_mem l q y h2))
  | filetree_t.node f l r, [], true :: q, x, y, ⟨o1, o2, o3, o4⟩, _, h1, h2 => by
    simp only [filetree_t.file_at, Option.some.injEq] at h1 h2
    subst h1
    exact Or.inl (o2 y (file_at_mem r q y h2))
  | filetree_t.node f l r, false :: q, [], x, y, ⟨o1, o2, o3, o4⟩, _, h1, h2 => by
    simp only [filetree_t.file_at, Option.some.injEq] at h1 h2
    subst h2
    exact Or.inl (o1 x (file_at_mem l q x h1))
  | filetree_t.node f l r, true :: q, [], x, y, ⟨o1, o2, o3, o4⟩, _, h1, h2 => by
    simp only [filetree_t.file_at, Option.some.injEq] at h1 h2
    subst h2
    exact Or.inr (o2 x (file_at_mem r q x h1))
  | filetree_t.node f l r, false :: q1, false :: q2, x, y, ⟨o1, o2, o3, o4⟩, hne, h1, h2 => by
    simp only [filetree_t.file_at] at h1 h2
    exact TreeOrdered_distinct h l q1 q2 x y o3 (fun e => hne (by rw [e])) h1 h2
  | filetree_t.node f l r, true :: q1, true :: q2, x, y, ⟨o1, o2, o3, o4⟩, hne, h1, h2 => by
    simp only [filetree_t.file_at] at h1 h2
    exact TreeOrdered_distinct h r q1 q2 x y o4 (fun e => hne (by rw [e])) h1 h2
  | filetree_t.node f l r, false :: q1, true :: q2, x, y, ⟨o1, o2, o3, o4⟩, _, h1, h2 => by
    simp only [filetree_t.file_at] at h1 h2
    exact Or.inl (staged_lt_trans (o1 x (file_at_mem l q1 x h1))
      (o2 y (file_at_mem r q2 y h2)))
  | filetree_t.node f l r, true :: q1, false :: q2, x, y, ⟨o1, o2, o3, o4⟩, _, h1, h2 => by
    simp only [filetree_t.file_at] at h1 h2
    exact Or.inr (staged_lt_trans (o1 y (file_at_mem l q2 y h2))
      (o2 x (file_at_mem r q1 x h1)))

theorem undigested_d_name {a b : file_t} (h : a.undigested = b.undigested) :
    a.d_name = b.d_name := core_d_name (core_of_undigested h)

theorem digests_computable_congr {DB : Type} (E : Env DB) {a b : file_t}
    (h : a.undigested = b.undigested) (hc : digests_computable E b) :
    digests_computable E a := by
  unfold digests_computable
  rw [undigested_d_name h, undigested_size h]
  exact hc

theorem same_content_key_congr {DB : Type} (E : Env DB) {a a' b b' : file_t}
    (ha : a'.undigested = a.undigested) (hb : b'.undigested = b.undigested)
    (hk : same_content_key E a b) : same_content_key E a' b' := by
  unfold same_content_key
  rw [undigested_d_name ha, undigested_size ha, undigested_d_name hb, undigested_size hb]
  exact hk

theorem staged_lt_true {DB : Type} (E : Env DB) {f g : file_t} (hf : digests_true E f)
    (hg : digests_true E g) (hlt : staged_lt f g) : true_lt E f g := by
  have key : ∀ {o r : Option md5} {a : md5}, (o = none ∨ o = r) → o = some a → r = some a := by
    intro o r a h1 h2
    rcases h1 with h1 | h1
    · rw [h1] at h2; cases h2
    · rw [← h1]; exact h2
  rcases hlt with hs | ⟨hs, a, b, ha, hb, hd⟩
  · exact Or.inl hs
  · refine Or.inr ⟨hs, a, b, key hf.1 ha, key hg.1 hb, ?_⟩
    rcases hd with hd | ⟨hd, c, d, hc, hd', hcd⟩
    · exact Or.inl hd
    · exact Or.inr ⟨hd, c, d, key hf.2 hc, key hg.2 hd', hcd⟩

theorem true_lt_congr_left {DB : Type} (E : Env DB) {f r a : file_t}
    (hk : same_content_key E f r) (hlt : true_lt E r a) : true_lt E f a := by
  obtain ⟨h1, h2, h3⟩ := hk
  rcases hlt with hs | ⟨hs, a', b', ha', hb', hd⟩
  · exact Or.inl (by omega)
  · refine Or.inr ⟨by omega, a', b', by rw [h2]; exact ha', hb', ?_⟩
    rcases hd with hd | ⟨hd, c, d, hc, hd', hcd⟩
    · exact Or.inl hd
    · exact Or.inr ⟨hd, c, d, by rw [h3]; exact hc, hd', hcd⟩

theorem true_lt_congr_right {DB : Type} (E : Env DB) {f r a : file_t}
    (hk : same_content_key E f r) (hlt : true_lt E a r) : true_lt E a f := by
  obtain ⟨h1, h2, h3⟩ := hk
  rcases hlt with hs | ⟨hs, a', b', ha', hb', hd⟩
  · exact Or.inl (by omega)
  · refine Or.inr ⟨by omega, a', b', ha', by rw [h2]; exact hb', ?_⟩
    rcases hd with hd | ⟨hd, c, d, hc, hd', hcd⟩
    · exact Or.inl hd
    · exact Or.inr ⟨hd, c, d, hc, by rw [h3]; exact hd', hcd⟩

theorem md5cmp_self (a : md5) : md5cmp a a = 0 :=
  (md5cmp_zero_iff a a).mpr (fun _ _ => rfl)

theorem true_key_decides {DB : Type} (E : Env DB) (f g : file_t) (a b sa sb : md5) (c : Int)
    (hsz : f.size = g.size)
    (ha : E.getcrcpartialsignature f.d_name f.size = some a)
    (hb : E.getcrcpartialsignature g.d_name g.size = some b)
    (hsa : md5cmp a b = 0 → E.getcrcsignature f.d_name f.size = some sa)
    (hsb : md5cmp a b = 0 → E.getcrcsignature g.d_name g.size = some sb)
    (hc : (md5cmp a b ≠ 0 ∧ c = md5cmp a b) ∨ (md5cmp a b = 0 ∧ c = md5cmp sa sb)) :
    (true_lt E f g → c < 0) ∧ (true_lt E g f → 0 < c) ∧ (same_content_key E f g → c = 0) := by
  refine ⟨?_, ?_, ?_⟩
  · rintro (hs | ⟨-, a', b', ha', hb', hd⟩)
    · omega
    · rw [ha] at ha'
      rw [hb] at hb'
      cases ha'
      cases hb'
      rcases hd with hd | ⟨hd, u, v, hu, hv, huv⟩
      · rcases hc with ⟨-, rfl⟩ | ⟨h0, -⟩
        · exact hd
        · omega
      · rcases hc with ⟨hn, -⟩ | ⟨h0, rfl⟩
        · exact absurd hd hn
        · rw [hsa h0] at hu
          rw [hsb h0] at hv
          cases hu
          cases hv
          exact huv
  · rintro (hs | ⟨-, b', a', hb', ha', hd⟩)
    · omega
    · rw [ha] at ha'
      rw [hb] at hb'
      cases ha'
      cases hb'
      have hsw := md5cmp_swap a b
      rcases hd with hd | ⟨hd, v, u, hv, hu, hvu⟩
      · rcases hc with ⟨-, rfl⟩ | ⟨h0, -⟩
        · omega
        · omega
      · rcases hc with ⟨hn, -⟩ | ⟨h0, rfl⟩
        · omega
        · rw [hsa h0] at hu
          rw [hsb h0] at hv
          cases hu
          cases hv
          have := md5cmp_swap sa sb
          omega
  · rintro ⟨-, hp, hs⟩
    rw [ha, hb] at hp
    cases hp
    have h0 := md5cmp_self a
    rcases hc with ⟨hn, -⟩ | ⟨-, rfl⟩
    · exact absurd h0 hn
    · rw [hsa h0, hsb h0] at hs
      cases hs
      exact md5cmp_self sa

theorem digests_true_crcpartial_assign {DB : Type} (E : Env DB) (h : Heap) (p : Ptr)
    (v : Option md5) (hT : ∀ x, digests_true E (h x))
    (hv : v = none ∨ v = E.getcrcpartialsignature (h p).d_name (h p).size) :
    ∀ x, digests_true E (crcpartial_assign h p v x) := by
  intro x
  by_cases hx : x = p
  · subst hx
    have e : crcpartial_assign h x v x = { h x with crcpartial := v } := by
      simp [crcpartial_assign]
    rw [e]
    exact ⟨hv, (hT x).2⟩
  · rw [crcpartial_assign_ne h p v x hx]
    exact hT x

theorem digests_true_set_crcsignature {DB : Type} (E : Env DB) (h : Heap) (p : Ptr)
    (v : Option md5) (hT : ∀ x, digests_true E (h x))
    (hv : v = none ∨ v = E.getcrcsignature (h p).d_name (h p).size) :
    ∀ x, digests_true E (set_crcsignature h p v x) := by
  intro x
  by_cases hx : x = p
  · subst hx
    have e : set_crcsignature h x v x = { h x with crcsignature := v } := by
      simp [set_crcsignature]
    rw [e]
    exact ⟨(hT x).1, hv⟩
  · rw [set_crcsignature_ne h p v x hx]
    exact hT x

theorem checkmatch_partial_fill_true {DB : Type} (E : Env DB) (flags : Flags)
    (hc : cache_true E) (p : Ptr) (s : State DB) (hT : ∀ x, digests_true E (s.heap x)) :
    ∀ x, digests_true E ((checkmatch_partial_fill E flags p s).1.heap x) := by
  have H1 : ∀ x, digests_true E
      (set_crcsignature (crcpartial_assign s.heap p (E.hashdb_loadhash s.db (s.heap p)).1) p
        (E.hashdb_loadhash s.db (s.heap p)).2 x) := by
    refine digests_true_set_crcsignature E _ p _
      (digests_true_crcpartial_assign E s.heap p _ hT (hc s.db (s.heap p) (hT p)).1) ?_
    simp only [crcpartial_assign_d_name, crcpartial_assign_size]
    exact (hc s.db (s.heap p) (hT p)).2
  have H2 : ∀ h0 : Heap, (∀ x, digests_true E (h0 x)) → ∀ x, digests_true E
      (crcpartial_assign h0 p (E.getcrcpartialsignature (h0 p).d_name (h0 p).size) x) :=
    fun h0 h0T => digests_true_crcpartial_assign E h0 p _ h0T (Or.inr rfl)
  unfold checkmatch_partial_fill
  dsimp only
  split_ifs <;> first
    | exact hT
    | exact H1
    | exact H2 _ H1
    | exact H2 _ hT

theorem checkmatch_signature_fill_true {DB : Type} (E : Env DB) (flags : Flags)
    (p : Ptr) (s : State DB) (hT : ∀ x, digests_true E (s.heap x)) :
    ∀ x, digests_true E ((checkmatch_signature_fill E flags p s).1.heap x) := by
  have H2 : ∀ x, digests_true E
      (set_crcsignature s.heap p (E.getcrcsignature (s.heap p).d_name (s.heap p).size) x) :=
    digests_true_set_crcsignature E s.heap p _ hT (Or.inr rfl)
  unfold checkmatch_signature_fill
  dsimp only
  split_ifs <;> first
    | exact hT
    | exact H2

theorem checkmatch_full_true {DB : Type} (E : Env DB) (flags : Flags) (s : State DB)
    (ct file : Ptr) (hT : ∀ x, digests_true E (s.heap x)) (s' : State DB)
    (h : checkmatch_full E flags s ct file = Compared.null s' ∨
      ∃ c, checkmatch_full E flags s ct file = Compared.result s' c) :
    ∀ x, digests_true E (s'.heap x) := by
  have k1 := checkmatch_signature_fill_true E flags ct s hT
  have k12 := checkmatch_signature_fill_true E flags file _ k1
  unfold checkmatch_full at h
  dsimp only at h
  split at h
  · rcases h with h | ⟨c, h⟩
    · cases h; exact k1
    · cases h
  · split at h
    · rcases h with h | ⟨c, h⟩
      · cases h; exact k12
      · cases h
    · split at h
      · rcases h with h | ⟨c, h⟩
        · cases h
        · cases h; exact k12
      · rcases h with h | ⟨c, h⟩ <;> cases h

theorem checkmatch_compare_true {DB : Type} (E : Env DB) (flags : Flags)
    (hc : cache_true E) (s : State DB) (ct file : Ptr)
    (hT : ∀ x, digests_true E (s.heap x)) (s' : State DB)
    (h : checkmatch_compare E flags s ct file = Compared.null s' ∨
      ∃ c, checkmatch_compare E flags s ct file = Compared.result s' c) :
    ∀ x, digests_true E (s'.heap x) := by
  have k1 := checkmatch_partial_fill_true E flags hc ct s hT
  have k12 := checkmatch_partial_fill_true E flags hc file _ k1
  unfold checkmatch_compare at h
  dsimp only at h
  have hsame : ∀ c0 : Int, (Compared.result s c0 = Compared.null s' ∨
      ∃ c, Compared.result s c0 = Compared.result s' c) → ∀ x, digests_true E (s'.heap x) := by
    intro c0 h
    rcases h with h | ⟨c, h⟩
    · cases h
    · cases h; exact hT
  split at h
  · exact hsame _ h
  split at h
  · exact hsame _ h
  split at h
  · exact hsame _ h
  split at h
  · rcases h with h | ⟨c, h⟩
    · cases h; exact k1
    · cases h
  split at h
  · rcases h with h | ⟨c, h⟩
    · cases h; exact k12
    · cases h
  split at h
  · split at h
    · exact checkmatch_full_true E flags _ ct file k12 s' h
    · rcases h with h | ⟨c, h⟩
      · cases h
      · cases h; exact k12
  · rcases h with h | ⟨c, h⟩ <;> cases h

theorem checkmatch_true {DB : Type} (E : Env DB) (flags : Flags) (hc : cache_true E)
    (fuel : Nat) (file : Ptr) :
    ∀ (t : filetree_t) (s s' : State DB) (t' : filetree_t) (m : Option (List Bool)),
      (∀ x, digests_true E (s.heap x)) →
      checkmatch E flags fuel t file s = some (s', t', m) →
      ∀ x, digests_true E (s'.heap x) := by
  intro t
  induction t with
  | null =>
    intro s s' t' m _ h
    simp [checkmatch] at h
  | node ct l r ihl ihr =>
    intro s s' t' m hT h
    rcases checkmatch_node_cases E flags fuel ct l r file s s' t' m h with
      ⟨v, -, -, e1, -, -⟩ | ⟨-, hcmp, -, -⟩ | ⟨-, s1, c, hcmp, hrest⟩
    · subst e1; exact hT
    · exact checkmatch_compare_true E flags hc s ct file hT s' (Or.inl hcmp)
    · have k1 := checkmatch_compare_true E flags hc s ct file hT s1 (Or.inr ⟨c, hcmp⟩)
      rcases hrest with ⟨-, e1, -, -⟩ | ⟨-, -, e1, -, -⟩ | ⟨-, -, e1, -, -⟩ |
          ⟨-, -, l2, m0, hrec, -, -⟩ | ⟨-, -, r2, m0, hrec, -, -⟩
      · subst e1; exact k1
      · subst e1; exact k1
      · subst e1; exact k1
      · exact ihl s1 s' l2 m0 k1 hrec
      · exact ihr s1 s' r2 m0 k1 hrec

theorem digests_true_unlinked {DB : Type} (E : Env DB) {a b : file_t}
    (h : a.unlinked = b.unlinked) (hb : digests_true E b) : digests_true E a := by
  unfold digests_true
  rw [crcpartial_of_unlinked h, crcsignature_of_unlinked h,
    core_d_name (core_of_unlinked h), core_size (core_of_unlinked h)]
  exact hb

theorem main_scan_pair_true {DB : Type} (E : Env DB) (flags : Flags) (o : ordertype_t)
    (cfuel : Nat) (ms1 : Scan DB) (curfile : Ptr) (ms2 : Scan DB)
    (hT : ∀ x, digests_true E (ms1.st.heap x))
    (h : main_scan_pair E flags o cfuel ms1 curfile = some ms2) :
    ∀ x, digests_true E (ms2.st.heap x) := by
  unfold main_scan_pair at h
  split at h
  · cases h; exact hT
  split at h
  · cases h
  split at h
  · cases h; exact hT
  split at h
  · cases h; exact hT
  split at h
  · cases h
    simp only [deletesuccessor_heap]
    exact hT
  split at h
  · split at h
    · cases h
    · rename_i h2 ml hreg
      cases h
      obtain ⟨-, hu⟩ := registerpair_frame _ _ _ _ _ _ _ hreg
      exact fun x => digests_true_unlinked E (hu x) (hT x)
  · cases h; exact hT

theorem main_scan_step_true {DB : Type} (E : Env DB) (flags : Flags) (hc : cache_true E)
    (o : ordertype_t) (cfuel : Nat) (ms : Scan DB) (curfile : Ptr) (ms2 : Scan DB)
    (hT : ∀ x, digests_true E (ms.st.heap x))
    (h : main_scan_step E flags o cfuel ms curfile = some ms2) :
    ∀ x, digests_true E (ms2.st.heap x) := by
  unfold main_scan_step at h
  split at h
  · cases h
  rename_i ms1 hl
  refine main_scan_pair_true E flags o cfuel ms1 curfile ms2 ?_ h
  unfold main_scan_lookup at hl
  split at hl
  · cases hl
    exact hT
  · split at hl
    · cases hl
    · rename_i s1 t1 m hcm
      cases hl
      exact checkmatch_true E flags hc cfuel curfile _ _ _ _ _ hT hcm

theorem main_scan_true {DB : Type} (E : Env DB) (flags : Flags) (hc : cache_true E)
    (o : ordertype_t) (cfuel : Nat) :
    ∀ (fuel : Nat) (ms : Scan DB) (cur : Option Ptr) (ms' : Scan DB),
      (∀ x, digests_true E (ms.st.heap x)) →
      main_scan E flags o cfuel fuel ms cur = some ms' →
      ∀ x, digests_true E (ms'.st.heap x)
  | fuel, ms, none, ms', hT, h => by
    cases fuel <;>
    · simp only [main_scan, Option.some.injEq] at h
      subst h
      exact hT
  | 0, ms, some c, ms', _, h => by simp [main_scan] at h
  | fuel + 1, ms, some c, ms', hT, h => by
    simp only [main_scan] at h
    split at h
    · cases h
    · rename_i ms1 hs
      exact main_scan_true E flags hc o cfuel fuel ms1 _ ms'
        (main_scan_step_true E flags hc o cfuel ms c ms1 hT hs) h

theorem is_hardlink_loop_undigested (h : Heap) (file : Ptr) :
    ∀ (fuel : Nat) (o : Option Ptr),
      is_hardlink_loop (fun x => (h x).undigested) file fuel o = is_hardlink_loop h file fuel o
  | 0, _ => rfl
  | _ + 1, none => rfl
  | fuel + 1, some d => by
    simp only [is_hardlink_loop, file_t.undigested]
    split_ifs
    · rfl
    · cases hd : (h d).duplicates with
      | none => rfl
      | some d' =>
        simp only []
        exact is_hardlink_loop_undigested h file fuel (some d')

theorem has_same_file_loop_undigested {DB : Type} (E : Env DB) (h : Heap) (file : Ptr) :
    ∀ (fuel : Nat) (o : Option Ptr),
      has_same_file_loop E (fun x => (h x).undigested) file fuel o
        = has_same_file_loop E h file fuel o
  | 0, _ => rfl
  | _ + 1, none => rfl
  | fuel + 1, some d => by
    have e : is_same_file E (h d).undigested (h file).undigested
        = is_same_file E (h d) (h file) := rfl
    simp only [has_same_file_loop, e]
    split_ifs
    · rfl
    · have e2 : (h d).undigested.duplicates = (h d).duplicates := rfl
      rw [e2]
      cases hd : (h d).duplicates with
      | none => rfl
      | some d' =>
        simp only []
        exact has_same_file_loop_undigested E h file fuel (some d')

theorem checkmatch_precheck_undigested {DB : Type} (E : Env DB) (flags : Flags) (fuel : Nat)
    (h : Heap) (ct file : Ptr) :
    checkmatch_precheck E flags fuel (fun x => (h x).undigested) ct file
      = checkmatch_precheck E flags fuel h ct file := by
  unfold checkmatch_precheck has_same_file is_hardlink
  have e : is_same_file E (h ct).undigested (h file).undigested
      = is_same_file E (h ct) (h file) := rfl
  have e1 : (h file).undigested.inode = (h file).inode := rfl
  have e2 : (h ct).undigested.inode = (h ct).inode := rfl
  have e3 : (h file).undigested.device = (h file).device := rfl
  have e4 : (h ct).undigested.device = (h ct).device := rfl
  have e5 : (h ct).undigested.hasdupes = (h ct).hasdupes := rfl
  have e6 : (h ct).undigested.duplicates = (h ct).duplicates := rfl
  simp only [e, e1, e2, e3, e4, e5, e6, is_hardlink_loop_undigested,
    has_same_file_loop_undigested]

theorem checkmatch_precheck_congr {DB : Type} (E : Env DB) (flags : Flags) (fuel : Nat)
    {h h' : Heap} (hu : ∀ x, (h' x).undigested = (h x).undigested) (ct file : Ptr) :
    checkmatch_precheck E flags fuel h' ct file = checkmatch_precheck E flags fuel h ct file := by
  rw [← checkmatch_precheck_undigested E flags fuel h', ← checkmatch_precheck_undigested E flags fuel h]
  have : (fun x => (h' x).undigested) = (fun x => (h x).undigested) := funext hu
  rw [this]

theorem checkmatch_full_decides {DB : Type} (E : Env DB) (flags : Flags) (s : State DB)
    (ct file : Ptr) (hT : ∀ x, digests_true E (s.heap x))
    (hct : E.getcrcsignature (s.heap ct).d_name (s.heap ct).size ≠ none)
    (hf : E.getcrcsignature (s.heap file).d_name (s.heap file).size ≠ none) :
    ∃ s1 sa sb, checkmatch_full E flags s ct file = Compared.result s1 (md5cmp sa sb) ∧
      E.getcrcsignature (s.heap file).d_name (s.heap file).size = some sa ∧
      E.getcrcsignature (s.heap ct).d_name (s.heap ct).size = some sb := by
  have hA := checkmatch_signature_fill_spec E flags ct s
  have hB := checkmatch_signature_fill_spec E flags file (checkmatch_signature_fill E flags ct s).1
  have TA := checkmatch_signature_fill_true E flags ct s hT
  have TB := checkmatch_signature_fill_true E flags file _ TA
  have hA2 : (checkmatch_signature_fill E flags ct s).2 = true := by
    cases h2 : (checkmatch_signature_fill E flags ct s).2 with
    | true => rfl
    | false => exact absurd ((checkmatch_signature_fill_fails E flags ct s).mp h2).2 hct
  have hB2 : (checkmatch_signature_fill E flags file
      (checkmatch_signature_fill E flags ct s).1).2 = true := by
    cases h2 : (checkmatch_signature_fill E flags file
        (checkmatch_signature_fill E flags ct s).1).2 with
    | true => rfl
    | false =>
      have := ((checkmatch_signature_fill_fails E flags file _).mp h2).2
      rw [undigested_d_name (hA.1 file), undigested_size (hA.1 file)] at this
      exact absurd this hf
  obtain ⟨sa, hsa⟩ := Option.ne_none_iff_exists'.mp hf
  obtain ⟨sb, hsb⟩ := Option.ne_none_iff_exists'.mp hct
  have hfa : ((checkmatch_signature_fill E flags file
      (checkmatch_signature_fill E flags ct s).1).1.heap file).crcsignature = some sa := by
    rcases (TB file).2 with h0 | h0
    · exact absurd h0 (hB.2.2.2 hB2)
    · rw [h0, undigested_d_name (hB.1 file), undigested_size (hB.1 file),
        undigested_d_name (hA.1 file), undigested_size (hA.1 file)]
      exact hsa
  have hcb : ((checkmatch_signature_fill E flags file
      (checkmatch_signature_fill E flags ct s).1).1.heap ct).crcsignature = some sb := by
    have hne : ((checkmatch_signature_fill E flags ct s).1.heap ct).crcsignature ≠ none :=
      hA.2.2.2 hA2
    rcases (TB ct).2 with h0 | h0
    · rw [hB.2.1 ct hne] at h0
      exact absurd h0 hne
    · rw [h0, undigested_d_name (hB.1 ct), undigested_size (hB.1 ct),
        undigested_d_name (hA.1 ct), undigested_size (hA.1 ct)]
      exact hsb
  refine ⟨(checkmatch_signature_fill E flags file (checkmatch_signature_fill E flags ct s).1).1,
    sa, sb, ?_, hsa, hsb⟩
  unfold checkmatch_full
  simp only [hA2, hB2, Bool.not_true, Bool.false_eq_true, if_false, hfa, hcb]

theorem checkmatch_compare_decides {DB : Type} (E : Env DB) (flags : Flags)
    (hP : flags.F_PERMISSIONS = false) (hc : cache_true E) (s : State DB) (ct file : Ptr)
    (hT : ∀ x, digests_true E (s.heap x)) (hct : digests_computable E (s.heap ct))
    (hf : digests_computable E (s.heap file)) :
    ∃ s1 c, checkmatch_compare E flags s ct file = Compared.result s1 c ∧
      (true_lt E (s.heap file) (s.heap ct) → c < 0) ∧
      (true_lt E (s.heap ct) (s.heap file) → 0 < c) ∧
      (same_content_key E (s.heap file) (s.heap ct) → c = 0) := by
  by_cases hsz : (s.heap file).size = (s.heap ct).size
  swap
  · refine ⟨s, _, checkmatch_compare_size E flags s ct file hsz, ?_, ?_, ?_⟩
    · rintro (h | ⟨h, -⟩)
      · rw [if_pos h]; decide
      · exact absurd h hsz
    · rintro (h | ⟨h, -⟩)
      · rw [if_neg (by omega)]; decide
      · exact absurd h.symm hsz
    · rintro ⟨h, -⟩
      exact absurd h hsz
  have hA := checkmatch_partial_fill_spec E flags ct s
  have hB := checkmatch_partial_fill_spec E flags file (checkmatch_partial_fill E flags ct s).1
  have TA := checkmatch_partial_fill_true E flags hc ct s hT
  have TB := checkmatch_partial_fill_true E flags hc file _ TA
  have hA2 : (checkmatch_partial_fill E flags ct s).2 = true := by
    cases h2 : (checkmatch_partial_fill E flags ct s).2 with
    | true => rfl
    | false => exact absurd ((checkmatch_partial_fill_fails E flags ct s).mp h2).2.2 hct.1
  have hB2 : (checkmatch_partial_fill E flags file
      (checkmatch_partial_fill E flags ct s).1).2 = true := by
    cases h2 : (checkmatch_partial_fill E flags file
        (checkmatch_partial_fill E flags ct s).1).2 with
    | true => rfl
    | false =>
      have := ((checkmatch_partial_fill_fails E flags file _).mp h2).2.2
      rw [undigested_d_name (hA.1 file), undigested_size (hA.1 file)] at this
      exact absurd this hf.1
  have nameB : ∀ x, ((checkmatch_partial_fill E flags file
      (checkmatch_partial_fill E flags ct s).1).1.heap x).d_name = (s.heap x).d_name :=
    fun x => by rw [undigested_d_name (hB.1 x), undigested_d_name (hA.1 x)]
  have sizeB : ∀ x, ((checkmatch_partial_fill E flags file
      (checkmatch_partial_fill E flags ct s).1).1.heap x).size = (s.heap x).size :=
    fun x => by rw [undigested_size (hB.1 x), undigested_size (hA.1 x)]
  obtain ⟨a, ha⟩ := Option.ne_none_iff_exists'.mp hf.1
  obtain ⟨b, hb⟩ := Option.ne_none_iff_exists'.mp hct.1
  have hfa : file_t.crcpartial ((checkmatch_partial_fill E flags file
      (checkmatch_partial_fill E flags ct s).1).1.heap file) = some a := by
    rcases (TB file).1 with h0 | h0
    · exact absurd h0 (hB.2.2 hB2)
    · rw [h0, nameB, sizeB]
      exact ha
  have hcb : file_t.crcpartial ((checkmatch_partial_fill E flags file
      (checkmatch_partial_fill E flags ct s).1).1.heap ct) = some b := by
    have hne : file_t.crcpartial ((checkmatch_partial_fill E flags ct s).1.heap ct) ≠ none :=
      hA.2.2 hA2
    rcases (TB ct).1 with h0 | h0
    · rw [hB.2.1 ct hne] at h0
      exact absurd h0 hne
    · rw [h0, nameB, sizeB]
      exact hb
  have hrun : checkmatch_compare E flags s ct file =
      if md5cmp a b = 0 then
        checkmatch_full E flags
          (checkmatch_partial_fill E flags file (checkmatch_partial_fill E flags ct s).1).1
          ct file
      else Compared.result
        (checkmatch_partial_fill E flags file (checkmatch_partial_fill E flags ct s).1).1
        (md5cmp a b) := by
    unfold checkmatch_compare
    have h1 : ¬ (s.heap file).size < (s.heap ct).size := by omega
    have h2 : ¬ (s.heap file).size > (s.heap ct).size := by omega
    simp only [h1, h2, hP, hA2, hB2, hfa, hcb, if_false, Bool.false_and, Bool.not_true,
      Bool.false_eq_true]
  by_cases h0 : md5cmp a b = 0
  · rw [if_pos h0] at hrun
    obtain ⟨s1, sa, sb, hfull, hsa, hsb⟩ := checkmatch_full_decides E flags _ ct file TB
      (by rw [nameB, sizeB]; exact hct.2) (by rw [nameB, sizeB]; exact hf.2)
    rw [nameB, sizeB] at hsa hsb
    refine ⟨s1, md5cmp sa sb, hrun.trans hfull, ?_⟩
    exact true_key_decides E _ _ a b sa sb _ hsz ha hb (fun _ => hsa) (fun _ => hsb)
      (Or.inr ⟨h0, rfl⟩)
  · rw [if_neg h0] at hrun
    refine ⟨_, md5cmp a b, hrun, ?_⟩
    exact true_key_decides E _ _ a b a b _ hsz ha hb (fun h => absurd h h0)
      (fun h => absurd h h0) (Or.inl ⟨h0, rfl⟩)

theorem checkmatch_finds {DB : Type} (E : Env DB) (flags : Flags)
    (hP : flags.F_PERMISSIONS = false) (hc : cache_true E) (fuel : Nat) (f r : Ptr) :
    ∀ (t : filetree_t) (P : List Bool) (s : State DB),
      TreeOrdered s.heap t → (∀ x, digests_true E (s.heap x)) →
      t.file_at P = some r → digests_computable E (s.heap f) →
      (∀ x ∈ t.path_files P, digests_computable E (s.heap x)) →
      same_content_key E (s.heap f) (s.heap r) →
      (∀ x ∈ t.path_files P, checkmatch_precheck E flags fuel s.heap x f = some 0) →
      ∃ s', checkmatch E flags fuel t f s = some (s', t, some P) := by
  intro t
  induction t with
  | null =>
    intro P s _ _ hat
    simp [filetree_t.file_at] at hat
  | node a l r0 ihl ihr =>
    intro P s ho hT hat hcf hcp hkey hpre
    have hpa : checkmatch_precheck E flags fuel s.heap a f = some 0 :=
      hpre a (by cases P with
        | nil => simp [filetree_t.path_files]
        | cons b P' => cases b <;> simp [filetree_t.path_files])
    have hca : digests_computable E (s.heap a) :=
      hcp a (by cases P with
        | nil => simp [filetree_t.path_files]
        | cons b P' => cases b <;> simp [filetree_t.path_files])
    obtain ⟨s1, c, hcmp, hlt, hgt, heq⟩ :=
      checkmatch_compare_decides E flags hP hc s a f hT hca hcf
    obtain ⟨evs, run, -⟩ :=
      checkmatch_compare_facts E flags s a f s1 true (Or.inr ⟨c, hcmp, rfl⟩)
    have hT1 := checkmatch_compare_true E flags hc s a f hT s1 (Or.inr ⟨c, hcmp⟩)
    have ho1 := TreeOrdered_run run _ ho
    have hcf1 : digests_computable E (s1.heap f) := digests_computable_congr E (run.2.2 f) hcf
    have hkey1 : same_content_key E (s1.heap f) (s1.heap r) :=
      same_content_key_congr E (run.2.2 f) (run.2.2 r) hkey
    cases P with
    | nil =>
      simp only [filetree_t.file_at, Option.some.injEq] at hat
      subst hat
      have hc0 := heq hkey
      subst hc0
      refine ⟨s1, ?_⟩
      rw [checkmatch]
      simp only [hpa, hcmp, ne_eq, not_true_eq_false, if_false, lt_self_iff_false,
        gt_iff_lt]
    | cons b P' =>
      cases b with
      | false =>
        simp only [filetree_t.file_at] at hat
        have hrl := file_at_mem l P' r hat
        have hneg : c < 0 :=
          hlt (true_lt_congr_left E hkey (staged_lt_true E (hT r) (hT a) (ho.1 r hrl)))
        obtain ⟨s2, h2⟩ := ihl P' s1 ho1.2.2.1 hT1 hat hcf1
          (fun x hx => digests_computable_congr E (run.2.2 x)
            (hcp x (by simp [filetree_t.path_files, hx])))
          hkey1
          (fun x hx => by
            rw [checkmatch_precheck_congr E flags fuel run.2.2]
            exact hpre x (by simp [filetree_t.path_files, hx]))
        refine ⟨s2, ?_⟩
        cases l with
        | null => simp [filetree_t.file_at] at hat
        | node la lb lc =>
          rw [checkmatch]
          simp only [hpa, hcmp, ne_eq, not_true_eq_false, if_false, hneg, if_true, h2,
            Option.map_some']
      | true =>
        simp only [filetree_t.file_at] at hat
        have hrr := file_at_mem r0 P' r hat
        have hpos : 0 < c :=
          hgt (true_lt_congr_right E hkey (staged_lt_true E (hT a) (hT r) (ho.2.1 r hrr)))
        obtain ⟨s2, h2⟩ := ihr P' s1 ho1.2.2.2 hT1 hat hcf1
          (fun x hx => digests_computable_congr E (run.2.2 x)
            (hcp x (by simp [filetree_t.path_files, hx])))
          hkey1
          (fun x hx => by
            rw [checkmatch_precheck_congr E flags fuel run.2.2]
            exact hpre x (by simp [filetree_t.path_files, hx]))
        refine ⟨s2, ?_⟩
        have hnl : ¬ c < 0 := by omega
        cases r0 with
        | null => simp [filetree_t.file_at] at hat
        | node ra rb rc =>
          rw [checkmatch]
          simp only [hpa, hcmp, ne_eq, not_true_eq_false, if_false, hnl, gt_iff_lt, hpos,
            if_true, h2, Option.map_some']

/-! ## Properties of registerpair -/

/-- C6 (head uniqueness).  Take a group chain `q :: S` whose members after the
head carry `hasdupes = 0` (the head may carry 1, or 0 when it is a lone
record), a fresh record `m` (`hasdupes = 0`, `duplicates = NULL`, not in the
chain) and any comparator.  With fuel for one pass over the chain,
`registerpair` returns; the resulting chain holds exactly the old members and
`m`, its first element is the new value of `*matchlist`, that element carries
`hasdupes = 1`, and every other member carries `hasdupes = 0`. -/
theorem registerpair_head_unique (comparef : file_t → file_t → Int) (h : Heap)
    (q m : Ptr) (S : List Ptr) (fuel : Nat)
    (hc : Chain h (some q) (q :: S))
    (hrest : ∀ x ∈ S, (h x).hasdupes = 0)
    (hm0 : (h m).hasdupes = 0) (hmd : (h m).duplicates = none) (hm : m ∉ q :: S)
    (hf : S.length < fuel) :
    ∃ h' ml' R, registerpair comparef fuel h q m = some (h', ml') ∧
      Chain h' (some ml') (ml' :: R) ∧ List.Perm (ml' :: R) (m :: q :: S) ∧
      (h' ml').hasdupes = 1 ∧ (∀ x ∈ R, (h' x).hasdupes = 0) ∧
      (∀ x ∈ ml' :: R, (h' x).hasdupes = 1 → x = ml') := by
  obtain ⟨h', ml', R, hrun, hins, hch, hhead, hq, hhd, -, -⟩ :=
    registerpair_spec comparef m q S fuel h hc hm hmd hf
  have hperm : List.Perm (ml' :: R) (m :: q :: S) := by
    rw [← hins]; exact insert_before_first_ge_perm _ _ _ _
  have hnd : (ml' :: R).Nodup := Chain_nodup _ _ hch
  have hR : ∀ x ∈ R, (h' x).hasdupes = 0 := by
    intro x hx
    have hxml : x ≠ ml' := by
      intro e; subst e
      exact (List.nodup_cons.mp hnd).1 hx
    by_cases hxq : x = q
    · subst hxq; exact hq (fun e => hxml e.symm)
    · rw [hhd x hxml hxq]
      have hx' := hperm.mem_iff.mp (List.mem_cons_of_mem _ hx)
      rcases List.mem_cons.mp hx' with e | hx''
      · subst e; exact hm0
      · rcases List.mem_cons.mp hx'' with e | hxS
        · exact absurd e hxq
        · exact hrest x hxS
  refine ⟨h', ml', R, hrun, hch, hperm, hhead, hR, ?_⟩
  intro x hx hx1
  rcases List.mem_cons.mp hx with e | hxR
  · exact e
  · rw [hR x hxR] at hx1
    exact absurd hx1 (by decide)

/-- Witness of C6: the new record 2 (time 20) registered with the chain
`0 -> 1` of `heap_abc` under the time comparator. -/
theorem registerpair_head_unique_witness :
    ∃ h' ml' R, registerpair (sort_pairs_by_mtime flags_none) 2 heap_abc 0 2 = some (h', ml') ∧
      Chain h' (some ml') (ml' :: R) ∧ List.Perm (ml' :: R) (2 :: 0 :: [1]) ∧
      (h' ml').hasdupes = 1 ∧ (∀ x ∈ R, (h' x).hasdupes = 0) ∧
      (∀ x ∈ ml' :: R, (h' x).hasdupes = 1 → x = ml') :=
  registerpair_head_unique (sort_pairs_by_mtime flags_none) heap_abc 0 2 [1] 2
    ⟨rfl, rfl, rfl⟩ (by intro x hx; simp at hx; subst hx; rfl) rfl rfl (by decide) (by decide)

/-- C7 (insertion position).  For a group chain `q :: S`, a fresh record `m`
and any comparator, `registerpair` returns and the resulting chain, which
starts at the new `*matchlist` and ends in NULL, is `A ++ m :: B` where
`A ++ B` is the old chain, `comparef(m, p) > 0` for every `p` in `A`, and the
first element of `B`, if any, has `comparef(m, p) <= 0`; this is the list
`insert_before_first_ge` computes.  The comparator is applied to the
records as the loop sees them, after `(*matchlist)->hasdupes = 1`. -/
theorem registerpair_insert_position (comparef : file_t → file_t → Int) (h : Heap)
    (q m : Ptr) (S : List Ptr) (fuel : Nat)
    (hc : Chain h (some q) (q :: S))
    (hmd : (h m).duplicates = none) (hm : m ∉ q :: S) (hf : S.length < fuel) :
    ∃ h' ml' R, registerpair comparef fuel h q m = some (h', ml') ∧
      Chain h' (some ml') (ml' :: R) ∧
      ml' :: R = insert_before_first_ge comparef (set_hasdupes h q 1) m (q :: S) ∧
      ∃ A B, q :: S = A ++ B ∧ ml' :: R = A ++ m :: B ∧
        (∀ p ∈ A, 0 < comparef (set_hasdupes h q 1 m) (set_hasdupes h q 1 p)) ∧
        (∀ p, B.head? = some p →
          comparef (set_hasdupes h q 1 m) (set_hasdupes h q 1 p) ≤ 0) := by
  obtain ⟨h', ml', R, hrun, hins, hch, -, -, -, -, -⟩ :=
    registerpair_spec comparef m q S fuel h hc hm hmd hf
  obtain ⟨A, B, hL, hAB, hA, hB⟩ :=
    insert_before_first_ge_split comparef (set_hasdupes h q 1) m (q :: S)
  refine ⟨h', ml', R, hrun, hch, hins.symm, A, B, hL, ?_, ?_, hB⟩
  · rw [← hins]; exact hAB
  · intro p hp
    have := hA p hp
    omega

/-- Witness of C7 on `heap_abc`. -/
theorem registerpair_insert_position_witness :
    ∃ h' ml' R, registerpair (sort_pairs_by_mtime flags_none) 2 heap_abc 0 2 = some (h', ml') ∧
      Chain h' (some ml') (ml' :: R) ∧
      ml' :: R = insert_before_first_ge (sort_pairs_by_mtime flags_none)
        (set_hasdupes heap_abc 0 1) 2 (0 :: [1]) ∧
      ∃ A B, 0 :: [1] = A ++ B ∧ ml' :: R = A ++ 2 :: B ∧
        (∀ p ∈ A, 0 < sort_pairs_by_mtime flags_none
          (set_hasdupes heap_abc 0 1 2) (set_hasdupes heap_abc 0 1 p)) ∧
        (∀ p, B.head? = some p → sort_pairs_by_mtime flags_none
          (set_hasdupes heap_abc 0 1 2) (set_hasdupes heap_abc 0 1 p) ≤ 0) :=
  registerpair_insert_position (sort_pairs_by_mtime flags_none) heap_abc 0 2 [1] 2
    ⟨rfl, rfl, rfl⟩ rfl (by decide) (by decide)

/-- C8 (sorted groups).  For each comparator that `main` can pass
(`sort_pairs_by_mtime`, `sort_pairs_by_ctime`, `sort_pairs_by_filename`, with
or without the reverse flag): a group chain that is non-decreasing under the
comparator is non-decreasing after `registerpair` has inserted a new record;
and after the scan loop has processed a file list, every group (the chain of
a record with `hasdupes` set) is non-decreasing from head to tail. -/
theorem registerpair_keeps_sorted {DB : Type} (E : Env DB) (flags : Flags)
    (o : ordertype_t) (h : Heap) (q m : Ptr) (S : List Ptr) (rfuel : Nat)
    (A : List Ptr) (h0 : Heap) (db : DB) (first : Option Ptr) (fuel cfuel : Nat)
    (hc : Chain h (some q) (q :: S))
    (hmd : (h m).duplicates = none) (hm : m ∉ q :: S) (hrf : S.length < rfuel)
    (hs : chain_sorted (comparef_of flags o) h (q :: S))
    (hl : Listed h0 first A)
    (hfresh : ∀ x ∈ A, (h0 x).hasdupes = 0 ∧ (h0 x).duplicates = none)
    (hf : A.length ≤ fuel) (hcf : A.length ≤ cfuel) :
    (∃ h' ml' R, registerpair (comparef_of flags o) rfuel h q m = some (h', ml') ∧
      Chain h' (some ml') (ml' :: R) ∧
      chain_sorted (comparef_of flags o) h' (ml' :: R)) ∧
    (∃ ms, main_scan E flags o cfuel fuel (scan_init h0 db) first = some ms ∧
      ∀ p ∈ A, (ms.st.heap p).hasdupes ≠ 0 →
        ∃ L, Chain ms.st.heap (some p) L ∧
          chain_sorted (comparef_of flags o) ms.st.heap L) := by
  refine ⟨registerpair_sorted flags o h q m S rfuel hc hmd hm hrf hs, ?_⟩
  obtain ⟨ms, hrun, -, hg⟩ := main_scan_groups E flags o (fun _ _ => True)
    (fun _ _ _ => trivial) (fun _ _ _ _ _ => trivial) A h0 db first fuel cfuel
    (fun _ _ _ _ _ _ => trivial) hl hfresh hf hcf
  refine ⟨ms, hrun, ?_⟩
  intro p hp hd
  obtain ⟨L, g⟩ := hg p hp hd
  exact ⟨L, g.chain, g.sorted⟩

/-- Witness of C8: the chain `0 -> 1` of `heap_abc` with the new record 2,
and the scan of the file list of `heap_scan`. -/
theorem registerpair_keeps_sorted_witness :
    (∃ h' ml' R, registerpair (comparef_of flags_none ordertype_t.ORDER_MTIME) 2 heap_abc 0 2
        = some (h', ml') ∧
      Chain h' (some ml') (ml' :: R) ∧
      chain_sorted (comparef_of flags_none ordertype_t.ORDER_MTIME) h' (ml' :: R)) ∧
    (∃ ms, main_scan env_abc flags_none ordertype_t.ORDER_MTIME 3 3 (scan_init heap_scan ())
        (some 1) = some ms ∧
      ∀ p ∈ [1, 2, 3], (ms.st.heap p).hasdupes ≠ 0 →
        ∃ L, Chain ms.st.heap (some p) L ∧
          chain_sorted (comparef_of flags_none ordertype_t.ORDER_MTIME) ms.st.heap L) :=
  registerpair_keeps_sorted env_abc flags_none ordertype_t.ORDER_MTIME heap_abc 0 2 [1] 2
    [1, 2, 3] heap_scan () (some 1) 3 3
    ⟨rfl, rfl, rfl⟩ rfl (by decide) (by decide)
    (by
      unfold chain_sorted
      refine List.pairwise_cons.mpr ⟨?_, List.pairwise_singleton _ _⟩
      intro b hb
      simp at hb
      subst hb
      decide)
    ⟨rfl, rfl, rfl, rfl⟩ (by decide) (by decide) (by decide)

/-! ## Properties of the groups built by the scan loop -/

/-- C1 (group homogeneity).  The scan loop of `main`, run on any file list of
records without group links, returns, and in the resulting heap every member
of every group (the chain of a record with `hasdupes` set) has the size of
the group's head and both digests populated and equal byte for byte to those
of the head.  Moreover, whenever `checkmatch` returns a non-null pointer, the
incoming record and the record it points to have equal size and populated,
byte-for-byte equal partial and full digests. -/
theorem scan_groups_homogeneous {DB : Type} (E : Env DB) (flags : Flags) (o : ordertype_t)
    (A : List Ptr) (h0 : Heap) (db : DB) (first : Option Ptr) (fuel cfuel : Nat)
    (hl : Listed h0 first A)
    (hfresh : ∀ x ∈ A, (h0 x).hasdupes = 0 ∧ (h0 x).duplicates = none)
    (hf : A.length ≤ fuel) (hcf : A.length ≤ cfuel) :
    (∃ ms, main_scan E flags o cfuel fuel (scan_init h0 db) first = some ms ∧
      ∀ q ∈ A, (ms.st.heap q).hasdupes ≠ 0 →
        ∃ L, Chain ms.st.heap (some q) L ∧
          ∀ x ∈ L, x ≠ q → Matched (ms.st.heap x) (ms.st.heap q)) ∧
    (∀ (t : filetree_t) (file : Ptr) (s s' : State DB) (t' : filetree_t) (path : List Bool),
      checkmatch E flags cfuel t file s = some (s', t', some path) →
      ∃ peer, t.file_at path = some peer ∧ Matched (s'.heap file) (s'.heap peer)) := by
  constructor
  · obtain ⟨ms, hrun, -, hg⟩ := main_scan_groups E flags o (fun _ _ => True)
      (fun _ _ _ => trivial) (fun _ _ _ _ _ => trivial) A h0 db first fuel cfuel
      (fun _ _ _ _ _ _ => trivial) hl hfresh hf hcf
    refine ⟨ms, hrun, ?_⟩
    intro q hq hd
    obtain ⟨L, g⟩ := hg q hq hd
    obtain ⟨S, hS⟩ := Chain_head g.chain
    refine ⟨L, g.chain, ?_⟩
    intro x hx hxq
    exact (g.rel x hx q (by rw [hS]; exact List.mem_cons_self _ _) hxq).1
  · intro t file s s' t' path h
    exact (checkmatch_sound E flags cfuel file t s s' t' path h).2

/-- Witness of C1: the scan of the files "a", "b" (HELLO) and "c" (WORLD). -/
theorem scan_groups_homogeneous_witness :
    ∃ ms, main_scan env_abc flags_none ordertype_t.ORDER_MTIME 3 3 (scan_init heap_scan ())
        (some 1) = some ms ∧
      ∀ q ∈ [1, 2, 3], (ms.st.heap q).hasdupes ≠ 0 →
        ∃ L, Chain ms.st.heap (some q) L ∧
          ∀ x ∈ L, x ≠ q → Matched (ms.st.heap x) (ms.st.heap q) :=
  (scan_groups_homogeneous env_abc flags_none ordertype_t.ORDER_MTIME [1, 2, 3] heap_scan ()
    (some 1) 3 3 ⟨rfl, rfl, rfl, rfl⟩ (by decide) (by decide) (by decide)).1

/-- C2 (confirmed duplicates).  With defer-confirmation and quicksummary off,
and `confirmmatch` modelled by equality of file contents (`content` gives the
bytes of a path and `confirmmatch` is true only on equal contents): after the
scan loop any two members of any group have equal contents.  Moreover, when
immediate mode is off as well, the block that follows a match leaves the
state as it is (no `registerpair`) whenever `confirmmatch` on the record and
the peer returns false. -/
theorem scan_groups_confirmed {DB : Type} (E : Env DB) (flags : Flags) (o : ordertype_t)
    (content : List Nat → List Nat)
    (A : List Ptr) (h0 : Heap) (db : DB) (first : Option Ptr) (fuel cfuel : Nat)
    (hD : flags.F_DEFERCONFIRMATION = false) (hM : flags.F_QUICKSUMMARY = false)
    (hconf : ∀ a b, E.confirmmatch a b = true → content a = content b)
    (hl : Listed h0 first A)
    (hfresh : ∀ x ∈ A, (h0 x).hasdupes = 0 ∧ (h0 x).duplicates = none)
    (hf : A.length ≤ fuel) (hcf : A.length ≤ cfuel) :
    (∃ ms, main_scan E flags o cfuel fuel (scan_init h0 db) first = some ms ∧
      ∀ q ∈ A, (ms.st.heap q).hasdupes ≠ 0 →
        ∃ L, Chain ms.st.heap (some q) L ∧
          ∀ x ∈ L, ∀ y ∈ L,
            content (ms.st.heap x).d_name = content (ms.st.heap y).d_name) ∧
    (∀ (ms1 : Scan DB) (p : Ptr) (path : List Bool) (peer : Ptr),
      (flags.F_DELETEFILES && flags.F_IMMEDIATE) = false →
      ms1.matched = some path → ms1.checktree.file_at path = some peer →
      E.confirmmatch (ms1.st.heap p).d_name (ms1.st.heap peer).d_name = false →
      main_scan_pair E flags o cfuel ms1 p = some ms1) := by
  constructor
  · obtain ⟨ms, hrun, -, hg⟩ := main_scan_groups E flags o (fun a b => content a = content b)
      (fun _ _ e => e.symm) (fun _ _ _ e1 e2 => e1.trans e2) A h0 db first fuel cfuel
      (by
        intro x _ y _ _ hc
        rw [hD, hM] at hc
        exact hconf _ _ (by simpa using hc))
      hl hfresh hf hcf
    refine ⟨ms, hrun, ?_⟩
    intro q hq hd
    obtain ⟨L, g⟩ := hg q hq hd
    refine ⟨L, g.chain, ?_⟩
    intro x hx y hy
    by_cases hxy : x = y
    · rw [hxy]
    · exact (g.rel x hx y hy hxy).2.1
  · intro ms1 p path peer hI hm hat hc
    unfold main_scan_pair
    simp only [hm, hat, hI, hD, hM, hc]
    split_ifs <;> first | rfl | simp_all

/-- Witness of C2 on the example run, where `confirmmatch` compares
`content_abc`. -/
theorem scan_groups_confirmed_witness :
    ∃ ms, main_scan env_abc flags_none ordertype_t.ORDER_MTIME 3 3 (scan_init heap_scan ())
        (some 1) = some ms ∧
      ∀ q ∈ [1, 2, 3], (ms.st.heap q).hasdupes ≠ 0 →
        ∃ L, Chain ms.st.heap (some q) L ∧
          ∀ x ∈ L, ∀ y ∈ L,
            content_abc (ms.st.heap x).d_name = content_abc (ms.st.heap y).d_name :=
  (scan_groups_confirmed env_abc flags_none ordertype_t.ORDER_MTIME content_abc [1, 2, 3]
    heap_scan () (some 1) 3 3 rfl rfl
    (by
      intro a b hab
      exact of_decide_eq_true hab)
    ⟨rfl, rfl, rfl, rfl⟩ (by decide) (by decide) (by decide)).1

/-- C3 (hard links kept apart).  With the hard-links-as-duplicates flag off:
after the scan loop no group contains two records with equal
`(device, inode)`.  Moreover a call of `checkmatch` at a node whose resident
record, or a member of its group, shares `(device, inode)` with the incoming
record returns NULL and leaves state and tree as they are. -/
theorem scan_groups_no_hardlinks {DB : Type} (E : Env DB) (flags : Flags) (o : ordertype_t)
    (A : List Ptr) (h0 : Heap) (db : DB) (first : Option Ptr) (fuel cfuel : Nat)
    (hH : flags.F_CONSIDERHARDLINKS = false)
    (hl : Listed h0 first A)
    (hfresh : ∀ x ∈ A, (h0 x).hasdupes = 0 ∧ (h0 x).duplicates = none)
    (hf : A.length ≤ fuel) (hcf : A.length ≤ cfuel) :
    (∃ ms, main_scan E flags o cfuel fuel (scan_init h0 db) first = some ms ∧
      ∀ q ∈ A, (ms.st.heap q).hasdupes ≠ 0 →
        ∃ L, Chain ms.st.heap (some q) L ∧
          ∀ x ∈ L, ∀ y ∈ L, x ≠ y →
            ¬ ((ms.st.heap x).inode = (ms.st.heap y).inode ∧
               (ms.st.heap x).device = (ms.st.heap y).device)) ∧
    (∀ (s : State DB) (ct file x : Ptr) (l r : filetree_t) (S : List Ptr),
      Chain s.heap (some ct) (ct :: S) → S.length ≤ cfuel →
      (x = ct ∨ ((s.heap ct).hasdupes ≠ 0 ∧ x ∈ S)) →
      ((s.heap file).inode = (s.heap x).inode ∧ (s.heap file).device = (s.heap x).device) →
      checkmatch E flags cfuel (filetree_t.node ct l r) file s
        = some (s, filetree_t.node ct l r, none)) := by
  constructor
  · obtain ⟨ms, hrun, -, hg⟩ := main_scan_groups E flags o (fun _ _ => True)
      (fun _ _ _ => trivial) (fun _ _ _ _ _ => trivial) A h0 db first fuel cfuel
      (fun _ _ _ _ _ _ => trivial) hl hfresh hf hcf
    refine ⟨ms, hrun, ?_⟩
    intro q hq hd
    obtain ⟨L, g⟩ := hg q hq hd
    refine ⟨L, g.chain, ?_⟩
    intro x hx y hy hxy hid
    apply (g.rel x hx y hy hxy).2.2
    unfold Ident
    simp only [hH, Bool.false_eq_true, if_false]
    exact hid
  · intro s ct file x l r S hc hlen hx hid
    refine checkmatch_identity_hit E flags cfuel s ct file x l r S hc hlen hx ?_
    unfold Ident
    simp only [hH, Bool.false_eq_true, if_false]
    exact hid

/-- Witness of C3 on the example run. -/
theorem scan_groups_no_hardlinks_witness :
    ∃ ms, main_scan env_abc flags_none ordertype_t.ORDER_MTIME 3 3 (scan_init heap_scan ())
        (some 1) = some ms ∧
      ∀ q ∈ [1, 2, 3], (ms.st.heap q).hasdupes ≠ 0 →
        ∃ L, Chain ms.st.heap (some q) L ∧
          ∀ x ∈ L, ∀ y ∈ L, x ≠ y →
            ¬ ((ms.st.heap x).inode = (ms.st.heap y).inode ∧
               (ms.st.heap x).device = (ms.st.heap y).device) :=
  (scan_groups_no_hardlinks env_abc flags_none ordertype_t.ORDER_MTIME [1, 2, 3] heap_scan ()
    (some 1) 3 3 rfl ⟨rfl, rfl, rfl, rfl⟩ (by decide) (by decide) (by decide)).1

/-- C4 (same file kept apart under the hard-links flag).  With the
hard-links-as-duplicates flag on: after the scan loop `is_same_file` is 0 on
any two distinct members of any group.  Moreover a call of `checkmatch` at a
node for whose resident record, or a member of its group, `is_same_file`
against the incoming record is non-zero (so `has_same_file` reports the same
file) returns NULL and leaves state and tree as they are. -/
theorem scan_groups_no_same_file {DB : Type} (E : Env DB) (flags : Flags) (o : ordertype_t)
    (A : List Ptr) (h0 : Heap) (db : DB) (first : Option Ptr) (fuel cfuel : Nat)
    (hH : flags.F_CONSIDERHARDLINKS = true)
    (hl : Listed h0 first A)
    (hfresh : ∀ x ∈ A, (h0 x).hasdupes = 0 ∧ (h0 x).duplicates = none)
    (hf : A.length ≤ fuel) (hcf : A.length ≤ cfuel) :
    (∃ ms, main_scan E flags o cfuel fuel (scan_init h0 db) first = some ms ∧
      ∀ q ∈ A, (ms.st.heap q).hasdupes ≠ 0 →
        ∃ L, Chain ms.st.heap (some q) L ∧
          ∀ x ∈ L, ∀ y ∈ L, x ≠ y →
            is_same_file E (ms.st.heap x) (ms.st.heap y) = 0) ∧
    (∀ (s : State DB) (ct file x : Ptr) (l r : filetree_t) (S : List Ptr),
      Chain s.heap (some ct) (ct :: S) → S.length ≤ cfuel →
      (x = ct ∨ ((s.heap ct).hasdupes ≠ 0 ∧ x ∈ S)) →
      is_same_file E (s.heap x) (s.heap file) ≠ 0 →
      has_same_file E cfuel s.heap ct file = some 1 ∧
      checkmatch E flags cfuel (filetree_t.node ct l r) file s
        = some (s, filetree_t.node ct l r, none)) := by
  constructor
  · obtain ⟨ms, hrun, -, hg⟩ := main_scan_groups E flags o (fun _ _ => True)
      (fun _ _ _ => trivial) (fun _ _ _ _ _ => trivial) A h0 db first fuel cfuel
      (fun _ _ _ _ _ _ => trivial) hl hfresh hf hcf
    refine ⟨ms, hrun, ?_⟩
    intro q hq hd
    obtain ⟨L, g⟩ := hg q hq hd
    refine ⟨L, g.chain, ?_⟩
    intro x hx y hy hxy
    by_contra hid
    apply (g.rel y hy x hx (fun e => hxy e.symm)).2.2
    unfold Ident
    simp only [hH, if_true]
    exact hid
  · intro s ct file x l r S hc hlen hx hid
    have hI : Ident E flags (s.heap file) (s.heap x) := by
      unfold Ident
      simp only [hH, if_true]
      exact hid
    refine ⟨?_, checkmatch_identity_hit E flags cfuel s ct file x l r S hc hlen hx hI⟩
    have hp := checkmatch_precheck_hit E flags cfuel s.heap ct file x S hc hlen hx hI
    unfold checkmatch_precheck at hp
    simpa [hH] using hp

/-- Witness of C4 on the example run with the hard-links flag. -/
theorem scan_groups_no_same_file_witness :
    ∃ ms, main_scan env_abc { flags_none with F_CONSIDERHARDLINKS := true }
        ordertype_t.ORDER_MTIME 3 3 (scan_init heap_scan ()) (some 1) = some ms ∧
      ∀ q ∈ [1, 2, 3], (ms.st.heap q).hasdupes ≠ 0 →
        ∃ L, Chain ms.st.heap (some q) L ∧
          ∀ x ∈ L, ∀ y ∈ L, x ≠ y →
            is_same_file env_abc (ms.st.heap x) (ms.st.heap y) = 0 :=
  (scan_groups_no_same_file env_abc { flags_none with F_CONSIDERHARDLINKS := true }
    ordertype_t.ORDER_MTIME [1, 2, 3] heap_scan ()
    (some 1) 3 3 rfl ⟨rfl, rfl, rfl, rfl⟩ (by decide) (by decide) (by decide)).1

/-- C10 (no-prompt batch deletion).  With the options as `main` accepts
them and `-N` set (so that `main` has refused deferred confirmation), the
body of `deletefiles` with `prompt = 0` for a group with chain `q :: S`, with
arrays of more than `|S| + 1` slots, finishes: `dupelist[1 ..]` holds the
chain in order, `preserve[1] = 1` and `preserve[x] = 0` for the other
members, the only record marked as preserved is the head `q`, and
`removeifnotchanged` is called on exactly the members of `S`, once each and
in chain order; it is not called on `q`. -/
theorem deletefiles_noprompt_keeps_head {DB : Type} (E : Env DB) (flags : Flags)
    (cfuel pfuel : Nat) (s : State DB) (q : Ptr) (S : List Ptr) (dl : Slots Ptr)
    (pr : Slots Int) (tty : List (List Nat))
    (hopt : main_rejects_options flags = false) (hN : flags.F_NOPROMPT = true)
    (hc : Chain s.heap (some q) (q :: S)) (hf : S.length ≤ cfuel)
    (hdl : S.length + 1 < dl.max) (hpr : S.length + 1 < pr.max) :
    ∃ s' dl' pr', deletefiles_set E flags cfuel pfuel false s q dl pr tty
        = some (SetResult.done s' dl' pr' tty) ∧
      (∀ i p, (q :: S)[i]? = some p → dl'.val (i + 1) = p) ∧
      pr'.val 1 = 1 ∧ (∀ x, 2 ≤ x → x ≤ S.length + 1 → pr'.val x = 0) ∧
      kept_files s'.trace = kept_files s.trace ++ [q] ∧
      removal_attempts s'.trace = removal_attempts s.trace ++ S ∧
      q ∉ S := by
  have hconf := main_noprompt_confirms flags hopt hN
  obtain ⟨r, hcol⟩ := deletefiles_collect_total s.heap q S cfuel dl hc hf hdl
  obtain ⟨c1, c2, -, c4⟩ := deletefiles_collect_sound s.heap q S cfuel dl r hc hcol
  obtain ⟨counter, dl1⟩ := r
  simp only at c1 c2 c4
  subst c1
  obtain ⟨pr2, hsel, pmax, p1, p0⟩ :=
    deletefiles_select_noprompt E (S.length + 1) pfuel pr tty (by omega) (by omega)
  have hq1 : dl1.val 1 = q := c4 0 q (by simp)
  obtain ⟨s1, hloop, -, -, hat, hk⟩ :=
    deletefiles_remove_loop_all E flags (S.length + 1) dl1 pr2 hconf S 2
      ({ heap := s.heap, db := s.db,
         trace := s.trace ++ [Event.begin_set] ++ [Event.kept q] } : State DB)
      (by
        intro i p hp
        obtain ⟨hlt, _⟩ := List.getElem?_eq_some.mp hp
        have hd := c4 (i + 1) p (by simpa using hp)
        have e : i + 1 + 1 = 2 + i := by omega
        rw [e] at hd
        exact ⟨by omega, by omega, p0 (2 + i) (by omega) (by omega), hd⟩)
  refine ⟨{ s1 with trace := s1.trace ++ [Event.end_set] }, dl1, pr2, ?_, c4, p1, p0, ?_, ?_,
    (List.nodup_cons.mp (Chain_nodup _ _ hc)).1⟩
  · unfold deletefiles_set
    rw [hcol]
    simp only [hsel]
    have hp1 : pr2.val 1 ≠ 0 := by rw [p1]; decide
    simp only [deletefiles_remove_loop, Slots_read_some pr2 1 (by omega),
      Slots_read_some dl1 1 (by omega), hq1, hp1, ne_eq, not_false_eq_true, if_true]
    rw [hloop]
  · simp only [kept_files_append, hk]
    simp [kept_files]
  · simp only [removal_attempts_append, hat]
    simp [removal_attempts]

/-- Witness of C10: the group `0 -> 1` of `heap_abc` under `-d -N`. -/
theorem deletefiles_noprompt_keeps_head_witness :
    ∃ s' dl' pr', deletefiles_set env_abc
        { flags_none with F_DELETEFILES := true, F_NOPROMPT := true } 2 0 false
        state_abc 0 dupelist_abc preserve_abc [] = some (SetResult.done s' dl' pr' []) ∧
      (∀ i p, (0 :: [1])[i]? = some p → dl'.val (i + 1) = p) ∧
      pr'.val 1 = 1 ∧ (∀ x, 2 ≤ x → x ≤ [1].length + 1 → pr'.val x = 0) ∧
      kept_files s'.trace = kept_files state_abc.trace ++ [0] ∧
      removal_attempts s'.trace = removal_attempts state_abc.trace ++ [1] ∧
      0 ∉ [1] :=
  deletefiles_noprompt_keeps_head env_abc
    { flags_none with F_DELETEFILES := true, F_NOPROMPT := true } 2 0 state_abc 0 [1]
    dupelist_abc preserve_abc [] rfl rfl ⟨rfl, rfl, rfl⟩ (by decide) (by decide) (by decide)

/-- C9 (at least one member survives).  Whenever the body of `deletefiles`
for a group with chain `q :: S` gets through its deletion loop, in no-prompt
mode or in prompt mode with any input lines, some index `x` in `1 ..
counter` has `preserve[x]` set, and `removeifnotchanged` is not called on the
member at that index: removal is never attempted on every member.  The
selection stage, with or without prompt and for any input lines, hands the
deletion loop only a `preserve` array with some index in `1 .. counter` set.
Without prompt, and with arrays of more than `|S| + 1` slots, the body does
get through. -/
theorem deletefiles_preserves_a_member {DB : Type} (E : Env DB) (flags : Flags)
    (cfuel pfuel : Nat) (prompt : Bool) (s : State DB) (q : Ptr) (S : List Ptr)
    (dl : Slots Ptr) (pr : Slots Int) (tty : List (List Nat))
    (hc : Chain s.heap (some q) (q :: S)) :
    (∀ s' dl' pr' tty', deletefiles_set E flags cfuel pfuel prompt s q dl pr tty
        = some (SetResult.done s' dl' pr' tty') →
      ∃ x m evs, 1 ≤ x ∧ x ≤ S.length + 1 ∧ pr'.val x ≠ 0 ∧ (q :: S)[x - 1]? = some m ∧
        s'.trace = s.trace ++ evs ∧ m ∉ removal_attempts evs) ∧
    (∀ pr1 tty1, deletefiles_select E prompt (S.length + 1) pfuel pr tty
        = some (Selected.chosen pr1 tty1) →
      ∃ x, 1 ≤ x ∧ x ≤ S.length + 1 ∧ pr1.val x ≠ 0) ∧
    (prompt = false → S.length ≤ cfuel → S.length + 1 < dl.max → S.length + 1 < pr.max →
      ∃ s' dl' pr' tty', deletefiles_set E flags cfuel pfuel prompt s q dl pr tty
        = some (SetResult.done s' dl' pr' tty')) := by
  refine ⟨?_, ?_, ?_⟩
  · intro s' dl' pr' tty' hrun
    unfold deletefiles_set at hrun
    cases hcol : deletefiles_collect s.heap cfuel dl q with
    | none => rw [hcol] at hrun; cases hrun
    | some r =>
      obtain ⟨c1, c2, c3, c4⟩ := deletefiles_collect_sound s.heap q S cfuel dl r hc hcol
      obtain ⟨counter, dl1⟩ := r
      simp only at c1 c2 c4
      subst c1
      rw [hcol] at hrun
      simp only [] at hrun
      cases hsel : deletefiles_select E prompt (S.length + 1) pfuel pr tty with
      | none => rw [hsel] at hrun; cases hrun
      | some sel =>
        rw [hsel] at hrun
        cases sel with
        | quit => simp at hrun
        | chosen pr1 tty1 =>
          simp only [] at hrun
          obtain ⟨x, hx1, hx2, hx3⟩ := deletefiles_select_sound E prompt (S.length + 1) pfuel
            pr tty pr1 tty1 (by omega) hsel
          cases hloop : deletefiles_remove_loop E flags (S.length + 1) dl1 pr1 (S.length + 1) 1
              { s with trace := s.trace ++ [Event.begin_set] } with
          | none => rw [hloop] at hrun; cases hrun
          | some s1 =>
            rw [hloop] at hrun
            simp only [] at hrun
            injection hrun with hrun
            injection hrun with e1 e2 e3 e4
            subst e1 e2 e3 e4
            obtain ⟨-, evs, htr, hat⟩ := deletefiles_remove_loop_sound E flags (S.length + 1)
              dl1 pr1 (S.length + 1) 1 _ s1 hloop
            have hlt : x - 1 < (q :: S).length := by simp; omega
            refine ⟨x, (q :: S)[x - 1], Event.begin_set :: (evs ++ [Event.end_set]), hx1, hx2,
              hx3, List.getElem?_eq_getElem hlt, ?_, ?_⟩
            · simp [htr]
            · intro hm
              simp only [removal_attempts] at hm
              rw [removal_attempts_append] at hm
              simp only [removal_attempts, List.append_nil] at hm
              obtain ⟨j, hj1, hj2, hj3, hj4⟩ := hat _ hm
              have hjlt : j - 1 < (q :: S).length := by simp; omega
              have hdj : dl1.val (j - 1 + 1) = (q :: S)[j - 1] :=
                c4 (j - 1) _ (List.getElem?_eq_getElem hjlt)
              have ej : j - 1 + 1 = j := by omega
              rw [ej, hj4] at hdj
              have hnd := Chain_nodup _ _ hc
              have hidx : x - 1 = j - 1 :=
                (List.Nodup.getElem_inj_iff hnd).mp hdj
              have hxj : x = j := by omega
              subst hxj
              exact hx3 hj3
  · intro pr1 tty1 hsel
    exact deletefiles_select_sound E prompt (S.length + 1) pfuel pr tty pr1 tty1 (by omega) hsel
  · intro hp hf hdl hpr
    subst hp
    obtain ⟨r, hcol⟩ := deletefiles_collect_total s.heap q S cfuel dl hc hf hdl
    obtain ⟨c1, c2, -, c4⟩ := deletefiles_collect_sound s.heap q S cfuel dl r hc hcol
    obtain ⟨counter, dl1⟩ := r
    simp only at c1 c2 c4
    subst c1
    obtain ⟨pr2, hsel, pmax, p1, -⟩ :=
      deletefiles_select_noprompt E (S.length + 1) pfuel pr tty (by omega) (by omega)
    obtain ⟨s1, hloop⟩ := deletefiles_remove_loop_total E flags (S.length + 1) dl1 pr2
      (by omega) (by omega) ⟨1, Nat.le_refl _, by omega, by rw [p1]; decide⟩
      (S.length + 1) 1 { s with trace := s.trace ++ [Event.begin_set] } (by omega)
    refine ⟨{ s1 with trace := s1.trace ++ [Event.end_set] }, dl1, pr2, tty, ?_⟩
    unfold deletefiles_set
    rw [hcol]
    simp only [hsel, hloop]

/-- Witness of C9: the group `0 -> 1` of `heap_abc` in prompt mode; the user
first enters an empty line and then `2`. -/
theorem deletefiles_preserves_a_member_witness :
    ∃ s' dl' pr' tty', deletefiles_set env_abc flags_none 2 3 true state_abc 0
        dupelist_abc preserve_abc [[10], [50, 10]] = some (SetResult.done s' dl' pr' tty') ∧
      ∃ x m evs, 1 ≤ x ∧ x ≤ [1].length + 1 ∧ pr'.val x ≠ 0 ∧ (0 :: [1])[x - 1]? = some m ∧
        s'.trace = state_abc.trace ++ evs ∧ m ∉ removal_attempts evs :=
  ⟨_, _, _, _, rfl,
    (deletefiles_preserves_a_member env_abc flags_none 2 3 true state_abc 0 [1]
      dupelist_abc preserve_abc [[10], [50, 10]] ⟨rfl, rfl, rfl⟩).1 _ _ _ _ rfl⟩

/-! ## Properties of deletesuccessor -/

/-- C12, as the code does it (immediate mode keeper).  `deletesuccessor`
keeps the resident when `comparef(new, resident) >= 0` and the new record
otherwise; the record it keeps is the one named on the `[+]` line and the
other one is the deletion target.  Under the three comparators of `main` the
record kept compares less than or equal to the target, and the target never
compares strictly less than the record kept. -/
theorem deletesuccessor_keeps_lesser {DB : Type} (E : Env DB) (flags : Flags)
    (o : ordertype_t) (comparef : file_t → file_t → Int) (s : State DB)
    (existing duplicate : Ptr) (matchconfirmed : Bool) :
    (∃ to_delete evs,
      (deletesuccessor E flags comparef s existing duplicate matchconfirmed).1.trace
        = s.trace ++ evs ∧
      kept_files evs = [(deletesuccessor E flags comparef s existing duplicate matchconfirmed).2] ∧
      deletion_targets evs = [to_delete] ∧
      (comparef (s.heap duplicate) (s.heap existing) ≥ 0 →
        (deletesuccessor E flags comparef s existing duplicate matchconfirmed).2 = existing ∧
        to_delete = duplicate) ∧
      (comparef (s.heap duplicate) (s.heap existing) < 0 →
        (deletesuccessor E flags comparef s existing duplicate matchconfirmed).2 = duplicate ∧
        to_delete = existing)) ∧
    (∃ to_delete evs,
      (deletesuccessor E flags (comparef_of flags o) s existing duplicate matchconfirmed).1.trace
        = s.trace ++ evs ∧
      kept_files evs
        = [(deletesuccessor E flags (comparef_of flags o) s existing duplicate
            matchconfirmed).2] ∧
      deletion_targets evs = [to_delete] ∧
      comparef_of flags o
        (s.heap (deletesuccessor E flags (comparef_of flags o) s existing duplicate
          matchconfirmed).2) (s.heap to_delete) ≤ 0 ∧
      ¬ comparef_of flags o (s.heap to_delete)
        (s.heap (deletesuccessor E flags (comparef_of flags o) s existing duplicate
          matchconfirmed).2) < 0) := by
  constructor
  · obtain ⟨t, evs, h1, h2, h3, -, h5, h6⟩ :=
      deletesuccessor_spec E flags comparef s existing duplicate matchconfirmed
    exact ⟨t, evs, h1, h2, h3, h5, h6⟩
  · obtain ⟨t, evs, h1, h2, h3, -, h5, h6⟩ :=
      deletesuccessor_spec E flags (comparef_of flags o) s existing duplicate matchconfirmed
    refine ⟨t, evs, h1, h2, h3, ?_⟩
    have hs := comparef_of_sign flags o (s.heap existing) (s.heap duplicate)
    have hs' := comparef_of_sign flags o (s.heap duplicate) (s.heap existing)
    by_cases hk : comparef_of flags o (s.heap duplicate) (s.heap existing) ≥ 0
    · obtain ⟨e1, e2⟩ := h5 hk
      rw [e1, e2]
      constructor
      · by_contra hc
        have : 0 < comparef_of flags o (s.heap existing) (s.heap duplicate) := by omega
        have := hs'.mpr this
        omega
      · omega
    · obtain ⟨e1, e2⟩ := h6 (by omega)
      rw [e1, e2]
      constructor
      · omega
      · intro hc
        have := hs.mp hc
        omega

/-- C12 as stated fails: with the time order the new record 2 (time 20)
compares strictly greater than the resident 1 (time 10), and it is the
deletion target; the resident is kept. -/
theorem deletesuccessor_greater_is_target :
    sort_pairs_by_mtime flags_none (heap_scan 2) (heap_scan 1) > 0 ∧
    (deletesuccessor env_abc flags_none (sort_pairs_by_mtime flags_none) state_scan 1 2 true).2
      = 1 ∧
    removal_attempts (deletesuccessor env_abc flags_none (sort_pairs_by_mtime flags_none)
      state_scan 1 2 true).1.trace = [2] ∧
    deletion_targets (deletesuccessor env_abc flags_none (sort_pairs_by_mtime flags_none)
      state_scan 1 2 true).1.trace = [2] := by
  refine ⟨by decide, by decide, by decide, by decide⟩

/-- C13 (immediate mode with name order).  Without the reverse flag, for two
records whose paths differ (and hold no NUL byte), `deletesuccessor` with
`sort_pairs_by_filename` keeps the record whose path is lexicographically
smaller, whichever of the two is the resident and whichever the new record;
the other one is the deletion target, and `removeifnotchanged` is called on it
when the match was confirmed. -/
theorem deletesuccessor_by_filename {DB : Type} (E : Env DB) (flags : Flags) (s : State DB)
    (existing duplicate : Ptr) (matchconfirmed : Bool)
    (hR : flags.F_REVERSE = false)
    (hz1 : 0 ∉ (s.heap existing).d_name) (hz2 : 0 ∉ (s.heap duplicate).d_name)
    (hne : (s.heap existing).d_name ≠ (s.heap duplicate).d_name) :
    ∃ to_keep to_delete evs,
      (deletesuccessor E flags (sort_pairs_by_filename flags) s existing duplicate
        matchconfirmed).2 = to_keep ∧
      ((to_keep = existing ∧ to_delete = duplicate) ∨
        (to_keep = duplicate ∧ to_delete = existing)) ∧
      List.Lex (fun x y => x < y) (s.heap to_keep).d_name (s.heap to_delete).d_name ∧
      (deletesuccessor E flags (sort_pairs_by_filename flags) s existing duplicate
        matchconfirmed).1.trace = s.trace ++ evs ∧
      kept_files evs = [to_keep] ∧ deletion_targets evs = [to_delete] ∧
      removal_attempts evs = (if matchconfirmed then [to_delete] else []) := by
  obtain ⟨t, evs, h1, h2, h3, h4, h5, h6⟩ :=
    deletesuccessor_spec E flags (sort_pairs_by_filename flags) s existing duplicate
      matchconfirmed
  have hcmp : sort_pairs_by_filename flags (s.heap duplicate) (s.heap existing)
      = strcmp (s.heap duplicate).d_name (s.heap existing).d_name := by
    simp [sort_pairs_by_filename, hR]
  have hanti := strcmp_antisymm (s.heap existing).d_name (s.heap duplicate).d_name
  have hzero := strcmp_eq_zero_iff (s.heap existing).d_name (s.heap duplicate).d_name hz1 hz2
  by_cases hk : sort_pairs_by_filename flags (s.heap duplicate) (s.heap existing) ≥ 0
  · obtain ⟨e1, e2⟩ := h5 hk
    refine ⟨existing, duplicate, evs, e1, Or.inl ⟨rfl, rfl⟩, ?_, h1, ?_, ?_, ?_⟩
    · rw [← strcmp_neg_iff_lex _ _ hz1 hz2]
      rw [hcmp] at hk
      have : strcmp (s.heap existing).d_name (s.heap duplicate).d_name ≠ 0 :=
        fun e => hne (hzero.mp e)
      omega
    · rw [h2, e1]
    · rw [h3, e2]
    · rw [h4, e2]
  · obtain ⟨e1, e2⟩ := h6 (by omega)
    refine ⟨duplicate, existing, evs, e1, Or.inr ⟨rfl, rfl⟩, ?_, h1, ?_, ?_, ?_⟩
    · rw [← strcmp_neg_iff_lex _ _ hz2 hz1]
      rw [hcmp] at hk
      omega
    · rw [h2, e1]
    · rw [h3, e2]
    · rw [h4, e2]

/-- Witness of C13: the files "z" (record 1) and "a" (record 2); "a" is kept
and "z" removed, with "z" as the resident and with "a" as the resident. -/
theorem deletesuccessor_by_filename_witness :
    (∃ to_keep to_delete evs,
      (deletesuccessor env_abc flags_none (sort_pairs_by_filename flags_none) state_za 1 2
        true).2 = to_keep ∧
      ((to_keep = 1 ∧ to_delete = 2) ∨ (to_keep = 2 ∧ to_delete = 1)) ∧
      List.Lex (fun x y => x < y) (state_za.heap to_keep).d_name
        (state_za.heap to_delete).d_name ∧
      (deletesuccessor env_abc flags_none (sort_pairs_by_filename flags_none) state_za 1 2
        true).1.trace = state_za.trace ++ evs ∧
      kept_files evs = [to_keep] ∧ deletion_targets evs = [to_delete] ∧
      removal_attempts evs = (if true = true then [to_delete] else [])) ∧
    (deletesuccessor env_abc flags_none (sort_pairs_by_filename flags_none) state_za 1 2
      true).2 = 2 ∧
    (deletesuccessor env_abc flags_none (sort_pairs_by_filename flags_none) state_za 2 1
      true).2 = 2 :=
  ⟨deletesuccessor_by_filename env_abc flags_none state_za 1 2 true rfl (by decide)
    (by decide) (by decide), by decide, by decide⟩

/-- C14 (the stored peer reference).  After `deletesuccessor`, `*existing`
is the record named on the `[+]` line; it is the new record exactly when
`comparef(new, resident) < 0` and the resident otherwise, and it is not the
deletion target.  In the scan loop of `main` in immediate mode the node that
`match` points into holds the record kept afterwards, and when the tree
held each record once and not the new record, no node holds the deletion
target. -/
theorem deletesuccessor_existing_is_kept {DB : Type} (E : Env DB) (flags : Flags)
    (o : ordertype_t) (comparef : file_t → file_t → Int) (s : State DB)
    (existing duplicate : Ptr) (matchconfirmed : Bool) (hne : existing ≠ duplicate) :
    (∃ to_delete evs,
      (deletesuccessor E flags comparef s existing duplicate matchconfirmed).1.trace
        = s.trace ++ evs ∧
      kept_files evs = [(deletesuccessor E flags comparef s existing duplicate matchconfirmed).2] ∧
      deletion_targets evs = [to_delete] ∧
      to_delete ≠ (deletesuccessor E flags comparef s existing duplicate matchconfirmed).2 ∧
      ((deletesuccessor E flags comparef s existing duplicate matchconfirmed).2 = duplicate ↔
        comparef (s.heap duplicate) (s.heap existing) < 0) ∧
      ((deletesuccessor E flags comparef s existing duplicate matchconfirmed).2 = existing ↔
        comparef (s.heap duplicate) (s.heap existing) ≥ 0)) ∧
    (∀ (cfuel : Nat) (ms1 : Scan DB) (path : List Bool),
      (flags.F_DELETEFILES && flags.F_IMMEDIATE) = true →
      ms1.matched = some path → ms1.checktree.file_at path = some existing →
      E.fopen (ms1.st.heap duplicate).d_name = true →
      E.fopen (ms1.st.heap existing).d_name = true →
      ∃ ms' to_keep to_delete evs,
        main_scan_pair E flags o cfuel ms1 duplicate = some ms' ∧
        ms'.st.trace = ms1.st.trace ++ evs ∧
        kept_files evs = [to_keep] ∧ deletion_targets evs = [to_delete] ∧
        ms'.checktree.file_at path = some to_keep ∧ to_delete ≠ to_keep ∧
        (ms1.checktree.files.Nodup → duplicate ∉ ms1.checktree.files →
          to_delete ∉ ms'.checktree.files)) := by
  constructor
  · obtain ⟨t, evs, h1, h2, h3, -, h5, h6⟩ :=
      deletesuccessor_spec E flags comparef s existing duplicate matchconfirmed
    refine ⟨t, evs, h1, h2, h3, ?_, ?_, ?_⟩
    · by_cases hk : comparef (s.heap duplicate) (s.heap existing) ≥ 0
      · obtain ⟨e1, e2⟩ := h5 hk
        rw [e1, e2]; exact fun e => hne e.symm
      · obtain ⟨e1, e2⟩ := h6 (by omega)
        rw [e1, e2]; exact hne
    · constructor
      · intro e
        by_contra hk
        obtain ⟨e1, _⟩ := h5 (by omega)
        rw [e1] at e
        exact hne e
      · intro hk; exact (h6 hk).1
    · constructor
      · intro e
        by_contra hk
        obtain ⟨e1, _⟩ := h6 (by omega)
        rw [e1] at e
        exact hne e.symm
      · intro hk; exact (h5 hk).1
  · intro cfuel ms1 path hI hm hat hf1 hf2
    obtain ⟨t, evs, h1, h2, h3, -, h5, h6⟩ :=
      deletesuccessor_spec E flags (comparef_of flags o) ms1.st existing duplicate
        (E.confirmmatch (ms1.st.heap duplicate).d_name (ms1.st.heap existing).d_name)
    have hrun : main_scan_pair E flags o cfuel ms1 duplicate
        = some { ms1 with
            st := (deletesuccessor E flags (comparef_of flags o) ms1.st existing duplicate
              (E.confirmmatch (ms1.st.heap duplicate).d_name (ms1.st.heap existing).d_name)).1,
            checktree := ms1.checktree.set_file_at path
              (deletesuccessor E flags (comparef_of flags o) ms1.st existing duplicate
                (E.confirmmatch (ms1.st.heap duplicate).d_name
                  (ms1.st.heap existing).d_name)).2 } := by
      unfold main_scan_pair
      simp only [hm, hat, hf1, hf2, hI, Bool.not_true, Bool.false_eq_true, if_false, if_true]
    have hneq : t ≠ (deletesuccessor E flags (comparef_of flags o) ms1.st existing duplicate
        (E.confirmmatch (ms1.st.heap duplicate).d_name (ms1.st.heap existing).d_name)).2 := by
      by_cases hk : comparef_of flags o (ms1.st.heap duplicate) (ms1.st.heap existing) ≥ 0
      · obtain ⟨e1, e2⟩ := h5 hk
        rw [e1, e2]; exact fun e => hne e.symm
      · obtain ⟨e1, e2⟩ := h6 (by omega)
        rw [e1, e2]; exact hne
    refine ⟨_, _, t, evs, hrun, h1, h2, h3,
      file_at_set_file_at _ _ _ _ hat, hneq, ?_⟩
    intro hnd hnot
    obtain ⟨X, p1, p2⟩ := set_file_at_files ms1.checktree path existing
      (deletesuccessor E flags (comparef_of flags o) ms1.st existing duplicate
        (E.confirmmatch (ms1.st.heap duplicate).d_name (ms1.st.heap existing).d_name)).2 hat
    intro hmem
    have hmem' := p2.mem_iff.mp hmem
    have hnd' : (existing :: X).Nodup := p1.nodup_iff.mp hnd
    by_cases hk : comparef_of flags o (ms1.st.heap duplicate) (ms1.st.heap existing) ≥ 0
    · obtain ⟨e1, e2⟩ := h5 hk
      rw [e1] at hmem'
      rw [e2] at hmem'
      exact hnot (p1.mem_iff.mpr hmem')
    · obtain ⟨e1, e2⟩ := h6 (by omega)
      rw [e1] at hmem'
      rw [e2] at hmem'
      rcases List.mem_cons.mp hmem' with e | hx
      · exact hne e
      · exact (List.nodup_cons.mp hnd').1 hx

/-- Witness of C14: the resident "z" (record 1) and the new record "a"
(record 2) under the name order. -/
theorem deletesuccessor_existing_is_kept_witness :
    ∃ to_delete evs,
      (deletesuccessor env_abc flags_none (sort_pairs_by_filename flags_none) state_za 1 2
        true).1.trace = state_za.trace ++ evs ∧
      kept_files evs = [(deletesuccessor env_abc flags_none
        (sort_pairs_by_filename flags_none) state_za 1 2 true).2] ∧
      deletion_targets evs = [to_delete] ∧
      to_delete ≠ (deletesuccessor env_abc flags_none (sort_pairs_by_filename flags_none)
        state_za 1 2 true).2 ∧
      ((deletesuccessor env_abc flags_none (sort_pairs_by_filename flags_none) state_za 1 2
        true).2 = 2 ↔
        sort_pairs_by_filename flags_none (state_za.heap 2) (state_za.heap 1) < 0) ∧
      ((deletesuccessor env_abc flags_none (sort_pairs_by_filename flags_none) state_za 1 2
        true).2 = 1 ↔
        sort_pairs_by_filename flags_none (state_za.heap 2) (state_za.heap 1) ≥ 0) :=
  (deletesuccessor_existing_is_kept env_abc flags_none ordertype_t.ORDER_NAME
    (sort_pairs_by_filename flags_none) state_za 1 2 true (by decide)).1

/-! ## Properties of the identity oracle and of the enumerator -/

/-- C17, as the code does it.  `is_same_file(a, b)` is 1 exactly when `a`
and `b` have equal `(device, inode)`, their base names are equal (`strcmp`
is 0) and both parent directories can be statted and have equal
`(device, inode)`; it is -1, which is non-zero, exactly when `(device,
inode)` and the base names are equal and a parent directory cannot be
statted; in every other case it is 0.  `has_same_file` counts -1 as a hit
like 1. -/
theorem is_same_file_values {DB : Type} (E : Env DB) (a b : file_t) :
    (is_same_file E a b = 1 ↔
      (a.device = b.device ∧ a.inode = b.inode ∧
        strcmp (E.basename a.d_name) (E.basename b.d_name) = 0 ∧
        ∃ da db, E.stat (E.dirname a.d_name) = some da ∧
          E.stat (E.dirname b.d_name) = some db ∧
          da.st_dev = db.st_dev ∧ da.st_ino = db.st_ino)) ∧
    (is_same_file E a b = -1 ↔
      (a.device = b.device ∧ a.inode = b.inode ∧
        strcmp (E.basename a.d_name) (E.basename b.d_name) = 0 ∧
        (E.stat (E.dirname a.d_name) = none ∨ E.stat (E.dirname b.d_name) = none))) ∧
    (is_same_file E a b = 1 ∨ is_same_file E a b = -1 ∨ is_same_file E a b = 0) ∧
    (∀ (fuel : Nat) (h : Heap) (checktree file : Ptr),
      h checktree = a → h file = b → is_same_file E a b ≠ 0 →
      has_same_file E fuel h checktree file = some 1) := by
  refine ⟨?_, ?_, ?_, ?_⟩
  · unfold is_same_file
    by_cases h1 : a.device ≠ b.device ∨ a.inode ≠ b.inode
    · rw [if_pos h1]
      constructor
      · intro h; cases h
      · rintro ⟨e1, e2, -⟩
        rcases h1 with h1 | h1
        · exact absurd e1 h1
        · exact absurd e2 h1
    · rw [if_neg h1]
      have hd : a.device = b.device := by by_contra h; exact h1 (Or.inl h)
      have hi : a.inode = b.inode := by by_contra h; exact h1 (Or.inr h)
      by_cases h2 : strcmp (E.basename a.d_name) (E.basename b.d_name) ≠ 0
      · rw [if_pos h2]
        constructor
        · intro h; cases h
        · rintro ⟨-, -, e3, -⟩
          exact absurd e3 h2
      · rw [if_neg h2]
        have hb : strcmp (E.basename a.d_name) (E.basename b.d_name) = 0 := by
          by_contra h; exact h2 h
        cases ha : E.stat (E.dirname a.d_name) with
        | none =>
          simp only []
          constructor
          · intro h; cases h
          · rintro ⟨-, -, -, da, db, e, -⟩
            cases e
        | some da =>
          cases hbb : E.stat (E.dirname b.d_name) with
          | none =>
            simp only []
            constructor
            · intro h; cases h
            · rintro ⟨-, -, -, da', db, -, e, -⟩
              cases e
          | some db =>
            simp only []
            by_cases h3 : da.st_dev ≠ db.st_dev ∨ da.st_ino ≠ db.st_ino
            · rw [if_pos h3]
              constructor
              · intro h; cases h
              · rintro ⟨-, -, -, da', db', e1, e2, e3, e4⟩
                cases e1
                cases e2
                rcases h3 with h3 | h3
                · exact absurd e3 h3
                · exact absurd e4 h3
            · rw [if_neg h3]
              refine ⟨fun _ => ⟨hd, hi, hb, da, db, rfl, rfl, ?_, ?_⟩, fun _ => rfl⟩
              · by_contra h; exact h3 (Or.inl h)
              · by_contra h; exact h3 (Or.inr h)
  · unfold is_same_file
    by_cases h1 : a.device ≠ b.device ∨ a.inode ≠ b.inode
    · rw [if_pos h1]
      constructor
      · intro h; cases h
      · rintro ⟨e1, e2, -⟩
        rcases h1 with h1 | h1
        · exact absurd e1 h1
        · exact absurd e2 h1
    · rw [if_neg h1]
      have hd : a.device = b.device := by by_contra h; exact h1 (Or.inl h)
      have hi : a.inode = b.inode := by by_contra h; exact h1 (Or.inr h)
      by_cases h2 : strcmp (E.basename a.d_name) (E.basename b.d_name) ≠ 0
      · rw [if_pos h2]
        constructor
        · intro h; cases h
        · rintro ⟨-, -, e3, -⟩
          exact absurd e3 h2
      · rw [if_neg h2]
        have hb : strcmp (E.basename a.d_name) (E.basename b.d_name) = 0 := by
          by_contra h; exact h2 h
        cases ha : E.stat (E.dirname a.d_name) with
        | none =>
          simp [hd, hi, hb]
        | some da =>
          cases hbb : E.stat (E.dirname b.d_name) with
          | none =>
            simp [hd, hi, hb]
          | some db =>
            simp only []
            constructor
            · intro h
              split_ifs at h
            · rintro ⟨-, -, -, e | e⟩ <;> cases e
  · unfold is_same_file
    split_ifs
    · exact Or.inr (Or.inr rfl)
    · exact Or.inr (Or.inr rfl)
    · cases E.stat (E.dirname a.d_name) with
      | none => exact Or.inr (Or.inl rfl)
      | some da =>
        cases E.stat (E.dirname b.d_name) with
        | none => exact Or.inr (Or.inl rfl)
        | some db =>
          simp only []
          split_ifs
          · exact Or.inr (Or.inr rfl)
          · exact Or.inl rfl
  · intro fuel h checktree file e1 e2 hne
    unfold has_same_file
    rw [e1, e2, if_pos hne]

/-- C17 as stated fails: the hard links "x/f" and "y/f" (same device and
inode, same base name) in an environment where no directory can be statted.
`is_same_file` is -1, which is not zero, although no parent directory has a
`(device, inode)`; and `has_same_file` reports a hit. -/
theorem is_same_file_unstatted_parent :
    env_nodir.stat (env_nodir.dirname [120, 47, 102]) = none ∧
    is_same_file env_nodir (fresh_file [120, 47, 102] 5 1 100 10)
      (fresh_file [121, 47, 102] 5 1 100 10) = -1 ∧
    is_same_file env_nodir (fresh_file [120, 47, 102] 5 1 100 10)
      (fresh_file [121, 47, 102] 5 1 100 10) ≠ 0 ∧
    has_same_file env_nodir 1
      (fun p => if p = 0 then fresh_file [120, 47, 102] 5 1 100 10
        else fresh_file [121, 47, 102] 5 1 100 10) 0 1 = some 1 := by
  refine ⟨rfl, by decide, by decide, by decide⟩

/-- C20 (size filter).  For an entry of size `s >= 0`, the size test of
`grokdir` lets the entry through exactly when it is a directory, to which
the test is not applied, or `(minsize = -1 or s >= minsize)` and `(maxsize =
-1 or s <= maxsize)` and (the exclude-empty flag is off or `s > 0`); both
bounds are inclusive.  An entry that the test does not let through is
dropped: the body of the loop leaves the file list and `filecount` as they
are. -/
theorem grokdir_size_filter {DB : Type} (E : Env DB) (flags : Flags) (minsize maxsize : Int)
    (info : stat_t) (hs : 0 ≤ info.st_size) :
    (grokdir_size_skip flags minsize maxsize info = false ↔
      (S_ISDIR info.st_mode = true ∨
        ((minsize = -1 ∨ minsize ≤ info.st_size) ∧ (maxsize = -1 ∨ info.st_size ≤ maxsize) ∧
          (flags.F_EXCLUDEEMPTY = false ∨ 0 < info.st_size)))) ∧
    (S_ISDIR info.st_mode = true → grokdir_size_skip flags minsize maxsize info = false) ∧
    (∀ (logfile_status : Option stat_t)
      (recurse : List Nat → Grok DB → Option (Grok DB × Int))
      (dir : List Nat) (fullpath : Option (List Nat)) (pathid : Int) (name : List Nat)
      (g : Grok DB) (filecount : Int),
      E.stat (grokdir_path dir name) = some info →
      grokdir_size_skip flags minsize maxsize info = true →
      ∃ g', grokdir_entry E flags minsize maxsize logfile_status recurse dir fullpath pathid
          name g filecount = some (g', filecount) ∧ g'.filelist = g.filelist) := by
  refine ⟨?_, ?_, ?_⟩
  · unfold grokdir_size_skip
    cases hd : S_ISDIR info.st_mode
    · cases he : flags.F_EXCLUDEEMPTY <;> simp <;> omega
    · simp
  · intro hd
    unfold grokdir_size_skip
    simp [hd]
  · intro ls recurse dir fullpath pathid name g filecount hstat hskip
    exact grokdir_entry_skip E flags minsize maxsize ls recurse dir fullpath pathid name g
      filecount info hstat hskip

/-- Witness of C20: a regular file of five bytes passes with `minsize =
maxsize = 5`. -/
theorem grokdir_size_filter_witness :
    (grokdir_size_skip flags_none 5 5 info_five = false ↔
      (S_ISDIR info_five.st_mode = true ∨
        (((5 : Int) = -1 ∨ 5 ≤ info_five.st_size) ∧ ((5 : Int) = -1 ∨ info_five.st_size ≤ 5) ∧
          (flags_none.F_EXCLUDEEMPTY = false ∨ 0 < info_five.st_size)))) ∧
    grokdir_size_skip flags_none 5 5 info_five = false :=
  ⟨(grokdir_size_filter env_abc flags_none 5 5 info_five (by decide)).1, by decide⟩

/-! ## Properties of the staged comparison of checkmatch -/

/-- C15 (staged comparison).  At a node whose resident differs in size from
the incoming record the comparison stage sets `cmpresult` and leaves the
state as it is: no digest reader is called and nothing is loaded.  In any
call of `checkmatch`, `getcrcsignature` is called for a record only at a node
whose resident has the size of the incoming record and whose partial digest
is populated and equal to that of the incoming record.  Consequently, after
the scan loop has processed a file list, every record that a full digest was
computed for has the size and the partial digest of another record of the
list. -/
theorem checkmatch_staged_digests {DB : Type} (E : Env DB) (flags : Flags) (o : ordertype_t)
    (A : List Ptr) (h0 : Heap) (db : DB) (first : Option Ptr) (fuel cfuel : Nat)
    (hl : Listed h0 first A)
    (hfresh : ∀ x ∈ A, (h0 x).hasdupes = 0 ∧ (h0 x).duplicates = none)
    (hf : A.length ≤ fuel) (hcf : A.length ≤ cfuel) :
    (∀ (s : State DB) (ct file : Ptr), (s.heap file).size ≠ (s.heap ct).size →
      ∃ c, checkmatch_compare E flags s ct file = Compared.result s c ∧ c ≠ 0) ∧
    (∀ (t : filetree_t) (file : Ptr) (s s' : State DB) (t' : filetree_t)
      (m : Option (List Bool)),
      checkmatch E flags cfuel t file s = some (s', t', m) →
      ∃ evs, s'.trace = s.trace ++ evs ∧
        ∀ p, Event.getcrcsignature p ∈ evs →
          ∃ ct ∈ t.files, ct ≠ file ∧ (p = file ∨ p = ct) ∧
            (s'.heap file).size = (s'.heap ct).size ∧
            digests_equal (file_t.crcpartial (s'.heap file))
              (file_t.crcpartial (s'.heap ct))) ∧
    (∃ ms, main_scan E flags o cfuel fuel (scan_init h0 db) first = some ms ∧
      ∀ p, Event.getcrcsignature p ∈ ms.st.trace →
        p ∈ A ∧ ∃ q ∈ A, q ≠ p ∧ (ms.st.heap p).size = (ms.st.heap q).size ∧
          digests_equal (file_t.crcpartial (ms.st.heap p))
            (file_t.crcpartial (ms.st.heap q))) := by
  refine ⟨?_, ?_, ?_⟩
  · intro s ct file hsz
    refine ⟨_, checkmatch_compare_size E flags s ct file hsz, ?_⟩
    split_ifs <;> decide
  · intro t file s s' t' m h
    obtain ⟨evs, run, -, -, hs, -⟩ := checkmatch_digest_calls E flags cfuel file t s s' t' m h
    exact ⟨evs, run.1, hs⟩
  · obtain ⟨ms, hrun, -, -⟩ := main_scan_groups E flags o (fun _ _ => True)
      (fun _ _ _ => trivial) (fun _ _ _ _ _ => trivial) A h0 db first fuel cfuel
      (fun _ _ _ _ _ _ => trivial) hl hfresh hf hcf
    obtain ⟨hfirst, hclosed⟩ := Listed_closed h0 A first hl
    have inv0 : FullDigestInv A (scan_init h0 db) :=
      ⟨hclosed, by simp [scan_init, filetree_t.files], by simp [scan_init]⟩
    have inv := main_scan_digest E flags o cfuel A fuel _ ms first inv0 hfirst hrun
    exact ⟨ms, hrun, inv.2.2⟩

/-- Witness of C15: the files "a" (ALPHA) and "b" (ALPHZ) of five bytes.
Each gets a partial digest, and no full digest is computed. -/
theorem checkmatch_staged_digests_witness :
    (∃ ms, main_scan env_alpha flags_none ordertype_t.ORDER_MTIME 2 2 (scan_init heap_alpha ())
        (some 1) = some ms ∧
      ∀ p, Event.getcrcsignature p ∈ ms.st.trace →
        p ∈ [1, 2] ∧ ∃ q ∈ [1, 2], q ≠ p ∧ (ms.st.heap p).size = (ms.st.heap q).size ∧
          digests_equal (file_t.crcpartial (ms.st.heap p))
            (file_t.crcpartial (ms.st.heap q))) ∧
    (main_scan env_alpha flags_none ordertype_t.ORDER_MTIME 2 2 (scan_init heap_alpha ())
        (some 1)).map (fun ms => ms.st.trace) =
      some [Event.registerfile 1, Event.getcrcpartialsignature 1,
        Event.getcrcpartialsignature 2, Event.registerfile 2] :=
  ⟨(checkmatch_staged_digests env_alpha flags_none ordertype_t.ORDER_MTIME [1, 2] heap_alpha ()
    (some 1) 2 2 ⟨rfl, rfl, rfl⟩ (by decide) (by decide) (by decide)).2.2, by decide⟩

/-- C16 (digest failure).  A block of `checkmatch` that fills a digest
leaves the function with `return NULL` exactly when the digest is missing
(also after the load from the hash database) and the reader returns NULL.
At a node that passes the identity pre-check, a comparison stage that ends in
such a `return NULL` makes `checkmatch` return NULL with the tree as it was.
And a call of `checkmatch` on a tree returns; when a digest reader was called
for a record during the call and that digest is NULL afterwards, the result
is NULL and the tree is the tree on entry: the incoming record is neither
inserted nor matched. -/
theorem checkmatch_digest_failure {DB : Type} (E : Env DB) (flags : Flags) (fuel : Nat)
    (t : filetree_t) (file : Ptr) (s : State DB)
    (ht : t ≠ filetree_t.null) (hok : PrecheckOK s.heap fuel t.files) :
    (∀ (p : Ptr) (s0 : State DB),
      ((checkmatch_partial_fill E flags p s0).2 = false ↔
        (file_t.crcpartial (s0.heap p) = none ∧
         (flags.F_CACHESIGNATURES = true → (E.hashdb_loadhash s0.db (s0.heap p)).1 = none) ∧
         E.getcrcpartialsignature (s0.heap p).d_name (s0.heap p).size = none)) ∧
      ((checkmatch_signature_fill E flags p s0).2 = false ↔
        ((s0.heap p).crcsignature = none ∧
         E.getcrcsignature (s0.heap p).d_name (s0.heap p).size = none))) ∧
    (∀ (ct : Ptr) (l r : filetree_t) (s0 s1 : State DB),
      checkmatch_precheck E flags fuel s0.heap ct file = some 0 →
      checkmatch_compare E flags s0 ct file = Compared.null s1 →
      checkmatch E flags fuel (filetree_t.node ct l r) file s0
        = some (s1, filetree_t.node ct l r, none)) ∧
    (∃ s' t' m evs, checkmatch E flags fuel t file s = some (s', t', m) ∧
      s'.trace = s.trace ++ evs ∧
      ∀ p, (Event.getcrcpartialsignature p ∈ evs ∧ file_t.crcpartial (s'.heap p) = none) ∨
          (Event.getcrcsignature p ∈ evs ∧ (s'.heap p).crcsignature = none) →
        m = none ∧ t' = t) := by
  refine ⟨?_, ?_, ?_⟩
  · intro p s0
    exact ⟨checkmatch_partial_fill_fails E flags p s0,
      checkmatch_signature_fill_fails E flags p s0⟩
  · intro ct l r s0 s1 hpre hcmp
    unfold checkmatch
    simp only [hpre, hcmp]
    rw [if_neg (by simp)]
  · obtain ⟨s', t', m, hrun, -, -⟩ := checkmatch_spec E flags fuel file t s ht hok
    obtain ⟨evs, run, -, -, -, hbad⟩ := checkmatch_digest_calls E flags fuel file t s s' t' m hrun
    exact ⟨s', t', m, evs, hrun, run.1, hbad⟩

/-- Witness of C16: the file "b" looked up in the tree of the file "a" when
no file can be read.  The partial digest of the resident cannot be computed;
`checkmatch` returns NULL and the tree still holds "a" alone. -/
theorem checkmatch_digest_failure_witness :
    (∃ s' t' m evs, checkmatch env_unreadable flags_none 1
        (filetree_t.node 1 filetree_t.null filetree_t.null) 2 state_scan = some (s', t', m) ∧
      s'.trace = state_scan.trace ++ evs ∧
      ∀ p, (Event.getcrcpartialsignature p ∈ evs ∧ file_t.crcpartial (s'.heap p) = none) ∨
          (Event.getcrcsignature p ∈ evs ∧ (s'.heap p).crcsignature = none) →
        m = none ∧ t' = filetree_t.node 1 filetree_t.null filetree_t.null) ∧
    (checkmatch env_unreadable flags_none 1
        (filetree_t.node 1 filetree_t.null filetree_t.null) 2 state_scan).map
      (fun r => (r.1.trace, r.2.1.files, r.2.2)) =
      some ([Event.getcrcpartialsignature 1], [1], none) :=
  ⟨(checkmatch_digest_failure env_unreadable flags_none 1
    (filetree_t.node 1 filetree_t.null filetree_t.null) 2 state_scan (by simp)
    (by
      intro q _ hq
      simp [filetree_t.files] at *
      subst_vars
      exact absurd rfl hq)).2.2, by decide⟩

/-! ## Properties of the digest readers -/

/-- C18 (prefix and full digest input).  Let `L` be `min(s, N)` when `N >
0` and `s` when `N = 0`.  For a file that can be opened and holds at least
`L` bytes, and a positive `CHUNK_SIZE`, `getcrcsignatureuntil(name, s, N)`
returns a digest; what it has fed to md5 is the first `L` bytes of the file,
in pieces of at most `CHUNK_SIZE` bytes that follow one another from offset
0; the read loop makes `ceil(L / CHUNK_SIZE)` passes, one per piece, and does
not finish in fewer.  `getcrcpartialsignature` is the call with `N =
PARTIAL_MD5_SIZE`. -/
theorem getcrcsignatureuntil_prefix_fed (CHUNK_SIZE s N len fuel : Nat)
    (hC : 0 < CHUNK_SIZE)
    (hlen : (if N = 0 then s else min s N) ≤ len)
    (hfuel : (if N = 0 then s else min s N) ≤ fuel * CHUNK_SIZE) :
    ∃ state, getcrcsignatureuntil CHUNK_SIZE fuel (some { length := len, pos := 0 }) s N
        = some (some state) ∧
      (∀ content, fed_bytes content state = content.take (if N = 0 then s else min s N)) ∧
      (∀ c ∈ state, 0 < c.2 ∧ c.2 ≤ CHUNK_SIZE) ∧ chunks_follow 0 state ∧
      state.length = ((if N = 0 then s else min s N) + CHUNK_SIZE - 1) / CHUNK_SIZE ∧
      (∀ fuel', fuel' < state.length →
        getcrcsignatureuntil CHUNK_SIZE fuel' (some { length := len, pos := 0 }) s N = none) ∧
      (∀ stream, getcrcpartialsignature CHUNK_SIZE fuel stream s
        = getcrcsignatureuntil CHUNK_SIZE fuel stream s 4096) := by
  obtain ⟨cs, hrun, hcnt, hcs, hbytes, hfol⟩ := read_loop_spec CHUNK_SIZE hC fuel
    (if N = 0 then s else min s N) { length := len, pos := 0 } [] (by simpa using hlen) hfuel
  refine ⟨cs, ?_, ?_, ?_, hfol, ?_, ?_, ?_⟩
  · unfold getcrcsignatureuntil
    simp only []
    rw [getcrcsignatureuntil_fsize, hrun]
    simp
  · intro content
    rw [hbytes content]
    simp [chunk_bytes]
  · intro c hc
    have := hcs c hc
    exact ⟨this.1, this.2.1⟩
  · symm
    apply Nat.div_eq_of_lt_le
    · omega
    · rw [Nat.succ_mul]
      omega
  · intro fuel' hlt
    have hmul : fuel' * CHUNK_SIZE + CHUNK_SIZE ≤ cs.length * CHUNK_SIZE := by
      have := Nat.mul_le_mul_right CHUNK_SIZE (by omega : fuel' + 1 ≤ cs.length)
      rw [Nat.succ_mul] at this
      exact this
    have hnone := read_loop_fuel CHUNK_SIZE hC fuel' (if N = 0 then s else min s N)
      { length := len, pos := 0 } [] (by simpa using hlen) (by omega)
    unfold getcrcsignatureuntil
    simp only []
    rw [getcrcsignatureuntil_fsize, hnone]
  · intro stream
    rfl

/-- Witness of C18: a file of 10000 bytes read with `CHUNK_SIZE = 8192`;
the partial digest is fed the first 4096 bytes in one piece. -/
theorem getcrcsignatureuntil_prefix_fed_witness :
    (∃ state, getcrcsignatureuntil (8192 : Nat) 1 (some { length := 10000, pos := 0 })
        (10000 : Nat) (4096 : Nat) = some (some state) ∧
      (∀ content, fed_bytes content state
        = content.take (if 4096 = 0 then 10000 else min 10000 4096)) ∧
      (∀ c ∈ state, 0 < c.2 ∧ c.2 ≤ 8192) ∧ chunks_follow 0 state ∧
      state.length = ((if 4096 = 0 then 10000 else min 10000 4096) + 8192 - 1) / 8192 ∧
      (∀ fuel', fuel' < state.length →
        getcrcsignatureuntil (8192 : Nat) fuel' (some { length := 10000, pos := 0 })
          (10000 : Nat) (4096 : Nat) = none) ∧
      (∀ stream, getcrcpartialsignature (8192 : Nat) 1 stream (10000 : Nat)
        = getcrcsignatureuntil (8192 : Nat) 1 stream (10000 : Nat) 4096)) ∧
    getcrcpartialsignature 8192 1 (some { length := 10000, pos := 0 }) 10000
      = some (some [(0, 4096)]) ∧
    getcrcsignatureuntil 8192 2 (some { length := 10000, pos := 0 }) 10000 0
      = some (some [(0, 8192), (8192, 1808)]) :=
  ⟨getcrcsignatureuntil_prefix_fed 8192 10000 4096 10000 1 (by decide) (by decide)
    (by decide), by decide, by decide⟩

/-- C19, as the code does it (sampled digest blocks).  For a file of `s > 3
MB` bytes that can be opened and holds at least `s` bytes,
`getheuristicsignature` returns a digest; what it has fed to md5 is, in this
order, the 1 MB block at offset 0, the 1 MB block at every positive multiple
`o` of 50 MB with `o + 1 MB < s` (strictly: a block that would end at `s`
is left to the last step), in increasing order of `o`, and the 1 MB block
that ends at `s`; nothing else.  `getcrcsignature` takes this way exactly
when the heuristic flag is set and `fsize > 3 MB`, and is
`getcrcsignatureuntil(name, fsize, 0)` otherwise. -/
theorem getheuristicsignature_blocks (CHUNK_SIZE s len fuel : Nat) (hC : 0 < CHUNK_SIZE)
    (hs : 3 * 1048576 < s) (hlen : s ≤ len)
    (hfuel : 1048576 ≤ fuel * CHUNK_SIZE ∧ s / 52428800 ≤ fuel) :
    (∃ state, getheuristicsignature CHUNK_SIZE fuel (some { length := len, pos := 0 }) s
        = some (some state) ∧
      ∀ content, fed_bytes content state
        = (sampled_blocks true s).flatMap (chunk_bytes content)) ∧
    (∀ o, o ∈ sampled_offsets true s ↔
      ∃ k, 0 < k ∧ o = k * 52428800 ∧ o + 1048576 < s) ∧
    List.Pairwise (fun a b => a < b) (sampled_offsets true s) ∧
    (∀ (flags : Flags) (stream : Option FILE) (fsize : Int),
      (flags.F_HEURISTIC = true ∧ fsize > 3 * 1048576 →
        getcrcsignature flags CHUNK_SIZE fuel stream fsize
          = getheuristicsignature CHUNK_SIZE fuel stream fsize) ∧
      (¬ (flags.F_HEURISTIC = true ∧ fsize > 3 * 1048576) →
        getcrcsignature flags CHUNK_SIZE fuel stream fsize
          = getcrcsignatureuntil CHUNK_SIZE fuel stream fsize 0)) := by
  have hB : HEURISTIC_BLOCK = 1048576 := by decide
  have hL : HEURISTIC_LIMIT = 3 * 1048576 := by decide
  refine ⟨?_, ?_, sampled_offsets_increasing true s, ?_⟩
  · -- first block
    obtain ⟨cs1, hrun1, -, -, hbytes1, -⟩ := read_loop_spec CHUNK_SIZE hC fuel 1048576
      { length := len, pos := 0 } [] (by simp; omega) hfuel.1
    -- blocks every HEURISTIC_INTERVAL
    obtain ⟨file2, cs2, hrun2, hlen2, hbytes2⟩ := getheuristicsignature_loop_spec CHUNK_SIZE hC
      fuel s hfuel.1 (by omega) ((s - 1048576 - 1) / 52428800) 0 fuel
      { length := len, pos := 0 + 1048576 } ([] ++ cs1) (by omega) (by omega)
      (by simpa using hlen)
    -- last block
    obtain ⟨cs3, hrun3, -, -, hbytes3, -⟩ := read_loop_spec CHUNK_SIZE hC fuel 1048576
      { file2 with pos := s - 1048576 } (([] ++ cs1) ++ cs2)
      (by rw [hlen2]; simp; omega) hfuel.1
    simp only [List.nil_append] at hrun1 hrun2 hrun3
    have hI : HEURISTIC_INTERVAL = 52428800 := by decide
    have e2 : (((0 + 1) * 52428800 : Nat) : Int) = HEURISTIC_INTERVAL := by
      rw [hI]; norm_num
    rw [e2] at hrun2
    refine ⟨(cs1 ++ cs2) ++ cs3, ?_, ?_⟩
    · unfold getheuristicsignature
      simp only []
      have hseek0 : fseeko { length := len, pos := 0 } 0 = some { length := len, pos := 0 } := by
        simp [fseeko]
      rw [hseek0]
      simp only []
      rw [hB, if_neg (by omega)]
      have e1 : (1048576 : Int) = ((1048576 : Nat) : Int) := by norm_num
      rw [e1, hrun1]
      simp only []
      rw [hrun2]
      simp only []
      rw [if_pos (by omega)]
      have hseek3 : fseeko file2 ((s : Int) - ((1048576 : Nat) : Int))
          = some { file2 with pos := s - 1048576 } := by
        have e : ((s : Int) - ((1048576 : Nat) : Int)).toNat = s - 1048576 := by omega
        unfold fseeko
        rw [if_pos (by omega), e]
      rw [hseek3]
      simp only []
      rw [hrun3]
    · intro content
      rw [fed_bytes_append, fed_bytes_append, hbytes1 content, hbytes2 content, hbytes3 content]
      have hB' : HEURISTIC_BLOCK.toNat = 1048576 := by decide
      have hI' : HEURISTIC_INTERVAL.toNat = 52428800 := by decide
      unfold sampled_blocks sampled_offsets
      rw [hB', hI']
      simp [List.flatMap_cons, List.flatMap_append, fed_bytes, List.range_eq_range',
        List.map_map, Function.comp_def]
  · intro o
    have := sampled_offsets_mem true s o (by omega)
    simpa using this
  · intro flags stream fsize
    unfold getcrcsignature
    rw [hL]
    constructor
    · rintro ⟨h1, h2⟩
      rw [if_pos (by simp [h1]; omega)]
    · intro h
      rw [if_neg]
      intro hc
      simp only [Bool.and_eq_true, decide_eq_true_eq] at hc
      exact h ⟨hc.1, by omega⟩

/-- Witness of C19 as the code does it: a file of 51 MB + 1 byte, read in
pieces of 1 MB; the block at 50 MB is digested, and then the last block. -/
theorem getheuristicsignature_blocks_witness :
    (∃ state, getheuristicsignature (1048576 : Nat) 2 (some { length := 53477377, pos := 0 })
        (53477377 : Nat) = some (some state) ∧
      ∀ content, fed_bytes content state
        = (sampled_blocks true 53477377).flatMap (chunk_bytes content)) ∧
    getheuristicsignature 1048576 2 (some { length := 53477377, pos := 0 }) 53477377
      = some (some [(0, 1048576), (52428800, 1048576), (52428801, 1048576)]) :=
  ⟨(getheuristicsignature_blocks 1048576 53477377 53477377 2 (by decide) (by decide)
    (by decide) (by decide)).1, by decide⟩

/-- C19 as stated fails at `s = 51 MB`, where 50 MB + 1 MB = `s`: the
blocks of the claim are the block at 0, the block at 50 MB (a full block
fits before EOF with `<=`) and the block that ends at `s`, which is the block
at 50 MB again, three blocks; `getheuristicsignature` feeds md5 the block at 0
and the block at 50 MB once, two blocks. -/
theorem getheuristicsignature_block_at_end :
    52428800 ∈ sampled_offsets false 53477376 ∧
    sampled_blocks false 53477376
      = [(0, 1048576), (52428800, 1048576), (52428800, 1048576)] ∧
    getheuristicsignature 1048576 2 (some { length := 53477376, pos := 0 }) 53477376
      = some (some [(0, 1048576), (52428800, 1048576)]) ∧
    getheuristicsignature 1048576 2 (some { length := 53477376, pos := 0 }) 53477376
      ≠ some (some (sampled_blocks false 53477376)) := by
  refine ⟨by decide, by decide, by decide, by decide⟩

/-! ## Properties of the whole run under -d -N -/

/-- C11, as the code does it (the member that `-d -N` keeps).  Let the
directory loop of `main` return the file list `A`; `grokdir` puts each record
it emits at the head of the list, so that a record stands in `A` before every
record allocated (emitted) earlier.  With `-N` and the options as `main`
accepts them, the scan loop with the default order (`ORDER_MTIME`) returns,
and for every group, headed by `q` with the other members `S`: (1) `q`
compares `<= 0` against every other member under `sort_pairs_by_mtime`
(without `-i`: its `(mtime, mtime_nsec, ctime, ctime_nsec)` is the least of
the group); (2) among the members that compare equal to it, `q` is the one
emitted first; (3) the body of `deletefiles` without prompt, in any state
over the heap the scan has left, finishes, marks `q` and only `q` as
preserved and calls `removeifnotchanged` on exactly the members of `S`.  So
the member left undeleted is the one with the least modification time, and
the first emitted only among those that tie with it. -/
theorem deletefiles_keeps_least_mtime {DB : Type} (E : Env DB) (flags : Flags)
    (minsize maxsize : Int) (logfile_status : Option stat_t) (dirs : List (List Nat))
    (gfuel : Nat) (s0 : State DB) (brk0 : Ptr) (g : Grok DB) (n : Int)
    (hopt : main_rejects_options flags = false) (hN : flags.F_NOPROMPT = true)
    (hgrok : main_grokdirs E flags minsize maxsize logfile_status gfuel dirs
      { st := s0, filelist := none, brk := brk0 } 0 = some (g, n)) :
    ∃ A, Listed g.st.heap g.filelist A ∧ A.Pairwise (fun x y => y < x) ∧
      ∀ fuel cfuel, A.length ≤ fuel → A.length ≤ cfuel →
        ∃ ms, main_scan E flags ordertype_t.ORDER_MTIME cfuel fuel
            (scan_init g.st.heap g.st.db) g.filelist = some ms ∧
          (∀ x, (ms.st.heap x).core = (g.st.heap x).core) ∧
          ∀ q ∈ A, (ms.st.heap q).hasdupes ≠ 0 →
            ∃ S, Chain ms.st.heap (some q) (q :: S) ∧ S ≠ [] ∧ (∀ x ∈ S, x ∈ A) ∧
              (∀ x ∈ S,
                sort_pairs_by_mtime flags (ms.st.heap q) (ms.st.heap x) ≤ 0 ∧
                (flags.F_REVERSE = false → mtime_le (ms.st.heap q) (ms.st.heap x)) ∧
                (sort_pairs_by_mtime flags (ms.st.heap q) (ms.st.heap x) = 0 → q < x)) ∧
              ∀ (s : State DB) (dl : Slots Ptr) (pr : Slots Int) (pfuel : Nat)
                (tty : List (List Nat)),
                s.heap = ms.st.heap → S.length + 1 < dl.max → S.length + 1 < pr.max →
                ∃ s' dl' pr', deletefiles_set E flags cfuel pfuel false s q dl pr tty
                    = some (SetResult.done s' dl' pr' tty) ∧
                  kept_files s'.trace = kept_files s.trace ++ [q] ∧
                  removal_attempts s'.trace = removal_attempts s.trace ++ S ∧ q ∉ S := by
  obtain ⟨N, hA⟩ := main_grokdirs_inv E flags minsize maxsize logfile_status gfuel dirs
    { st := s0, filelist := none, brk := brk0 } 0 [] g n
    ⟨rfl, List.Pairwise.nil, by simp, by simp⟩ hgrok
  simp only [List.append_nil] at hA
  obtain ⟨hl, hdec, -, hfresh⟩ := hA
  refine ⟨N, hl, hdec, ?_⟩
  intro fuel cfuel hf hcf
  obtain ⟨ms, hrun, hcore, hgroups⟩ := main_scan_stable_groups E flags ordertype_t.ORDER_MTIME
    (fun _ _ => True) (fun _ _ _ => trivial) (fun _ _ _ _ _ => trivial) N g.st.heap g.st.db
    g.filelist fuel cfuel (fun _ _ _ _ _ _ => trivial) hl hfresh hf hcf
  refine ⟨ms, hrun, hcore, ?_⟩
  intro q hqA hd
  obtain ⟨L, gi, hst⟩ := hgroups q hqA hd
  obtain ⟨d, S', hL⟩ := gi.many hd
  subst hL
  have hsub : ∀ x ∈ d :: S', x ∈ N := fun x hx => gi.sub x (List.mem_cons_of_mem _ hx)
  have hnd := Chain_nodup _ _ gi.chain
  have hlen : (d :: S').length ≤ cfuel := by
    have h1 : (q :: d :: S').length ≤ N.length :=
      (hnd.subperm (fun x hx => gi.sub x hx)).length_le
    simp only [List.length_cons] at h1 hcf ⊢
    omega
  refine ⟨d :: S', gi.chain, by simp, hsub, ?_, ?_⟩
  · intro x hx
    have hle : sort_pairs_by_mtime flags (ms.st.heap q) (ms.st.heap x) ≤ 0 :=
      (List.pairwise_cons.mp gi.sorted).1 x hx
    refine ⟨hle, ?_, ?_⟩
    · intro hR
      have := (sort_pairs_by_mtime_le flags (ms.st.heap q) (ms.st.heap x)).mp hle
      rw [hR] at this
      exact this
    · intro h0
      rcases (List.pairwise_cons.mp hst).1 x hx with hlt | hs
      · have hlt' : sort_pairs_by_mtime flags (ms.st.heap q) (ms.st.heap x) < 0 := hlt
        omega
      · have hs' : List.Sublist [x, q] N := by
          have := List.reverse_sublist.mpr hs
          simpa using this
        have := List.Pairwise.sublist hs' hdec
        simpa using this
  · intro s dl pr pfuel tty hs hdl hpr
    obtain ⟨s', dl', pr', hset, -, -, -, hk, hr⟩ := deletefiles_set_noprompt E flags cfuel pfuel
      s q (d :: S') dl pr tty hopt hN (by rw [hs]; exact gi.chain) hlen hdl hpr
    exact ⟨s', dl', pr', hset, hk, hr, (List.nodup_cons.mp hnd).1⟩

/-- Witness of C11 as amended: the directory "d" with the files "a", "b"
(both HELLO) and "c" (WORLD), all with the same times, under `-d -N`. -/
theorem deletefiles_keeps_least_mtime_witness :
    ∃ g n, main_grokdirs (env_tree 10) flags_delete_noprompt (-1) (-1) none 1 [[100]]
        grok_empty 0 = some (g, n) ∧
      ∃ A, Listed g.st.heap g.filelist A ∧ A.Pairwise (fun x y => y < x) ∧
        ∀ fuel cfuel, A.length ≤ fuel → A.length ≤ cfuel →
          ∃ ms, main_scan (env_tree 10) flags_delete_noprompt ordertype_t.ORDER_MTIME cfuel fuel
              (scan_init g.st.heap g.st.db) g.filelist = some ms ∧
            (∀ x, (ms.st.heap x).core = (g.st.heap x).core) ∧
            ∀ q ∈ A, (ms.st.heap q).hasdupes ≠ 0 →
              ∃ S, Chain ms.st.heap (some q) (q :: S) ∧ S ≠ [] ∧ (∀ x ∈ S, x ∈ A) ∧
                (∀ x ∈ S,
                  sort_pairs_by_mtime flags_delete_noprompt (ms.st.heap q) (ms.st.heap x) ≤ 0 ∧
                  (flags_delete_noprompt.F_REVERSE = false →
                    mtime_le (ms.st.heap q) (ms.st.heap x)) ∧
                  (sort_pairs_by_mtime flags_delete_noprompt (ms.st.heap q) (ms.st.heap x) = 0 →
                    q < x)) ∧
                ∀ (s : State Unit) (dl : Slots Ptr) (pr : Slots Int) (pfuel : Nat)
                  (tty : List (List Nat)),
                  s.heap = ms.st.heap → S.length + 1 < dl.max → S.length + 1 < pr.max →
                  ∃ s' dl' pr', deletefiles_set (env_tree 10) flags_delete_noprompt cfuel pfuel
                      false s q dl pr tty = some (SetResult.done s' dl' pr' tty) ∧
                    kept_files s'.trace = kept_files s.trace ++ [q] ∧
                    removal_attempts s'.trace = removal_attempts s.trace ++ S ∧ q ∉ S := by
  have hs : (main_grokdirs (env_tree 10) flags_delete_noprompt (-1) (-1) none 1 [[100]]
      grok_empty 0).isSome = true := by decide
  obtain ⟨r, hr⟩ := Option.isSome_iff_exists.mp hs
  exact ⟨r.1, r.2, hr, deletefiles_keeps_least_mtime (env_tree 10) flags_delete_noprompt (-1) (-1)
    none [[100]] 1 grok_empty.st 0 r.1 r.2 rfl rfl hr⟩

/-- C11 as stated fails: in the directory "d", `readdir` delivers "a"
before "b" (records 0 and 1; the file list is `2 -> 1 -> 0`), both hold HELLO,
and "a" was modified later (time 20) than "b" (time 10).  Under `-d -N` with
the default order the group is `1 -> 0`: `deletefiles` keeps "b" and calls
`removeifnotchanged` on "a", the member that was emitted first. -/
theorem deletefiles_first_emitted_removed :
    ∃ g n ms s' dl' pr',
      main_grokdirs (env_tree 20) flags_delete_noprompt (-1) (-1) none 1 [[100]]
        grok_empty 0 = some (g, n) ∧
      (g.st.heap 0).d_name = [100, 47, 97] ∧ (g.st.heap 1).d_name = [100, 47, 98] ∧
      Listed g.st.heap g.filelist [2, 1, 0] ∧
      main_scan (env_tree 20) flags_delete_noprompt ordertype_t.ORDER_MTIME 3 3
        (scan_init g.st.heap g.st.db) g.filelist = some ms ∧
      Chain ms.st.heap (some 1) [1, 0] ∧ (ms.st.heap 1).hasdupes ≠ 0 ∧
      deletefiles (env_tree 20) flags_delete_noprompt 3 3 0 ms.st g.filelist false []
        (fun _ => 0) (fun _ => 0) = some (SetResult.done s' dl' pr' []) ∧
      kept_files s'.trace = [1] ∧ removal_attempts s'.trace = [0] ∧
      deletion_targets s'.trace = [0] := by
  have h : ((main_grokdirs (env_tree 20) flags_delete_noprompt (-1) (-1) none 1 [[100]]
      grok_empty 0).bind fun r =>
      (main_scan (env_tree 20) flags_delete_noprompt ordertype_t.ORDER_MTIME 3 3
        (scan_init r.1.st.heap r.1.st.db) r.1.filelist).bind fun ms =>
      (deletefiles (env_tree 20) flags_delete_noprompt 3 3 0 ms.st r.1.filelist false []
        (fun _ => 0) (fun _ => 0)).bind fun res =>
      match res with
      | SetResult.exit => none
      | SetResult.done s' _ _ tty =>
        some (decide ((r.1.st.heap 0).d_name = [100, 47, 97]) &&
          decide ((r.1.st.heap 1).d_name = [100, 47, 98]) &&
          decide (r.1.filelist = some 2) && decide ((r.1.st.heap 2).next = some 1) &&
          decide ((r.1.st.heap 1).next = some 0) && decide ((r.1.st.heap 0).next = none) &&
          decide ((ms.st.heap 1).duplicates = some 0) &&
          decide ((ms.st.heap 0).duplicates = none) && decide ((ms.st.heap 1).hasdupes = 1) &&
          decide (tty = []) && decide (kept_files s'.trace = [1]) &&
          decide (removal_attempts s'.trace = [0]) &&
          decide (deletion_targets s'.trace = [0])))
      = some true := by decide!
  obtain ⟨r, hr, h1⟩ := Option.bind_eq_some.mp h
  obtain ⟨ms, hms, h2⟩ := Option.bind_eq_some.mp h1
  obtain ⟨res, hres, h3⟩ := Option.bind_eq_some.mp h2
  cases res with
  | exit => simp at h3
  | done s' dl' pr' tty =>
    simp only [Option.some.injEq, Bool.and_eq_true, decide_eq_true_eq] at h3
    obtain ⟨⟨⟨⟨⟨⟨⟨⟨⟨⟨⟨⟨e1, e2⟩, e3⟩, e4⟩, e5⟩, e6⟩, e7⟩, e8⟩, e9⟩, e10⟩, e11⟩, e12⟩, e13⟩ := h3
    subst e10
    refine ⟨r.1, r.2, ms, s', dl', pr', hr, e1, e2, ?_, hms, ?_, ?_, hres, e11, e12, e13⟩
    · exact ⟨e3, by rw [e4]; exact ⟨rfl, by rw [e5]; exact ⟨rfl, e6⟩⟩⟩
    · exact ⟨rfl, by rw [e7]; exact ⟨rfl, e8⟩⟩
    · rw [e9]; decide

/-! ## Properties of the comparators -/

/-- C23 (time and name comparators).  Without the reverse flag,
`sort_pairs_by_mtime` is negative, zero or positive as `(mtime, mtime_nsec,
ctime, ctime_nsec)` of the first record is lexicographically less than, equal
to or greater than that of the second, `sort_pairs_by_ctime` likewise for
`(ctime, ctime_nsec)`, and `sort_pairs_by_filename`, for paths that hold no
NUL byte, likewise for the bytes of the two paths.  With the reverse flag
each comparator returns the negated value, so that the sign is the opposite
one and 0 stays 0. -/
theorem sort_pairs_signs (flags : Flags) (f1 f2 : file_t) :
    ((sort_pairs_by_mtime { flags with F_REVERSE := false } f1 f2 < 0 ↔
        List.Lex (fun x y : Int => x < y) [f1.mtime, f1.mtime_nsec, f1.ctime, f1.ctime_nsec]
          [f2.mtime, f2.mtime_nsec, f2.ctime, f2.ctime_nsec]) ∧
      (sort_pairs_by_mtime { flags with F_REVERSE := false } f1 f2 = 0 ↔
        [f1.mtime, f1.mtime_nsec, f1.ctime, f1.ctime_nsec]
          = [f2.mtime, f2.mtime_nsec, f2.ctime, f2.ctime_nsec]) ∧
      (sort_pairs_by_mtime { flags with F_REVERSE := false } f1 f2 > 0 ↔
        List.Lex (fun x y : Int => x < y) [f2.mtime, f2.mtime_nsec, f2.ctime, f2.ctime_nsec]
          [f1.mtime, f1.mtime_nsec, f1.ctime, f1.ctime_nsec])) ∧
    ((sort_pairs_by_ctime { flags with F_REVERSE := false } f1 f2 < 0 ↔
        List.Lex (fun x y : Int => x < y) [f1.ctime, f1.ctime_nsec]
          [f2.ctime, f2.ctime_nsec]) ∧
      (sort_pairs_by_ctime { flags with F_REVERSE := false } f1 f2 = 0 ↔
        [f1.ctime, f1.ctime_nsec] = [f2.ctime, f2.ctime_nsec]) ∧
      (sort_pairs_by_ctime { flags with F_REVERSE := false } f1 f2 > 0 ↔
        List.Lex (fun x y : Int => x < y) [f2.ctime, f2.ctime_nsec]
          [f1.ctime, f1.ctime_nsec])) ∧
    (0 ∉ f1.d_name → 0 ∉ f2.d_name →
      (sort_pairs_by_filename { flags with F_REVERSE := false } f1 f2 < 0 ↔
        List.Lex (fun x y : Nat => x < y) f1.d_name f2.d_name) ∧
      (sort_pairs_by_filename { flags with F_REVERSE := false } f1 f2 = 0 ↔
        f1.d_name = f2.d_name) ∧
      (sort_pairs_by_filename { flags with F_REVERSE := false } f1 f2 > 0 ↔
        List.Lex (fun x y : Nat => x < y) f2.d_name f1.d_name)) ∧
    (sort_pairs_by_mtime { flags with F_REVERSE := true } f1 f2
        = - sort_pairs_by_mtime { flags with F_REVERSE := false } f1 f2 ∧
      sort_pairs_by_ctime { flags with F_REVERSE := true } f1 f2
        = - sort_pairs_by_ctime { flags with F_REVERSE := false } f1 f2 ∧
      sort_pairs_by_filename { flags with F_REVERSE := true } f1 f2
        = - sort_pairs_by_filename { flags with F_REVERSE := false } f1 f2) := by
  obtain ⟨r1, r2, r3⟩ := sort_pairs_reverse_sign flags f1 f2
  refine ⟨sort_pairs_by_mtime_sign flags f1 f2, sort_pairs_by_ctime_sign flags f1 f2, ?_,
    r2, r1, r3⟩
  intro h1 h2
  have e : sort_pairs_by_filename { flags with F_REVERSE := false } f1 f2
      = strcmp f1.d_name f2.d_name := by
    simp [sort_pairs_by_filename]
  rw [e]
  refine ⟨strcmp_neg_iff_lex _ _ h1 h2, strcmp_eq_zero_iff _ _ h1 h2, ?_⟩
  rw [← strcmp_neg_iff_lex _ _ h2 h1, strcmp_antisymm f2.d_name f1.d_name]
  constructor <;> intro h <;> omega

/-! ## Properties of grokdir -/

/-- C21, as the code does it (file-type filter).  Take an entry that `stat`
finds and reports not to be a directory.  The body of the `readdir` loop
either emits it (the new record heads the file list and `filecount` grows by
one) or drops it (list and `filecount` unchanged).  It emits exactly when the
entry passes the earlier tests (not `.` or `..`, not an excluded hidden file,
not dropped by the size test, not the log file) and `lstat` succeeds and
reports a regular file, or a symbolic link while symlink-following is
enabled; what the target of a followed link is, other than not a directory,
is not tested.  A symbolic link is not emitted when symlink-following is
disabled, and an entry that is itself neither a regular file nor a symbolic
link is not emitted. -/
theorem grokdir_file_type_filter {DB : Type} (E : Env DB) (flags : Flags)
    (minsize maxsize : Int) (logfile_status : Option stat_t)
    (recurse : List Nat → Grok DB → Option (Grok DB × Int))
    (dir : List Nat) (fullpath : Option (List Nat)) (pathid : Int) (name : List Nat)
    (g : Grok DB) (filecount : Int) (info : stat_t)
    (hstat : E.stat (grokdir_path dir name) = some info)
    (hnd : S_ISDIR info.st_mode = false) :
    ((∃ g', grokdir_entry E flags minsize maxsize logfile_status recurse dir fullpath pathid
          name g filecount = some (g', filecount + 1) ∧ g'.filelist = some g.brk ∧
          (g'.st.heap g.brk).d_name = grokdir_path dir name) ∨
      (∃ g', grokdir_entry E flags minsize maxsize logfile_status recurse dir fullpath pathid
          name g filecount = some (g', filecount) ∧ g'.filelist = g.filelist)) ∧
    ((∃ g', grokdir_entry E flags minsize maxsize logfile_status recurse dir fullpath pathid
          name g filecount = some (g', filecount + 1)) ↔
      ((strcmp name [46] ≠ 0 ∧ strcmp name [46, 46] ≠ 0) ∧
        (flags.F_EXCLUDEHIDDEN && grokdir_hidden (E.basename (grokdir_path dir name))) = false ∧
        grokdir_size_skip flags minsize maxsize info = false ∧
        (∀ ls, logfile_status = some ls → ¬ (info.st_dev = ls.st_dev ∧ info.st_ino = ls.st_ino)) ∧
        ∃ linfo, E.lstat (grokdir_path dir name) = some linfo ∧
          (S_ISREG linfo.st_mode = true ∨
            (S_ISLNK linfo.st_mode = true ∧ flags.F_FOLLOWLINKS = true)))) ∧
    (∀ linfo, E.lstat (grokdir_path dir name) = some linfo →
      (S_ISLNK linfo.st_mode = true ∧ flags.F_FOLLOWLINKS = false) ∨
        (S_ISREG linfo.st_mode = false ∧ S_ISLNK linfo.st_mode = false) →
      ∃ g', grokdir_entry E flags minsize maxsize logfile_status recurse dir fullpath pathid
          name g filecount = some (g', filecount) ∧ g'.filelist = g.filelist) := by
  have hexcl : ∀ m : Nat, S_ISLNK m = true → S_ISREG m = false := by
    intro m hm
    unfold S_ISLNK at hm
    unfold S_ISREG
    simp only [beq_iff_eq] at hm
    simp [hm]
  obtain ⟨⟨g0, n0⟩, hsome⟩ := grokdir_entry_nondir_total E flags minsize maxsize logfile_status
    recurse dir fullpath pathid name g filecount info hstat hnd
  have hc := grokdir_entry_nondir_cases E flags minsize maxsize logfile_status recurse dir
    fullpath pathid name g filecount info hstat hnd g0 n0 hsome
  rw [hsome]
  refine ⟨?_, ?_, ?_⟩
  · rcases hc with ⟨h1, h2, h3, -⟩ | ⟨h1, h2, -⟩
    · subst h1; exact Or.inl ⟨g0, rfl, h2, h3⟩
    · subst h1; exact Or.inr ⟨g0, rfl, h2⟩
  · constructor
    · rintro ⟨g', h⟩
      simp only [Option.some.injEq, Prod.mk.injEq] at h
      rcases hc with ⟨-, -, -, h4⟩ | ⟨h1, -, -⟩
      · exact h4
      · omega
    · intro hC
      rcases hc with ⟨h1, -, -, -⟩ | ⟨-, -, h3⟩
      · subst h1; exact ⟨g0, rfl⟩
      · exact absurd hC h3
  · intro linfo hl hty
    rcases hc with ⟨-, -, -, -, -, -, -, linfo', hl', h4⟩ | ⟨h1, h2, -⟩
    · rw [hl] at hl'
      simp only [Option.some.injEq] at hl'
      subst hl'
      exfalso
      rcases hty with ⟨t1, t2⟩ | ⟨t1, t2⟩
      · rcases h4 with h3 | ⟨-, h5⟩
        · rw [hexcl _ t1] at h3; cases h3
        · rw [t2] at h5; cases h5
      · rcases h4 with h3 | ⟨h5, -⟩
        · rw [t1] at h3; cases h3
        · rw [t2] at h5; cases h5
    · subst h1; exact ⟨g0, rfl, h2⟩

/-- Witness of C21 as amended: the regular file "f" of the directory "d" is
emitted as record 0. -/
theorem grokdir_file_type_filter_witness :
    ∃ g', grokdir_entry env_abc flags_none (-1) (-1) none (fun _ _ => none) [100] none 0 [102]
        grok_empty 0 = some (g', 0 + 1) :=
  ((grokdir_file_type_filter env_abc flags_none (-1) (-1) none (fun _ _ => none) [100] none 0
    [102] grok_empty 0 _ rfl (by decide)).2.1).mpr
    ⟨by decide, by decide, by decide, (fun _ h => by cases h), _, rfl, Or.inl (by decide)⟩

/-- C21 as stated fails: with symlink-following enabled, the entry "p" of the
directory "d" is a symbolic link (`lstat`) whose target is a FIFO (`stat`:
neither a directory nor a regular file).  `grokdir` emits it: the new record
0 heads the file list and `filecount` becomes 1. -/
theorem grokdir_emits_link_to_fifo :
    (env_fifo_link.stat (grokdir_path [100] [112])).map
        (fun i => (S_ISDIR i.st_mode, S_ISREG i.st_mode)) = some (false, false) ∧
    (env_fifo_link.lstat (grokdir_path [100] [112])).map (fun i => S_ISLNK i.st_mode)
      = some true ∧
    (grokdir_entry env_fifo_link { flags_none with F_FOLLOWLINKS := true } (-1) (-1) none
        (fun _ _ => none) [100] none 0 [112] grok_empty 0).map
      (fun r => (r.1.filelist, r.2, (r.1.st.heap 0).d_name)) = some (some 0, 1, [100, 47, 112]) := by
  decide

/-! ## Properties of nonoptafter -/

/-- C26 (findarg and nonoptafter).  `findarg(arg, start, argc, argv)` with
`start <= argc` returns the least index `x >= start` with `argv[x]` equal to
`arg`, and `argc` when there is none.  `nonoptafter` does not return the index
the claim gives when a directory name is repeated: for the command line
`fdupes d -R d`, which `getopt` permutes to `fdupes -R d d` with `optind = 2`,
the second "d" stood after `-R` and is at index 3 of the permuted vector, and
`nonoptafter("-R", ...)` returns 4, which is `argc`; `*foundoption` is set.
The loop restarts its search at `startat = testind`, the index of the first
"d", so that it finds the first "d" again. -/
theorem nonoptafter_repeated_name :
    (∀ (arg : List Nat) (start argc : Nat) (argv : List (List Nat)), start ≤ argc →
      start ≤ findarg arg start argc argv ∧ findarg arg start argc argv ≤ argc ∧
      (findarg arg start argc argv < argc →
        strcmp (argv.getD (findarg arg start argc argv) []) arg = 0) ∧
      ∀ y, start ≤ y → y < findarg arg start argc argv → strcmp (argv.getD y []) arg ≠ 0) ∧
    findarg [45, 82] 1 4 [[102], [100], [45, 82], [100]] = 2 ∧
    ([[102], [100], [45, 82], [100]].getD 3 [] = [100] ∧
      [[102], [45, 82], [100], [100]].getD 3 [] = [100]) ∧
    nonoptafter [45, 82] 4 [[102], [100], [45, 82], [100]] [[102], [45, 82], [100], [100]] 2
      = (4, true) := by
  refine ⟨?_, by decide, by decide, by decide⟩
  intro arg start argc argv h
  exact findarg_loop_spec arg argc argv (argc - start) start (by omega)

/-! ## Properties of the selection prompt -/

/-- C24 (as amended): for a group of `counter` members, slots that hold the
indices `0..counter`, and an input line other than `q` / `quit`, one pass of
the prompt loop of `deletefiles` never leaves the arrays and marks as
preserved exactly the indices `k` in `1..counter` for which some token of
the line is `all` or `a` (in any letter case) or converts to the number `k`;
numbers outside `1..counter` mark nothing. The tokens are the non-empty
maximal pieces of the line between the separators space, comma and newline
(the tab is not a separator). When at least one index is marked the loop
ends with that selection; when none is, the line is rejected and the prompt
is repeated on the next line. -/
theorem deletefiles_prompt_selection {DB : Type} (E : Env DB) (counter fuel : Nat)
    (pr : Slots Int) (tty : List (List Nat)) (hpr : counter < pr.max)
    (hq : ¬ (strcmp (tty.headD [10]) [113, 10] = 0 ∨
      strcmp (tty.headD [10]) [113, 117, 105, 116, 10] = 0)) :
    strtok_tokens (tty.headD [10]) [] =
      ((tty.headD [10]).splitOnP (fun c => c = 32 || c = 44 || c = 10)).filter
        (fun t => decide (t ≠ [])) ∧
    ∃ pr2, pr2.max = pr.max ∧
      (∀ k, 1 ≤ k → k ≤ counter →
        (pr2.val k = 1 ∨ pr2.val k = 0) ∧
        (pr2.val k = 1 ↔ ∃ t ∈ strtok_tokens (tty.headD [10]) [],
          strcasecmp t [97, 108, 108] = 0 ∨ strcasecmp t [97] = 0 ∨
            E.sscanf_d t = some (k : Int))) ∧
      ((∃ k, 1 ≤ k ∧ k ≤ counter ∧ pr2.val k = 1) →
        deletefiles_prompt E counter (fuel + 1) pr tty
          = some (Selected.chosen pr2 tty.tail)) ∧
      ((∀ k, 1 ≤ k → k ≤ counter → pr2.val k = 0) →
        deletefiles_prompt E counter (fuel + 1) pr tty
          = deletefiles_prompt E counter fuel pr2 tty.tail) := by
  refine ⟨?_, deletefiles_prompt_pass E counter fuel pr tty hpr hq⟩
  rw [strtok_tokens_splitOnP]
  have hm : ∀ L : List (List Nat), List.modifyHead (fun t => [] ++ t) L = L := by
    intro L; cases L <;> simp [List.modifyHead]
  rw [hm]
  rfl

theorem deletefiles_prompt_selection_witness :
    (3 : Nat) < (⟨4, fun _ => 0⟩ : Slots Int).max ∧
    strtok_tokens ([[50, 44, 32, 55, 10]].headD [10]) [] = [[50], [55]] ∧
    ∃ pr2 : Slots Int, pr2.val 1 = 0 ∧ pr2.val 2 = 1 ∧ pr2.val 3 = 0 ∧
      deletefiles_prompt env_prompt 3 1 ⟨4, fun _ => 0⟩ [[50, 44, 32, 55, 10]]
        = some (Selected.chosen pr2 []) := by
  obtain ⟨_, pr2, _, hv, hyes, _⟩ :=
    deletefiles_prompt_selection env_prompt 3 0 ⟨4, fun _ => 0⟩ [[50, 44, 32, 55, 10]]
      (by decide) (by decide)
  have htok : strtok_tokens ([[50, 44, 32, 55, 10]].headD [10]) [] = [[50], [55]] := by
    decide
  have h2 : pr2.val 2 = 1 :=
    (hv 2 (by decide) (by decide)).2.mpr
      ⟨[50], by rw [htok]; simp, Or.inr (Or.inr (by decide))⟩
  have hno : ∀ k : Nat, k = 1 ∨ k = 3 → pr2.val k = 0 := by
    intro k hk
    have hk13 : 1 ≤ k ∧ k ≤ 3 := by omega
    rcases (hv k hk13.1 hk13.2).1 with h | h
    · obtain ⟨t, ht, hsel⟩ := (hv k hk13.1 hk13.2).2.mp h
      rw [htok] at ht
      simp only [List.mem_cons, List.mem_singleton, List.not_mem_nil, or_false] at ht
      rcases hk with rfl | rfl <;> rcases ht with rfl | rfl <;>
        exact absurd hsel (by decide)
    · exact h
  exact ⟨by decide, htok, pr2, hno 1 (Or.inl rfl), h2, hno 3 (Or.inr rfl),
    hyes ⟨2, by decide, by decide, h2⟩⟩

/-- C24, the wording refuted: on the line "1<TAB>2" for a group of two the
wording's tokens are "1" and "2", and "2" names member 2, yet the prompt
loop ends with member 1 preserved and member 2 not: `strtok` is given the
separators space, comma and newline only, so "1<TAB>2" is one token, whose
`%d` conversion is 1. -/
theorem deletefiles_prompt_tab_token :
    [50] ∈ whitespace_comma_tokens [49, 9, 50, 10] ∧
    env_prompt.sscanf_d [50] = some 2 ∧
    strtok_tokens [49, 9, 50, 10] [] = [[49, 9, 50]] ∧
    ∃ pr2 : Slots Int,
      deletefiles_prompt env_prompt 2 1 ⟨3, fun _ => 0⟩ [[49, 9, 50, 10]]
        = some (Selected.chosen pr2 []) ∧ pr2.val 1 = 1 ∧ pr2.val 2 = 0 := by
  refine ⟨by decide, by decide, by decide, ?_⟩
  exact ⟨_, rfl, by decide, by decide⟩

/-! ## Properties of the read-only cache -/

/-- C22 (as amended): when the cache read-only flag is set, the search
(`checkmatch`), the enumeration (`grokdir` over all directory arguments),
the scan loop of `main` (with `deletesuccessor` in immediate mode) and
`deletefiles` leave the hash database as it was and make no
database-changing call (no hash save, no directory save, no delisting, no
hash deletion): of the cache they perform loads only. The start-up block of
`main` and `close_db_on_exit` do not look at the read-only flag: with the
cache enabled, the database is cleared when the clear option is set, pruned
when the prune option is set and the clear option is not, and vacuumed at
exit when the vacuum option is set and no interrupt was received. -/
theorem readonly_cache_frame {DB : Type} (E : Env DB) (flags : Flags)
    (hro : flags.F_READONLYCACHE = true) :
    (∀ fuel t file (s s' : State DB) t' m,
      checkmatch E flags fuel t file s = some (s', t', m) → CacheKept s s') ∧
    (∀ minsize maxsize logfile_status fuel dirs (g g' : Grok DB) fc n,
      main_grokdirs E flags minsize maxsize logfile_status fuel dirs g fc = some (g', n) →
        CacheKept g.st g'.st) ∧
    (∀ o cfuel fuel (ms ms' : Scan DB) cur,
      main_scan E flags o cfuel fuel ms cur = some ms' → CacheKept ms.st ms'.st) ∧
    (∀ comparef (s : State DB) existing duplicate matchconfirmed,
      CacheKept s (deletesuccessor E flags comparef s existing duplicate matchconfirmed).1) ∧
    (∀ fuel cfuel pfuel (s s' : State DB) files prompt tty dl0 pr0 dl' pr' tty',
      deletefiles E flags fuel cfuel pfuel s files prompt tty dl0 pr0
        = some (SetResult.done s' dl' pr' tty') → CacheKept s s') ∧
    (∀ (clear prune : DB → DB) (s : State DB), flags.F_CACHESIGNATURES = true →
      (flags.F_CLEARCACHE = true →
        main_cache_startup flags clear prune s =
          { s with db := clear s.db,
                   trace := s.trace ++ [Event.hashdb_cleardirectories] }) ∧
      (flags.F_CLEARCACHE = false → flags.F_PRUNECACHE = true →
        main_cache_startup flags clear prune s =
          { s with db := prune s.db, trace := s.trace ++ [Event.hashdb_prune] }) ∧
      (flags.F_CLEARCACHE = false → flags.F_PRUNECACHE = false →
        main_cache_startup flags clear prune s = s)) ∧
    (∀ (vacuum : DB → DB) (s : State DB), flags.F_CACHESIGNATURES = true →
      (flags.F_VACUUMCACHE = true →
        close_db_on_exit flags false vacuum s =
          { s with db := vacuum s.db, trace := s.trace ++ [Event.hashdb_vacuum] }) ∧
      (flags.F_VACUUMCACHE = false → close_db_on_exit flags false vacuum s = s)) := by
  refine ⟨?_, ?_, ?_, ?_, ?_, ?_, ?_⟩
  · intro fuel t file s s' t' m h
    exact checkmatch_ro E flags hro fuel file t s s' t' m h
  · intro minsize maxsize logfile_status fuel dirs g g' fc n h
    exact main_grokdirs_ro E flags hro minsize maxsize logfile_status fuel dirs g fc g' n h
  · intro o cfuel fuel ms ms' cur h
    exact main_scan_ro E flags hro o cfuel fuel ms cur ms' h
  · intro comparef s existing duplicate matchconfirmed
    exact deletesuccessor_ro E flags hro comparef s existing duplicate matchconfirmed
  · intro fuel cfuel pfuel s s' files prompt tty dl0 pr0 dl' pr' tty' h
    exact deletefiles_ro E flags hro fuel cfuel pfuel s files prompt tty dl0 pr0 s' dl' pr'
      tty' h
  · intro clear prune s hc
    refine ⟨fun h1 => ?_, fun h1 h2 => ?_, fun h1 h2 => ?_⟩
    · simp [main_cache_startup, hc, h1]
    · simp [main_cache_startup, hc, h1, h2]
    · simp [main_cache_startup, hc, h1, h2]
  · intro vacuum s hc
    refine ⟨fun h1 => ?_, fun h1 => ?_⟩ <;> simp [close_db_on_exit, hc, h1]

theorem readonly_cache_frame_witness :
    flags_readonly.F_READONLYCACHE = true ∧
    ∃ ms, main_scan env_cache flags_readonly ordertype_t.ORDER_MTIME 3 3
        (scan_init heap_scan [[120]]) (some 1) = some ms ∧
      ms.st.db = [[120]] ∧ cache_writes ms.st.trace = [] ∧
      Event.hashdb_loadhash 1 ∈ ms.st.trace := by
  have hs : (main_scan env_cache flags_readonly ordertype_t.ORDER_MTIME 3 3
      (scan_init heap_scan [[120]]) (some 1)).isSome = true := by decide!
  obtain ⟨ms, hms⟩ := Option.isSome_iff_exists.mp hs
  have k := (readonly_cache_frame env_cache flags_readonly rfl).2.2.1
    ordertype_t.ORDER_MTIME 3 3 (scan_init heap_scan [[120]]) ms (some 1) hms
  have hl : ((main_scan env_cache flags_readonly ordertype_t.ORDER_MTIME 3 3
      (scan_init heap_scan [[120]]) (some 1)).map
        (fun ms => decide (Event.hashdb_loadhash 1 ∈ ms.st.trace))) = some true := by
    decide!
  rw [hms] at hl
  exact ⟨rfl, ms, hms, k.1, k.2, by simpa using hl⟩

/-- C22, the wording refuted: with the read-only flag set together with
the clear option, the start-up block of `main` clears the database: a cache
that held one path is empty afterwards, and the call
`hashdb_cleardirectories` is made. -/
theorem main_cache_startup_clears_readonly :
    flags_readonly_clear.F_READONLYCACHE = true ∧
    (main_cache_startup flags_readonly_clear (fun _ => ([] : List (List Nat)))
      (fun db => db) { heap := heap_scan, db := [[120]], trace := [] }).db = [] ∧
    cache_writes (main_cache_startup flags_readonly_clear (fun _ => ([] : List (List Nat)))
      (fun db => db) { heap := heap_scan, db := [[120]], trace := [] }).trace
      = [Event.hashdb_cleardirectories] := by
  refine ⟨rfl, rfl, rfl⟩

/-! ## Properties of the arrays of `deletefiles` -/

/-- C25: with the permission flag off the tree is a search tree under the
staged key. A call of `checkmatch` keeps the order `TreeOrdered` (every
record of a left subtree is strictly below the node's record, every record
of a right subtree strictly above it, under `staged_lt`: size, then partial
digest by `md5cmp`, then full digest by `md5cmp`); so does `registerfile` on
the empty tree and the replacement of a node's record by a record with the
same key (the head replacement after `registerpair` and `deletesuccessor`);
hence the tree of the scan loop of `main` is ordered after any number of
files, and any two of its nodes are strictly ordered and never carry the
same key. `md5cmp` is the byte-wise lexicographic three-way comparison of
the 16 bytes: its value is -1, 0 or 1, it is 0 exactly when all 16 bytes
agree, -1 exactly when the first differing byte is smaller and 1 exactly
when it is larger. The order is strict: it is asymmetric and excludes equal
keys. -/
theorem checkmatch_tree_ordered {DB : Type} (E : Env DB) (flags : Flags)
    (hP : flags.F_PERMISSIONS = false) :
    (∀ fuel t file (s s' : State DB) t' m, TreeOrdered s.heap t →
      checkmatch E flags fuel t file s = some (s', t', m) → TreeOrdered s'.heap t') ∧
    (∀ (h : Heap) file,
      TreeOrdered h (filetree_t.node file filetree_t.null filetree_t.null)) ∧
    (∀ (h : Heap) t path peer v, TreeOrdered h t → t.file_at path = some peer →
      Matched (h v) (h peer) → TreeOrdered h (t.set_file_at path v)) ∧
    (∀ o cfuel fuel (h0 : Heap) (db : DB) first ms,
      main_scan E flags o cfuel fuel (scan_init h0 db) first = some ms →
      TreeOrdered ms.st.heap ms.checktree ∧
      ∀ p1 p2 x y, p1 ≠ p2 → ms.checktree.file_at p1 = some x →
        ms.checktree.file_at p2 = some y →
        (staged_lt (ms.st.heap x) (ms.st.heap y) ∨ staged_lt (ms.st.heap y) (ms.st.heap x)) ∧
        ¬ Matched (ms.st.heap x) (ms.st.heap y)) ∧
    (∀ a b : md5,
      (md5cmp a b = -1 ∨ md5cmp a b = 0 ∨ md5cmp a b = 1) ∧
      (md5cmp a b = 0 ↔ ∀ i, i < 16 → a.getD i 0 = b.getD i 0) ∧
      (md5cmp a b = -1 ↔ ∃ i, i < 16 ∧ (∀ j, j < i → a.getD j 0 = b.getD j 0) ∧
        a.getD i 0 < b.getD i 0) ∧
      (md5cmp a b = 1 ↔ ∃ i, i < 16 ∧ (∀ j, j < i → a.getD j 0 = b.getD j 0) ∧
        b.getD i 0 < a.getD i 0)) ∧
    (∀ f g : file_t, staged_lt f g → ¬ staged_lt g f ∧ ¬ Matched f g) := by
  have hlt : ∀ a b : md5, md5cmp a b = -1 ↔
      ∃ i, i < 16 ∧ (∀ j, j < i → a.getD j 0 = b.getD j 0) ∧ a.getD i 0 < b.getD i 0 := by
    intro a b
    unfold md5cmp
    rw [md5cmp_from_lt]
    constructor
    · rintro ⟨i, -, h2, h3, h4⟩
      exact ⟨i, by simpa [MD5_DIGEST_LENGTH] using h2, fun j hj => h3 j (Nat.zero_le _) hj, h4⟩
    · rintro ⟨i, h2, h3, h4⟩
      exact ⟨i, Nat.zero_le _, by simpa [MD5_DIGEST_LENGTH] using h2, fun j _ hj => h3 j hj, h4⟩
  refine ⟨?_, ?_, ?_, ?_, ?_, ?_⟩
  · intro fuel t file s s' t' m ho h
    exact checkmatch_ordered E flags hP fuel file t s s' t' m ho h
  · intro h file
    exact ⟨by simp [filetree_t.files], by simp [filetree_t.files], trivial, trivial⟩
  · intro h t path peer v ho hat hm
    exact set_file_at_ordered h v t path peer ho hat hm
  · intro o cfuel fuel h0 db first ms hrun
    have ho := main_scan_ordered E flags hP o cfuel fuel (scan_init h0 db) first ms trivial
      (fun _ => rfl) hrun
    refine ⟨ho, ?_⟩
    intro p1 p2 x y hne h1 h2
    have hd := TreeOrdered_distinct ms.st.heap ms.checktree p1 p2 x y ho hne h1 h2
    refine ⟨hd, ?_⟩
    rcases hd with hd | hd
    · exact staged_lt_not_matched hd
    · exact fun hm => staged_lt_not_matched hd (Matched_symm hm)
  · intro a b
    refine ⟨md5cmp_from_values a b _ _, ?_, hlt a b, ?_⟩
    · rw [md5cmp_zero_iff]
      rfl
    · have hsw : md5cmp a b = 1 ↔ md5cmp b a = -1 := by
        rw [md5cmp_swap a b]
        constructor <;> intro h <;> omega
      rw [hsw, hlt b a]
      constructor
      · rintro ⟨i, h1, h2, h3⟩
        exact ⟨i, h1, fun j hj => (h2 j hj).symm, h3⟩
      · rintro ⟨i, h1, h2, h3⟩
        exact ⟨i, h1, fun j hj => (h2 j hj).symm, h3⟩
  · intro f g hfg
    exact ⟨staged_lt_asymm hfg, staged_lt_not_matched hfg⟩

theorem checkmatch_tree_ordered_witness :
    flags_none.F_PERMISSIONS = false ∧
    ∃ ms, main_scan env_abc flags_none ordertype_t.ORDER_MTIME 3 3 (scan_init heap_scan ())
        (some 1) = some ms ∧
      ms.checktree = filetree_t.node 1 filetree_t.null
        (filetree_t.node 3 filetree_t.null filetree_t.null) ∧
      TreeOrdered ms.st.heap ms.checktree ∧
      staged_lt (ms.st.heap 1) (ms.st.heap 3) := by
  have hs : ((main_scan env_abc flags_none ordertype_t.ORDER_MTIME 3 3
      (scan_init heap_scan ()) (some 1)).map (fun ms => decide (ms.checktree.files = [1, 3] ∧
        ms.checktree.file_at [] = some 1 ∧ ms.checktree.file_at [true] = some 3)))
      = some true := by decide!
  obtain ⟨ms, hms, hdec⟩ := Option.map_eq_some'.mp hs
  have hd := of_decide_eq_true hdec
  obtain ⟨ho, hdist⟩ := (checkmatch_tree_ordered env_abc flags_none rfl).2.2.2.1
    ordertype_t.ORDER_MTIME 3 3 heap_scan () (some 1) ms hms
  have htree : ms.checktree = filetree_t.node 1 filetree_t.null
      (filetree_t.node 3 filetree_t.null filetree_t.null) := by
    obtain ⟨h1, h2, h3⟩ := hd
    cases ht : ms.checktree with
    | null => rw [ht] at h2; simp [filetree_t.file_at] at h2
    | node f l r =>
      rw [ht] at h1 h2 h3
      simp only [filetree_t.file_at, Option.some.injEq] at h2
      subst h2
      cases r with
      | null => simp [filetree_t.file_at] at h3
      | node g rl rr =>
        simp only [filetree_t.file_at, Option.some.injEq] at h3
        subst h3
        simp only [filetree_t.files, List.cons.injEq, true_and] at h1
        have hl : l.files = [] := by
          cases hlf : l.files with
          | nil => rfl
          | cons u us => rw [hlf] at h1; simp at h1
        rw [hl] at h1
        simp only [List.nil_append, List.cons.injEq, true_and, List.append_eq_nil] at h1
        have nil_of : ∀ t : filetree_t, t.files = [] → t = filetree_t.null := by
          intro t ht'
          cases t with
          | null => rfl
          | node _ _ _ => simp [filetree_t.files] at ht'
        rw [nil_of l hl, nil_of rl h1.1, nil_of rr h1.2]
  refine ⟨rfl, ms, hms, htree, ho, ?_⟩
  have := ho
  rw [htree] at this
  exact this.2.1 3 (by simp [filetree_t.files])

/-! ## Properties of the search -/

/-- C27: with the permission flag off and a faithful cache, let the tree be
ordered (`TreeOrdered`) and let every stored digest be the digest of its
file (`digests_true`), as both hold for every tree the scan loop builds from
records without digests; let the digests of the incoming record `f` and of
the records on the way to a node be computable, let `f` have the same size,
partial digest and full digest as the record `r` of that node, and let the
identity pre-check trip at no node on the way. Then `checkmatch` returns the
reference to the node of `r` and leaves the tree as it is (nothing is
inserted), and in `main` the lookup sets `match` to that node. The
hypotheses on the tree and the heap hold at the start of the scan and are
kept by every step of the scan loop, whatever files are processed in
between. -/
theorem checkmatch_finds_equal_key {DB : Type} (E : Env DB) (flags : Flags)
    (hP : flags.F_PERMISSIONS = false) (hc : cache_true E) :
    (∀ fuel t P f r (s : State DB), TreeOrdered s.heap t →
      (∀ x, digests_true E (s.heap x)) → t.file_at P = some r →
      digests_computable E (s.heap f) →
      (∀ x ∈ t.path_files P, digests_computable E (s.heap x)) →
      same_content_key E (s.heap f) (s.heap r) →
      (∀ x ∈ t.path_files P, checkmatch_precheck E flags fuel s.heap x f = some 0) →
      ∃ s', checkmatch E flags fuel t f s = some (s', t, some P) ∧
        TreeOrdered s'.heap t ∧ (∀ x, digests_true E (s'.heap x)) ∧
        ∀ ms : Scan DB, ms.st = s → ms.checktree = t →
          main_scan_lookup E flags fuel ms f
            = some { st := s', checktree := t, matched := some P }) ∧
    (∀ o cfuel (ms ms' : Scan DB) cur, TreeOrdered ms.st.heap ms.checktree →
      (∀ x, digests_true E (ms.st.heap x)) →
      (ms.checktree = filetree_t.null → ms.matched = none) →
      main_scan_step E flags o cfuel ms cur = some ms' →
      TreeOrdered ms'.st.heap ms'.checktree ∧ (∀ x, digests_true E (ms'.st.heap x)) ∧
        ms'.checktree ≠ filetree_t.null) ∧
    (∀ o cfuel fuel (h0 : Heap) (db : DB) first ms,
      (∀ x, file_t.crcpartial (h0 x) = none ∧ (h0 x).crcsignature = none) →
      main_scan E flags o cfuel fuel (scan_init h0 db) first = some ms →
      TreeOrdered ms.st.heap ms.checktree ∧ ∀ x, digests_true E (ms.st.heap x)) := by
  refine ⟨?_, ?_, ?_⟩
  · intro fuel t P f r s ho hT hat hcf hcp hkey hpre
    obtain ⟨s', hrun⟩ := checkmatch_finds E flags hP hc fuel f r t P s ho hT hat hcf hcp hkey hpre
    refine ⟨s', hrun, checkmatch_ordered E flags hP fuel f t s s' t _ ho hrun,
      checkmatch_true E flags hc fuel f t s s' t _ hT hrun, ?_⟩
    intro ms hs ht
    cases t with
    | null => simp [filetree_t.file_at] at hat
    | node a b c =>
      unfold main_scan_lookup
      rw [ht]
      simp only [hs, hrun]
  · intro o cfuel ms ms' cur ho hT hn hstep
    obtain ⟨h1, h2⟩ := main_scan_step_ordered E flags hP o cfuel ms cur ms' ho hn hstep
    exact ⟨h1, main_scan_step_true E flags hc o cfuel ms cur ms' hT hstep, h2⟩
  · intro o cfuel fuel h0 db first ms hfree hrun
    refine ⟨main_scan_ordered E flags hP o cfuel fuel (scan_init h0 db) first ms trivial
      (fun _ => rfl) hrun, ?_⟩
    exact main_scan_true E flags hc o cfuel fuel (scan_init h0 db) first ms
      (fun x => ⟨Or.inl (hfree x).1, Or.inl (hfree x).2⟩) hrun

theorem checkmatch_finds_equal_key_witness :
    flags_none.F_PERMISSIONS = false ∧ cache_true env_abc ∧
    ∃ ms, main_scan env_abc flags_none ordertype_t.ORDER_MTIME 2 2 (scan_init heap_search ())
        (some 1) = some ms ∧
      ms.checktree.file_at [true] = some 2 ∧
      same_content_key env_abc (ms.st.heap 3) (ms.st.heap 2) ∧
      ∃ s', checkmatch env_abc flags_none 2 ms.checktree 3 ms.st
        = some (s', ms.checktree, some [true]) := by
  have hcache : cache_true env_abc := fun _ _ h => h
  have hs : ((main_scan env_abc flags_none ordertype_t.ORDER_MTIME 2 2
      (scan_init heap_search ()) (some 1)).map (fun ms =>
        decide (ms.checktree.file_at [true] = some 2) &&
        decide (ms.checktree.path_files [true] = [1, 2]) &&
        decide ((ms.st.heap 3).size = (ms.st.heap 2).size) &&
        decide ((ms.st.heap 3).d_name = (ms.st.heap 2).d_name) &&
        decide (checkmatch_precheck env_abc flags_none 2 ms.st.heap 1 3 = some 0) &&
        decide (checkmatch_precheck env_abc flags_none 2 ms.st.heap 2 3 = some 0)))
      = some true := by decide!
  obtain ⟨ms, hms, hdec⟩ := Option.map_eq_some'.mp hs
  simp only [Bool.and_eq_true, decide_eq_true_eq] at hdec
  obtain ⟨⟨⟨⟨⟨h1, h2⟩, h3⟩, h4⟩, h5⟩, h6⟩ := hdec
  have hfree : ∀ x, file_t.crcpartial (heap_search x) = none ∧
      (heap_search x).crcsignature = none := by
    intro x
    unfold heap_search
    split <;> exact ⟨rfl, rfl⟩
  obtain ⟨hfind, -, hscan⟩ := checkmatch_finds_equal_key env_abc flags_none rfl hcache
  obtain ⟨ho, hT⟩ := hscan ordertype_t.ORDER_MTIME 2 2 heap_search () (some 1) ms hfree hms
  have hcomp : ∀ x, digests_computable env_abc (ms.st.heap x) := by
    intro x
    exact ⟨by simp [env_abc], by simp [env_abc]⟩
  have hkey : same_content_key env_abc (ms.st.heap 3) (ms.st.heap 2) := by
    refine ⟨h3, ?_, ?_⟩
    · rw [h4, h3]
    · rw [h4, h3]
  obtain ⟨s', hrun, -⟩ := hfind 2 ms.checktree [true] 3 2 ms.st ho hT h1 (hcomp 3)
    (fun x _ => hcomp x) hkey
    (by
      intro x hx
      rw [h2] at hx
      simp only [List.mem_cons, List.mem_singleton, List.not_mem_nil, or_false] at hx
      rcases hx with rfl | rfl
      · exact h5
      · exact h6)
  exact ⟨rfl, hcache, ms, hms, h1, hkey, s', hrun⟩

end Fdupes
